import Mathlib

/-!
# Queue replay of the lotus renderer

A shallow embedding of `lotus::renderer::execution::queue_context`
(`renderer/context/execution/queue_context.cpp`): the per-queue cursor that
walks a queue's recorded commands, inserts timestamps and barriers, flushes
command lists at synchronisation points and hands every command to its
executor.

Next to it stand the members of `execution.h` that the batch relies on
(`execution::context::submit` and the `transition_buffer`) and the loop of the
Metal backend that assigns vertex attributes in
`device::create_graphics_pipeline_state`. Smaller pieces follow: the overlap
check of the Metal `device::create_descriptor_set_layout`, the choice of the
surface format in the Vulkan `context::create_swap_chain_for_window`, the
texture ids of `dear_imgui::context::register_texture`, and
`pbd::constraints::particle_spring::project` over the real numbers.

Objects owned by the capability backend (command lists, buffers, frame
buffers, pipelines) are identified by the rank at which they were created.
Every call that leaves the queue context is appended to `queue_context.calls`,
oldest first, so that the order of backend calls can be stated and proved.
-/

namespace lotus

/-! ## Values of the `gpu` layer -/

/-- Pixel format `gpu::format`, by enumerator number. -/
abbrev gpu.format := Nat

/-- The enumerator `gpu::format::none`. -/
def gpu.format.none : gpu.format := 0

/-- Two-component size vector `cvec2s`. -/
structure cvec2s where
  x : Nat
  y : Nat
deriving DecidableEq, Repr

/-- Range of mip levels `gpu::mip_levels`; only the first level is read here. -/
structure gpu.mip_levels where
  first_level : Nat
  num_levels : Nat
deriving DecidableEq, Repr

/-- Timeline semaphore object `gpu::timeline_semaphore`, by identity. -/
abbrev gpu.timeline_semaphore := Nat

/-- A semaphore together with a value of it: `gpu::timeline_semaphore_synchronization`. -/
structure gpu.timeline_semaphore_synchronization where
  semaphore : gpu.timeline_semaphore
  value : Nat
deriving DecidableEq, Repr

/-- Synchronisation of one submission: `gpu::queue_synchronization(fence, waits, notifies)`. -/
structure gpu.queue_synchronization where
  notify_fence : Option Nat
  wait_semaphores : List gpu.timeline_semaphore_synchronization
  notify_semaphores : List gpu.timeline_semaphore_synchronization
deriving DecidableEq, Repr

/-- Image barrier `gpu::image_barrier`. -/
structure gpu.image_barrier where
  target : Nat
  mip_levels : gpu.mip_levels
  from_access : Nat
  to_access : Nat
deriving DecidableEq, Repr

/-- Buffer barrier `gpu::buffer_barrier`. -/
structure gpu.buffer_barrier where
  target : Nat
  from_access : Nat
  to_access : Nat
deriving DecidableEq, Repr

/-- One element of a vertex layout: `gpu::input_buffer_element`. -/
structure gpu.input_buffer_element where
  semantic_name : String
  semantic_index : Nat
  element_format : gpu.format
  byte_offset : Nat
deriving DecidableEq, Repr

/-- Layout of one vertex input buffer as stored in a pipeline key
(`elements, stride, buffer_index, input_rate`). -/
structure gpu.input_buffer_layout where
  elements : List gpu.input_buffer_element
  stride : Nat
  buffer_index : Nat
  input_rate : Nat
deriving DecidableEq, Repr

/-- Vertex buffer binding `gpu::vertex_buffer(data, offset, stride)`. -/
structure gpu.vertex_buffer where
  data : Nat
  offset : Nat
  stride : Nat
deriving DecidableEq, Repr

/-- Access description of a frame buffer: `gpu::frame_buffer_access`. -/
structure gpu.frame_buffer_access where
  color_render_targets : List Nat
  depth_render_target : Nat
  stencil_render_target : Nat
deriving DecidableEq, Repr

/-- Result of `queue.present`: `gpu::swap_chain_status`. -/
inductive gpu.swap_chain_status where
  | ok
  | other (code : Nat)
deriving DecidableEq, Repr

/-- Flags of `gpu::buffer_usage_mask` that the executors combine. -/
inductive gpu.buffer_usage_mask where
  | shader_read
  | shader_write
deriving DecidableEq, Repr

/-! ## Recorded resources -/

/-- Image object `_details::image2d` behind a view: identity and pixel size. -/
structure image2d where
  id : Nat
  size : cvec2s
deriving DecidableEq, Repr

/-- View `recorded_resources::image2d_view` of an existing image. A null view is
`none : Option image2d_view` at the places where the code tests for it. -/
structure image2d_view where
  _ptr : image2d
  _view_format : gpu.format
  _mip_levels : gpu.mip_levels
deriving DecidableEq, Repr

/-- Swap chain `recorded_resources::swap_chain` with the data of `_ptr` it reads:
the backend chain (absent while nothing has been written to it), the current
size and the current format. -/
structure swap_chain where
  id : Nat
  chain : Option Nat
  current_size : cvec2s
  current_format : gpu.format
deriving DecidableEq, Repr

/-- The variant held by `image2d_color::view`. -/
inductive color_render_target_view where
  | image2d_view (v : image2d_view)
  | swap_chain (c : swap_chain)
deriving DecidableEq, Repr

/-- Colour render target `image2d_color`. -/
structure image2d_color where
  view : color_render_target_view
  access : Nat
deriving DecidableEq, Repr

/-- Depth-stencil render target `image2d_depth_stencil`. -/
structure image2d_depth_stencil where
  view : Option image2d_view
  depth_access : Nat
  stencil_access : Nat
deriving DecidableEq, Repr

/-- Vertex input `input_buffer_binding`. -/
structure input_buffer_binding where
  elements : List gpu.input_buffer_element
  stride : Nat
  buffer_index : Nat
  input_rate : Nat
  data : Nat
  offset : Nat
deriving DecidableEq, Repr

/-- Index input `index_buffer_binding`; `data` is absent for a non-indexed draw. -/
structure index_buffer_binding where
  data : Option Nat
  offset : Nat
  format : Nat
deriving DecidableEq, Repr

/-- Geometry input of a bottom-level acceleration structure. -/
structure geometry_buffers_view where
  vertex_buffer_view : Nat
  index_buffer_view : Nat
  flags : Nat
deriving DecidableEq, Repr

/-- Instance of a bottom-level structure inside a top-level one. -/
structure blas_instance where
  acceleration_structure : Nat
  transform : Nat
  id : Nat
  mask : Nat
  hit_group_offset : Nat
  flags : Nat
deriving DecidableEq, Repr

/-- Resource bindings of a draw or dispatch, `all_resource_bindings`, as an
uninterpreted value. -/
abbrev all_resource_bindings := Nat

/-- One descriptor set with the register space it is bound to. -/
structure descriptor_set_info where
  set : Nat
  space : Nat
deriving DecidableEq, Repr, Inhabited

/-- What `batch_context::use_pipeline_resources` returns. -/
structure pipeline_resources_info where
  descriptor_sets : List descriptor_set_info
  pipeline_resources : Nat
  pipeline_resources_key : Nat
deriving DecidableEq, Repr

/-- Where descriptor sets are bound. -/
inductive descriptor_set_bind_point where
  | graphics
  | compute
  | raytracing
deriving DecidableEq, Repr

/-- Key of the graphics pipeline cache, `cache_keys::graphics_pipeline`. Equality
is equality of all fields. -/
structure cache_keys.graphics_pipeline where
  pipeline_rsrc : Nat
  input_buffers : List gpu.input_buffer_layout
  color_rt_formats : List gpu.format
  dpeth_stencil_rt_format : gpu.format
  vertex_shader : Nat
  pixel_shader : Nat
  pipeline_state : Nat
  topology : Nat
deriving DecidableEq, Repr

/-! ## Commands -/

/-- Command `commands::copy_buffer`. -/
structure commands.copy_buffer where
  source : Nat
  destination : Nat
  source_offset : Nat
  destination_offset : Nat
  size : Nat
deriving DecidableEq, Repr

/-- Command `commands::copy_buffer_to_image`. -/
structure commands.copy_buffer_to_image where
  source : Nat
  source_offset : Nat
  staging_buffer_meta : Nat
  destination : image2d_view
  destination_offset : Nat
deriving DecidableEq, Repr

/-- Command `commands::build_blas`. -/
structure commands.build_blas where
  target : Nat
  geometry : List geometry_buffers_view
deriving DecidableEq, Repr

/-- Command `commands::build_tlas`. -/
structure commands.build_tlas where
  target : Nat
  instances : List blas_instance
deriving DecidableEq, Repr

/-- Command `commands::begin_pass`. -/
structure commands.begin_pass where
  color_render_targets : List image2d_color
  depth_stencil_target : image2d_depth_stencil
  render_target_size : cvec2s
deriving DecidableEq, Repr

/-- Command `commands::draw_instanced`. -/
structure commands.draw_instanced where
  inputs : List input_buffer_binding
  index_buffer : index_buffer_binding
  vertex_count : Nat
  index_count : Nat
  instance_count : Nat
  topology : Nat
  resource_bindings : all_resource_bindings
  vertex_shader : Nat
  pixel_shader : Nat
  state : Nat
deriving DecidableEq, Repr

/-- Command `commands::dispatch_compute`. -/
structure commands.dispatch_compute where
  resources : all_resource_bindings
  shader : Nat
  num_thread_groups : Nat × Nat × Nat
deriving DecidableEq, Repr

/-- Command `commands::present`. -/
structure commands.present where
  target : swap_chain
deriving DecidableEq, Repr

/-- The tagged variant `command::value`. -/
inductive command_value where
  | copy_buffer (c : commands.copy_buffer)
  | copy_buffer_to_image (c : commands.copy_buffer_to_image)
  | build_blas (c : commands.build_blas)
  | build_tlas (c : commands.build_tlas)
  | begin_pass (c : commands.begin_pass)
  | draw_instanced (c : commands.draw_instanced)
  | end_pass
  | dispatch_compute (c : commands.dispatch_compute)
  | trace_rays
  | present (c : commands.present)
deriving DecidableEq, Repr

/-- A recorded command. -/
structure command where
  value : command_value
deriving DecidableEq, Repr

/-- Cross-queue dependency event: queue index, command index, semaphore value. -/
structure dependency_event where
  queue_index : Nat
  command_index : Nat
  data : Nat
deriving DecidableEq, Repr

/-! ## Calls leaving the queue context -/

/-- A resolved render-target view handed to `create_frame_buffer`. -/
inductive requested_view where
  | image (v : image2d_view)
  | swap_chain (c : swap_chain)
deriving DecidableEq, Repr

/-- One observable step: a call into the device, a command list, the queue, the
batch context or the pipeline cache, the warning log, or the hand-over of a
command to its executor by `std::visit` (`dispatched`). Command-list calls carry
the list they are recorded into as their first argument. -/
inductive event where
  | dispatched (index : Nat) (cmd : command)
  | create_timestamp_query_heap (size : Nat) (heap : Nat)
  | create_command_allocator (queue_type : Nat) (alloc : Nat)
  | create_and_start_command_list (alloc : Nat) (list : Nat)
  | query_timestamp (list : Nat) (heap : Nat) (index : Nat)
  | resource_barrier (list : Nat) (images : List gpu.image_barrier) (buffers : List gpu.buffer_barrier)
  | finish (list : Nat)
  | submit_command_lists (lists : List Nat) (sync : gpu.queue_synchronization)
  | copy_buffer (list : Nat) (source source_offset destination destination_offset size : Nat)
  | copy_buffer_to_image (list : Nat) (source source_offset meta image mip destination_offset : Nat)
  | create_bottom_level_acceleration_structure_geometry (geometries : List geometry_buffers_view) (geom : Nat)
  | create_committed_buffer (size memory_type : Nat) (usage : List gpu.buffer_usage_mask) (buffer : Nat)
  | build_bottom_level (list : Nat) (geom target scratch scratch_offset : Nat)
  | map_buffer (buffer : Nat)
  | write_instance_description (buffer : Nat) (slot : Nat) (description : blas_instance)
  | flush_mapped_buffer_to_device (buffer first size : Nat)
  | unmap_buffer (buffer : Nat)
  | build_top_level (list : Nat) (input input_offset count target scratch scratch_offset : Nat)
  | request_image_view (v : image2d_view)
  | request_swap_chain_view (c : swap_chain)
  | create_frame_buffer (color_rts : List requested_view) (depth : Option requested_view) (size : cvec2s) (frame_buffer : Nat)
  | begin_pass (list : Nat) (frame_buffer : Nat) (access : gpu.frame_buffer_access)
  | use_pipeline_resources (bindings : all_resource_bindings)
  | get_graphics_pipeline_state (key : cache_keys.graphics_pipeline)
  | create_graphics_pipeline_state (key : cache_keys.graphics_pipeline) (pipeline : Nat)
  | create_compute_pipeline_state (pipeline_resources shader : Nat) (pipeline : Nat)
  | bind_pipeline_state (list : Nat) (pipeline : Nat)
  | bind_graphics_descriptor_sets (list : Nat) (pipeline_resources first : Nat) (sets : List Nat)
  | bind_compute_descriptor_sets (list : Nat) (pipeline_resources first : Nat) (sets : List Nat)
  | bind_ray_tracing_descriptor_sets (list : Nat) (pipeline_resources first : Nat) (sets : List Nat)
  | bind_vertex_buffers (list : Nat) (first : Nat) (buffers : List (Option gpu.vertex_buffer))
  | bind_index_buffer (list : Nat) (buffer offset format : Nat)
  | draw_indexed_instanced (list : Nat) (first_index index_count first_vertex first_instance instance_count : Nat)
  | draw_instanced (list : Nat) (first_vertex vertex_count first_instance instance_count : Nat)
  | end_pass (list : Nat)
  | run_compute_shader (list : Nat) (x y z : Nat)
  | present (chain : Nat)
  | log_warn (status : gpu.swap_chain_status)
deriving DecidableEq, Repr

/-! ## State -/

/-- The members of `renderer::context` reached through `_q.ctx`: the semaphore of
every queue and the graphics pipeline cache (key and cached pipeline, newest
first). -/
structure renderer.context where
  _queues : List gpu.timeline_semaphore
  _cache : List (cache_keys.graphics_pipeline × Nat)
deriving DecidableEq, Repr

/-- Per-queue data `_details::queue_data`. The value type of the timeline
semaphore is declared in a header outside the sources at hand; the spec
describes a monotonically increasing counter, and values are natural numbers. -/
structure queue_data where
  ctx : renderer.context
  batch_commands : List command
  semaphore : gpu.timeline_semaphore
  semaphore_value : Nat
  queue_index : Nat
  queue_type : Nat
deriving DecidableEq, Repr

/-- Entry of this queue in the batch resolve data. -/
structure batch_resolve_data.queue_data where
  timestamp_heap : Option Nat
  num_timestamps : Nat
deriving DecidableEq, Repr

/-- State of a `queue_context`. Iterators into the three event streams are
positions in the corresponding list; `calls` is the record of calls made so far
and `objects` the number of backend objects created so far. -/
structure queue_context where
  _q : queue_data
  _image_transitions : List (List gpu.image_barrier)
  _buffer_transitions : List (List gpu.buffer_barrier)
  _timestamp_command_indices : List Nat
  _next_timestamp : Nat
  _timestamps : Option Nat
  _acquire_dependency_events : List dependency_event
  _next_acquire_event : Nat
  _release_dependency_events : List dependency_event
  _next_release_event : Nat
  _command_index : Nat
  _cmd_alloc : Option Nat
  _list : Option Nat
  _pending_waits : List gpu.timeline_semaphore_synchronization
  _within_pass : Bool
  _color_rt_formats : List gpu.format
  _depth_stencil_rt_format : gpu.format
  resolve_data : batch_resolve_data.queue_data
  calls : List event
  objects : Nat
deriving DecidableEq, Repr

/-- Why an execution does not return. -/
inductive fatal where
  | crash_if
  | std_abort
  | undefined_behaviour
deriving DecidableEq, Repr

/-- Outcome of a piece of execution: it returns a value in a new state, or the
process stops in the state reached so far. -/
inductive result (α : Type) where
  | returned (a : α) (s : queue_context)
  | aborted (why : fatal) (s : queue_context)
deriving Repr

/-- Sequencing: what follows runs only if the first part returned. -/
def result.bind {α β : Type} (r : result α) (f : α → queue_context → result β) : result β :=
  match r with
  | .returned a s => f a s
  | .aborted why s => .aborted why s

/-- Does the execution return. -/
def result.is_returned {α : Type} : result α → Bool
  | .returned _ _ => true
  | .aborted _ _ => false

/-- The state in which the execution returned or stopped. -/
def result.state {α : Type} : result α → queue_context
  | .returned _ s => s
  | .aborted _ s => s

/-- Modelled from the spec: `crash_if` is declared in a header outside the
available sources; a contract violation is "checked, fatal on violation", an
immediate abort. -/
def crash_if (violated : Bool) (s : queue_context) : result Unit :=
  if violated then .aborted .crash_if s else .returned () s

/-- Functions of this repository that the executors call and whose definitions
are outside the available sources. The batch context and the queue may answer
differently at different times, so they see the calls made so far. -/
structure externals where
  get_size : cvec2s → Nat → cvec2s
  highest_mip_with_warning : image2d_view → image2d_view
  use_pipeline_resources : List event → all_resource_bindings → pipeline_resources_info
  present : List event → Nat → gpu.swap_chain_status
  get_bottom_level_acceleration_structure_build_sizes : List geometry_buffers_view → Nat
  get_top_level_acceleration_structure_build_sizes : Nat → Nat
  sizeof_instance_description : Nat
  get_device_memory_type_index : Nat
  get_upload_memory_type_index : Nat

/-! ## Construction and helpers -/

/-- The constructor: both transition tables get one empty slot per command; all
other members start from their defaults (no list, no allocator, index zero,
outside a pass, no formats). -/
def queue_context.create (q : queue_data) : queue_context :=
  { _q := q
    _image_transitions := List.replicate q.batch_commands.length []
    _buffer_transitions := List.replicate q.batch_commands.length []
    _timestamp_command_indices := []
    _next_timestamp := 0
    _timestamps := none
    _acquire_dependency_events := []
    _next_acquire_event := 0
    _release_dependency_events := []
    _next_release_event := 0
    _command_index := 0
    _cmd_alloc := none
    _list := none
    _pending_waits := []
    _within_pass := false
    _color_rt_formats := []
    _depth_stencil_rt_format := gpu.format.none
    resolve_data := ⟨none, 0⟩
    calls := []
    objects := 0 }

/-- Append one call to the record. -/
def queue_context.emit (e : event) (s : queue_context) : queue_context :=
  { s with calls := s.calls ++ [e] }

/-- Function `queue_context::start_execution`. -/
def queue_context.start_execution (s : queue_context) : queue_context :=
  let s := { s with _next_timestamp := 0, _next_acquire_event := 0, _next_release_event := 0 }
  if !s._timestamp_command_indices.isEmpty then
    let heap := s.objects
    { s.emit (.create_timestamp_query_heap (s._timestamp_command_indices.length % 2 ^ 32) heap) with
      _timestamps := some heap, objects := heap + 1 }
  else s

/-- Function `queue_context::is_finished`. -/
def queue_context.is_finished (s : queue_context) : Bool :=
  s._command_index == s._q.batch_commands.length

/-- Function `queue_context::_get_command_list`: the current list, created (with
the allocator, if that is missing too) when there is none. -/
def queue_context._get_command_list (s : queue_context) : Nat × queue_context :=
  match s._list with
  | some list => (list, s)
  | none =>
    let (alloc, s) :=
      match s._cmd_alloc with
      | some alloc => (alloc, s)
      | none =>
        let alloc := s.objects
        (alloc, { s.emit (.create_command_allocator s._q.queue_type alloc) with
                  _cmd_alloc := some alloc, objects := alloc + 1 })
    let list := s.objects
    (list, { s.emit (.create_and_start_command_list alloc list) with
             _list := some list, objects := list + 1 })

/-- The idiom `_get_command_list().f(...)`: record one call into the current list. -/
def queue_context.record (f : Nat → event) (s : queue_context) : queue_context :=
  let (list, s) := s._get_command_list
  s.emit (f list)

/-- Function `queue_context::_flush_command_list`. -/
def queue_context._flush_command_list (notify_fence : Option Nat)
    (notify_semaphores : List gpu.timeline_semaphore_synchronization) (s : queue_context) :
    queue_context :=
  let sync : gpu.queue_synchronization := ⟨notify_fence, s._pending_waits, notify_semaphores⟩
  let s :=
    match s._list with
    | some list =>
      { (s.emit (.finish list)).emit (.submit_command_lists [list] sync) with _list := none }
    | none => s.emit (.submit_command_lists [] sync)
  { s with _pending_waits := [] }

/-- Function `queue_context::finish_execution`. -/
def queue_context.finish_execution (s : queue_context) : queue_context :=
  let s := { s with _q.semaphore_value := s._q.semaphore_value + 1 }
  let last_signal : gpu.timeline_semaphore_synchronization := ⟨s._q.semaphore, s._q.semaphore_value⟩
  let s := s._flush_command_list none [last_signal]
  { s with resolve_data := ⟨s._timestamps, s._timestamp_command_indices.length % 2 ^ 32⟩ }

/-! ## Executors -/

/-- The inner `while` of `_bind_descriptor_sets`: starting from `end_`, advance
while the set at `end_` continues the run of consecutive spaces that starts at
`i`. The first argument bounds the number of advances. -/
def descriptor_run_end (sets : List descriptor_set_info) (i : Nat) : Nat → Nat → Nat
  | 0, end_ => end_
  | fuel + 1, end_ =>
    if end_ < sets.length ∧ (sets.getD end_ default).space = (sets.getD i default).space + (end_ - i) then
      descriptor_run_end sets i fuel (end_ + 1)
    else end_

/-- The outer `for` of `_bind_descriptor_sets`, from position `i` on: one bind
call per run. The first argument bounds the number of runs. -/
def queue_context._bind_descriptor_sets_from (rsrc : pipeline_resources_info)
    (bind_point : descriptor_set_bind_point) : Nat → Nat → queue_context → queue_context
  | 0, _, s => s
  | fuel + 1, i, s =>
    let sets := rsrc.descriptor_sets
    let set_ptrs := sets.map (fun x => x.set)
    if i < sets.length then
      let end_ := descriptor_run_end sets i (sets.length - (i + 1)) (i + 1)
      let first := (sets.getD i default).space
      let range := (set_ptrs.drop i).take (end_ - i)
      let s :=
        match bind_point with
        | .graphics =>
          s.record (fun list => .bind_graphics_descriptor_sets list rsrc.pipeline_resources first range)
        | .compute =>
          s.record (fun list => .bind_compute_descriptor_sets list rsrc.pipeline_resources first range)
        | .raytracing =>
          s.record (fun list => .bind_ray_tracing_descriptor_sets list rsrc.pipeline_resources first range)
      queue_context._bind_descriptor_sets_from rsrc bind_point fuel end_ s
    else s

/-- Function `queue_context::_bind_descriptor_sets`. Every run holds at least one
set, so there are at most as many runs as sets. -/
def queue_context._bind_descriptor_sets (rsrc : pipeline_resources_info)
    (bind_point : descriptor_set_bind_point) (s : queue_context) : queue_context :=
  queue_context._bind_descriptor_sets_from rsrc bind_point rsrc.descriptor_sets.length 0 s

/-- Executor `_execute(const commands::copy_buffer&)`. -/
def queue_context._execute_copy_buffer (cmd : commands.copy_buffer) (s : queue_context) :
    result Unit :=
  .returned () (s.record (fun list =>
    .copy_buffer list cmd.source cmd.source_offset cmd.destination cmd.destination_offset cmd.size))

/-- Executor `_execute(const commands::copy_buffer_to_image&)`. -/
def queue_context._execute_copy_buffer_to_image (ext : externals)
    (cmd : commands.copy_buffer_to_image) (s : queue_context) : result Unit :=
  let dest := ext.highest_mip_with_warning cmd.destination
  .returned () (s.record (fun list =>
    .copy_buffer_to_image list cmd.source cmd.source_offset cmd.staging_buffer_meta
      dest._ptr.id dest._mip_levels.first_level cmd.destination_offset))

/-- Executor `_execute(const commands::build_blas&)`. -/
def queue_context._execute_build_blas (ext : externals) (cmd : commands.build_blas)
    (s : queue_context) : result Unit :=
  let geometries := cmd.geometry
  let geom := s.objects
  let s := { s.emit (.create_bottom_level_acceleration_structure_geometry geometries geom) with
             objects := geom + 1 }
  let build_scratch_size := ext.get_bottom_level_acceleration_structure_build_sizes geometries
  let scratch_buffer := s.objects
  let s := { s.emit (.create_committed_buffer build_scratch_size ext.get_device_memory_type_index
               [.shader_read, .shader_write] scratch_buffer) with objects := scratch_buffer + 1 }
  .returned () (s.record (fun list => .build_bottom_level list geom cmd.target scratch_buffer 0))

/-- The loop of `build_tlas` that writes one instance description per instance,
starting at slot `i`. -/
def write_instance_descriptions (input_buffer : Nat) :
    List blas_instance → Nat → queue_context → queue_context
  | [], _, s => s
  | inst :: rest, i, s =>
    write_instance_descriptions input_buffer rest (i + 1)
      (s.emit (.write_instance_description input_buffer i inst))

/-- Executor `_execute(const commands::build_tlas&)`. -/
def queue_context._execute_build_tlas (ext : externals) (cmd : commands.build_tlas)
    (s : queue_context) : result Unit :=
  let build_scratch_size :=
    ext.get_top_level_acceleration_structure_build_sizes cmd.instances.length
  let input_buffer_size := cmd.instances.length * ext.sizeof_instance_description
  let input_buffer := s.objects
  let s := { s.emit (.create_committed_buffer input_buffer_size ext.get_upload_memory_type_index
               [.shader_read] input_buffer) with objects := input_buffer + 1 }
  let scratch_buffer := s.objects
  let s := { s.emit (.create_committed_buffer build_scratch_size ext.get_device_memory_type_index
               [.shader_read, .shader_write] scratch_buffer) with objects := scratch_buffer + 1 }
  let s := s.emit (.map_buffer input_buffer)
  let s := write_instance_descriptions input_buffer cmd.instances 0 s
  let s := s.emit (.flush_mapped_buffer_to_device input_buffer 0 input_buffer_size)
  let s := s.emit (.unmap_buffer input_buffer)
  .returned () (s.record (fun list =>
    .build_top_level list input_buffer 0 cmd.instances.length cmd.target scratch_buffer 0))

/-- The loop of `begin_pass` over the colour render targets. It carries the views
collected so far and their accesses, checks every target's size against the
declared size and appends the target's format to `_color_rt_formats`. -/
def queue_context.begin_pass_color_render_targets (ext : externals) (render_target_size : cvec2s) :
    List image2d_color → List requested_view × List Nat → queue_context →
      result (List requested_view × List Nat)
  | [], acc, s => .returned acc s
  | color_rt :: rest, (color_rts, color_rt_access), s =>
    match color_rt.view with
    | .image2d_view v =>
      let rt := ext.highest_mip_with_warning v
      let rt_size := ext.get_size rt._ptr.size rt._mip_levels.first_level
      (crash_if (rt_size != render_target_size) s).bind fun _ s =>
      let s := s.emit (.request_image_view rt)
      let s := { s with _color_rt_formats := s._color_rt_formats ++ [rt._view_format] }
      queue_context.begin_pass_color_render_targets ext render_target_size rest
        (color_rts ++ [.image rt], color_rt_access ++ [color_rt.access]) s
    | .swap_chain rt =>
      (crash_if (rt.current_size != render_target_size) s).bind fun _ s =>
      let s := s.emit (.request_swap_chain_view rt)
      let s := { s with _color_rt_formats := s._color_rt_formats ++ [rt.current_format] }
      queue_context.begin_pass_color_render_targets ext render_target_size rest
        (color_rts ++ [.swap_chain rt], color_rt_access ++ [color_rt.access]) s

/-- The depth render target part of `begin_pass`. -/
def queue_context.begin_pass_depth_render_target (ext : externals) (cmd : commands.begin_pass)
    (s : queue_context) : result (Option requested_view) :=
  match cmd.depth_stencil_target.view with
  | some view =>
    let depth_rt := ext.highest_mip_with_warning view
    let rt_size := ext.get_size depth_rt._ptr.size depth_rt._mip_levels.first_level
    (crash_if (rt_size != cmd.render_target_size) s).bind fun _ s =>
    let s := s.emit (.request_image_view depth_rt)
    .returned (some (.image depth_rt)) { s with _depth_stencil_rt_format := depth_rt._view_format }
  | none => .returned none s

/-- Executor `_execute(const commands::begin_pass&)`. -/
def queue_context._execute_begin_pass (ext : externals) (cmd : commands.begin_pass)
    (s : queue_context) : result Unit :=
  (crash_if s._within_pass s).bind fun _ s =>
  (crash_if (!s._color_rt_formats.isEmpty || s._depth_stencil_rt_format != gpu.format.none) s).bind
    fun _ s =>
  let s := { s with _within_pass := true }
  (queue_context.begin_pass_color_render_targets ext cmd.render_target_size
      cmd.color_render_targets ([], []) s).bind fun (color_rts, color_rt_access) s =>
  (crash_if (s._color_rt_formats.length != color_rt_access.length) s).bind fun _ s =>
  (queue_context.begin_pass_depth_render_target ext cmd s).bind fun depth_view s =>
  let frame_buffer := s.objects
  let s := { s.emit (.create_frame_buffer color_rts depth_view cmd.render_target_size frame_buffer)
             with objects := frame_buffer + 1 }
  .returned () (s.record (fun list =>
    .begin_pass list frame_buffer
      ⟨color_rt_access, cmd.depth_stencil_target.depth_access,
        cmd.depth_stencil_target.stencil_access⟩))

/-- Modelled from the spec: `get_graphics_pipeline_state` of the pipeline cache,
which is defined outside the available sources. It "returns an existing backend
pipeline object if a structurally-equal key exists; otherwise constructs one via
the Capability Backend and stores it, keyed by value"; entries are never evicted. -/
def queue_context.get_graphics_pipeline_state (key : cache_keys.graphics_pipeline)
    (s : queue_context) : Nat × queue_context :=
  let s := s.emit (.get_graphics_pipeline_state key)
  match s._q.ctx._cache.lookup key with
  | some pipeline => (pipeline, s)
  | none =>
    let pipeline := s.objects
    (pipeline, { s.emit (.create_graphics_pipeline_state key pipeline) with
                 objects := pipeline + 1
                 _q.ctx._cache := (key, pipeline) :: s._q.ctx._cache })

/-- The entry that `draw_instanced` appends to the key's `input_buffers` for one
input: `emplace_back(elements, stride, buffer_index, input_rate)`. -/
def pipeline_input_layout (input_buffer : input_buffer_binding) : gpu.input_buffer_layout :=
  ⟨input_buffer.elements, input_buffer.stride, input_buffer.buffer_index, input_buffer.input_rate⟩

/-- The pipeline key that `_execute(const commands::draw_instanced&)` builds. -/
def queue_context.build_pipeline_key (s : queue_context) (resources : pipeline_resources_info)
    (cmd : commands.draw_instanced) : cache_keys.graphics_pipeline :=
  { pipeline_rsrc := resources.pipeline_resources_key
    input_buffers := cmd.inputs.map pipeline_input_layout
    color_rt_formats := s._color_rt_formats
    dpeth_stencil_rt_format := s._depth_stencil_rt_format
    vertex_shader := cmd.vertex_shader
    pixel_shader := cmd.pixel_shader
    pipeline_state := cmd.state
    topology := cmd.topology }

/-- The loop of `draw_instanced` that gathers the vertex buffers by buffer index. -/
def gather_vertex_buffers :
    List input_buffer_binding → List (Option gpu.vertex_buffer) → List (Option gpu.vertex_buffer)
  | [], vertex_bufs => vertex_bufs
  | input :: rest, vertex_bufs =>
    let vertex_bufs :=
      if input.buffer_index ≥ vertex_bufs.length then
        vertex_bufs ++ List.replicate (input.buffer_index + 1 - vertex_bufs.length) none
      else vertex_bufs
    gather_vertex_buffers rest
      (vertex_bufs.set input.buffer_index (some ⟨input.data, input.offset, input.stride⟩))

/-- Executor `_execute(const commands::draw_instanced&)`. -/
def queue_context._execute_draw_instanced (ext : externals) (cmd : commands.draw_instanced)
    (s : queue_context) : result Unit :=
  (crash_if (!s._within_pass) s).bind fun _ s =>
  let resources := ext.use_pipeline_resources s.calls cmd.resource_bindings
  let s := s.emit (.use_pipeline_resources cmd.resource_bindings)
  let pipeline_key := s.build_pipeline_key resources cmd
  let (pipeline, s) := s.get_graphics_pipeline_state pipeline_key
  let vertex_bufs := gather_vertex_buffers cmd.inputs []
  let s := s.record (fun list => .bind_pipeline_state list pipeline)
  let s := s._bind_descriptor_sets resources .graphics
  let s := s.record (fun list => .bind_vertex_buffers list 0 vertex_bufs)
  match cmd.index_buffer.data with
  | some data =>
    let s := s.record (fun list => .bind_index_buffer list data cmd.index_buffer.offset
      cmd.index_buffer.format)
    .returned () (s.record (fun list =>
      .draw_indexed_instanced list 0 cmd.index_count 0 0 cmd.instance_count))
  | none =>
    .returned () (s.record (fun list => .draw_instanced list 0 cmd.vertex_count 0 cmd.instance_count))

/-- Executor `_execute(const commands::end_pass&)`. -/
def queue_context._execute_end_pass (s : queue_context) : result Unit :=
  (crash_if (!s._within_pass) s).bind fun _ s =>
  let s := { s with _within_pass := false, _color_rt_formats := [],
                    _depth_stencil_rt_format := gpu.format.none }
  .returned () (s.record (fun list => .end_pass list))

/-- Executor `_execute(const commands::dispatch_compute&)`. -/
def queue_context._execute_dispatch_compute (ext : externals) (cmd : commands.dispatch_compute)
    (s : queue_context) : result Unit :=
  let resources := ext.use_pipeline_resources s.calls cmd.resources
  let s := s.emit (.use_pipeline_resources cmd.resources)
  let pipeline := s.objects
  let s := { s.emit (.create_compute_pipeline_state resources.pipeline_resources cmd.shader pipeline)
             with objects := pipeline + 1 }
  let (cmd_list, s) := s._get_command_list
  let s := s.emit (.bind_pipeline_state cmd_list pipeline)
  let s := s._bind_descriptor_sets resources .compute
  .returned () (s.emit (.run_compute_shader cmd_list cmd.num_thread_groups.1
    cmd.num_thread_groups.2.1 cmd.num_thread_groups.2.2))

/-- Executor `_execute(const commands::trace_rays&)`: not implemented, aborts. -/
def queue_context._execute_trace_rays (s : queue_context) : result Unit :=
  .aborted .std_abort s

/-- Executor `_execute(const commands::present&)`. -/
def queue_context._execute_present (ext : externals) (cmd : commands.present)
    (s : queue_context) : result Unit :=
  match cmd.target.chain with
  | some chain =>
    let s := s._flush_command_list none []
    let status := ext.present s.calls chain
    let s := s.emit (.present chain)
    if status != .ok then .returned () (s.emit (.log_warn status)) else .returned () s
  | none => .returned () s

/-- The `std::visit` over the command variant: every alternative has its own
executor. -/
def queue_context._execute (ext : externals) (value : command_value) (s : queue_context) :
    result Unit :=
  match value with
  | .copy_buffer c => s._execute_copy_buffer c
  | .copy_buffer_to_image c => s._execute_copy_buffer_to_image ext c
  | .build_blas c => s._execute_build_blas ext c
  | .build_tlas c => s._execute_build_tlas ext c
  | .begin_pass c => s._execute_begin_pass ext c
  | .draw_instanced c => s._execute_draw_instanced ext c
  | .end_pass => s._execute_end_pass
  | .dispatch_compute c => s._execute_dispatch_compute ext c
  | .trace_rays => s._execute_trace_rays
  | .present c => s._execute_present ext c

/-! ## One step of the replay -/

/-- The block `// check & insert timestamp` of `execute_next_command`. -/
def queue_context.insert_timestamp (s : queue_context) : result Unit :=
  match s._timestamp_command_indices.get? s._next_timestamp with
  | some next =>
    if next = s._command_index then
      let timestamp_index := s._next_timestamp
      let (list, s) := s._get_command_list
      match s._timestamps with
      | some heap =>
        .returned () { s.emit (.query_timestamp list heap (timestamp_index % 2 ^ 32)) with
                       _next_timestamp := s._next_timestamp + 1 }
      | none => .aborted .undefined_behaviour s
    else .returned () s
  | none => .returned () s

/-- The `while` of the block `// acquire dependencies`, run on the events from
the cursor on: the number of events consumed and the waits collected, or nothing
when an event names a queue that does not exist. -/
def acquire_loop (queues : List gpu.timeline_semaphore) (command_index : Nat) :
    List dependency_event → List gpu.timeline_semaphore_synchronization →
      Option (Nat × List gpu.timeline_semaphore_synchronization)
  | [], waits => some (0, waits)
  | next :: rest, waits =>
    if next.command_index = command_index then
      match queues.get? next.queue_index with
      | some semaphore =>
        (acquire_loop queues command_index rest (waits ++ [⟨semaphore, next.data⟩])).map
          fun r => (r.1 + 1, r.2)
      | none => none
    else some (0, waits)

/-- The block `// acquire dependencies` of `execute_next_command`. -/
def queue_context.acquire_dependencies (s : queue_context) : result Unit :=
  match acquire_loop s._q.ctx._queues s._command_index
      (s._acquire_dependency_events.drop s._next_acquire_event) [] with
  | some (consumed, waits) =>
    let s := { s with _next_acquire_event := s._next_acquire_event + consumed }
    if !waits.isEmpty then
      let s := s._flush_command_list none []
      .returned () { s with _pending_waits := waits }
    else .returned () s
  | none => .aborted .undefined_behaviour s

/-- The block `// handle transitions` of `execute_next_command`. -/
def queue_context.handle_transitions (s : queue_context) : result Unit :=
  match s._image_transitions.get? s._command_index, s._buffer_transitions.get? s._command_index with
  | some img_transitions, some buf_transitions =>
    if !img_transitions.isEmpty && !buf_transitions.isEmpty then
      .returned () (s.record (fun list => .resource_barrier list img_transitions buf_transitions))
    else .returned () s
  | _, _ => .aborted .undefined_behaviour s

/-- The `while` of the block `// release dependencies`, run on the events from
the cursor on: the number of events consumed and the signals collected. -/
def release_loop (semaphore : gpu.timeline_semaphore) (command_index : Nat) :
    List dependency_event → List gpu.timeline_semaphore_synchronization →
      Nat × List gpu.timeline_semaphore_synchronization
  | [], signals => (0, signals)
  | next :: rest, signals =>
    if next.command_index = command_index then
      let r := release_loop semaphore command_index rest (signals ++ [⟨semaphore, next.data⟩])
      (r.1 + 1, r.2)
    else (0, signals)

/-- The block `// release dependencies` of `execute_next_command`. -/
def queue_context.release_dependencies (s : queue_context) : queue_context :=
  let (consumed, signals) := release_loop s._q.semaphore s._command_index
    (s._release_dependency_events.drop s._next_release_event) []
  let s := { s with _next_release_event := s._next_release_event + consumed }
  if !signals.isEmpty then s._flush_command_list none signals else s

/-- The state in which the command is handed to its executor: the hand-over is
noted in the record of calls. -/
def queue_context.visit (cmd : command) (s : queue_context) : queue_context :=
  s.emit (.dispatched s._command_index cmd)

/-- Function `queue_context::execute_next_command`. Reading past the end of the
command list or of a transition table is undefined behaviour. -/
def queue_context.execute_next_command (ext : externals) (s : queue_context) : result Unit :=
  match s._q.batch_commands.get? s._command_index with
  | some cmd =>
    s.insert_timestamp.bind fun _ s =>
    s.acquire_dependencies.bind fun _ s =>
    s.handle_transitions.bind fun _ s =>
    ((s.visit cmd)._execute ext cmd.value).bind fun _ s =>
    let s := s.release_dependencies
    .returned () { s with _command_index := s._command_index + 1 }
  | none => .aborted .undefined_behaviour s

/-- The driver loop `while (!is_finished()) execute_next_command();`, bounded by
the number of iterations allowed. -/
def queue_context.run (ext : externals) : Nat → queue_context → result Unit
  | 0, s => .returned () s
  | fuel + 1, s =>
    if s.is_finished then .returned () s
    else (s.execute_next_command ext).bind fun _ s => queue_context.run ext fuel s

/-- The commands handed to executors, in order, read off a record of calls. -/
def dispatched_commands : List event → List (Nat × command)
  | [] => []
  | .dispatched index cmd :: rest => (index, cmd) :: dispatched_commands rest
  | _ :: rest => dispatched_commands rest

/-- The submissions, in order, read off a record of calls. -/
def submissions : List event → List (List Nat × gpu.queue_synchronization)
  | [] => []
  | .submit_command_lists lists sync :: rest => (lists, sync) :: submissions rest
  | _ :: rest => submissions rest

/-- Exactly `k` successive calls of `execute_next_command`, stopping where one
does not return. -/
def queue_context.replay (ext : externals) : Nat → queue_context → result Unit
  | 0, s => .returned () s
  | k + 1, s => (s.execute_next_command ext).bind fun _ s => queue_context.replay ext k s

/-- The members that no executor writes: the command list, the event streams
with their cursors, the transition tables, the command index and the semaphores. -/
structure replay_data where
  command_index : Nat
  batch_commands : List command
  semaphore : gpu.timeline_semaphore
  semaphore_value : Nat
  queues : List gpu.timeline_semaphore
  image_transitions : List (List gpu.image_barrier)
  buffer_transitions : List (List gpu.buffer_barrier)
  timestamp_command_indices : List Nat
  next_timestamp : Nat
  timestamps : Option Nat
  acquire_dependency_events : List dependency_event
  next_acquire_event : Nat
  release_dependency_events : List dependency_event
  next_release_event : Nat

/-- The replay data of a state. -/
def queue_context.replay_data (s : queue_context) : replay_data :=
  { command_index := s._command_index
    batch_commands := s._q.batch_commands
    semaphore := s._q.semaphore
    semaphore_value := s._q.semaphore_value
    queues := s._q.ctx._queues
    image_transitions := s._image_transitions
    buffer_transitions := s._buffer_transitions
    timestamp_command_indices := s._timestamp_command_indices
    next_timestamp := s._next_timestamp
    timestamps := s._timestamps
    acquire_dependency_events := s._acquire_dependency_events
    next_acquire_event := s._next_acquire_event
    release_dependency_events := s._release_dependency_events
    next_release_event := s._next_release_event }

/-- The pass-specific members. -/
def queue_context.pass_state (s : queue_context) : Bool × List gpu.format × gpu.format :=
  (s._within_pass, s._color_rt_formats, s._depth_stencil_rt_format)

/-! ## A concrete queue -/

/-- Sample answers of the functions outside the sources: a mip level halves the
size (never below one pixel), a view keeps its first mip level, the pipeline
resources of a binding use three descriptor sets, and presenting reports a
status other than `ok`. -/
def example_externals : externals :=
  { get_size := fun size level => ⟨max 1 (size.x >>> level), max 1 (size.y >>> level)⟩
    highest_mip_with_warning := fun v => { v with _mip_levels := ⟨v._mip_levels.first_level, 1⟩ }
    use_pipeline_resources := fun _ bindings => ⟨[⟨10, 0⟩, ⟨11, 1⟩, ⟨12, 3⟩], 7, bindings⟩
    present := fun _ _ => .other 2
    get_bottom_level_acceleration_structure_build_sizes := fun _ => 64
    get_top_level_acceleration_structure_build_sizes := fun _ => 128
    sizeof_instance_description := 64
    get_device_memory_type_index := 0
    get_upload_memory_type_index := 1 }

/-- A 4x4 image viewed at mip level 0. -/
def example_image : image2d_view := ⟨⟨1, ⟨4, 4⟩⟩, 5, ⟨0, 1⟩⟩

/-- A 4x4 swap chain that has a backend chain. -/
def example_swap_chain : swap_chain := ⟨3, some 9, ⟨4, 4⟩, 6⟩

/-- A pass over the image and the swap chain, both 4x4. -/
def example_begin_pass : commands.begin_pass :=
  ⟨[⟨.image2d_view example_image, 0⟩, ⟨.swap_chain example_swap_chain, 1⟩], ⟨none, 0, 0⟩, ⟨4, 4⟩⟩

/-- A non-indexed draw of three vertices from one input buffer of stride 16. -/
def example_draw : commands.draw_instanced :=
  ⟨[⟨[], 16, 1, 0, 40, 0⟩], ⟨none, 0, 0⟩, 3, 0, 1, 0, 5, 1, 2, 3⟩

/-- Five commands: a pass with two draws, then a present. -/
def example_queue : queue_data :=
  { ctx := ⟨[100, 101], []⟩
    batch_commands := [⟨.begin_pass example_begin_pass⟩, ⟨.draw_instanced example_draw⟩,
      ⟨.draw_instanced example_draw⟩, ⟨.end_pass⟩, ⟨.present ⟨example_swap_chain⟩⟩]
    semaphore := 100
    semaphore_value := 0
    queue_index := 0
    queue_type := 0 }

/-- The queue context of `example_queue` as the batch context hands it over:
timestamps at commands 0 and 3, two waits on queue 1 before command 1, one
signal after command 2, and barriers staged for command 0. -/
def example_context : queue_context :=
  { queue_context.create example_queue with
    _timestamp_command_indices := [0, 3]
    _acquire_dependency_events := [⟨1, 1, 5⟩, ⟨1, 1, 6⟩]
    _release_dependency_events := [⟨0, 2, 1⟩]
    _image_transitions := [[⟨1, ⟨0, 1⟩, 0, 1⟩], [], [], [], []]
    _buffer_transitions := [[⟨1, 0, 1⟩], [], [], [], []] }

/-- A queue with a single buffer copy. -/
def image_only_queue : queue_data :=
  { ctx := ⟨[100], []⟩
    batch_commands := [⟨.copy_buffer ⟨1, 2, 0, 0, 16⟩⟩]
    semaphore := 100
    semaphore_value := 0
    queue_index := 0
    queue_type := 0 }

/-- The context of `image_only_queue` with one image transition staged for
command 0 and no buffer transition. -/
def image_only_context : queue_context :=
  { queue_context.create image_only_queue with
    _image_transitions := [[⟨1, ⟨0, 1⟩, 0, 1⟩]] }

/-- The values signalled to semaphores by the submissions of a record of calls,
in order. -/
def signalled_values : List event → List Nat
  | [] => []
  | .submit_command_lists _ sync :: rest =>
    sync.notify_semaphores.map (fun x => x.value) ++ signalled_values rest
  | _ :: rest => signalled_values rest

/-- Size of a colour render target as `begin_pass` computes it: for an image,
`mipmap::get_size` of the image size at the first mip level of the view that
`highest_mip_with_warning` returns; for a swap chain, its current size. -/
def color_render_target_size (ext : externals) (color_rt : image2d_color) : cvec2s :=
  match color_rt.view with
  | .image2d_view v =>
    ext.get_size (ext.highest_mip_with_warning v)._ptr.size
      (ext.highest_mip_with_warning v)._mip_levels.first_level
  | .swap_chain c => c.current_size

/-- Format of a colour render target as `begin_pass` stores it. -/
def color_render_target_format (ext : externals) (color_rt : image2d_color) : gpu.format :=
  match color_rt.view with
  | .image2d_view v => (ext.highest_mip_with_warning v)._view_format
  | .swap_chain c => c.current_format

/-- Size of the depth-stencil render target, computed like that of an image
colour target. -/
def depth_render_target_size (ext : externals) (view : image2d_view) : cvec2s :=
  ext.get_size (ext.highest_mip_with_warning view)._ptr.size
    (ext.highest_mip_with_warning view)._mip_levels.first_level

/-- The sizes of all render targets of a pass: the colour targets in order, then
the depth-stencil target if there is one. -/
def render_target_sizes (ext : externals) (cmd : commands.begin_pass) : List cvec2s :=
  cmd.color_render_targets.map (color_render_target_size ext) ++
    (cmd.depth_stencil_target.view.map (depth_render_target_size ext)).toList

/-- The states a queue context can be in: it is constructed, the batch context
fills in its tables and event streams, and from then on only the functions of
the class act on it. The blocks of `execute_next_command` are taken one by one,
so the states between two blocks, such as the one an executor is called in,
are covered. -/
inductive queue_context.reachable (ext : externals) : queue_context → Prop
  | constructed (q : queue_data) (image_transitions : List (List gpu.image_barrier))
      (buffer_transitions : List (List gpu.buffer_barrier)) (timestamps : List Nat)
      (acquire release : List dependency_event) :
      queue_context.reachable ext
        { queue_context.create q with
          _image_transitions := image_transitions
          _buffer_transitions := buffer_transitions
          _timestamp_command_indices := timestamps
          _acquire_dependency_events := acquire
          _release_dependency_events := release }
  | start_execution {s : queue_context} :
      queue_context.reachable ext s → queue_context.reachable ext s.start_execution
  | finish_execution {s : queue_context} :
      queue_context.reachable ext s → queue_context.reachable ext s.finish_execution
  | insert_timestamp {s s1 : queue_context} :
      queue_context.reachable ext s → s.insert_timestamp = .returned () s1 →
      queue_context.reachable ext s1
  | acquire_dependencies {s s1 : queue_context} :
      queue_context.reachable ext s → s.acquire_dependencies = .returned () s1 →
      queue_context.reachable ext s1
  | handle_transitions {s s1 : queue_context} :
      queue_context.reachable ext s → s.handle_transitions = .returned () s1 →
      queue_context.reachable ext s1
  | visit {s : queue_context} (cmd : command) :
      queue_context.reachable ext s → queue_context.reachable ext (s.visit cmd)
  | execute {s s1 : queue_context} (value : command_value) :
      queue_context.reachable ext s → s._execute ext value = .returned () s1 →
      queue_context.reachable ext s1
  | release_dependencies {s : queue_context} :
      queue_context.reachable ext s → queue_context.reachable ext s.release_dependencies
  | next {s : queue_context} :
      queue_context.reachable ext s →
      queue_context.reachable ext { s with _command_index := s._command_index + 1 }

/-- The graphics pipelines the backend was asked to create, in order, read off a
record of calls. -/
def created_pipelines : List event → List (cache_keys.graphics_pipeline × Nat)
  | [] => []
  | .create_graphics_pipeline_state key pipeline :: rest =>
    (key, pipeline) :: created_pipelines rest
  | _ :: rest => created_pipelines rest

/-- The second state is reached from the first without leaving the pass: by
blocks of `execute_next_command` and by executors of commands other than
`begin_pass` and `end_pass`. -/
inductive queue_context.stays_in_pass (ext : externals) : queue_context → queue_context → Prop
  | refl (s : queue_context) : queue_context.stays_in_pass ext s s
  | insert_timestamp {s t u : queue_context} :
      queue_context.stays_in_pass ext s t → t.insert_timestamp = .returned () u →
      queue_context.stays_in_pass ext s u
  | acquire_dependencies {s t u : queue_context} :
      queue_context.stays_in_pass ext s t → t.acquire_dependencies = .returned () u →
      queue_context.stays_in_pass ext s u
  | handle_transitions {s t u : queue_context} :
      queue_context.stays_in_pass ext s t → t.handle_transitions = .returned () u →
      queue_context.stays_in_pass ext s u
  | visit {s t : queue_context} (cmd : command) :
      queue_context.stays_in_pass ext s t → queue_context.stays_in_pass ext s (t.visit cmd)
  | execute {s t u : queue_context} (value : command_value) :
      queue_context.stays_in_pass ext s t → (∀ c, value ≠ .begin_pass c) → value ≠ .end_pass →
      t._execute ext value = .returned () u → queue_context.stays_in_pass ext s u
  | release_dependencies {s t : queue_context} :
      queue_context.stays_in_pass ext s t →
      queue_context.stays_in_pass ext s t.release_dependencies
  | next {s t : queue_context} :
      queue_context.stays_in_pass ext s t →
      queue_context.stays_in_pass ext s { t with _command_index := t._command_index + 1 }

/-- No entry of the pipeline cache of the first state is missing or changed in
the second. -/
def queue_context.cache_kept (s t : queue_context) : Prop :=
  ∀ key pipeline, s._q.ctx._cache.lookup key = some pipeline →
    t._q.ctx._cache.lookup key = some pipeline

/-- The sample draw with the stride of its input buffer changed from 16 to 32. -/
def example_draw_wide : commands.draw_instanced :=
  { example_draw with inputs := [⟨[], 32, 1, 0, 40, 0⟩] }

/-- The sample context after its first command, the `begin_pass`: within the pass. -/
def example_in_pass : queue_context :=
  (example_context.start_execution.replay example_externals 1).state

/-- In the sample pass: the state after a first draw with the wide stride. -/
def example_after_wide : queue_context :=
  (example_in_pass._execute_draw_instanced example_externals example_draw_wide).state

/-- In the sample pass: the state after the wide draw and then the sample draw. -/
def example_after_wide_narrow : queue_context :=
  (example_after_wide._execute_draw_instanced example_externals example_draw).state

/-- In the sample pass: the state after a first sample draw. -/
def example_after_narrow : queue_context :=
  (example_in_pass._execute_draw_instanced example_externals example_draw).state

/-- An event stream is sorted ascending by command index. -/
def sorted_by_command_index (events : List dependency_event) : Prop :=
  events.Pairwise (fun a b => a.command_index ≤ b.command_index)

/-- The events of a stream that are due at a command index, in stream order. -/
def due_events (events : List dependency_event) (command_index : Nat) : List dependency_event :=
  events.filter (fun e => e.command_index = command_index)

/-- A cursor into an event stream is where the replay of commands below
`command_index` leaves it: the events before it belong to earlier commands, the
events from it on to this command or later ones. -/
def cursor_at (events : List dependency_event) (cursor command_index : Nat) : Prop :=
  (∀ e ∈ events.take cursor, e.command_index < command_index) ∧
    (∀ e ∈ events.drop cursor, command_index ≤ e.command_index)

/-- Whether a call creates a frame buffer or begins a pass with one. -/
def event.is_frame_buffer_call : event → Bool
  | .create_frame_buffer _ _ _ _ => true
  | .begin_pass _ _ _ => true
  | _ => false

/-- The calls of a record that create a frame buffer or begin a pass, in order. -/
def frame_buffer_calls (calls : List event) : List event :=
  calls.filter event.is_frame_buffer_call

/-- Four commands: the pass of `example_begin_pass` begun and ended twice. -/
def two_pass_queue : queue_data :=
  { ctx := ⟨[100], []⟩
    batch_commands := [⟨.begin_pass example_begin_pass⟩, ⟨.end_pass⟩,
      ⟨.begin_pass example_begin_pass⟩, ⟨.end_pass⟩]
    semaphore := 100
    semaphore_value := 0
    queue_index := 0
    queue_type := 0 }

/-- The context of `two_pass_queue` with nothing staged. -/
def two_pass_context : queue_context := queue_context.create two_pass_queue

/-- A call made on behalf of `execution::context`: the entry into
`flush_immediate_constant_buffers`, a call of that member's body (which is
outside the available sources, so the call is only numbered), and the two
backend calls of `submit`. -/
inductive execution.call where
  | flush_immediate_constant_buffers
  | flushing (what : Nat)
  | finish (list : Nat)
  | submit_command_lists (queue : Nat) (lists : List Nat) (sync : gpu.queue_synchronization)
deriving DecidableEq, Repr

/-- The members of `execution::context` that `submit` and the function it calls
touch, with the record of calls made so far, oldest first. -/
structure execution.context where
  _list : Option Nat
  _immediate_constant_buffer_used : Nat
  calls : List execution.call
deriving DecidableEq, Repr

/-- What the body of `flush_immediate_constant_buffers` does, which is declared
in `execution.h` and defined outside the available sources: the calls it makes
(it may record a copy, creating the command list if there is none) and the
members it leaves behind. -/
structure execution.flush_effect where
  calls : List Nat
  _list : Option Nat
  _immediate_constant_buffer_used : Nat

/-- Function `context::flush_immediate_constant_buffers`, with the effect of its
body as a parameter. The entry into the function is noted in the record. -/
def execution.context.flush_immediate_constant_buffers
    (body : execution.context → execution.flush_effect) (s : execution.context) :
    execution.context :=
  let s := { s with calls := s.calls ++ [.flush_immediate_constant_buffers] }
  let effect := body s
  { _list := effect._list
    _immediate_constant_buffer_used := effect._immediate_constant_buffer_used
    calls := s.calls ++ effect.calls.map .flushing }

/-- Function `context::submit(gpu::command_queue &q, gpu::queue_synchronization sync)`. -/
def execution.context.submit (body : execution.context → execution.flush_effect) (q : Nat)
    (sync : gpu.queue_synchronization) (s : execution.context) : Bool × execution.context :=
  let s := s.flush_immediate_constant_buffers body
  match s._list with
  | none =>
    let s := { s with calls := s.calls ++ [execution.call.submit_command_lists q [] sync] }
    (false, s)
  | some list =>
    let s := { s with calls := s.calls ++ [execution.call.finish list] }
    let s := { s with calls := s.calls ++ [execution.call.submit_command_lists q [list] sync] }
    let s := { s with _list := none }
    (true, s)

/-- The submissions in a record of calls of the execution context, in order. -/
def execution.submissions : List execution.call → List (Nat × List Nat × gpu.queue_synchronization)
  | [] => []
  | .submit_command_lists q lists sync :: rest => (q, lists, sync) :: execution.submissions rest
  | _ :: rest => execution.submissions rest

/-- A flush that records one copy into the command list, creating list 5 when
there is none, and resets the amount of staged data. -/
def example_flush (s : execution.context) : execution.flush_effect :=
  if s._immediate_constant_buffer_used = 0 then ⟨[], s._list, 0⟩
  else ⟨[0], some (s._list.getD 5), 0⟩

/-- An execution context with list 4 in flight and 64 bytes of immediate constants. -/
def example_execution_context : execution.context := ⟨some 4, 64, []⟩

/-- An execution context with no list and no immediate constants staged. -/
def idle_execution_context : execution.context := ⟨none, 0, []⟩

/-- Structure `transition_records::image2d`: the image to transition, its mip
levels and the access to transition to. -/
structure transition_records.image2d where
  target : Nat
  mip_levels : gpu.mip_levels
  access : Nat
deriving DecidableEq, Repr

/-- Structure `transition_records::buffer`. -/
structure transition_records.buffer where
  target : Nat
  access : Nat
deriving DecidableEq, Repr

/-- Structure `transition_records::swap_chain`. -/
structure transition_records.swap_chain where
  target : Nat
  access : Nat
deriving DecidableEq, Repr

/-- Class `transition_buffer`: the three vectors of staged transitions and the
`std::unordered_map` of raw buffer transitions, from buffer to the pair
`(from, to)`; the map is kept as an association list with at most one entry per
key, in the order of insertion. -/
structure transition_buffer where
  _image2d_transitions : List transition_records.image2d
  _buffer_transitions : List transition_records.buffer
  _swap_chain_transitions : List transition_records.swap_chain
  _raw_buffer_transitions : List (Nat × (Nat × Nat))
deriving DecidableEq, Repr

/-- Constructor `transition_buffer(std::nullptr_t)`: the empty buffer. -/
def transition_buffer.nullptr : transition_buffer := ⟨[], [], [], []⟩

/-- Overload `stage_transition(_details::swap_chain&, _details::image_access)`. -/
def transition_buffer.stage_transition_swap_chain (chain usage : Nat) (t : transition_buffer) :
    transition_buffer :=
  { t with _swap_chain_transitions := t._swap_chain_transitions ++ [⟨chain, usage⟩] }

/-- Call `_raw_buffer_transitions.emplace(&buf, usage)`: nothing is stored when
the key is present. Returns the value stored under the key afterwards
(`it->second`), whether the insertion took place, and the buffer. -/
def transition_buffer.emplace_raw (buf : Nat) (usage : Nat × Nat) (t : transition_buffer) :
    (Nat × Nat) × Bool × transition_buffer :=
  match t._raw_buffer_transitions.lookup buf with
  | some stored => (stored, false, t)
  | none =>
    (usage, true, { t with _raw_buffer_transitions := t._raw_buffer_transitions ++ [(buf, usage)] })

/-- Overload `stage_transition(gpu::buffer&, buffer_access from, buffer_access to)`,
the raw path. The second component is the value of the asserted expression
`inserted || it->second == usage`: where assertions are compiled in, the
process stops when it is false. -/
def transition_buffer.stage_transition_raw (buf from_access to_access : Nat)
    (t : transition_buffer) : transition_buffer × Bool :=
  let usage := (from_access, to_access)
  match t.emplace_raw buf usage with
  | (second, inserted, t) => (t, inserted || second == usage)

/-- A sequence of raw `stage_transition` calls, assertions compiled out: each
call `(buf, from, to)` is made on the buffer the call before left. -/
def transition_buffer.stage_raw_transitions :
    List (Nat × Nat × Nat) → transition_buffer → transition_buffer
  | [], t => t
  | (buf, from_access, to_access) :: rest, t =>
    transition_buffer.stage_raw_transitions rest
      (t.stage_transition_raw buf from_access to_access).1

/-- The current access that the renderer tracks for its resources (members of
`_details::image2d`, `_details::buffer` and `_details::swap_chain`, declared
outside the available sources): per image and mip level, per buffer and per
swap chain. -/
structure tracked_access where
  image2d : Nat → Nat → Nat
  buffer : Nat → Nat
  swap_chain : Nat → Nat

/-- Modelled from the spec: the overload
`stage_transition(_details::image2d&, gpu::mip_levels, _details::image_access)`
is declared in `execution.h` and defined outside the available sources. It
"records an intended future state change without immediately emitting a
barrier", like the swap-chain overload that is in the header. -/
def transition_buffer.stage_transition_image2d (img : Nat) (mips : gpu.mip_levels) (access : Nat)
    (t : transition_buffer) : transition_buffer :=
  { t with _image2d_transitions := t._image2d_transitions ++ [⟨img, mips, access⟩] }

/-- Modelled from the spec: the overload
`stage_transition(_details::buffer&, _details::buffer_access)` is declared in
`execution.h` and defined outside the available sources; it records the
request. -/
def transition_buffer.stage_transition_buffer (buf : Nat) (access : Nat) (t : transition_buffer) :
    transition_buffer :=
  { t with _buffer_transitions := t._buffer_transitions ++ [⟨buf, access⟩] }

/-- A sequence of `stage_transition` calls on one image. -/
def transition_buffer.stage_image2d_transitions (img : Nat) :
    List (gpu.mip_levels × Nat) → transition_buffer → transition_buffer
  | [], t => t
  | (mips, access) :: rest, t =>
    transition_buffer.stage_image2d_transitions img rest (t.stage_transition_image2d img mips access)

/-- A sequence of `stage_transition` calls on one buffer. -/
def transition_buffer.stage_buffer_transitions (buf : Nat) :
    List Nat → transition_buffer → transition_buffer
  | [], t => t
  | access :: rest, t =>
    transition_buffer.stage_buffer_transitions buf rest (t.stage_transition_buffer buf access)

/-- The sub-resources of an image transition: one record per mip level of its
range, `num_levels` levels from `first_level` on. -/
def transition_records.image2d.per_mip_level (r : transition_records.image2d) :
    List transition_records.image2d :=
  (List.range r.mip_levels.num_levels).map fun k =>
    ⟨r.target, ⟨r.mip_levels.first_level + k, 1⟩, r.access⟩

/-- Sub-resource of a record of one mip level: image and level. -/
def transition_records.image2d.key (r : transition_records.image2d) : Nat × Nat :=
  (r.target, r.mip_levels.first_level)

/-- Last write wins: of the records with one key only the last is kept. -/
def last_write_wins {α κ : Type} [DecidableEq κ] (key : α → κ) : List α → List α
  | [] => []
  | r :: rest =>
    if rest.any (fun x => decide (key x = key r)) then last_write_wins key rest
    else r :: last_write_wins key rest

/-- Whether two records of one key request mutually exclusive accesses. -/
def contradictory_requests {α κ : Type} [DecidableEq κ] (mutually_exclusive : Nat → Nat → Bool)
    (key : α → κ) (access : α → Nat) : List α → Bool
  | [] => false
  | r :: rest =>
    rest.any (fun x => decide (key x = key r) && mutually_exclusive (access r) (access x)) ||
      contradictory_requests mutually_exclusive key access rest

/-- Modelled from the spec: `transition_buffer::prepare()` is declared in
`execution.h` and defined outside the available sources. It "resolves
overlapping staged ranges (last write wins per sub-resource) and validates no
contradictory simultaneous requests exist (fails fatally ... on an attempt to
request mutually exclusive access for the same sub-resource range within one
staging window)". Which accesses exclude each other is a parameter; `none` is
the fatal path. Image records are split into one record per mip level. -/
def transition_buffer.prepare (mutually_exclusive : Nat → Nat → Bool) (t : transition_buffer) :
    Option transition_buffer :=
  let images := t._image2d_transitions.flatMap transition_records.image2d.per_mip_level
  if contradictory_requests mutually_exclusive transition_records.image2d.key
        (fun r => r.access) images ||
      contradictory_requests mutually_exclusive (fun r : transition_records.buffer => r.target)
        (fun r => r.access) t._buffer_transitions ||
      contradictory_requests mutually_exclusive
        (fun r : transition_records.swap_chain => r.target) (fun r => r.access)
        t._swap_chain_transitions then
    none
  else
    some { t with
      _image2d_transitions := last_write_wins transition_records.image2d.key images
      _buffer_transitions := last_write_wins (fun r => r.target) t._buffer_transitions
      _swap_chain_transitions := last_write_wins (fun r => r.target) t._swap_chain_transitions }

/-- The access requested last for a key by a list of records. -/
def requested_access {α κ : Type} [DecidableEq κ] (key : α → κ) (access : α → Nat)
    (records : List α) (k : κ) : Option Nat :=
  ((records.filter (fun r => decide (key r = k))).getLast?).map access

/-- Modelled from the spec: `transition_buffer::collect_transitions() const` is
declared in `execution.h` and defined outside the available sources. It
"returns the consolidated, backend-ready barrier list ..., establishing
current == requested for all staged resources"; a request for the access that
is current needs no barrier. A swap chain is transitioned as one image level.
Raw buffer transitions carry both accesses and are not tracked ("No state
tracking is performed for such operations", `execution.h`). The member is
declared `const` and no member of the class is `mutable`, so the buffer the
call leaves, the last component, is the buffer it was called on. -/
def transition_buffer.collect_transitions (current : tracked_access) (t : transition_buffer) :
    (List gpu.image_barrier × List gpu.buffer_barrier) × tracked_access × transition_buffer :=
  let image_barriers : List gpu.image_barrier :=
    t._image2d_transitions.filterMap (fun r =>
      if current.image2d r.target r.mip_levels.first_level = r.access then none
      else some ⟨r.target, r.mip_levels, current.image2d r.target r.mip_levels.first_level,
        r.access⟩) ++
    t._swap_chain_transitions.filterMap (fun r =>
      if current.swap_chain r.target = r.access then none
      else some ⟨r.target, ⟨0, 1⟩, current.swap_chain r.target, r.access⟩)
  let buffer_barriers : List gpu.buffer_barrier :=
    t._buffer_transitions.filterMap (fun r =>
      if current.buffer r.target = r.access then none
      else some ⟨r.target, current.buffer r.target, r.access⟩) ++
    t._raw_buffer_transitions.map (fun r => ⟨r.1, r.2.1, r.2.2⟩)
  let current : tracked_access :=
    { image2d := fun img level =>
        (requested_access transition_records.image2d.key (fun r => r.access)
          t._image2d_transitions (img, level)).getD (current.image2d img level)
      buffer := fun buf =>
        (requested_access (fun r : transition_records.buffer => r.target) (fun r => r.access)
          t._buffer_transitions buf).getD (current.buffer buf)
      swap_chain := fun chain =>
        (requested_access (fun r : transition_records.swap_chain => r.target)
          (fun r => r.access) t._swap_chain_transitions chain).getD (current.swap_chain chain) }
  ((image_barriers, buffer_barriers), current, t)

/-- The access of the last of the staged requests on an image whose range of
mip levels contains the level. -/
def last_staged_access (requests : List (gpu.mip_levels × Nat)) (level : Nat) : Option Nat :=
  ((requests.filter (fun r =>
    decide (r.1.first_level ≤ level ∧ level < r.1.first_level + r.1.num_levels))).getLast?).map
    Prod.snd

/-- Every resource in the access 0, "undefined", as at first use. -/
def undefined_access : tracked_access := ⟨fun _ _ => 0, fun _ => 0, fun _ => 0⟩

/-- A buffer of transitions with one swap-chain transition and one raw buffer
transition staged, both by the overloads defined in `execution.h`. -/
def example_transition_buffer : transition_buffer :=
  ((transition_buffer.nullptr.stage_transition_swap_chain 3 1).stage_transition_raw 7 1 2).1

/-- The descriptor-set bind calls of a record of calls, in order: the bind
point of the function called, the pipeline resources, the first space and the
sets. -/
def bound_descriptor_sets :
    List event → List (descriptor_set_bind_point × Nat × Nat × List Nat)
  | [] => []
  | .bind_graphics_descriptor_sets _ pipeline_resources first sets :: rest =>
    (.graphics, pipeline_resources, first, sets) :: bound_descriptor_sets rest
  | .bind_compute_descriptor_sets _ pipeline_resources first sets :: rest =>
    (.compute, pipeline_resources, first, sets) :: bound_descriptor_sets rest
  | .bind_ray_tracing_descriptor_sets _ pipeline_resources first sets :: rest =>
    (.raytracing, pipeline_resources, first, sets) :: bound_descriptor_sets rest
  | _ :: rest => bound_descriptor_sets rest

/-- A run of descriptor sets: it is not empty and its k-th set has the space of
its first set plus k. -/
def is_descriptor_run (run : List descriptor_set_info) : Prop :=
  run ≠ [] ∧ ∀ k, k < run.length → (run.getD k default).space = (run.getD 0 default).space + k

/-- The bind call that a run of descriptor sets gets: the first space of the run
and its sets in order. -/
def descriptor_run_bind (bind_point : descriptor_set_bind_point) (pipeline_resources : Nat)
    (run : List descriptor_set_info) : descriptor_set_bind_point × Nat × Nat × List Nat :=
  (bind_point, pipeline_resources, (run.getD 0 default).space, run.map (fun x => x.set))

/-- Pipeline resources with five sets, of spaces 0, 1, 3, 5 and 6: the runs are
the sets of spaces 0-1, of space 3 and of spaces 5-6. -/
def example_pipeline_resources : pipeline_resources_info :=
  ⟨[⟨10, 0⟩, ⟨11, 1⟩, ⟨12, 3⟩, ⟨13, 5⟩, ⟨14, 6⟩], 7, 0⟩

/-- The largest value of `NS::UInteger`, `std::numeric_limits<NS::UInteger>::max()`. -/
def gpu.backends.metal.NS_UInteger_max : Nat := 2 ^ 64 - 1

/-- An entry of `shader_binary::_vs_input_attributes`: the name of a vertex
shader input and its attribute index. -/
structure gpu.backends.metal.vs_input_attribute where
  name : String
  attribute_index : Nat
deriving DecidableEq, Repr

/-- The constants of the Metal shader converter that the loop reads; their
header is outside the available sources. -/
structure gpu.backends.metal.converter_constants where
  kIRVertexBufferBindPoint : Nat
  kIRStageInAttributeStartIndex : Nat
deriving DecidableEq, Repr

/-- What the loop writes into one `MTL::VertexAttributeDescriptor`. -/
structure gpu.backends.metal.vertex_attribute where
  format : gpu.format
  offset : Nat
  buffer_index : Nat
deriving DecidableEq, Repr

/-- What the loop writes into one `MTL::VertexBufferLayoutDescriptor`. -/
structure gpu.backends.metal.vertex_buffer_layout where
  stride : Nat
  step_function : Nat
deriving DecidableEq, Repr

/-- The writes made into the `MTL::VertexDescriptor`, oldest first: the layout
objects and the attribute objects, each with the index it was fetched by. -/
structure gpu.backends.metal.vertex_descriptor where
  layouts : List (Nat × gpu.backends.metal.vertex_buffer_layout)
  attributes : List (Nat × gpu.backends.metal.vertex_attribute)
deriving DecidableEq, Repr

/-- The string `semantic` of the loop: `std::format("{}{}", semantic_name,
semantic_index)` with every character put through `std::tolower`. -/
def gpu.backends.metal.semantic_string (input_elem : gpu.input_buffer_element) : String :=
  String.mk ((input_elem.semantic_name.data ++ Nat.toDigits 10 input_elem.semantic_index).map
    Char.toLower)

/-- The `for` over `vs->_vs_input_attributes`, from position `i` on, with the
value of `elem_index` so far: a second match takes the `crash_if` marked
"duplicate semantic". -/
def gpu.backends.metal.find_element_index (semantic : String) :
    List gpu.backends.metal.vs_input_attribute → Nat → Nat → Except fatal Nat
  | [], _, elem_index => .ok elem_index
  | attr :: rest, i, elem_index =>
    if attr.name = semantic then
      if elem_index ≠ gpu.backends.metal.NS_UInteger_max then .error .crash_if
      else gpu.backends.metal.find_element_index semantic rest (i + 1) i
    else gpu.backends.metal.find_element_index semantic rest (i + 1) elem_index

/-- The body of the loop over the elements of one layout, up to the index of
the attribute object: the search, `crash_if(elem_index == max)` and
`elem_index += kIRStageInAttributeStartIndex`. -/
def gpu.backends.metal.element_index (constants : gpu.backends.metal.converter_constants)
    (vs_input_attributes : List gpu.backends.metal.vs_input_attribute)
    (input_elem : gpu.input_buffer_element) : Except fatal Nat :=
  match gpu.backends.metal.find_element_index (gpu.backends.metal.semantic_string input_elem)
      vs_input_attributes 0 gpu.backends.metal.NS_UInteger_max with
  | .error why => .error why
  | .ok elem_index =>
    if elem_index = gpu.backends.metal.NS_UInteger_max then .error .crash_if
    else .ok ((elem_index + constants.kIRStageInAttributeStartIndex) % 2 ^ 64)

/-- The loop over the elements of one input layout. -/
def gpu.backends.metal.add_vertex_attributes (constants : gpu.backends.metal.converter_constants)
    (vs_input_attributes : List gpu.backends.metal.vs_input_attribute) (buffer_index : Nat) :
    List gpu.input_buffer_element → gpu.backends.metal.vertex_descriptor →
      Except fatal gpu.backends.metal.vertex_descriptor
  | [], vert_descriptor => .ok vert_descriptor
  | input_elem :: rest, vert_descriptor =>
    match gpu.backends.metal.element_index constants vs_input_attributes input_elem with
    | .error why => .error why
    | .ok elem_index =>
      gpu.backends.metal.add_vertex_attributes constants vs_input_attributes buffer_index rest
        { vert_descriptor with
          attributes := vert_descriptor.attributes ++
            [(elem_index, ⟨input_elem.element_format, input_elem.byte_offset, buffer_index⟩)] }

/-- The loop over the input layouts of `create_graphics_pipeline_state`, which
fills the vertex descriptor. -/
def gpu.backends.metal.add_input_buffers (constants : gpu.backends.metal.converter_constants)
    (vs_input_attributes : List gpu.backends.metal.vs_input_attribute) :
    List gpu.input_buffer_layout → gpu.backends.metal.vertex_descriptor →
      Except fatal gpu.backends.metal.vertex_descriptor
  | [], vert_descriptor => .ok vert_descriptor
  | input_layout :: rest, vert_descriptor =>
    let buffer_index := (constants.kIRVertexBufferBindPoint + input_layout.buffer_index) % 2 ^ 64
    let vert_descriptor := { vert_descriptor with
      layouts := vert_descriptor.layouts ++
        [(buffer_index, ⟨input_layout.stride, input_layout.input_rate⟩)] }
    match gpu.backends.metal.add_vertex_attributes constants vs_input_attributes buffer_index
        input_layout.elements vert_descriptor with
    | .error why => .error why
    | .ok vert_descriptor =>
      gpu.backends.metal.add_input_buffers constants vs_input_attributes rest vert_descriptor

/-- Function `device::create_graphics_pipeline_state` of the Metal backend, as
far as it can stop: the loop that fills the vertex descriptor, the loop over
the colour formats of the frame buffer layout, which reads `blend[i]` for each
of them, and the creation of the pipeline state by the device, after which an
error is answered by `std::abort()`. Whether the device reports an error for
the descriptor is the parameter `error`. The result is the vertex descriptor
the pipeline state was created from. -/
def gpu.backends.metal.device.create_graphics_pipeline_state
    (constants : gpu.backends.metal.converter_constants)
    (error : gpu.backends.metal.vertex_descriptor → Bool)
    (vs_input_attributes : List gpu.backends.metal.vs_input_attribute)
    (blend : List Nat) (input_buffers : List gpu.input_buffer_layout)
    (color_render_target_formats : List gpu.format) :
    Except fatal gpu.backends.metal.vertex_descriptor :=
  match gpu.backends.metal.add_input_buffers constants vs_input_attributes input_buffers
      ⟨[], []⟩ with
  | .error why => .error why
  | .ok vert_descriptor =>
    if blend.length < color_render_target_formats.length then .error .undefined_behaviour
    else if error vert_descriptor then .error .std_abort
    else .ok vert_descriptor

/-- Whether an attribute of the vertex shader has the semantic of the element. -/
def gpu.backends.metal.matches_semantic (input_elem : gpu.input_buffer_element)
    (attr : gpu.backends.metal.vs_input_attribute) : Bool :=
  decide (attr.name = gpu.backends.metal.semantic_string input_elem)

/-- The constants as the Metal shader converter defines them. -/
def example_converter_constants : gpu.backends.metal.converter_constants := ⟨6, 11⟩

/-- A vertex shader with the inputs `position0` and `texcoord0`. -/
def example_vs_input_attributes : List gpu.backends.metal.vs_input_attribute :=
  [⟨"position0", 0⟩, ⟨"texcoord0", 1⟩]

/-- One input buffer with the elements `TEXCOORD` 0 and `POSITION` 0. -/
def example_input_buffers : List gpu.input_buffer_layout :=
  [⟨[⟨"TEXCOORD", 0, 3, 12⟩, ⟨"POSITION", 0, 2, 0⟩], 20, 0, 0⟩]

/-- The attribute write that an element with a unique match gets: the object at
`kIRStageInAttributeStartIndex` plus the position of the match, with the
format and offset of the element and the buffer index of its layout. -/
def gpu.backends.metal.assigned_attribute (constants : gpu.backends.metal.converter_constants)
    (attrs : List gpu.backends.metal.vs_input_attribute) (buffer_index : Nat)
    (input_elem : gpu.input_buffer_element) : Nat × gpu.backends.metal.vertex_attribute :=
  (constants.kIRStageInAttributeStartIndex +
      attrs.findIdx (gpu.backends.metal.matches_semantic input_elem),
    ⟨input_elem.element_format, input_elem.byte_offset, buffer_index⟩)

/-- The attribute writes of a whole layout whose elements all have a unique
match. -/
def gpu.backends.metal.assigned_attributes (constants : gpu.backends.metal.converter_constants)
    (attrs : List gpu.backends.metal.vs_input_attribute)
    (input_layout : gpu.input_buffer_layout) :
    List (Nat × gpu.backends.metal.vertex_attribute) :=
  input_layout.elements.map (gpu.backends.metal.assigned_attribute constants attrs
    ((constants.kIRVertexBufferBindPoint + input_layout.buffer_index) % 2 ^ 64))

/-- Whether exactly one attribute of the vertex shader has the semantic of the
element. -/
def gpu.backends.metal.unique_match (attrs : List gpu.backends.metal.vs_input_attribute)
    (input_elem : gpu.input_buffer_element) : Bool :=
  decide (attrs.countP (gpu.backends.metal.matches_semantic input_elem) = 1)

/-- The compute pipelines the backend was asked to create, in order, read off a
record of calls: pipeline resources, shader and the object created. -/
def created_compute_pipelines : List event → List (Nat × Nat × Nat)
  | [] => []
  | .create_compute_pipeline_state pipeline_resources shader pipeline :: rest =>
    (pipeline_resources, shader, pipeline) :: created_compute_pipelines rest
  | _ :: rest => created_compute_pipelines rest

/-- The pipelines bound, in order, read off a record of calls. -/
def bound_pipelines : List event → List Nat
  | [] => []
  | .bind_pipeline_state _ pipeline :: rest => pipeline :: bound_pipelines rest
  | _ :: rest => bound_pipelines rest

/-- A dispatch of shader 4 over 2x1x1 thread groups. -/
def example_dispatch : commands.dispatch_compute := ⟨0, 4, (2, 1, 1)⟩

/-- Two commands: the same dispatch twice. -/
def two_dispatch_queue : queue_data :=
  { ctx := ⟨[100], []⟩
    batch_commands := [⟨.dispatch_compute example_dispatch⟩, ⟨.dispatch_compute example_dispatch⟩]
    semaphore := 100
    semaphore_value := 0
    queue_index := 0
    queue_type := 0 }

/-- The context of `two_dispatch_queue` with nothing staged. -/
def two_dispatch_context : queue_context := queue_context.create two_dispatch_queue

/-- The conversion `static_cast<std::intptr_t>` of a `std::size_t`, both 64 bits
wide. -/
def to_intptr_t (n : Nat) : Int :=
  if n % 2 ^ 64 < 2 ^ 63 then ((n % 2 ^ 64 : Nat) : Int) else ((n % 2 ^ 64 : Nat) : Int) - 2 ^ 64

/-- The member of `dear_imgui::context` that texture ids refer to. -/
structure dear_imgui.context where
  _registered_images : List image2d_view
deriving DecidableEq, Repr

/-- Function `dear_imgui::context::register_texture`. The view is `none` when
`!img` holds; the id is the `intptr_t` carried in the `ImTextureID`. -/
def dear_imgui.context.register_texture (img : Option image2d_view) (c : dear_imgui.context) :
    Int × dear_imgui.context :=
  match img with
  | none => (0, c)
  | some view =>
    let c : dear_imgui.context := { c with _registered_images := c._registered_images ++ [view] }
    (to_intptr_t c._registered_images.length, c)

/-- The image that `render` binds for a draw command:
`texture_index > 0 ? _registered_images[texture_index - 1] : nullptr`. Reading
past the end of the vector is undefined behaviour. -/
def dear_imgui.context.texture_of (texture_index : Int) (c : dear_imgui.context) :
    Except fatal (Option image2d_view) :=
  if 0 < texture_index then
    match c._registered_images.get? (texture_index - 1).toNat with
    | some view => .ok (some view)
    | none => .error .undefined_behaviour
  else .ok none

/-- Successive calls of `register_texture`, the ids dropped. -/
def dear_imgui.context.register_textures :
    List (Option image2d_view) → dear_imgui.context → dear_imgui.context
  | [], c => c
  | img :: rest, c => dear_imgui.context.register_textures rest (c.register_texture img).2

/-- A second view, of image 2. -/
def example_image_two : image2d_view := ⟨⟨2, ⟨8, 8⟩⟩, 5, ⟨0, 1⟩⟩

/-- Structure `gpu::descriptor_range_binding` as far as the Metal backend reads
it here: the range (type and count of descriptors) and the first register
index. -/
structure gpu.descriptor_range_binding where
  range_type : Nat
  range_count : Nat
  register_index : Nat
deriving DecidableEq, Repr

/-- Class `descriptor_set_layout` of the Metal backend. -/
structure gpu.backends.metal.descriptor_set_layout where
  _bindings : List gpu.descriptor_range_binding
  _stage : Nat
deriving DecidableEq, Repr

/-- The loop `// verify that there are no overlapping ranges`: whether some
`crash_if(_bindings[i].register_index <= _bindings[i - 1].get_last_register_index())`
fires. The member `get_last_register_index` is declared outside the available
sources and is a parameter. -/
def gpu.backends.metal.neighbours_overlap
    (get_last_register_index : gpu.descriptor_range_binding → Nat) :
    List gpu.descriptor_range_binding → Bool
  | previous :: current :: rest =>
    if current.register_index ≤ get_last_register_index previous then true
    else gpu.backends.metal.neighbours_overlap get_last_register_index (current :: rest)
  | _ => false

/-- Function `device::create_descriptor_set_layout` of the Metal backend.
`std::sort` with the comparison `lhs.register_index < rhs.register_index` is
taken as an insertion sort; the order in which it leaves bindings of equal
register index is not specified, and does not matter: such bindings make the
loop stop the process in every order. -/
def gpu.backends.metal.device.create_descriptor_set_layout
    (get_last_register_index : gpu.descriptor_range_binding → Nat)
    (bindings : List gpu.descriptor_range_binding) (stage : Nat) :
    Except fatal gpu.backends.metal.descriptor_set_layout :=
  let sorted := bindings.insertionSort (fun lhs rhs => lhs.register_index ≤ rhs.register_index)
  if gpu.backends.metal.neighbours_overlap get_last_register_index sorted then .error .crash_if
  else .ok ⟨sorted, stage⟩

/-- Two ranges overlap in register indices: each begins no later than the other
ends. -/
def gpu.ranges_overlap (get_last_register_index : gpu.descriptor_range_binding → Nat)
    (a b : gpu.descriptor_range_binding) : Prop :=
  a.register_index ≤ get_last_register_index b ∧ b.register_index ≤ get_last_register_index a

/-- The last register index of a range of at least one descriptor. -/
def example_get_last_register_index (b : gpu.descriptor_range_binding) : Nat :=
  b.register_index + b.range_count - 1

/-- Three ranges, given out of order: registers 4-5, 0-1 and 2-3. -/
def example_range_bindings : List gpu.descriptor_range_binding :=
  [⟨0, 2, 4⟩, ⟨1, 2, 0⟩, ⟨0, 2, 2⟩]

/-- Pixel format `graphics::format`, by enumerator number. -/
abbrev graphics.format := Nat

/-- The enumerator `graphics::format::none`. -/
def graphics.format.none : graphics.format := 0

/-- Structure `vk::SurfaceFormatKHR`: a `vk::Format` and a `vk::ColorSpaceKHR`,
both by enumerator number. -/
structure vk.SurfaceFormatKHR where
  format : Nat
  colorSpace : Nat
deriving DecidableEq, Repr

/-- The enumerator `vk::ColorSpaceKHR::eSrgbNonlinear`. -/
def vk.ColorSpaceKHR.eSrgbNonlinear : Nat := 0

/-- The comparison given to `std::sort` in `create_swap_chain_for_window`: by
format, and within one format sRGB first. -/
def graphics.backends.vulkan.surface_format_less (lhs rhs : vk.SurfaceFormatKHR) : Bool :=
  if lhs.format = rhs.format then
    decide (lhs.colorSpace = vk.ColorSpaceKHR.eSrgbNonlinear ∧
      rhs.colorSpace ≠ vk.ColorSpaceKHR.eSrgbNonlinear)
  else decide (lhs.format < rhs.format)

/-- The call of `std::lower_bound` with the comparison `lhs.format < rhs`: the
first entry whose format is not below the format searched, if there is one. -/
def graphics.backends.vulkan.lower_bound (available_fmts : List vk.SurfaceFormatKHR)
    (result_fmt : Nat) : Option vk.SurfaceFormatKHR :=
  available_fmts.find? (fun lhs => !decide (lhs.format < result_fmt))

/-- The loop `for (auto fmt : formats)` over the formats the caller asks for: the
surface format and the format of the first request that is found, or nothing. -/
def graphics.backends.vulkan.find_requested_format (for_format : graphics.format → Nat)
    (available_fmts : List vk.SurfaceFormatKHR) :
    List graphics.format → Option (vk.SurfaceFormatKHR × graphics.format)
  | [] => none
  | fmt :: rest =>
    match graphics.backends.vulkan.lower_bound available_fmts (for_format fmt) with
    | some it =>
      if it.format = for_format fmt then some (it, fmt)
      else graphics.backends.vulkan.find_requested_format for_format available_fmts rest
    | none => graphics.backends.vulkan.find_requested_format for_format available_fmts rest

/-- The part of `create_swap_chain_for_window` after the sort: the surface
format the swap chain is created with and the format returned. Reading
`available_fmts[0]` of an empty vector is undefined behaviour. -/
def graphics.backends.vulkan.select_surface_format (for_format : graphics.format → Nat)
    (back_to_format : Nat → graphics.format) (available_fmts : List vk.SurfaceFormatKHR)
    (formats : List graphics.format) : Except fatal (vk.SurfaceFormatKHR × graphics.format) :=
  match available_fmts with
  | [] => .error .undefined_behaviour
  | first :: _ =>
    let found := graphics.backends.vulkan.find_requested_format for_format available_fmts formats
    let vk_format := (found.map Prod.fst).getD first
    let result_format := (found.map Prod.snd).getD graphics.format.none
    if result_format = graphics.format.none then .ok (vk_format, back_to_format vk_format.format)
    else .ok (vk_format, result_format)

/-- Function `context::create_swap_chain_for_window` of the Vulkan backend, as
far as the choice of the format goes: `surface_formats` is what
`getSurfaceFormatsKHR` returns, the conversions `for_format` and
`back_to_format` are defined outside the available sources, and the calls into
Vulkan are taken to succeed. `std::sort` is taken as an insertion sort. -/
def graphics.backends.vulkan.context.create_swap_chain_for_window
    (for_format : graphics.format → Nat) (back_to_format : Nat → graphics.format)
    (surface_formats : List vk.SurfaceFormatKHR) (formats : List graphics.format) :
    Except fatal (vk.SurfaceFormatKHR × graphics.format) :=
  graphics.backends.vulkan.select_surface_format for_format back_to_format
    (surface_formats.insertionSort
      (fun lhs rhs => graphics.backends.vulkan.surface_format_less rhs lhs = false))
    formats

/-- A format is available: some surface format has its Vulkan format. -/
def graphics.backends.vulkan.is_available (for_format : graphics.format → Nat)
    (surface_formats : List vk.SurfaceFormatKHR) (fmt : graphics.format) : Prop :=
  ∃ e ∈ surface_formats, e.format = for_format fmt

/-- Sample conversions: format `n` is Vulkan format `10 n`, and back. -/
def example_for_format (fmt : graphics.format) : Nat := 10 * fmt

/-- Back conversion of the sample: Vulkan format `10 n` is format `n`. -/
def example_back_to_format (vk_format : Nat) : graphics.format := vk_format / 10

/-- Surface formats as a device may list them: Vulkan format 50 in colour space
7, format 30 in colour space 7 and in sRGB, format 20 in sRGB. -/
def example_surface_formats : List vk.SurfaceFormatKHR :=
  [⟨50, 7⟩, ⟨30, 7⟩, ⟨30, 0⟩, ⟨20, 0⟩]

/-- Column vector `cvec3d` of the position based dynamics library. The scalar
type is a parameter, so that `double` can be read as the real numbers and the
definitions still be evaluated over the rationals. -/
@[ext]
structure pbd.cvec3d (K : Type) where
  x : K
  y : K
  z : K

/-- Difference of two vectors, `a - b`. The vector operators are declared in
`pbd/math/vector.h`, outside the available sources; they act component by
component. -/
def pbd.cvec3d.sub {K : Type} [Field K] (a b : pbd.cvec3d K) : pbd.cvec3d K :=
  ⟨a.x - b.x, a.y - b.y, a.z - b.z⟩

/-- Sum of two vectors, `a + b`. -/
def pbd.cvec3d.add {K : Type} [Field K] (a b : pbd.cvec3d K) : pbd.cvec3d K :=
  ⟨a.x + b.x, a.y + b.y, a.z + b.z⟩

/-- Product of a scalar and a vector, `k * v`. -/
def pbd.cvec3d.smul {K : Type} [Field K] (k : K) (v : pbd.cvec3d K) : pbd.cvec3d K :=
  ⟨k * v.x, k * v.y, k * v.z⟩

/-- The squared Euclidean norm. -/
def pbd.cvec3d.squared_norm {K : Type} [Field K] (v : pbd.cvec3d K) : K :=
  v.x * v.x + v.y * v.y + v.z * v.z

/-- The member `norm()`: the Euclidean norm, with the square root as a
parameter. -/
def pbd.cvec3d.norm {K : Type} [Field K] (sqrt : K → K) (v : pbd.cvec3d K) : K :=
  sqrt v.squared_norm

/-- Structure `spring_constraint_properties`. -/
structure pbd.constraints.spring_constraint_properties (K : Type) where
  length : K
  inverse_stiffness : K

/-- Structure `particle_spring`. -/
structure pbd.constraints.particle_spring (K : Type) where
  properties : pbd.constraints.spring_constraint_properties K
  particle1 : Nat
  particle2 : Nat

/-- What `project` leaves in its three reference parameters. -/
@[ext]
structure pbd.constraints.projected (K : Type) where
  x1 : pbd.cvec3d K
  x2 : pbd.cvec3d K
  lambda : K

/-- The vector `dx` of `particle_spring::project`. -/
def pbd.constraints.particle_spring.project_dx {K : Type} [Field K] (sqrt : K → K)
    (s : pbd.constraints.particle_spring K) (x1 x2 : pbd.cvec3d K)
    (inv_m1 inv_m2 inv_dt2 lambda : K) : pbd.cvec3d K :=
  let t := x2.sub x1
  let t_len := t.norm sqrt
  let t_diff := t_len - s.properties.length
  let c := t_diff
  let inv_k_dt2 := s.properties.inverse_stiffness * inv_dt2
  let delta_lambda := -(c + inv_k_dt2 * lambda) / (inv_m1 + inv_m2 + inv_k_dt2)
  pbd.cvec3d.smul (delta_lambda / t_len) t

/-- Function `particle_spring::project`. -/
def pbd.constraints.particle_spring.project {K : Type} [Field K] (sqrt : K → K)
    (s : pbd.constraints.particle_spring K) (x1 x2 : pbd.cvec3d K)
    (inv_m1 inv_m2 inv_dt2 lambda : K) : pbd.constraints.projected K :=
  let t := x2.sub x1
  let t_len := t.norm sqrt
  let t_diff := t_len - s.properties.length
  let c := t_diff
  let inv_k_dt2 := s.properties.inverse_stiffness * inv_dt2
  let delta_lambda := -(c + inv_k_dt2 * lambda) / (inv_m1 + inv_m2 + inv_k_dt2)
  let lambda := lambda + delta_lambda
  let dx := pbd.cvec3d.smul (delta_lambda / t_len) t
  let x1 := x1.sub (pbd.cvec3d.smul inv_m1 dx)
  let x2 := x2.add (pbd.cvec3d.smul inv_m2 dx)
  ⟨x1, x2, lambda⟩

/-- A square root on the rationals that is right at 25, the squared distance of
the sample particles. -/
def example_sqrt (q : ℚ) : ℚ := if q = 25 then 5 else 0

/-- A rigid spring of rest length 2 between particles 0 and 1. -/
def example_spring : pbd.constraints.particle_spring ℚ := ⟨⟨2, 0⟩, 0, 1⟩

/-- The timestamp queries, in order, read off a record of calls: the query heap
and the slot written. -/
def timestamp_queries : List event → List (Nat × Nat)
  | [] => []
  | .query_timestamp _ heap index :: rest => (heap, index) :: timestamp_queries rest
  | _ :: rest => timestamp_queries rest

/-- The command list that a call is recorded into or applies to; `none` for the
calls that are not made on a command list. -/
def event.command_list : event → Option Nat
  | .query_timestamp list _ _ => some list
  | .resource_barrier list _ _ => some list
  | .finish list => some list
  | .copy_buffer list _ _ _ _ _ => some list
  | .copy_buffer_to_image list _ _ _ _ _ _ => some list
  | .build_bottom_level list _ _ _ _ => some list
  | .build_top_level list _ _ _ _ _ _ => some list
  | .begin_pass list _ _ => some list
  | .bind_pipeline_state list _ => some list
  | .bind_graphics_descriptor_sets list _ _ _ => some list
  | .bind_compute_descriptor_sets list _ _ _ => some list
  | .bind_ray_tracing_descriptor_sets list _ _ _ => some list
  | .bind_vertex_buffers list _ _ => some list
  | .bind_index_buffer list _ _ _ => some list
  | .draw_indexed_instanced list _ _ _ _ _ => some list
  | .draw_instanced list _ _ _ _ => some list
  | .end_pass list => some list
  | .run_compute_shader list _ _ _ => some list
  | _ => none

/-- Whether a call is none of: the hand-over of a command, a timestamp query,
the end of a command list, a submission. -/
def event.is_plain_call : event → Bool
  | .dispatched _ _ => false
  | .query_timestamp _ _ _ => false
  | .finish _ => false
  | .submit_command_lists _ _ => false
  | _ => true

/-- Whether a call is anything but the end of a command list or a submission. -/
def event.is_not_submission : event → Bool
  | .finish _ => false
  | .submit_command_lists _ _ => false
  | _ => true

/-- From `s` to `s'` the queue context only made calls accepted by `allowed`:
the pending waits are the same, a command list that was current is still
current, and every call made on a command list was made on the list that is
current in `s'`. -/
def queue_context.records_into (allowed : event → Bool) (s s' : queue_context) : Prop :=
  s'._pending_waits = s._pending_waits ∧ (∀ l, s._list = some l → s'._list = some l) ∧
    ∃ added, s'.calls = s.calls ++ added ∧
      ∀ e ∈ added, allowed e = true ∧ ∀ l, e.command_list = some l → s'._list = some l

/-- The waits that have been collected and not dropped: those passed to the
submissions made so far, in order, followed by the waits still pending. -/
def queue_context.wait_ledger (s : queue_context) : List gpu.timeline_semaphore_synchronization :=
  (submissions s.calls).flatMap (fun x => x.2.wait_semaphores) ++ s._pending_waits

/-- A cursor into the timestamp indices is where the replay of commands below
`command_index` leaves it. -/
def timestamp_cursor_at (indices : List Nat) (cursor command_index : Nat) : Prop :=
  cursor ≤ indices.length ∧ (∀ t ∈ indices.take cursor, t < command_index) ∧
    (∀ t ∈ indices.drop cursor, command_index ≤ t)

/-- Since `s` either no submission has been made and the pending waits of `s`
are still pending, or the first submission since was made in a state `u`
reached from `s` without a submission: it ends and submits the list current in
`u`, into which every call on a command list since `s` was recorded, and it
passes the pending waits of `s` as its wait semaphores. -/
def queue_context.next_submission_from (s v : queue_context) : Prop :=
  s.records_into event.is_not_submission v ∨
    ∃ u fence signals later, s.records_into event.is_not_submission u ∧
      v.calls = u.calls ++ (u._list.toList.map event.finish ++
        [.submit_command_lists u._list.toList ⟨fence, s._pending_waits, signals⟩]) ++ later

/-- What no executor changes: the replay data and the list of commands handed
over so far. -/
def queue_context.frame (s s' : queue_context) : Prop :=
  s'.replay_data = s.replay_data ∧ dispatched_commands s'.calls = dispatched_commands s.calls

/-! ## Basic facts about the helpers -/

theorem result.bind_returned {α β : Type} (a : α) (s : queue_context)
    (f : α → queue_context → result β) : (result.returned a s).bind f = f a s := rfl

theorem result.bind_aborted {α β : Type} (why : fatal) (s : queue_context)
    (f : α → queue_context → result β) :
    (result.aborted why s : result α).bind f = .aborted why s := rfl

theorem result.bind_eq_returned {α β : Type} {r : result α} {f : α → queue_context → result β}
    {b : β} {s' : queue_context} (h : r.bind f = .returned b s') :
    ∃ a s, r = .returned a s ∧ f a s = .returned b s' := by
  cases r with
  | returned a s => exact ⟨a, s, rfl, h⟩
  | aborted why s => cases h

theorem crash_if_eq_returned {c : Bool} {s s' : queue_context}
    (h : crash_if c s = .returned () s') : c = false ∧ s' = s := by
  unfold crash_if at h
  cases c
  · simp at h
    exact ⟨rfl, h.symm⟩
  · simp at h

theorem crash_if_false (s : queue_context) : crash_if false s = .returned () s := rfl

theorem crash_if_true (s : queue_context) : crash_if true s = .aborted .crash_if s := rfl

theorem dispatched_commands_append (a b : List event) :
    dispatched_commands (a ++ b) = dispatched_commands a ++ dispatched_commands b := by
  induction a with
  | nil => rfl
  | cons e a ih => cases e <;> simp [dispatched_commands, ih]

theorem submissions_append (a b : List event) :
    submissions (a ++ b) = submissions a ++ submissions b := by
  induction a with
  | nil => rfl
  | cons e a ih => cases e <;> simp [submissions, ih]

theorem emit_calls (s : queue_context) (e : event) : (s.emit e).calls = s.calls ++ [e] := rfl

theorem emit_replay_data (s : queue_context) (e : event) :
    (s.emit e).replay_data = s.replay_data := rfl

theorem emit_pass_state (s : queue_context) (e : event) :
    (s.emit e).pass_state = s.pass_state := rfl

theorem emit_cache (s : queue_context) (e : event) :
    (s.emit e)._q.ctx._cache = s._q.ctx._cache := rfl

theorem emit_dispatched (s : queue_context) (e : event) (h : dispatched_commands [e] = []) :
    dispatched_commands (s.emit e).calls = dispatched_commands s.calls := by
  simp [emit_calls, dispatched_commands_append, h]

theorem get_command_list_replay_data (s : queue_context) :
    s._get_command_list.2.replay_data = s.replay_data := by
  unfold queue_context._get_command_list
  cases s._list <;> cases s._cmd_alloc <;> rfl

theorem get_command_list_pass_state (s : queue_context) :
    s._get_command_list.2.pass_state = s.pass_state := by
  unfold queue_context._get_command_list
  cases s._list <;> cases s._cmd_alloc <;> rfl

theorem get_command_list_cache (s : queue_context) :
    s._get_command_list.2._q.ctx._cache = s._q.ctx._cache := by
  unfold queue_context._get_command_list
  cases s._list <;> cases s._cmd_alloc <;> rfl

theorem get_command_list_dispatched (s : queue_context) :
    dispatched_commands s._get_command_list.2.calls = dispatched_commands s.calls := by
  unfold queue_context._get_command_list
  cases s._list <;> cases s._cmd_alloc <;>
    simp [dispatched_commands, queue_context.emit, dispatched_commands_append]

theorem record_eq (s : queue_context) (f : Nat → event) :
    s.record f = s._get_command_list.2.emit (f s._get_command_list.1) := rfl

theorem record_replay_data (s : queue_context) (f : Nat → event) :
    (s.record f).replay_data = s.replay_data := by
  rw [record_eq, emit_replay_data, get_command_list_replay_data]

theorem record_pass_state (s : queue_context) (f : Nat → event) :
    (s.record f).pass_state = s.pass_state := by
  rw [record_eq, emit_pass_state, get_command_list_pass_state]

theorem record_cache (s : queue_context) (f : Nat → event) :
    (s.record f)._q.ctx._cache = s._q.ctx._cache := by
  rw [record_eq, emit_cache, get_command_list_cache]

theorem record_dispatched (s : queue_context) (f : Nat → event)
    (h : ∀ list, dispatched_commands [f list] = []) :
    dispatched_commands (s.record f).calls = dispatched_commands s.calls := by
  rw [record_eq, emit_dispatched _ _ (h _), get_command_list_dispatched]

theorem flush_replay_data (s : queue_context) (fence : Option Nat)
    (signals : List gpu.timeline_semaphore_synchronization) :
    (s._flush_command_list fence signals).replay_data = s.replay_data := by
  unfold queue_context._flush_command_list
  cases s._list <;> rfl

theorem flush_pass_state (s : queue_context) (fence : Option Nat)
    (signals : List gpu.timeline_semaphore_synchronization) :
    (s._flush_command_list fence signals).pass_state = s.pass_state := by
  unfold queue_context._flush_command_list
  cases s._list <;> rfl

theorem flush_cache (s : queue_context) (fence : Option Nat)
    (signals : List gpu.timeline_semaphore_synchronization) :
    (s._flush_command_list fence signals)._q.ctx._cache = s._q.ctx._cache := by
  unfold queue_context._flush_command_list
  cases s._list <;> rfl

theorem flush_dispatched (s : queue_context) (fence : Option Nat)
    (signals : List gpu.timeline_semaphore_synchronization) :
    dispatched_commands (s._flush_command_list fence signals).calls =
      dispatched_commands s.calls := by
  unfold queue_context._flush_command_list
  cases s._list <;> simp [dispatched_commands, queue_context.emit, dispatched_commands_append]

theorem flush_calls (s : queue_context) (fence : Option Nat)
    (signals : List gpu.timeline_semaphore_synchronization) :
    (s._flush_command_list fence signals).calls =
      s.calls ++ (s._list.toList.map event.finish ++
        [.submit_command_lists s._list.toList ⟨fence, s._pending_waits, signals⟩]) := by
  unfold queue_context._flush_command_list
  cases s._list <;> simp [queue_context.emit]

theorem flush_list (s : queue_context) (fence : Option Nat)
    (signals : List gpu.timeline_semaphore_synchronization) :
    (s._flush_command_list fence signals)._list = none := by
  unfold queue_context._flush_command_list
  cases h : s._list <;> simp [queue_context.emit, h]

theorem flush_pending_waits (s : queue_context) (fence : Option Nat)
    (signals : List gpu.timeline_semaphore_synchronization) :
    (s._flush_command_list fence signals)._pending_waits = [] := by
  unfold queue_context._flush_command_list
  cases s._list <;> rfl

/-! ## What the executors leave alone -/

theorem frame_refl (s : queue_context) : s.frame s := ⟨rfl, rfl⟩

theorem frame_trans {s s1 s2 : queue_context} (h1 : s.frame s1) (h2 : s1.frame s2) : s.frame s2 :=
  ⟨h2.1.trans h1.1, h2.2.trans h1.2⟩

theorem frame_emit (s : queue_context) (e : event) (h : dispatched_commands [e] = []) :
    s.frame (s.emit e) :=
  ⟨rfl, emit_dispatched s e h⟩

theorem frame_record (s : queue_context) (f : Nat → event)
    (h : ∀ list, dispatched_commands [f list] = []) : s.frame (s.record f) :=
  ⟨record_replay_data s f, record_dispatched s f h⟩

theorem frame_flush (s : queue_context) (fence : Option Nat)
    (signals : List gpu.timeline_semaphore_synchronization) :
    s.frame (s._flush_command_list fence signals) :=
  ⟨flush_replay_data s fence signals, flush_dispatched s fence signals⟩

theorem frame_get_command_list (s : queue_context) : s.frame s._get_command_list.2 :=
  ⟨get_command_list_replay_data s, get_command_list_dispatched s⟩

theorem frame_bind {α β : Type} (s : queue_context) (r : result α)
    (f : α → queue_context → result β) (hr : s.frame r.state)
    (hf : ∀ a s1, r = .returned a s1 → s1.frame (f a s1).state) : s.frame (r.bind f).state := by
  cases r with
  | returned a s1 => exact frame_trans hr (hf a s1 rfl)
  | aborted why s1 => exact hr

theorem frame_crash_if (c : Bool) (s : queue_context) : s.frame (crash_if c s).state := by
  cases c <;> exact frame_refl s

theorem frame_bind_descriptor_sets_from (rsrc : pipeline_resources_info)
    (bind_point : descriptor_set_bind_point) (fuel i : Nat) (s : queue_context) :
    s.frame (queue_context._bind_descriptor_sets_from rsrc bind_point fuel i s) := by
  induction fuel generalizing i s with
  | zero => exact frame_refl s
  | succ fuel ih =>
    unfold queue_context._bind_descriptor_sets_from
    by_cases h : i < rsrc.descriptor_sets.length
    · simp only [h, if_true]
      refine frame_trans ?_ (ih _ _)
      cases bind_point <;> exact frame_record _ _ (by intro _; rfl)
    · simp only [h, if_false]
      exact frame_refl s

theorem frame_bind_descriptor_sets (rsrc : pipeline_resources_info)
    (bind_point : descriptor_set_bind_point) (s : queue_context) :
    s.frame (s._bind_descriptor_sets rsrc bind_point) :=
  frame_bind_descriptor_sets_from rsrc bind_point _ 0 s

theorem frame_execute_copy_buffer (cmd : commands.copy_buffer) (s : queue_context) :
    s.frame (s._execute_copy_buffer cmd).state := by
  unfold queue_context._execute_copy_buffer
  dsimp only [result.state]
  exact frame_record _ _ (by intro _; rfl)

theorem frame_execute_copy_buffer_to_image (ext : externals)
    (cmd : commands.copy_buffer_to_image) (s : queue_context) :
    s.frame (s._execute_copy_buffer_to_image ext cmd).state := by
  unfold queue_context._execute_copy_buffer_to_image
  dsimp only [result.state]
  exact frame_record _ _ (by intro _; rfl)

theorem frame_execute_build_blas (ext : externals) (cmd : commands.build_blas)
    (s : queue_context) : s.frame (s._execute_build_blas ext cmd).state := by
  unfold queue_context._execute_build_blas
  dsimp only [result.state]
  refine frame_trans ?_ (frame_record _ _ (by intro _; rfl))
  exact ⟨rfl, by simp [queue_context.emit, dispatched_commands_append, dispatched_commands]⟩

theorem frame_write_instance_descriptions (input_buffer : Nat) (instances : List blas_instance)
    (i : Nat) (s : queue_context) :
    s.frame (write_instance_descriptions input_buffer instances i s) := by
  induction instances generalizing i s with
  | nil => exact frame_refl s
  | cons inst rest ih =>
    unfold write_instance_descriptions
    exact frame_trans (frame_emit _ _ (by rfl)) (ih _ _)

theorem frame_execute_build_tlas (ext : externals) (cmd : commands.build_tlas)
    (s : queue_context) : s.frame (s._execute_build_tlas ext cmd).state := by
  unfold queue_context._execute_build_tlas
  dsimp only [result.state]
  refine frame_trans ?_ (frame_record _ _ (by intro _; rfl))
  refine frame_trans ?_ (frame_emit _ _ (by rfl))
  refine frame_trans ?_ (frame_emit _ _ (by rfl))
  refine frame_trans ?_ (frame_write_instance_descriptions _ _ _ _)
  refine frame_trans ?_ (frame_emit _ _ (by rfl))
  exact ⟨rfl, by simp [queue_context.emit, dispatched_commands_append, dispatched_commands]⟩

theorem frame_begin_pass_color_render_targets (ext : externals) (size : cvec2s)
    (targets : List image2d_color) (acc : List requested_view × List Nat) (s : queue_context) :
    s.frame (queue_context.begin_pass_color_render_targets ext size targets acc s).state := by
  induction targets generalizing acc s with
  | nil => exact frame_refl s
  | cons color_rt rest ih =>
    obtain ⟨color_rts, color_rt_access⟩ := acc
    unfold queue_context.begin_pass_color_render_targets
    cases color_rt.view with
    | image2d_view v =>
      refine frame_bind _ _ _ (frame_crash_if _ _) ?_
      intro _ s1 _
      refine frame_trans ?_ (ih _ _)
      exact ⟨rfl, by simp [queue_context.emit, dispatched_commands_append, dispatched_commands]⟩
    | swap_chain rt =>
      refine frame_bind _ _ _ (frame_crash_if _ _) ?_
      intro _ s1 _
      refine frame_trans ?_ (ih _ _)
      exact ⟨rfl, by simp [queue_context.emit, dispatched_commands_append, dispatched_commands]⟩

theorem frame_begin_pass_depth_render_target (ext : externals) (cmd : commands.begin_pass)
    (s : queue_context) : s.frame (s.begin_pass_depth_render_target ext cmd).state := by
  unfold queue_context.begin_pass_depth_render_target
  cases cmd.depth_stencil_target.view with
  | none => exact frame_refl s
  | some view =>
    refine frame_bind _ _ _ (frame_crash_if _ _) ?_
    intro _ s1 _
    exact ⟨rfl, by simp [result.state, queue_context.emit, dispatched_commands_append,
      dispatched_commands]⟩

theorem frame_execute_begin_pass (ext : externals) (cmd : commands.begin_pass)
    (s : queue_context) : s.frame (s._execute_begin_pass ext cmd).state := by
  unfold queue_context._execute_begin_pass
  refine frame_bind _ _ _ (frame_crash_if _ _) ?_
  intro _ s1 _
  refine frame_bind _ _ _ (frame_crash_if _ _) ?_
  intro _ s2 _
  refine frame_bind _ _ _ (frame_trans ⟨rfl, rfl⟩ (frame_begin_pass_color_render_targets _ _ _ _ _)) ?_
  intro acc s3 _
  refine frame_bind _ _ _ (frame_crash_if _ _) ?_
  intro _ s4 _
  refine frame_bind _ _ _ (frame_begin_pass_depth_render_target _ _ _) ?_
  intro depth_view s5 _
  dsimp only [result.state]
  refine frame_trans ?_ (frame_record _ _ (by intro _; rfl))
  exact ⟨rfl, by simp [queue_context.emit, dispatched_commands_append, dispatched_commands]⟩

theorem frame_get_graphics_pipeline_state (key : cache_keys.graphics_pipeline)
    (s : queue_context) : s.frame (s.get_graphics_pipeline_state key).2 := by
  unfold queue_context.get_graphics_pipeline_state
  simp only [queue_context.emit]
  split
  · exact ⟨rfl, by simp [dispatched_commands_append, dispatched_commands]⟩
  · exact ⟨rfl, by simp [dispatched_commands_append, dispatched_commands]⟩

theorem frame_execute_draw_instanced (ext : externals) (cmd : commands.draw_instanced)
    (s : queue_context) : s.frame (s._execute_draw_instanced ext cmd).state := by
  unfold queue_context._execute_draw_instanced
  refine frame_bind _ _ _ (frame_crash_if _ _) ?_
  intro _ s1 _
  have h1 : s1.frame (s1.emit (.use_pipeline_resources cmd.resource_bindings)) :=
    frame_emit _ _ (by rfl)
  have h2 := frame_get_graphics_pipeline_state
    ((s1.emit (.use_pipeline_resources cmd.resource_bindings)).build_pipeline_key
      (ext.use_pipeline_resources s1.calls cmd.resource_bindings) cmd)
    (s1.emit (.use_pipeline_resources cmd.resource_bindings))
  have h12 := frame_trans h1 h2
  dsimp only
  cases cmd.index_buffer.data with
  | none =>
    dsimp only [result.state]
    refine frame_trans ?_ (frame_record _ _ (by intro _; rfl))
    refine frame_trans ?_ (frame_record _ _ (by intro _; rfl))
    refine frame_trans ?_ (frame_bind_descriptor_sets _ _ _)
    refine frame_trans ?_ (frame_record _ _ (by intro _; rfl))
    exact h12
  | some data =>
    dsimp only [result.state]
    refine frame_trans ?_ (frame_record _ _ (by intro _; rfl))
    refine frame_trans ?_ (frame_record _ _ (by intro _; rfl))
    refine frame_trans ?_ (frame_record _ _ (by intro _; rfl))
    refine frame_trans ?_ (frame_bind_descriptor_sets _ _ _)
    refine frame_trans ?_ (frame_record _ _ (by intro _; rfl))
    exact h12

theorem frame_execute_end_pass (s : queue_context) : s.frame s._execute_end_pass.state := by
  unfold queue_context._execute_end_pass
  refine frame_bind _ _ _ (frame_crash_if _ _) ?_
  intro _ s1 _
  exact frame_trans ⟨rfl, rfl⟩ (frame_record _ _ (by intro _; rfl))

theorem frame_execute_dispatch_compute (ext : externals) (cmd : commands.dispatch_compute)
    (s : queue_context) : s.frame (s._execute_dispatch_compute ext cmd).state := by
  unfold queue_context._execute_dispatch_compute
  simp only [result.state]
  refine frame_trans ?_ (frame_emit _ _ (by rfl))
  refine frame_trans ?_ (frame_bind_descriptor_sets _ _ _)
  refine frame_trans ?_ (frame_emit _ _ (by rfl))
  refine frame_trans ?_ (frame_get_command_list _)
  exact ⟨rfl, by simp [queue_context.emit, dispatched_commands_append, dispatched_commands]⟩

theorem frame_execute_present (ext : externals) (cmd : commands.present) (s : queue_context) :
    s.frame (s._execute_present ext cmd).state := by
  unfold queue_context._execute_present
  cases cmd.target.chain with
  | none => exact frame_refl s
  | some chain =>
    simp only []
    split
    · exact frame_trans (frame_flush _ _ _) (frame_trans (frame_emit _ _ (by rfl)) (frame_emit _ _ (by rfl)))
    · exact frame_trans (frame_flush _ _ _) (frame_emit _ _ (by rfl))

theorem frame_execute (ext : externals) (value : command_value) (s : queue_context) :
    s.frame (s._execute ext value).state := by
  cases value with
  | copy_buffer c => exact frame_execute_copy_buffer c s
  | copy_buffer_to_image c => exact frame_execute_copy_buffer_to_image ext c s
  | build_blas c => exact frame_execute_build_blas ext c s
  | build_tlas c => exact frame_execute_build_tlas ext c s
  | begin_pass c => exact frame_execute_begin_pass ext c s
  | draw_instanced c => exact frame_execute_draw_instanced ext c s
  | end_pass => exact frame_execute_end_pass s
  | dispatch_compute c => exact frame_execute_dispatch_compute ext c s
  | trace_rays => exact frame_refl s
  | present c => exact frame_execute_present ext c s

/-! ## The blocks of `execute_next_command` -/

theorem insert_timestamp_returned {s s1 : queue_context}
    (h : s.insert_timestamp = .returned () s1) :
    s1.replay_data = { s.replay_data with next_timestamp := s1._next_timestamp } ∧
      dispatched_commands s1.calls = dispatched_commands s.calls ∧
      s1.pass_state = s.pass_state := by
  unfold queue_context.insert_timestamp at h
  split at h
  · split at h
    · dsimp only at h
      split at h
      · cases h
        refine ⟨?_, ?_, ?_⟩
        · have := get_command_list_replay_data s
          simp only [queue_context.replay_data, queue_context.emit] at this ⊢
          simp only [replay_data.mk.injEq] at this ⊢
          tauto
        · simp [queue_context.emit, dispatched_commands_append, dispatched_commands,
            get_command_list_dispatched]
        · exact get_command_list_pass_state s
      · cases h
    · cases h
      exact ⟨rfl, rfl, rfl⟩
  · cases h
    exact ⟨rfl, rfl, rfl⟩

theorem acquire_dependencies_returned {s s1 : queue_context}
    (h : s.acquire_dependencies = .returned () s1) :
    s1.replay_data = { s.replay_data with next_acquire_event := s1._next_acquire_event } ∧
      dispatched_commands s1.calls = dispatched_commands s.calls ∧
      s1.pass_state = s.pass_state := by
  unfold queue_context.acquire_dependencies at h
  split at h
  · dsimp only at h
    split at h
    · cases h
      refine ⟨?_, ?_, ?_⟩
      · have := flush_replay_data
          { s with _next_acquire_event := s._next_acquire_event + ‹Nat› } none []
        simp only [queue_context.replay_data] at this ⊢
        simp only [replay_data.mk.injEq] at this ⊢
        tauto
      · exact flush_dispatched _ _ _
      · exact flush_pass_state _ _ _
    · cases h
      exact ⟨rfl, rfl, rfl⟩
  · cases h

theorem handle_transitions_returned {s s1 : queue_context}
    (h : s.handle_transitions = .returned () s1) :
    s1.replay_data = s.replay_data ∧
      dispatched_commands s1.calls = dispatched_commands s.calls ∧
      s1.pass_state = s.pass_state := by
  unfold queue_context.handle_transitions at h
  split at h
  · split at h
    · cases h
      exact ⟨record_replay_data _ _, record_dispatched _ _ (by intro _; rfl),
        record_pass_state _ _⟩
    · cases h
      exact ⟨rfl, rfl, rfl⟩
  · cases h

theorem release_dependencies_spec (s : queue_context) :
    s.release_dependencies.replay_data =
        { s.replay_data with next_release_event := s.release_dependencies._next_release_event } ∧
      dispatched_commands s.release_dependencies.calls = dispatched_commands s.calls ∧
      s.release_dependencies.pass_state = s.pass_state := by
  unfold queue_context.release_dependencies
  dsimp only
  split
  · refine ⟨?_, ?_, ?_⟩
    · have := flush_replay_data
        { s with _next_release_event := s._next_release_event +
            (release_loop s._q.semaphore s._command_index
              (s._release_dependency_events.drop s._next_release_event) []).1 } none
          (release_loop s._q.semaphore s._command_index
              (s._release_dependency_events.drop s._next_release_event) []).2
      simp only [queue_context.replay_data] at this ⊢
      simp only [replay_data.mk.injEq] at this ⊢
      tauto
    · exact flush_dispatched _ _ _
    · exact flush_pass_state _ _ _
  · exact ⟨rfl, rfl, rfl⟩

/-- Anatomy of a call of `execute_next_command` that returns. -/
theorem execute_next_command_returned {ext : externals} {s s' : queue_context}
    (h : s.execute_next_command ext = .returned () s') :
    ∃ cmd s1 s2 s3 s4,
      s._q.batch_commands.get? s._command_index = some cmd ∧
      s.insert_timestamp = .returned () s1 ∧
      s1.acquire_dependencies = .returned () s2 ∧
      s2.handle_transitions = .returned () s3 ∧
      (s3.visit cmd)._execute ext cmd.value = .returned () s4 ∧
      s' = { s4.release_dependencies with
             _command_index := s4.release_dependencies._command_index + 1 } := by
  unfold queue_context.execute_next_command at h
  split at h
  · rename_i cmd hcmd
    obtain ⟨_, s1, h1, h⟩ := result.bind_eq_returned h
    obtain ⟨_, s2, h2, h⟩ := result.bind_eq_returned h
    obtain ⟨_, s3, h3, h⟩ := result.bind_eq_returned h
    obtain ⟨_, s4, h4, h⟩ := result.bind_eq_returned h
    cases h
    exact ⟨cmd, s1, s2, s3, s4, hcmd, h1, h2, h3, h4, rfl⟩
  · cases h


/-- What one returning call does to the index, the command list and the list of
commands handed over. -/
theorem execute_next_command_summary {ext : externals} {s s' : queue_context}
    (h : s.execute_next_command ext = .returned () s') :
    ∃ cmd, s._q.batch_commands.get? s._command_index = some cmd ∧
      s'._command_index = s._command_index + 1 ∧
      s'._q.batch_commands = s._q.batch_commands ∧
      dispatched_commands s'.calls = dispatched_commands s.calls ++ [(s._command_index, cmd)] := by
  obtain ⟨cmd, s1, s2, s3, s4, hcmd, h1, h2, h3, h4, rfl⟩ := execute_next_command_returned h
  have e1 := insert_timestamp_returned h1
  have e2 := acquire_dependencies_returned h2
  have e3 := handle_transitions_returned h3
  have e4 : (s3.visit cmd).frame s4 := by
    have := frame_execute ext cmd.value (s3.visit cmd)
    rwa [h4] at this
  have e5 := release_dependencies_spec s4
  have r1 := congrArg replay_data.command_index e1.1
  have r2 := congrArg replay_data.command_index e2.1
  have r3 := congrArg replay_data.command_index e3.1
  have r4 := congrArg replay_data.command_index e4.1
  have r5 := congrArg replay_data.command_index e5.1
  have b1 := congrArg replay_data.batch_commands e1.1
  have b2 := congrArg replay_data.batch_commands e2.1
  have b3 := congrArg replay_data.batch_commands e3.1
  have b4 := congrArg replay_data.batch_commands e4.1
  have b5 := congrArg replay_data.batch_commands e5.1
  simp only [queue_context.replay_data, queue_context.visit, queue_context.emit] at r1 r2 r3 r4 r5 b1 b2 b3 b4 b5
  refine ⟨cmd, hcmd, ?_, ?_, ?_⟩
  · show s4.release_dependencies._command_index + 1 = s._command_index + 1
    omega
  · show s4.release_dependencies._q.batch_commands = s._q.batch_commands
    rw [b5, b4, b3, b2, b1]
  · show dispatched_commands s4.release_dependencies.calls = _
    rw [e5.2.1, e4.2]
    simp only [queue_context.visit, emit_calls, dispatched_commands_append, dispatched_commands]
    rw [e3.2.1, e2.2.1, e1.2.1, r3, r2, r1]


/-! ## The driver loop -/

theorem result.bind_assoc {α β γ : Type} (r : result α) (f : α → queue_context → result β)
    (g : β → queue_context → result γ) :
    (r.bind f).bind g = r.bind (fun a s => (f a s).bind g) := by
  cases r <;> rfl

theorem replay_add (ext : externals) (a b : Nat) (s : queue_context) :
    s.replay ext (a + b) = (s.replay ext a).bind (fun _ s1 => s1.replay ext b) := by
  induction a generalizing s with
  | zero => simp [queue_context.replay, result.bind]
  | succ a ih =>
    rw [Nat.add_right_comm]
    simp only [queue_context.replay, result.bind_assoc]
    congr 1
    funext _ s1
    exact ih s1

theorem run_finished (ext : externals) (fuel : Nat) (s : queue_context)
    (h : s.is_finished = true) : s.run ext fuel = .returned () s := by
  cases fuel <;> simp [queue_context.run, h]

theorem is_finished_iff (s : queue_context) :
    s.is_finished = true ↔ s._command_index = s._q.batch_commands.length := by
  simp [queue_context.is_finished]

/-- With exactly as much fuel as there are commands left, the driver loop makes
one call per remaining command. -/
theorem run_eq_replay (ext : externals) (fuel : Nat) (s : queue_context)
    (h : s._command_index + fuel = s._q.batch_commands.length) :
    s.run ext fuel = s.replay ext fuel := by
  induction fuel generalizing s with
  | zero => rfl
  | succ fuel ih =>
    have hnf : s.is_finished = false := by
      rw [Bool.eq_false_iff, Ne, is_finished_iff]
      omega
    simp only [queue_context.run, queue_context.replay, hnf, Bool.false_eq_true, if_false]
    cases hstep : s.execute_next_command ext with
    | aborted why s1 => rfl
    | returned u s1 =>
      obtain ⟨cmd, -, hi, hb, -⟩ := execute_next_command_summary hstep
      simp only [result.bind]
      apply ih
      rw [hi, hb]
      omega

theorem replay_summary (ext : externals) (k : Nat) (s s' : queue_context)
    (h : s.replay ext k = .returned () s') :
    s'._command_index = s._command_index + k ∧
      s'._q.batch_commands = s._q.batch_commands ∧
      dispatched_commands s'.calls =
        dispatched_commands s.calls ++ (s._q.batch_commands.enum.drop s._command_index).take k := by
  induction k generalizing s with
  | zero =>
    cases h
    simp
  | succ k ih =>
    simp only [queue_context.replay] at h
    obtain ⟨_, s1, hstep, hrest⟩ := result.bind_eq_returned h
    obtain ⟨cmd, hcmd, hi, hb, hd⟩ := execute_next_command_summary hstep
    obtain ⟨ji, jb, jd⟩ := ih s1 hrest
    refine ⟨by omega, jb.trans hb, ?_⟩
    rw [jd, hd, hb, hi, List.append_assoc]
    congr 1
    rw [List.get?_eq_getElem?] at hcmd
    have hlt : s._command_index < s._q.batch_commands.enum.length := by
      rw [List.enum_length]
      by_contra hge
      rw [List.getElem?_eq_none (by omega)] at hcmd
      cases hcmd
    have hget : s._q.batch_commands.enum[s._command_index] = (s._command_index, cmd) := by
      have := List.getElem?_enum s._q.batch_commands s._command_index
      rw [hcmd, List.getElem?_eq_getElem hlt] at this
      simpa using this
    rw [List.drop_eq_getElem_cons hlt, hget]
    rfl

theorem run_add (ext : externals) (a b : Nat) (s : queue_context) :
    s.run ext (a + b) = (s.run ext a).bind (fun _ s1 => s1.run ext b) := by
  induction a generalizing s with
  | zero => simp [queue_context.run, result.bind]
  | succ a ih =>
    rw [Nat.add_right_comm]
    by_cases hf : s.is_finished = true
    · rw [run_finished ext _ s hf, run_finished ext _ s hf, result.bind_returned,
        run_finished ext _ s hf]
    · have hf' : s.is_finished = false := by simpa using hf
      simp only [queue_context.run, hf', Bool.false_eq_true, if_false, result.bind_assoc]
      congr 1
      funext _ s1
      exact ih s1


/-! ## Replay order and the command index -/

/-- C6: every call of `execute_next_command` that returns leaves the command
index exactly one higher than it found it, whatever the command and whatever
timestamp, acquire, transition or release work the call did. -/
theorem command_index_advances_by_one (ext : externals) (s s' : queue_context)
    (h : s.execute_next_command ext = .returned () s') :
    s'._command_index = s._command_index + 1 := by
  obtain ⟨_, -, hi, -, -⟩ := execute_next_command_summary h
  exact hi

/-- Witness for C6: the first call on the sample queue returns and moves the
index from 0 to 1. -/
theorem command_index_advances_by_one_witness :
    example_context.start_execution.execute_next_command example_externals =
        .returned () (example_context.start_execution.execute_next_command example_externals).state ∧
      (example_context.start_execution.execute_next_command example_externals).state._command_index
        = 0 + 1 :=
  ⟨rfl, command_index_advances_by_one example_externals example_context.start_execution _ rfl⟩

/-- C1: started at command index 0 on a queue of `n` commands, the loop
`while (!is_finished()) execute_next_command();` that returns has handed the
commands to their executors in the recorded order `0, 1, ..., n-1`, each exactly
once; it made exactly `n` calls, `is_finished()` was false before each of them
and is true after the last, and any larger bound on the number of iterations
gives the same final state. The call number `k` starts at command index `k`
with exactly the commands `0, ..., k-1` handed over, runs its first three
blocks, notes the hand-over of command `k` and calls `_execute` on the value of
command `k` of the queue, the one at position `k` of `batch_commands`; what
that executor returns, after the release block and the step of the index, is
the state after `k + 1` calls. -/
theorem replay_dispatches_in_recorded_order (ext : externals) (s s' : queue_context)
    (h0 : s._command_index = 0)
    (hrun : s.run ext s._q.batch_commands.length = .returned () s') :
    dispatched_commands s'.calls = dispatched_commands s.calls ++ s._q.batch_commands.enum ∧
      (∀ k, k < s._q.batch_commands.length →
        ∃ sk, s.replay ext k = .returned () sk ∧ sk._command_index = k ∧ sk.is_finished = false ∧
          dispatched_commands sk.calls =
            dispatched_commands s.calls ++ s._q.batch_commands.enum.take k ∧
          ∃ cmd s1 s2 s3 s4, s._q.batch_commands.get? k = some cmd ∧
            sk.insert_timestamp = .returned () s1 ∧
            s1.acquire_dependencies = .returned () s2 ∧
            s2.handle_transitions = .returned () s3 ∧
            dispatched_commands s3.calls = dispatched_commands sk.calls ∧
            (s3.visit cmd).calls = s3.calls ++ [.dispatched k cmd] ∧
            (s3.visit cmd)._execute ext cmd.value = .returned () s4 ∧
            dispatched_commands s4.calls = dispatched_commands (s3.visit cmd).calls ∧
            s.replay ext (k + 1) = .returned ()
              { s4.release_dependencies with
                _command_index := s4.release_dependencies._command_index + 1 }) ∧
      s.replay ext s._q.batch_commands.length = .returned () s' ∧
      s'.is_finished = true ∧
      ∀ fuel, s._q.batch_commands.length ≤ fuel → s.run ext fuel = .returned () s' := by
  have hrep : s.replay ext s._q.batch_commands.length = .returned () s' := by
    rw [← run_eq_replay ext _ s (by omega)]
    exact hrun
  obtain ⟨hi, hb, hd⟩ := replay_summary ext _ s s' hrep
  have hfin : s'.is_finished = true := by
    rw [is_finished_iff, hi, hb, h0]
    omega
  refine ⟨?_, ?_, hrep, hfin, ?_⟩
  · rw [hd, h0, List.drop_zero, List.take_of_length_le (by simp)]
  · intro k hk
    obtain ⟨d, hd⟩ : ∃ d, s._q.batch_commands.length = (k + 1) + d :=
      ⟨_, (Nat.add_sub_cancel' (Nat.succ_le_of_lt hk)).symm⟩
    have hsplit := replay_add ext (k + 1) d s
    rw [← hd, hrep] at hsplit
    obtain ⟨_, t, ht, -⟩ := result.bind_eq_returned hsplit.symm
    have hsplit2 := replay_add ext k 1 s
    rw [ht] at hsplit2
    obtain ⟨_, sk, hk1, hstep1⟩ := result.bind_eq_returned hsplit2.symm
    have hstep : sk.execute_next_command ext = .returned () t := by
      simp only [queue_context.replay] at hstep1
      obtain ⟨_, t1, e1, e2⟩ := result.bind_eq_returned hstep1
      cases e2
      exact e1
    obtain ⟨ki, kb, kd⟩ := replay_summary ext _ s sk hk1
    have hki : sk._command_index = k := by omega
    obtain ⟨cmd, s1, s2, s3, s4, hcmd, h1, h2, h3, h4, ht'⟩ := execute_next_command_returned hstep
    obtain ⟨d1, d2, -⟩ := insert_timestamp_returned h1
    obtain ⟨d3, d4, -⟩ := acquire_dependencies_returned h2
    obtain ⟨d5, d6, -⟩ := handle_transitions_returned h3
    have c1 := congrArg replay_data.command_index d1
    have c3 := congrArg replay_data.command_index d3
    have c5 := congrArg replay_data.command_index d5
    simp only [queue_context.replay_data] at c1 c3 c5
    have hd4 : dispatched_commands s4.calls = dispatched_commands (s3.visit cmd).calls := by
      have := (frame_execute ext cmd.value (s3.visit cmd)).2
      rwa [h4] at this
    refine ⟨sk, hk1, hki, ?_, ?_, cmd, s1, s2, s3, s4, ?_, h1, h2, h3, ?_, ?_, h4, hd4, ?_⟩
    · rw [Bool.eq_false_iff, Ne, is_finished_iff, ki, kb]
      omega
    · rw [kd, h0, List.drop_zero]
    · rw [← kb, ← hki]
      exact hcmd
    · rw [d6, d4, d2]
    · show s3.calls ++ [.dispatched s3._command_index cmd] = _
      rw [c5, c3, c1, hki]
    · rw [ht, ht']
  · intro fuel hfuel
    obtain ⟨d, rfl⟩ : ∃ d, fuel = s._q.batch_commands.length + d :=
      ⟨_, (Nat.add_sub_cancel' hfuel).symm⟩
    rw [run_add, hrun, result.bind_returned, run_finished ext d s' hfin]

/-- Witness for C1: the sample queue of five commands is replayed to the end and
its commands are handed over in the recorded order. -/
theorem replay_dispatches_in_recorded_order_witness :
    example_context.start_execution._command_index = 0 ∧
      example_context.start_execution.run example_externals 5 =
        .returned () (example_context.start_execution.run example_externals 5).state ∧
      dispatched_commands (example_context.start_execution.run example_externals 5).state.calls =
        example_queue.batch_commands.enum :=
  ⟨rfl, rfl,
    (replay_dispatches_in_recorded_order example_externals example_context.start_execution _
      rfl rfl).1⟩


/-! ## Staged barriers -/

/-- C2: on a queue whose command 0 has one image transition staged and no
buffer transition, `execute_next_command` returns without recording any
`resource_barrier`: the only calls are the hand-over of the command and the
executor's own (allocator, list, copy). The staged image transition is dropped. -/
theorem staged_image_transition_is_dropped (ext : externals) :
    image_only_context._image_transitions.get? 0 = some [⟨1, ⟨0, 1⟩, 0, 1⟩] ∧
      image_only_context._buffer_transitions.get? 0 = some [] ∧
      (image_only_context.execute_next_command ext).is_returned = true ∧
      (image_only_context.execute_next_command ext).state.calls =
        [.dispatched 0 ⟨.copy_buffer ⟨1, 2, 0, 0, 16⟩⟩, .create_command_allocator 0 0,
          .create_and_start_command_list 0 1, .copy_buffer 1 1 0 2 0 16] :=
  ⟨rfl, rfl, rfl, rfl⟩

/-- The block `// handle transitions` records a barrier only when both tables
hold something for the command; with exactly one of them empty it does nothing. -/
theorem handle_transitions_one_sided (s : queue_context)
    (img : List gpu.image_barrier) (buf : List gpu.buffer_barrier)
    (himg : s._image_transitions.get? s._command_index = some img)
    (hbuf : s._buffer_transitions.get? s._command_index = some buf)
    (h : img = [] ∨ buf = []) : s.handle_transitions = .returned () s := by
  unfold queue_context.handle_transitions
  rw [himg, hbuf]
  rcases h with rfl | rfl <;> simp

/-- With both tables non-empty for the command, the block records one barrier
carrying exactly the staged transitions. -/
theorem handle_transitions_two_sided (s : queue_context)
    (img : List gpu.image_barrier) (buf : List gpu.buffer_barrier)
    (himg : s._image_transitions.get? s._command_index = some img)
    (hbuf : s._buffer_transitions.get? s._command_index = some buf)
    (h1 : img ≠ []) (h2 : buf ≠ []) :
    s.handle_transitions =
      .returned () (s.record (fun list => .resource_barrier list img buf)) := by
  unfold queue_context.handle_transitions
  rw [himg, hbuf]
  simp [h1, h2]


/-! ## The final signal -/

theorem signalled_values_append (a b : List event) :
    signalled_values (a ++ b) = signalled_values a ++ signalled_values b := by
  induction a with
  | nil => rfl
  | cons e a ih => cases e <;> simp [signalled_values, ih]

theorem submissions_map_finish (l : List Nat) : submissions (l.map event.finish) = [] := by
  induction l with
  | nil => rfl
  | cons a l ih => simpa [submissions] using ih

theorem signalled_values_map_finish (l : List Nat) :
    signalled_values (l.map event.finish) = [] := by
  induction l with
  | nil => rfl
  | cons a l ih => simpa [signalled_values] using ih

/-- What `finish_execution` does, in full. -/
theorem finish_execution_spec (s : queue_context) :
    s.finish_execution._q.semaphore_value = s._q.semaphore_value + 1 ∧
      s.finish_execution.calls = s.calls ++ (s._list.toList.map event.finish ++
        [.submit_command_lists s._list.toList
          ⟨none, s._pending_waits, [⟨s._q.semaphore, s._q.semaphore_value + 1⟩]⟩]) := by
  unfold queue_context.finish_execution
  dsimp only
  constructor
  · have := congrArg replay_data.semaphore_value
      (flush_replay_data { s with _q.semaphore_value := s._q.semaphore_value + 1 } none
        [⟨s._q.semaphore, s._q.semaphore_value + 1⟩])
    simpa [queue_context.replay_data] using this
  · exact flush_calls { s with _q.semaphore_value := s._q.semaphore_value + 1 } none
      [⟨s._q.semaphore, s._q.semaphore_value + 1⟩]

/-- C5: `finish_execution` raises the queue's `semaphore_value` by exactly one
and makes exactly one submission, whose signal list is the single pair (this
queue's semaphore, the new value) and which has no fence; so a later
`finish_execution` on the queue, made when the value has not been lowered in
between, signals a strictly larger value. -/
theorem finish_execution_signals_next_value (s : queue_context) :
    s.finish_execution._q.semaphore_value = s._q.semaphore_value + 1 ∧
      submissions s.finish_execution.calls = submissions s.calls ++
        [(s._list.toList, ⟨none, s._pending_waits,
          [⟨s._q.semaphore, s.finish_execution._q.semaphore_value⟩]⟩)] ∧
      signalled_values s.finish_execution.calls =
        signalled_values s.calls ++ [s._q.semaphore_value + 1] ∧
      ∀ later : queue_context,
        s.finish_execution._q.semaphore_value ≤ later._q.semaphore_value →
        ∃ first second,
          signalled_values s.finish_execution.calls = signalled_values s.calls ++ [first] ∧
          signalled_values later.finish_execution.calls =
            signalled_values later.calls ++ [second] ∧
          first < second := by
  obtain ⟨hv, hc⟩ := finish_execution_spec s
  have hsig : ∀ t : queue_context, signalled_values t.finish_execution.calls =
      signalled_values t.calls ++ [t._q.semaphore_value + 1] := by
    intro t
    rw [(finish_execution_spec t).2]
    simp [signalled_values_append, signalled_values_map_finish, signalled_values]
  refine ⟨hv, ?_, hsig s, ?_⟩
  · rw [hc, hv]
    simp [submissions_append, submissions_map_finish, submissions]
  · intro later hle
    exact ⟨_, _, hsig s, hsig later, by omega⟩

/-- Witness for C5: on the sample queue the first `finish_execution` signals 1
and a second one, made right after it, signals 2. -/
theorem finish_execution_signals_next_value_witness :
    signalled_values example_context.finish_execution.calls = [1] ∧
      signalled_values example_context.finish_execution.finish_execution.calls = [1, 2] :=
  ⟨(finish_execution_signals_next_value example_context).2.2.1,
    (finish_execution_signals_next_value example_context.finish_execution).2.2.1⟩

/-! ## Pass state -/

theorem begin_pass_within_pass_aborts (ext : externals) (cmd : commands.begin_pass)
    (s : queue_context) (h : s._within_pass = true) :
    s._execute_begin_pass ext cmd = .aborted .crash_if s := by
  unfold queue_context._execute_begin_pass
  rw [h, crash_if_true, result.bind_aborted]

/-- C7: a `begin_pass` executed while the queue context is within a pass takes
the fatal path of the first `crash_if` and stops in the state it was called in:
nothing is added to the record of calls, so no frame buffer is created and no
backend `begin_pass` is recorded for it. -/
theorem begin_pass_within_pass_is_fatal (ext : externals) (cmd : commands.begin_pass)
    (s : queue_context) (h : s._within_pass = true) :
    s._execute_begin_pass ext cmd = .aborted .crash_if s ∧
      s._execute ext (.begin_pass cmd) = .aborted .crash_if s :=
  ⟨begin_pass_within_pass_aborts ext cmd s h, begin_pass_within_pass_aborts ext cmd s h⟩


/-- Witness for C7: after the first command of the sample queue, a `begin_pass`,
the context is within a pass and a second `begin_pass` is fatal. -/
theorem begin_pass_within_pass_is_fatal_witness :
    (example_context.start_execution.replay example_externals 1).state._within_pass = true ∧
      (example_context.start_execution.replay example_externals 1).state._execute_begin_pass
          example_externals example_begin_pass =
        .aborted .crash_if (example_context.start_execution.replay example_externals 1).state :=
  ⟨rfl, (begin_pass_within_pass_is_fatal example_externals example_begin_pass _ rfl).1⟩


/-! ## Executors that leave the pass state alone -/

theorem bind_descriptor_sets_from_pass_state (rsrc : pipeline_resources_info)
    (bind_point : descriptor_set_bind_point) (fuel i : Nat) (s : queue_context) :
    (queue_context._bind_descriptor_sets_from rsrc bind_point fuel i s).pass_state =
      s.pass_state := by
  induction fuel generalizing i s with
  | zero => rfl
  | succ fuel ih =>
    unfold queue_context._bind_descriptor_sets_from
    by_cases h : i < rsrc.descriptor_sets.length
    · simp only [h, if_true]
      rw [ih]
      cases bind_point <;> exact record_pass_state _ _
    · simp only [h, if_false]

theorem bind_descriptor_sets_pass_state (rsrc : pipeline_resources_info)
    (bind_point : descriptor_set_bind_point) (s : queue_context) :
    (s._bind_descriptor_sets rsrc bind_point).pass_state = s.pass_state :=
  bind_descriptor_sets_from_pass_state rsrc bind_point _ 0 s

theorem write_instance_descriptions_pass_state (input_buffer : Nat)
    (instances : List blas_instance) (i : Nat) (s : queue_context) :
    (write_instance_descriptions input_buffer instances i s).pass_state = s.pass_state := by
  induction instances generalizing i s with
  | nil => rfl
  | cons inst rest ih =>
    unfold write_instance_descriptions
    rw [ih]
    rfl

theorem get_graphics_pipeline_state_pass_state (key : cache_keys.graphics_pipeline)
    (s : queue_context) : (s.get_graphics_pipeline_state key).2.pass_state = s.pass_state := by
  unfold queue_context.get_graphics_pipeline_state
  dsimp only
  split <;> rfl

theorem execute_copy_buffer_pass_state (cmd : commands.copy_buffer) (s : queue_context) :
    (s._execute_copy_buffer cmd).state.pass_state = s.pass_state := by
  unfold queue_context._execute_copy_buffer
  dsimp only [result.state]
  exact record_pass_state _ _

theorem execute_copy_buffer_to_image_pass_state (ext : externals)
    (cmd : commands.copy_buffer_to_image) (s : queue_context) :
    (s._execute_copy_buffer_to_image ext cmd).state.pass_state = s.pass_state := by
  unfold queue_context._execute_copy_buffer_to_image
  dsimp only [result.state]
  exact record_pass_state _ _

theorem execute_build_blas_pass_state (ext : externals) (cmd : commands.build_blas)
    (s : queue_context) : (s._execute_build_blas ext cmd).state.pass_state = s.pass_state := by
  unfold queue_context._execute_build_blas
  dsimp only [result.state]
  rw [record_pass_state]
  rfl

theorem execute_build_tlas_pass_state (ext : externals) (cmd : commands.build_tlas)
    (s : queue_context) : (s._execute_build_tlas ext cmd).state.pass_state = s.pass_state := by
  unfold queue_context._execute_build_tlas
  dsimp only [result.state]
  rw [record_pass_state, emit_pass_state, emit_pass_state, write_instance_descriptions_pass_state]
  rfl

theorem execute_draw_instanced_pass_state (ext : externals) (cmd : commands.draw_instanced)
    (s : queue_context) :
    (s._execute_draw_instanced ext cmd).state.pass_state = s.pass_state := by
  unfold queue_context._execute_draw_instanced
  cases hw : s._within_pass with
  | false => rfl
  | true =>
    simp only [Bool.not_true, crash_if_false, result.bind_returned]
    cases cmd.index_buffer.data with
    | none =>
      dsimp only [result.state]
      rw [record_pass_state, record_pass_state, bind_descriptor_sets_pass_state,
        record_pass_state, get_graphics_pipeline_state_pass_state, emit_pass_state]
    | some data =>
      dsimp only [result.state]
      rw [record_pass_state, record_pass_state, record_pass_state,
        bind_descriptor_sets_pass_state, record_pass_state,
        get_graphics_pipeline_state_pass_state, emit_pass_state]

theorem execute_dispatch_compute_pass_state (ext : externals) (cmd : commands.dispatch_compute)
    (s : queue_context) :
    (s._execute_dispatch_compute ext cmd).state.pass_state = s.pass_state := by
  unfold queue_context._execute_dispatch_compute
  dsimp only [result.state]
  rw [emit_pass_state, bind_descriptor_sets_pass_state, emit_pass_state,
    get_command_list_pass_state]
  rfl

theorem execute_present_pass_state (ext : externals) (cmd : commands.present)
    (s : queue_context) : (s._execute_present ext cmd).state.pass_state = s.pass_state := by
  unfold queue_context._execute_present
  cases cmd.target.chain with
  | none => rfl
  | some chain =>
    dsimp only
    split
    · dsimp only [result.state]
      rw [emit_pass_state, emit_pass_state, flush_pass_state]
    · dsimp only [result.state]
      rw [emit_pass_state, flush_pass_state]

theorem execute_end_pass_returned {s s' : queue_context}
    (h : s._execute_end_pass = .returned () s') :
    s._within_pass = true ∧ s'.pass_state = (false, [], gpu.format.none) := by
  unfold queue_context._execute_end_pass at h
  obtain ⟨_, s1, h1, h2⟩ := result.bind_eq_returned h
  obtain ⟨hc, rfl⟩ := crash_if_eq_returned h1
  cases h2
  refine ⟨by simpa using hc, ?_⟩
  rw [record_pass_state]
  rfl

theorem begin_pass_color_render_targets_returned (ext : externals) (size : cvec2s)
    (targets : List image2d_color) (acc : List requested_view × List Nat) (s : queue_context)
    (h : ∀ rt ∈ targets, color_render_target_size ext rt = size) :
    ∃ views s',
      queue_context.begin_pass_color_render_targets ext size targets acc s =
        .returned (acc.1 ++ views, acc.2 ++ targets.map (fun rt => rt.access)) s' ∧
      s'._color_rt_formats =
        s._color_rt_formats ++ targets.map (color_render_target_format ext) ∧
      s'._within_pass = s._within_pass ∧
      s'._depth_stencil_rt_format = s._depth_stencil_rt_format := by
  induction targets generalizing acc s with
  | nil => exact ⟨[], s, by simp [queue_context.begin_pass_color_render_targets], by simp, rfl, rfl⟩
  | cons color_rt rest ih =>
    obtain ⟨color_rts, color_rt_access⟩ := acc
    have hhead := h color_rt (List.mem_cons_self _ _)
    have hrest : ∀ rt ∈ rest, color_render_target_size ext rt = size :=
      fun rt hrt => h rt (List.mem_cons_of_mem _ hrt)
    have step : ∀ (view : requested_view) (S : queue_context),
        S._color_rt_formats = s._color_rt_formats ++ [color_render_target_format ext color_rt] →
        S._within_pass = s._within_pass →
        S._depth_stencil_rt_format = s._depth_stencil_rt_format →
        ∃ views s',
          queue_context.begin_pass_color_render_targets ext size rest
              (color_rts ++ [view], color_rt_access ++ [color_rt.access]) S =
            .returned (color_rts ++ views,
              color_rt_access ++ (color_rt :: rest).map (fun rt => rt.access)) s' ∧
          s'._color_rt_formats = s._color_rt_formats ++
            (color_rt :: rest).map (color_render_target_format ext) ∧
          s'._within_pass = s._within_pass ∧
          s'._depth_stencil_rt_format = s._depth_stencil_rt_format := by
      intro view S h1 h2 h3
      obtain ⟨views, s', e, hf, hw, hd⟩ :=
        ih (color_rts ++ [view], color_rt_access ++ [color_rt.access]) S hrest
      refine ⟨view :: views, s', ?_, ?_, hw.trans h2, hd.trans h3⟩
      · rw [e]
        simp
      · rw [hf, h1]
        simp
    unfold queue_context.begin_pass_color_render_targets
    unfold color_render_target_size at hhead
    unfold color_render_target_format at step
    cases hv : color_rt.view with
    | image2d_view v =>
      rw [hv] at hhead step
      dsimp only at hhead step ⊢
      have hb : (ext.get_size (ext.highest_mip_with_warning v)._ptr.size
          (ext.highest_mip_with_warning v)._mip_levels.first_level != size) = false := by
        simp [hhead]
      rw [hb, crash_if_false, result.bind_returned]
      exact step _ _ rfl rfl rfl
    | swap_chain rt =>
      rw [hv] at hhead step
      dsimp only at hhead step ⊢
      have hb : (rt.current_size != size) = false := by simp [hhead]
      rw [hb, crash_if_false, result.bind_returned]
      exact step _ _ rfl rfl rfl

theorem begin_pass_color_render_targets_aborted (ext : externals) (size : cvec2s)
    (targets : List image2d_color) (acc : List requested_view × List Nat) (s : queue_context)
    (h : ∃ rt ∈ targets, color_render_target_size ext rt ≠ size) :
    (queue_context.begin_pass_color_render_targets ext size targets acc s).is_returned = false := by
  induction targets generalizing acc s with
  | nil => simp at h
  | cons color_rt rest ih =>
    obtain ⟨color_rts, color_rt_access⟩ := acc
    unfold queue_context.begin_pass_color_render_targets
    by_cases hhead : color_render_target_size ext color_rt = size
    · have hrest : ∃ rt ∈ rest, color_render_target_size ext rt ≠ size := by
        obtain ⟨rt, hrt, hne⟩ := h
        rcases List.mem_cons.mp hrt with rfl | hrt
        · exact absurd hhead hne
        · exact ⟨rt, hrt, hne⟩
      unfold color_render_target_size at hhead
      cases hv : color_rt.view with
      | image2d_view v =>
        rw [hv] at hhead
        dsimp only at hhead ⊢
        have hb : (ext.get_size (ext.highest_mip_with_warning v)._ptr.size
            (ext.highest_mip_with_warning v)._mip_levels.first_level != size) = false := by
          simp [hhead]
        rw [hb, crash_if_false, result.bind_returned]
        exact ih _ _ hrest
      | swap_chain rt =>
        rw [hv] at hhead
        dsimp only at hhead ⊢
        have hb : (rt.current_size != size) = false := by simp [hhead]
        rw [hb, crash_if_false, result.bind_returned]
        exact ih _ _ hrest
    · unfold color_render_target_size at hhead
      cases hv : color_rt.view with
      | image2d_view v =>
        rw [hv] at hhead
        dsimp only at hhead ⊢
        have hb : (ext.get_size (ext.highest_mip_with_warning v)._ptr.size
            (ext.highest_mip_with_warning v)._mip_levels.first_level != size) = true := by
          simp [hhead]
        rw [hb, crash_if_true, result.bind_aborted]
        rfl
      | swap_chain rt =>
        rw [hv] at hhead
        dsimp only at hhead ⊢
        have hb : (rt.current_size != size) = true := by simp [hhead]
        rw [hb, crash_if_true, result.bind_aborted]
        rfl


theorem record_within_pass (s : queue_context) (f : Nat → event) :
    (s.record f)._within_pass = s._within_pass :=
  congrArg Prod.fst (record_pass_state s f)

theorem record_color_rt_formats (s : queue_context) (f : Nat → event) :
    (s.record f)._color_rt_formats = s._color_rt_formats :=
  congrArg (fun p => p.2.1) (record_pass_state s f)

theorem begin_pass_depth_render_target_spec (ext : externals) (cmd : commands.begin_pass)
    (s : queue_context) :
    ((∀ v, cmd.depth_stencil_target.view = some v →
        depth_render_target_size ext v = cmd.render_target_size) →
      ∃ depth_view s', s.begin_pass_depth_render_target ext cmd = .returned depth_view s' ∧
        s'._within_pass = s._within_pass ∧ s'._color_rt_formats = s._color_rt_formats) ∧
    ((∃ v, cmd.depth_stencil_target.view = some v ∧
        depth_render_target_size ext v ≠ cmd.render_target_size) →
      (s.begin_pass_depth_render_target ext cmd).is_returned = false) := by
  unfold queue_context.begin_pass_depth_render_target depth_render_target_size
  cases cmd.depth_stencil_target.view with
  | none =>
    constructor
    · intro _
      exact ⟨none, s, rfl, rfl, rfl⟩
    · rintro ⟨v, hv, -⟩
      cases hv
  | some view =>
    dsimp only
    constructor
    · intro h
      have hb : (ext.get_size (ext.highest_mip_with_warning view)._ptr.size
          (ext.highest_mip_with_warning view)._mip_levels.first_level !=
            cmd.render_target_size) = false := by
        simp [h view rfl]
      rw [hb, crash_if_false, result.bind_returned]
      exact ⟨_, _, rfl, rfl, rfl⟩
    · rintro ⟨v, hv, hne⟩
      cases hv
      have hb : (ext.get_size (ext.highest_mip_with_warning view)._ptr.size
          (ext.highest_mip_with_warning view)._mip_levels.first_level !=
            cmd.render_target_size) = true := by
        simp [hne]
      rw [hb, crash_if_true, result.bind_aborted]
      rfl

/-- What `begin_pass` does when called outside a pass with the pass-specific
members reset. -/
theorem execute_begin_pass_spec (ext : externals) (cmd : commands.begin_pass)
    (s : queue_context) (hw : s._within_pass = false) (hf : s._color_rt_formats = [])
    (hd : s._depth_stencil_rt_format = gpu.format.none) :
    ((∀ size ∈ render_target_sizes ext cmd, size = cmd.render_target_size) →
      ∃ s', s._execute_begin_pass ext cmd = .returned () s' ∧ s'._within_pass = true ∧
        s'._color_rt_formats =
          cmd.color_render_targets.map (color_render_target_format ext)) ∧
    ((∃ size ∈ render_target_sizes ext cmd, size ≠ cmd.render_target_size) →
      (s._execute_begin_pass ext cmd).is_returned = false) := by
  have hcheck : (!s._color_rt_formats.isEmpty ||
      s._depth_stencil_rt_format != gpu.format.none) = false := by
    simp [hf, hd]
  unfold queue_context._execute_begin_pass
  rw [hw, crash_if_false, result.bind_returned, hcheck, crash_if_false, result.bind_returned]
  dsimp only
  constructor
  · intro hall
    have hcolor : ∀ rt ∈ cmd.color_render_targets,
        color_render_target_size ext rt = cmd.render_target_size := by
      intro rt hrt
      apply hall
      simp only [render_target_sizes, List.mem_append, List.mem_map]
      exact Or.inl ⟨rt, hrt, rfl⟩
    obtain ⟨views, s3, e3, f3, w3, -⟩ := begin_pass_color_render_targets_returned ext
      cmd.render_target_size cmd.color_render_targets ([], []) { s with _within_pass := true }
      hcolor
    rw [e3, result.bind_returned]
    dsimp only
    have hlen : (s3._color_rt_formats.length !=
        (([] : List Nat) ++ cmd.color_render_targets.map (fun rt => rt.access)).length) = false := by
      rw [f3, hf]
      simp
    rw [hlen, crash_if_false, result.bind_returned]
    have hdepth : ∀ v, cmd.depth_stencil_target.view = some v →
        depth_render_target_size ext v = cmd.render_target_size := by
      intro v hv
      apply hall
      simp [render_target_sizes, hv]
    obtain ⟨depth_view, s5, e5, w5, f5⟩ :=
      (begin_pass_depth_render_target_spec ext cmd s3).1 hdepth
    rw [e5, result.bind_returned]
    refine ⟨_, rfl, ?_, ?_⟩
    · refine (record_within_pass _ _).trans ?_
      exact w5.trans w3
    · refine (record_color_rt_formats _ _).trans ?_
      refine f5.trans (f3.trans ?_)
      rw [hf]
      rfl
  · rintro ⟨size, hmem, hne⟩
    simp only [render_target_sizes, List.mem_append, List.mem_map] at hmem
    by_cases hcolor : ∀ rt ∈ cmd.color_render_targets,
        color_render_target_size ext rt = cmd.render_target_size
    · rcases hmem with ⟨rt, hrt, rfl⟩ | hmem
      · exact absurd (hcolor rt hrt) hne
      · obtain ⟨views, s3, e3, f3, w3, -⟩ := begin_pass_color_render_targets_returned ext
          cmd.render_target_size cmd.color_render_targets ([], [])
          { s with _within_pass := true } hcolor
        rw [e3, result.bind_returned]
        dsimp only
        have hlen : (s3._color_rt_formats.length !=
            (([] : List Nat) ++ cmd.color_render_targets.map (fun rt => rt.access)).length) =
              false := by
          rw [f3, hf]
          simp
        rw [hlen, crash_if_false, result.bind_returned]
        have hdepth : ∃ v, cmd.depth_stencil_target.view = some v ∧
            depth_render_target_size ext v ≠ cmd.render_target_size := by
          cases hv : cmd.depth_stencil_target.view with
          | none => simp [hv] at hmem
          | some v =>
            simp only [hv, Option.map_some', Option.toList_some, List.mem_singleton] at hmem
            exact ⟨v, rfl, hmem ▸ hne⟩
        have := (begin_pass_depth_render_target_spec ext cmd s3).2 hdepth
        cases hr : s3.begin_pass_depth_render_target ext cmd with
        | returned a s5 => rw [hr] at this; cases this
        | aborted why s5 => rfl
    · have hex : ∃ rt ∈ cmd.color_render_targets,
          color_render_target_size ext rt ≠ cmd.render_target_size := by
        by_contra hno
        apply hcolor
        intro rt hrt
        by_contra hne'
        exact hno ⟨rt, hrt, hne'⟩
      have := begin_pass_color_render_targets_aborted ext cmd.render_target_size
        cmd.color_render_targets ([], []) { s with _within_pass := true } hex
      cases hr : queue_context.begin_pass_color_render_targets ext cmd.render_target_size
          cmd.color_render_targets ([], []) { s with _within_pass := true } with
      | returned a s3 => rw [hr] at this; cases this
      | aborted why s3 => rfl


theorem start_execution_pass_state (s : queue_context) :
    s.start_execution.pass_state = s.pass_state := by
  unfold queue_context.start_execution
  dsimp only
  split <;> rfl

theorem finish_execution_pass_state (s : queue_context) :
    s.finish_execution.pass_state = s.pass_state := by
  unfold queue_context.finish_execution
  dsimp only
  exact (flush_pass_state _ _ _).trans rfl

theorem pass_state_of_returned {r : result Unit} {s s' : queue_context}
    (h : r.state.pass_state = s.pass_state) (hr : r = .returned () s') :
    s'.pass_state = s.pass_state := by
  subst hr
  exact h

theorem pass_state_reset_of_eq {s s' : queue_context} (e : s'.pass_state = s.pass_state)
    (ih : s._within_pass = false → s.pass_state = (false, [], gpu.format.none)) :
    s'._within_pass = false → s'.pass_state = (false, [], gpu.format.none) := by
  intro hw
  rw [e]
  apply ih
  exact (congrArg Prod.fst e).symm.trans hw

/-- Outside a pass the pass-specific members are reset, in every reachable state. -/
theorem reachable_pass_state_reset (ext : externals) {s : queue_context}
    (h : s.reachable ext) :
    s._within_pass = false → s.pass_state = (false, [], gpu.format.none) := by
  induction h with
  | constructed q it bt ts acq rel => intro _; rfl
  | start_execution _ ih => exact pass_state_reset_of_eq (start_execution_pass_state _) ih
  | finish_execution _ ih => exact pass_state_reset_of_eq (finish_execution_pass_state _) ih
  | insert_timestamp _ hstep ih =>
    exact pass_state_reset_of_eq (insert_timestamp_returned hstep).2.2 ih
  | acquire_dependencies _ hstep ih =>
    exact pass_state_reset_of_eq (acquire_dependencies_returned hstep).2.2 ih
  | handle_transitions _ hstep ih =>
    exact pass_state_reset_of_eq (handle_transitions_returned hstep).2.2 ih
  | visit cmd _ ih => exact pass_state_reset_of_eq (emit_pass_state _ _) ih
  | @execute s0 s1 value _ hstep ih =>
    have keep : (s0._execute ext value).state.pass_state = s0.pass_state →
        s1._within_pass = false → s1.pass_state = (false, [], gpu.format.none) :=
      fun e => pass_state_reset_of_eq (pass_state_of_returned e hstep) ih
    cases value with
    | copy_buffer c => exact keep (execute_copy_buffer_pass_state c s0)
    | copy_buffer_to_image c => exact keep (execute_copy_buffer_to_image_pass_state ext c s0)
    | build_blas c => exact keep (execute_build_blas_pass_state ext c s0)
    | build_tlas c => exact keep (execute_build_tlas_pass_state ext c s0)
    | draw_instanced c => exact keep (execute_draw_instanced_pass_state ext c s0)
    | dispatch_compute c => exact keep (execute_dispatch_compute_pass_state ext c s0)
    | present c => exact keep (execute_present_pass_state ext c s0)
    | trace_rays => cases hstep
    | end_pass => exact fun _ => (execute_end_pass_returned hstep).2
    | begin_pass c =>
      intro hw
      exfalso
      have hstep' : s0._execute_begin_pass ext c = .returned () s1 := hstep
      cases hw0 : s0._within_pass with
      | true =>
        rw [begin_pass_within_pass_aborts ext c s0 hw0] at hstep'
        cases hstep'
      | false =>
        have hclean := ih hw0
        have hf : s0._color_rt_formats = [] := congrArg (fun p => p.2.1) hclean
        have hd : s0._depth_stencil_rt_format = gpu.format.none :=
          congrArg (fun p => p.2.2) hclean
        obtain ⟨hret, habort⟩ := execute_begin_pass_spec ext c s0 hw0 hf hd
        by_cases hall : ∀ size ∈ render_target_sizes ext c, size = c.render_target_size
        · obtain ⟨s', e', w', -⟩ := hret hall
          rw [e'] at hstep'
          cases hstep'
          rw [w'] at hw
          cases hw
        · have : ∃ size ∈ render_target_sizes ext c, size ≠ c.render_target_size := by
            by_contra hno
            apply hall
            intro size hsize
            by_contra hne
            exact hno ⟨size, hsize, hne⟩
          have := habort this
          rw [hstep'] at this
          cases this
  | release_dependencies _ ih =>
    exact pass_state_reset_of_eq (release_dependencies_spec _).2.2 ih
  | next _ ih => exact ih

/-- C8: for a `begin_pass` executed in a reachable state that is not within a
pass, the executor fails to return if and only if some render target's size
differs from `cmd.render_target_size` (image colour targets and the
depth-stencil target measured by `mipmap::get_size` at the first mip level of
the view, swap-chain colour targets by their current size); when all sizes match
it returns within a pass, with one colour format per colour target, in target
order. -/
theorem begin_pass_aborts_iff_size_mismatch (ext : externals) (cmd : commands.begin_pass)
    (s : queue_context) (hr : s.reachable ext) (hw : s._within_pass = false) :
    ((s._execute_begin_pass ext cmd).is_returned = false ↔
        ∃ size ∈ render_target_sizes ext cmd, size ≠ cmd.render_target_size) ∧
      ((∀ size ∈ render_target_sizes ext cmd, size = cmd.render_target_size) →
        ∃ s', s._execute_begin_pass ext cmd = .returned () s' ∧ s'._within_pass = true ∧
          s'._color_rt_formats =
            cmd.color_render_targets.map (color_render_target_format ext)) := by
  have hclean := reachable_pass_state_reset ext hr hw
  have hf : s._color_rt_formats = [] := congrArg (fun p => p.2.1) hclean
  have hd : s._depth_stencil_rt_format = gpu.format.none := congrArg (fun p => p.2.2) hclean
  obtain ⟨hret, habort⟩ := execute_begin_pass_spec ext cmd s hw hf hd
  refine ⟨⟨?_, habort⟩, hret⟩
  intro hnot
  by_contra hno
  have hall : ∀ size ∈ render_target_sizes ext cmd, size = cmd.render_target_size := by
    intro size hsize
    by_contra hne
    exact hno ⟨size, hsize, hne⟩
  obtain ⟨s', e', -, -⟩ := hret hall
  rw [e'] at hnot
  cases hnot


theorem example_context_reachable (ext : externals) :
    example_context.start_execution.reachable ext :=
  .start_execution (.constructed example_queue [[⟨1, ⟨0, 1⟩, 0, 1⟩], [], [], [], []]
    [[⟨1, 0, 1⟩], [], [], [], []] [0, 3] [⟨1, 1, 5⟩, ⟨1, 1, 6⟩] [⟨0, 2, 1⟩])

/-- Witness for C8: the sample context after `start_execution` is reachable and
outside a pass; its 4x4 pass over a 4x4 image and a 4x4 swap chain returns
within a pass with the two formats in target order. -/
theorem begin_pass_aborts_iff_size_mismatch_witness :
    example_context.start_execution.reachable example_externals ∧
      example_context.start_execution._within_pass = false ∧
      ∃ s', example_context.start_execution._execute_begin_pass example_externals
          example_begin_pass = .returned () s' ∧ s'._within_pass = true ∧
        s'._color_rt_formats = [5, 6] :=
  ⟨example_context_reachable example_externals, rfl,
    (begin_pass_aborts_iff_size_mismatch example_externals example_begin_pass _
      (example_context_reachable example_externals) rfl).2 (by decide)⟩


/-! ## The pipeline cache -/

theorem cache_kept_of_eq {s t : queue_context} (h : t._q.ctx._cache = s._q.ctx._cache) :
    s.cache_kept t := by
  intro key pipeline hk
  rw [h]
  exact hk

theorem cache_kept_trans {s t u : queue_context} (h1 : s.cache_kept t) (h2 : t.cache_kept u) :
    s.cache_kept u :=
  fun key pipeline hk => h2 key pipeline (h1 key pipeline hk)

theorem cache_of_returned {r : result Unit} {s s' : queue_context}
    (h : r.state._q.ctx._cache = s._q.ctx._cache) (hr : r = .returned () s') :
    s'._q.ctx._cache = s._q.ctx._cache := by
  subst hr
  exact h

theorem bind_descriptor_sets_from_cache (rsrc : pipeline_resources_info)
    (bind_point : descriptor_set_bind_point) (fuel i : Nat) (s : queue_context) :
    (queue_context._bind_descriptor_sets_from rsrc bind_point fuel i s)._q.ctx._cache =
      s._q.ctx._cache := by
  induction fuel generalizing i s with
  | zero => rfl
  | succ fuel ih =>
    unfold queue_context._bind_descriptor_sets_from
    by_cases h : i < rsrc.descriptor_sets.length
    · simp only [h, if_true]
      rw [ih]
      cases bind_point <;> exact record_cache _ _
    · simp only [h, if_false]

theorem bind_descriptor_sets_cache (rsrc : pipeline_resources_info)
    (bind_point : descriptor_set_bind_point) (s : queue_context) :
    (s._bind_descriptor_sets rsrc bind_point)._q.ctx._cache = s._q.ctx._cache :=
  bind_descriptor_sets_from_cache rsrc bind_point _ 0 s

theorem write_instance_descriptions_cache (input_buffer : Nat)
    (instances : List blas_instance) (i : Nat) (s : queue_context) :
    (write_instance_descriptions input_buffer instances i s)._q.ctx._cache =
      s._q.ctx._cache := by
  induction instances generalizing i s with
  | nil => rfl
  | cons inst rest ih =>
    unfold write_instance_descriptions
    rw [ih]
    rfl

theorem execute_copy_buffer_cache (cmd : commands.copy_buffer) (s : queue_context) :
    (s._execute_copy_buffer cmd).state._q.ctx._cache = s._q.ctx._cache := by
  unfold queue_context._execute_copy_buffer
  dsimp only [result.state]
  exact record_cache _ _

theorem execute_copy_buffer_to_image_cache (ext : externals)
    (cmd : commands.copy_buffer_to_image) (s : queue_context) :
    (s._execute_copy_buffer_to_image ext cmd).state._q.ctx._cache = s._q.ctx._cache := by
  unfold queue_context._execute_copy_buffer_to_image
  dsimp only [result.state]
  exact record_cache _ _

theorem execute_build_blas_cache (ext : externals) (cmd : commands.build_blas)
    (s : queue_context) :
    (s._execute_build_blas ext cmd).state._q.ctx._cache = s._q.ctx._cache := by
  unfold queue_context._execute_build_blas
  dsimp only [result.state]
  rw [record_cache]
  rfl

theorem execute_build_tlas_cache (ext : externals) (cmd : commands.build_tlas)
    (s : queue_context) :
    (s._execute_build_tlas ext cmd).state._q.ctx._cache = s._q.ctx._cache := by
  unfold queue_context._execute_build_tlas
  dsimp only [result.state]
  rw [record_cache, emit_cache, emit_cache, write_instance_descriptions_cache]
  rfl

theorem execute_dispatch_compute_cache (ext : externals) (cmd : commands.dispatch_compute)
    (s : queue_context) :
    (s._execute_dispatch_compute ext cmd).state._q.ctx._cache = s._q.ctx._cache := by
  unfold queue_context._execute_dispatch_compute
  dsimp only [result.state]
  rw [emit_cache, bind_descriptor_sets_cache, emit_cache, get_command_list_cache]
  rfl

theorem execute_present_cache (ext : externals) (cmd : commands.present)
    (s : queue_context) :
    (s._execute_present ext cmd).state._q.ctx._cache = s._q.ctx._cache := by
  unfold queue_context._execute_present
  cases cmd.target.chain with
  | none => rfl
  | some chain =>
    dsimp only
    split
    · dsimp only [result.state]
      rw [emit_cache, emit_cache, flush_cache]
    · dsimp only [result.state]
      rw [emit_cache, flush_cache]

theorem insert_timestamp_cache {s s1 : queue_context}
    (h : s.insert_timestamp = .returned () s1) : s1._q.ctx._cache = s._q.ctx._cache := by
  unfold queue_context.insert_timestamp at h
  split at h
  · split at h
    · dsimp only at h
      split at h
      · cases h
        exact get_command_list_cache s
      · cases h
    · cases h
      rfl
  · cases h
    rfl

theorem acquire_dependencies_cache {s s1 : queue_context}
    (h : s.acquire_dependencies = .returned () s1) : s1._q.ctx._cache = s._q.ctx._cache := by
  unfold queue_context.acquire_dependencies at h
  split at h
  · dsimp only at h
    split at h
    · cases h
      exact (flush_cache _ _ _).trans rfl
    · cases h
      rfl
  · cases h

theorem handle_transitions_cache {s s1 : queue_context}
    (h : s.handle_transitions = .returned () s1) : s1._q.ctx._cache = s._q.ctx._cache := by
  unfold queue_context.handle_transitions at h
  split at h
  · split at h
    · cases h
      exact record_cache _ _
    · cases h
      rfl
  · cases h

theorem release_dependencies_cache (s : queue_context) :
    s.release_dependencies._q.ctx._cache = s._q.ctx._cache := by
  unfold queue_context.release_dependencies
  dsimp only
  split
  · exact (flush_cache _ _ _).trans rfl
  · rfl

theorem get_graphics_pipeline_state_hit (key : cache_keys.graphics_pipeline)
    (s : queue_context) (pipeline : Nat) (h : s._q.ctx._cache.lookup key = some pipeline) :
    s.get_graphics_pipeline_state key = (pipeline, s.emit (.get_graphics_pipeline_state key)) := by
  unfold queue_context.get_graphics_pipeline_state
  dsimp only
  rw [emit_cache, h]

theorem get_graphics_pipeline_state_miss (key : cache_keys.graphics_pipeline)
    (s : queue_context) (h : s._q.ctx._cache.lookup key = none) :
    (s.get_graphics_pipeline_state key).2.calls =
        s.calls ++ [.get_graphics_pipeline_state key,
          .create_graphics_pipeline_state key s.objects] ∧
      (s.get_graphics_pipeline_state key).2._q.ctx._cache =
        (key, s.objects) :: s._q.ctx._cache := by
  unfold queue_context.get_graphics_pipeline_state
  dsimp only
  rw [emit_cache, h]
  simp [queue_context.emit]

theorem get_graphics_pipeline_state_cached (key : cache_keys.graphics_pipeline)
    (s : queue_context) :
    ∃ pipeline, (s.get_graphics_pipeline_state key).2._q.ctx._cache.lookup key = some pipeline := by
  cases h : s._q.ctx._cache.lookup key with
  | some pipeline =>
    rw [get_graphics_pipeline_state_hit key s pipeline h]
    exact ⟨pipeline, h⟩
  | none =>
    rw [(get_graphics_pipeline_state_miss key s h).2]
    exact ⟨s.objects, by simp [List.lookup]⟩

theorem get_graphics_pipeline_state_cache_kept (key : cache_keys.graphics_pipeline)
    (s : queue_context) : s.cache_kept (s.get_graphics_pipeline_state key).2 := by
  cases h : s._q.ctx._cache.lookup key with
  | some pipeline =>
    rw [get_graphics_pipeline_state_hit key s pipeline h]
    exact cache_kept_of_eq rfl
  | none =>
    intro key' pipeline' hk
    rw [(get_graphics_pipeline_state_miss key s h).2]
    have hne : (key' == key) = false := by
      rw [beq_eq_false_iff_ne]
      rintro rfl
      rw [h] at hk
      cases hk
    simp [List.lookup, hne, hk]


theorem created_pipelines_append (a b : List event) :
    created_pipelines (a ++ b) = created_pipelines a ++ created_pipelines b := by
  induction a with
  | nil => rfl
  | cons e a ih => cases e <;> simp [created_pipelines, ih]

theorem get_command_list_created (s : queue_context) :
    created_pipelines s._get_command_list.2.calls = created_pipelines s.calls := by
  unfold queue_context._get_command_list
  cases s._list <;> cases s._cmd_alloc <;>
    simp [created_pipelines, queue_context.emit, created_pipelines_append]

theorem record_created (s : queue_context) (f : Nat → event)
    (h : ∀ list, created_pipelines [f list] = []) :
    created_pipelines (s.record f).calls = created_pipelines s.calls := by
  rw [record_eq, emit_calls, created_pipelines_append, h, get_command_list_created,
    List.append_nil]

theorem bind_descriptor_sets_from_created (rsrc : pipeline_resources_info)
    (bind_point : descriptor_set_bind_point) (fuel i : Nat) (s : queue_context) :
    created_pipelines (queue_context._bind_descriptor_sets_from rsrc bind_point fuel i s).calls =
      created_pipelines s.calls := by
  induction fuel generalizing i s with
  | zero => rfl
  | succ fuel ih =>
    unfold queue_context._bind_descriptor_sets_from
    by_cases h : i < rsrc.descriptor_sets.length
    · simp only [h, if_true]
      rw [ih]
      cases bind_point <;> exact record_created _ _ (by intro _; rfl)
    · simp only [h, if_false]

theorem bind_descriptor_sets_created (rsrc : pipeline_resources_info)
    (bind_point : descriptor_set_bind_point) (s : queue_context) :
    created_pipelines (s._bind_descriptor_sets rsrc bind_point).calls =
      created_pipelines s.calls :=
  bind_descriptor_sets_from_created rsrc bind_point _ 0 s

theorem get_graphics_pipeline_state_created (key : cache_keys.graphics_pipeline)
    (s : queue_context) :
    created_pipelines (s.get_graphics_pipeline_state key).2.calls =
      created_pipelines s.calls ++
        (match s._q.ctx._cache.lookup key with
          | some _ => []
          | none => [(key, s.objects)]) := by
  cases h : s._q.ctx._cache.lookup key with
  | some pipeline =>
    rw [get_graphics_pipeline_state_hit key s pipeline h]
    simp [emit_calls, created_pipelines_append, created_pipelines]
  | none =>
    rw [(get_graphics_pipeline_state_miss key s h).1]
    simp [created_pipelines_append, created_pipelines]

/-- What a returning `draw_instanced` does to the pipeline cache: it is called
within a pass, its key is cached afterwards, no other entry is lost, and the
backend creates a pipeline exactly when the key was not cached before. -/
theorem execute_draw_instanced_returned {ext : externals} {cmd : commands.draw_instanced}
    {s s1 : queue_context} (h : s._execute_draw_instanced ext cmd = .returned () s1) :
    s._within_pass = true ∧
      (∃ pipeline, s1._q.ctx._cache.lookup
        (s.build_pipeline_key (ext.use_pipeline_resources s.calls cmd.resource_bindings) cmd) =
          some pipeline) ∧
      s.cache_kept s1 ∧
      created_pipelines s1.calls = created_pipelines s.calls ++
        (match s._q.ctx._cache.lookup
            (s.build_pipeline_key (ext.use_pipeline_resources s.calls cmd.resource_bindings) cmd)
          with
          | some _ => []
          | none => [(s.build_pipeline_key
              (ext.use_pipeline_resources s.calls cmd.resource_bindings) cmd, s.objects)]) := by
  unfold queue_context._execute_draw_instanced at h
  obtain ⟨_, s0, h0, h'⟩ := result.bind_eq_returned h
  clear h
  obtain ⟨hc, rfl⟩ := crash_if_eq_returned h0
  clear h0
  have hw : s0._within_pass = true := by simpa using hc
  have hcached := get_graphics_pipeline_state_cached
    (s0.build_pipeline_key (ext.use_pipeline_resources s0.calls cmd.resource_bindings) cmd)
    (s0.emit (.use_pipeline_resources cmd.resource_bindings))
  have hkept := get_graphics_pipeline_state_cache_kept
    (s0.build_pipeline_key (ext.use_pipeline_resources s0.calls cmd.resource_bindings) cmd)
    (s0.emit (.use_pipeline_resources cmd.resource_bindings))
  have hcreated := get_graphics_pipeline_state_created
    (s0.build_pipeline_key (ext.use_pipeline_resources s0.calls cmd.resource_bindings) cmd)
    (s0.emit (.use_pipeline_resources cmd.resource_bindings))
  rw [emit_cache, emit_calls, created_pipelines_append] at hcreated
  simp only [created_pipelines, List.append_nil] at hcreated
  dsimp only at h'
  cases hd : cmd.index_buffer.data with
  | none =>
    rw [hd] at h'
    cases h'
    refine ⟨hw, ?_, ?_, ?_⟩
    · rw [record_cache, record_cache, bind_descriptor_sets_cache, record_cache]
      exact hcached
    · refine cache_kept_trans hkept (cache_kept_of_eq ?_)
      rw [record_cache, record_cache, bind_descriptor_sets_cache, record_cache]
      rfl
    · rw [record_created _ _ (by intro _; rfl), record_created _ _ (by intro _; rfl),
        bind_descriptor_sets_created, record_created _ _ (by intro _; rfl)]
      exact hcreated
  | some data =>
    rw [hd] at h'
    cases h'
    refine ⟨hw, ?_, ?_, ?_⟩
    · rw [record_cache, record_cache, record_cache, bind_descriptor_sets_cache, record_cache]
      exact hcached
    · refine cache_kept_trans hkept (cache_kept_of_eq ?_)
      rw [record_cache, record_cache, record_cache, bind_descriptor_sets_cache, record_cache]
      rfl
    · rw [record_created _ _ (by intro _; rfl), record_created _ _ (by intro _; rfl),
        record_created _ _ (by intro _; rfl), bind_descriptor_sets_created,
        record_created _ _ (by intro _; rfl)]
      exact hcreated

/-- Staying in the pass keeps the pass state and every cache entry. -/
theorem stays_in_pass_spec {ext : externals} {s t : queue_context}
    (h : s.stays_in_pass ext t) : t.pass_state = s.pass_state ∧ s.cache_kept t := by
  induction h with
  | refl => exact ⟨rfl, cache_kept_of_eq rfl⟩
  | insert_timestamp _ hstep ih =>
    exact ⟨(insert_timestamp_returned hstep).2.2.trans ih.1,
      cache_kept_trans ih.2 (cache_kept_of_eq (insert_timestamp_cache hstep))⟩
  | acquire_dependencies _ hstep ih =>
    exact ⟨(acquire_dependencies_returned hstep).2.2.trans ih.1,
      cache_kept_trans ih.2 (cache_kept_of_eq (acquire_dependencies_cache hstep))⟩
  | handle_transitions _ hstep ih =>
    exact ⟨(handle_transitions_returned hstep).2.2.trans ih.1,
      cache_kept_trans ih.2 (cache_kept_of_eq (handle_transitions_cache hstep))⟩
  | visit cmd _ ih => exact ih
  | @execute t0 u value _ hb he hstep ih =>
    have keep : (t0._execute ext value).state.pass_state = t0.pass_state →
        (t0._execute ext value).state._q.ctx._cache = t0._q.ctx._cache →
        u.pass_state = s.pass_state ∧ s.cache_kept u :=
      fun e1 e2 => ⟨(pass_state_of_returned e1 hstep).trans ih.1,
        cache_kept_trans ih.2 (cache_kept_of_eq (cache_of_returned e2 hstep))⟩
    cases value with
    | copy_buffer c =>
      exact keep (execute_copy_buffer_pass_state c t0) (execute_copy_buffer_cache c t0)
    | copy_buffer_to_image c =>
      exact keep (execute_copy_buffer_to_image_pass_state ext c t0)
        (execute_copy_buffer_to_image_cache ext c t0)
    | build_blas c =>
      exact keep (execute_build_blas_pass_state ext c t0) (execute_build_blas_cache ext c t0)
    | build_tlas c =>
      exact keep (execute_build_tlas_pass_state ext c t0) (execute_build_tlas_cache ext c t0)
    | dispatch_compute c =>
      exact keep (execute_dispatch_compute_pass_state ext c t0)
        (execute_dispatch_compute_cache ext c t0)
    | present c =>
      exact keep (execute_present_pass_state ext c t0) (execute_present_cache ext c t0)
    | trace_rays => cases hstep
    | end_pass => exact absurd rfl he
    | begin_pass c => exact absurd rfl (hb c)
    | draw_instanced c =>
      have hstep' : t0._execute_draw_instanced ext c = .returned () u := hstep
      exact ⟨(pass_state_of_returned (execute_draw_instanced_pass_state ext c t0) hstep').trans
        ih.1, cache_kept_trans ih.2 (execute_draw_instanced_returned hstep').2.2.1⟩
  | release_dependencies _ ih =>
    exact ⟨(release_dependencies_spec _).2.2.trans ih.1,
      cache_kept_trans ih.2 (cache_kept_of_eq (release_dependencies_cache _))⟩
  | next _ ih => exact ih


theorem get_graphics_pipeline_state_cache (key : cache_keys.graphics_pipeline)
    (s : queue_context) :
    (s.get_graphics_pipeline_state key).2._q.ctx._cache =
      (match s._q.ctx._cache.lookup key with
        | some _ => s._q.ctx._cache
        | none => (key, s.objects) :: s._q.ctx._cache) := by
  cases h : s._q.ctx._cache.lookup key with
  | some pipeline =>
    rw [get_graphics_pipeline_state_hit key s pipeline h]
    rfl
  | none => exact (get_graphics_pipeline_state_miss key s h).2

/-- The cache after a returning `draw_instanced`: the cache before it, with the
draw's key added if it was missing. -/
theorem execute_draw_instanced_cache {ext : externals} {cmd : commands.draw_instanced}
    {s s1 : queue_context} (h : s._execute_draw_instanced ext cmd = .returned () s1) :
    s1._q.ctx._cache =
      (match s._q.ctx._cache.lookup
          (s.build_pipeline_key (ext.use_pipeline_resources s.calls cmd.resource_bindings) cmd)
        with
        | some _ => s._q.ctx._cache
        | none => (s.build_pipeline_key
            (ext.use_pipeline_resources s.calls cmd.resource_bindings) cmd, s.objects) ::
              s._q.ctx._cache) := by
  unfold queue_context._execute_draw_instanced at h
  obtain ⟨_, s0, h0, h'⟩ := result.bind_eq_returned h
  clear h
  obtain ⟨hc, rfl⟩ := crash_if_eq_returned h0
  clear h0
  have hcache := get_graphics_pipeline_state_cache
    (s0.build_pipeline_key (ext.use_pipeline_resources s0.calls cmd.resource_bindings) cmd)
    (s0.emit (.use_pipeline_resources cmd.resource_bindings))
  rw [emit_cache] at hcache
  dsimp only at h'
  cases hd : cmd.index_buffer.data with
  | none =>
    rw [hd] at h'
    cases h'
    rw [record_cache, record_cache, bind_descriptor_sets_cache, record_cache]
    exact hcache
  | some data =>
    rw [hd] at h'
    cases h'
    rw [record_cache, record_cache, record_cache, bind_descriptor_sets_cache, record_cache]
    exact hcache

theorem build_pipeline_key_eq (s t : queue_context) (r1 r2 : pipeline_resources_info)
    (c1 c2 : commands.draw_instanced) (hpass : t.pass_state = s.pass_state)
    (hrsrc : r1.pipeline_resources_key = r2.pipeline_resources_key)
    (hin : c1.inputs.map pipeline_input_layout = c2.inputs.map pipeline_input_layout)
    (hvs : c1.vertex_shader = c2.vertex_shader) (hps : c1.pixel_shader = c2.pixel_shader)
    (hstate : c1.state = c2.state) (htop : c1.topology = c2.topology) :
    s.build_pipeline_key r1 c1 = t.build_pipeline_key r2 c2 := by
  have hf : t._color_rt_formats = s._color_rt_formats := congrArg (fun p => p.2.1) hpass
  have hd : t._depth_stencil_rt_format = s._depth_stencil_rt_format :=
    congrArg (fun p => p.2.2) hpass
  unfold queue_context.build_pipeline_key
  rw [hrsrc, hin, hvs, hps, hstate, htop, hf, hd]

/-- C9: two `draw_instanced` commands executed in the same pass with equal
vertex shader, pixel shader, pipeline state, topology, input-buffer layouts
(elements, stride, buffer index, input rate) and pipeline-resources key build
equal pipeline keys; the later draw finds the key in the cache, so the backend
creates no pipeline for it, and the earlier draw creates at most one. -/
theorem equal_draws_share_one_pipeline (ext : externals) (s s1 t t1 : queue_context)
    (c1 c2 : commands.draw_instanced)
    (h1 : s._execute_draw_instanced ext c1 = .returned () s1)
    (hbetween : s1.stays_in_pass ext t)
    (h2 : t._execute_draw_instanced ext c2 = .returned () t1)
    (hvs : c1.vertex_shader = c2.vertex_shader) (hps : c1.pixel_shader = c2.pixel_shader)
    (hstate : c1.state = c2.state) (htop : c1.topology = c2.topology)
    (hin : c1.inputs.map pipeline_input_layout = c2.inputs.map pipeline_input_layout)
    (hrsrc : (ext.use_pipeline_resources s.calls c1.resource_bindings).pipeline_resources_key =
      (ext.use_pipeline_resources t.calls c2.resource_bindings).pipeline_resources_key) :
    s.build_pipeline_key (ext.use_pipeline_resources s.calls c1.resource_bindings) c1 =
        t.build_pipeline_key (ext.use_pipeline_resources t.calls c2.resource_bindings) c2 ∧
      created_pipelines t1.calls = created_pipelines t.calls ∧
      (created_pipelines s1.calls).length ≤ (created_pipelines s.calls).length + 1 := by
  obtain ⟨-, ⟨p, hp⟩, -, hcreated1⟩ := execute_draw_instanced_returned h1
  obtain ⟨-, -, -, hcreated2⟩ := execute_draw_instanced_returned h2
  obtain ⟨hpass, hkept⟩ := stays_in_pass_spec hbetween
  have hpass1 : s1.pass_state = s.pass_state :=
    pass_state_of_returned (execute_draw_instanced_pass_state ext c1 s) h1
  have hkey := build_pipeline_key_eq s t _ _ c1 c2 (hpass.trans hpass1) hrsrc hin hvs hps
    hstate htop
  refine ⟨hkey, ?_, ?_⟩
  · rw [hcreated2, ← hkey, hkept _ _ hp]
    simp
  · rw [hcreated1]
    split <;> simp

/-- Witness for C9: the two equal draws of the sample pass, one right after the
other, build the same key and the second creates no pipeline. -/
theorem equal_draws_share_one_pipeline_witness :
    example_in_pass._execute_draw_instanced example_externals example_draw =
        .returned () (example_in_pass._execute_draw_instanced example_externals example_draw).state ∧
      created_pipelines
          ((example_in_pass._execute_draw_instanced example_externals example_draw).state._execute_draw_instanced
            example_externals example_draw).state.calls =
        created_pipelines
          (example_in_pass._execute_draw_instanced example_externals example_draw).state.calls :=
  ⟨rfl, (equal_draws_share_one_pipeline example_externals example_in_pass _ _ _ example_draw
    example_draw rfl (.refl _) rfl rfl rfl rfl rfl rfl rfl).2.1⟩


theorem build_pipeline_key_ne_of_stride (s t : queue_context) (r1 r2 : pipeline_resources_info)
    (c1 c2 : commands.draw_instanced)
    (hstride : ∃ j b1 b2, c1.inputs.get? j = some b1 ∧ c2.inputs.get? j = some b2 ∧
      b1.stride ≠ b2.stride) :
    s.build_pipeline_key r1 c1 ≠ t.build_pipeline_key r2 c2 := by
  obtain ⟨j, b1, b2, hb1, hb2, hne⟩ := hstride
  intro hkey
  have hin : c1.inputs.map pipeline_input_layout = c2.inputs.map pipeline_input_layout :=
    congrArg cache_keys.graphics_pipeline.input_buffers hkey
  have hj := congrArg (fun l => l.get? j) hin
  simp only [List.get?_eq_getElem?, List.getElem?_map] at hj hb1 hb2
  rw [hb1, hb2] at hj
  simp only [Option.map_some', Option.some.injEq] at hj
  exact hne (congrArg gpu.input_buffer_layout.stride hj)

/-- C10, the case the claim overlooks: in the sample pass a wide draw, the
sample draw and the wide draw again are executed; the last two differ only in
the stride of their input buffer, their keys differ, and yet the last draw
creates no pipeline: it finds the entry of the first wide draw. -/
theorem wide_draw_hits_older_entry :
    example_draw_wide = { example_draw with inputs := [⟨[], 32, 1, 0, 40, 0⟩] } ∧
      example_in_pass._execute_draw_instanced example_externals example_draw_wide =
        .returned () example_after_wide ∧
      example_after_wide._execute_draw_instanced example_externals example_draw =
        .returned () example_after_wide_narrow ∧
      (example_after_wide_narrow._execute_draw_instanced example_externals
        example_draw_wide).is_returned = true ∧
      created_pipelines (example_after_wide_narrow._execute_draw_instanced example_externals
        example_draw_wide).state.calls = created_pipelines example_after_wide_narrow.calls :=
  ⟨rfl, by rfl, by rfl, by rfl, by decide⟩

/-- C10 as amended: two `draw_instanced` commands that differ in the stride of
an input buffer build different pipeline keys, in the same pass or not, so the
first draw leaves the cache as it was at the second draw's key, and the second
draw makes the backend create a pipeline exactly when no equal key is in the
cache at the time it is executed. -/
theorem stride_changes_pipeline_key (ext : externals) (s s1 t t1 : queue_context)
    (c1 c2 : commands.draw_instanced)
    (h1 : s._execute_draw_instanced ext c1 = .returned () s1)
    (h2 : t._execute_draw_instanced ext c2 = .returned () t1)
    (hstride : ∃ j b1 b2, c1.inputs.get? j = some b1 ∧ c2.inputs.get? j = some b2 ∧
      b1.stride ≠ b2.stride) :
    s.build_pipeline_key (ext.use_pipeline_resources s.calls c1.resource_bindings) c1 ≠
        t.build_pipeline_key (ext.use_pipeline_resources t.calls c2.resource_bindings) c2 ∧
      s1._q.ctx._cache.lookup
          (t.build_pipeline_key (ext.use_pipeline_resources t.calls c2.resource_bindings) c2) =
        s._q.ctx._cache.lookup
          (t.build_pipeline_key (ext.use_pipeline_resources t.calls c2.resource_bindings) c2) ∧
      created_pipelines t1.calls = created_pipelines t.calls ++
        (match t._q.ctx._cache.lookup
            (t.build_pipeline_key (ext.use_pipeline_resources t.calls c2.resource_bindings) c2)
          with
          | some _ => []
          | none => [(t.build_pipeline_key
              (ext.use_pipeline_resources t.calls c2.resource_bindings) c2, t.objects)]) := by
  have hne := build_pipeline_key_ne_of_stride s t
    (ext.use_pipeline_resources s.calls c1.resource_bindings)
    (ext.use_pipeline_resources t.calls c2.resource_bindings) c1 c2 hstride
  refine ⟨hne, ?_, (execute_draw_instanced_returned h2).2.2.2⟩
  rw [execute_draw_instanced_cache h1]
  split
  · rfl
  · have hb : (t.build_pipeline_key (ext.use_pipeline_resources t.calls c2.resource_bindings) c2 ==
        s.build_pipeline_key (ext.use_pipeline_resources s.calls c1.resource_bindings) c1) =
          false := by
      rw [beq_eq_false_iff_ne]
      exact fun h => hne h.symm
    simp [List.lookup, hb]

/-- Witness for the amended C10: in the sample pass the sample draw followed by
the wide draw build different keys. -/
theorem stride_changes_pipeline_key_witness :
    example_in_pass._execute_draw_instanced example_externals example_draw =
        .returned () example_after_narrow ∧
      (example_after_narrow._execute_draw_instanced example_externals
        example_draw_wide).is_returned = true ∧
      example_in_pass.build_pipeline_key
          (example_externals.use_pipeline_resources example_in_pass.calls
            example_draw.resource_bindings) example_draw ≠
        example_after_narrow.build_pipeline_key
          (example_externals.use_pipeline_resources example_after_narrow.calls
            example_draw_wide.resource_bindings) example_draw_wide :=
  ⟨by rfl, by rfl,
    (stride_changes_pipeline_key example_externals example_in_pass example_after_narrow
      example_after_narrow
      (example_after_narrow._execute_draw_instanced example_externals example_draw_wide).state
      example_draw example_draw_wide (by rfl) (by rfl) ⟨0, _, _, rfl, rfl, by decide⟩).1⟩

/-! ## Event streams and their cursors -/

theorem filter_eq_takeWhile_of_sorted (i : Nat) :
    ∀ l : List dependency_event, sorted_by_command_index l →
      (∀ e ∈ l, i ≤ e.command_index) →
      l.filter (fun e => e.command_index = i) = l.takeWhile (fun e => e.command_index = i) := by
  intro l
  induction l with
  | nil => intro _ _; rfl
  | cons a l ih =>
    intro hs hge
    have hs' : sorted_by_command_index l := (List.pairwise_cons.mp hs).2
    have hle : ∀ b ∈ l, a.command_index ≤ b.command_index := (List.pairwise_cons.mp hs).1
    by_cases ha : a.command_index = i
    · simp only [List.filter_cons, List.takeWhile_cons, ha, decide_True, if_true]
      rw [ih hs' (fun e he => hge e (List.mem_cons_of_mem _ he))]
    · simp only [List.filter_cons, List.takeWhile_cons, ha, decide_False, Bool.false_eq_true,
        if_false]
      rw [List.filter_eq_nil_iff]
      intro b hb
      have h1 := hle b hb
      have h2 := hge a (List.mem_cons_self _ _)
      simp only [decide_eq_true_eq]
      omega

theorem drop_takeWhile_length (p : dependency_event → Bool) (l : List dependency_event) :
    l.drop (l.takeWhile p).length = l.dropWhile p := by
  induction l with
  | nil => rfl
  | cons a l ih =>
    cases h : p a <;> simp [List.takeWhile_cons, List.dropWhile_cons, h, ih]

theorem take_takeWhile_length (p : dependency_event → Bool) (l : List dependency_event) :
    l.take (l.takeWhile p).length = l.takeWhile p := by
  induction l with
  | nil => rfl
  | cons a l ih =>
    cases h : p a <;> simp [List.takeWhile_cons, h, ih]

/-- With a sorted stream and the cursor in place, the events due at the command
index are exactly the run of events at the cursor that carry this index. -/
theorem due_events_eq_takeWhile (events : List dependency_event) (cursor i : Nat)
    (hs : sorted_by_command_index events) (hc : cursor_at events cursor i) :
    due_events events i = (events.drop cursor).takeWhile (fun e => e.command_index = i) := by
  unfold due_events
  conv_lhs => rw [← List.take_append_drop cursor events]
  rw [List.filter_append]
  have h1 : (events.take cursor).filter (fun e => e.command_index = i) = [] := by
    rw [List.filter_eq_nil_iff]
    intro e he
    have := hc.1 e he
    simp only [decide_eq_true_eq]
    omega
  rw [h1, List.nil_append]
  apply filter_eq_takeWhile_of_sorted
  · have : sorted_by_command_index (events.take cursor ++ events.drop cursor) := by
      rw [List.take_append_drop]
      exact hs
    exact (List.pairwise_append.mp this).2.1
  · exact hc.2

/-- Consuming the events due at a command moves the cursor to where the next
command expects it. -/
theorem cursor_at_succ (events : List dependency_event) (cursor i : Nat)
    (hs : sorted_by_command_index events) (hc : cursor_at events cursor i) :
    cursor_at events
      (cursor + ((events.drop cursor).takeWhile (fun e => e.command_index = i)).length)
      (i + 1) := by
  have hsd : sorted_by_command_index (events.drop cursor) := by
    have : sorted_by_command_index (events.take cursor ++ events.drop cursor) := by
      rw [List.take_append_drop]
      exact hs
    exact (List.pairwise_append.mp this).2.1
  have hsplit := List.takeWhile_append_dropWhile (fun e => decide (e.command_index = i))
    (events.drop cursor)
  have hdrop : events.drop
      (cursor + ((events.drop cursor).takeWhile (fun e => e.command_index = i)).length) =
      (events.drop cursor).dropWhile (fun e => e.command_index = i) := by
    rw [← List.drop_drop]
    exact drop_takeWhile_length _ _
  have htake : events.take
      (cursor + ((events.drop cursor).takeWhile (fun e => e.command_index = i)).length) =
      events.take cursor ++ (events.drop cursor).takeWhile (fun e => e.command_index = i) := by
    rw [List.take_add]
    congr 1
    exact take_takeWhile_length _ _
  constructor
  · intro e he
    rw [htake, List.mem_append] at he
    rcases he with he | he
    · have := hc.1 e he
      omega
    · have := List.mem_takeWhile_imp he
      simp only [decide_eq_true_eq] at this
      omega
  · intro e he
    rw [hdrop] at he
    have hmem : e ∈ events.drop cursor := (List.dropWhile_sublist _).subset he
    have hge := hc.2 e hmem
    by_contra hlt
    have hei : e.command_index = i := by omega
    -- the first element of the dropped part does not carry index i and precedes e
    cases hdw : (events.drop cursor).dropWhile (fun e => decide (e.command_index = i)) with
    | nil => rw [hdw] at he; cases he
    | cons a rest =>
      have ha : ¬ a.command_index = i := by
        have := List.head_dropWhile_not (fun e => decide (e.command_index = i))
          (events.drop cursor) (by rw [hdw]; simp)
        simp only [hdw, List.head_cons] at this
        simpa using this
      have hage : i ≤ a.command_index :=
        hc.2 a ((List.dropWhile_sublist _).subset (by rw [hdw]; exact List.mem_cons_self _ _))
      have hsorted_dw : sorted_by_command_index (a :: rest) := by
        rw [← hdw]
        exact List.Pairwise.sublist (List.dropWhile_sublist _) hsd
      rw [hdw] at he
      rcases List.mem_cons.mp he with rfl | her
      · exact ha hei
      · have := (List.pairwise_cons.mp hsorted_dw).1 e her
        omega


theorem acquire_loop_spec (queues : List gpu.timeline_semaphore) (i : Nat) :
    ∀ (rest : List dependency_event) (waits : List gpu.timeline_semaphore_synchronization)
      (k : Nat) (w : List gpu.timeline_semaphore_synchronization),
      acquire_loop queues i rest waits = some (k, w) →
      k = (rest.takeWhile (fun e => e.command_index = i)).length ∧
        ∃ pairs, w = waits ++ pairs ∧
          List.Forall₂ (fun e x => queues.get? e.queue_index = some x.semaphore ∧ x.value = e.data)
            (rest.takeWhile (fun e => e.command_index = i)) pairs := by
  intro rest
  induction rest with
  | nil =>
    intro waits k w h
    simp only [acquire_loop, Option.some.injEq, Prod.mk.injEq] at h
    obtain ⟨rfl, rfl⟩ := h
    exact ⟨rfl, [], by simp, List.Forall₂.nil⟩
  | cons a rest ih =>
    intro waits k w h
    unfold acquire_loop at h
    by_cases ha : a.command_index = i
    · simp only [ha, if_true] at h
      cases hq : queues.get? a.queue_index with
      | none =>
        rw [hq] at h
        cases h
      | some semaphore =>
        rw [hq] at h
        dsimp only at h
        cases hrec : acquire_loop queues i rest (waits ++ [⟨semaphore, a.data⟩]) with
        | none =>
          rw [hrec] at h
          cases h
        | some r =>
          rw [hrec] at h
          simp only [Option.map_some', Option.some.injEq, Prod.mk.injEq] at h
          obtain ⟨rfl, rfl⟩ := h
          obtain ⟨hk, pairs, hw, hf⟩ := ih _ r.1 r.2 hrec
          refine ⟨?_, ⟨semaphore, a.data⟩ :: pairs, ?_, ?_⟩
          · simp [List.takeWhile_cons, ha, hk]
          · rw [hw]
            simp
          · simp only [List.takeWhile_cons, ha, decide_True, if_true]
            exact List.Forall₂.cons ⟨hq, rfl⟩ hf
    · simp only [ha, if_false, Option.some.injEq, Prod.mk.injEq] at h
      obtain ⟨rfl, rfl⟩ := h
      exact ⟨by simp [List.takeWhile_cons, ha], [], by simp,
        by simp [List.takeWhile_cons, ha]⟩

theorem release_loop_spec (semaphore : gpu.timeline_semaphore) (i : Nat) :
    ∀ (rest : List dependency_event) (signals : List gpu.timeline_semaphore_synchronization),
      release_loop semaphore i rest signals =
        ((rest.takeWhile (fun e => e.command_index = i)).length,
          signals ++ (rest.takeWhile (fun e => e.command_index = i)).map
            (fun e => ⟨semaphore, e.data⟩)) := by
  intro rest
  induction rest with
  | nil => intro signals; simp [release_loop]
  | cons a rest ih =>
    intro signals
    unfold release_loop
    by_cases ha : a.command_index = i
    · simp only [ha, if_true]
      rw [ih]
      simp [List.takeWhile_cons, ha]
    · simp [List.takeWhile_cons, ha]

/-- What the block `// acquire dependencies` does when it returns. -/
theorem acquire_dependencies_spec {s s2 : queue_context}
    (h : s.acquire_dependencies = .returned () s2) :
    ∃ k waits,
      acquire_loop s._q.ctx._queues s._command_index
        (s._acquire_dependency_events.drop s._next_acquire_event) [] = some (k, waits) ∧
      s2._next_acquire_event = s._next_acquire_event + k ∧
      (waits ≠ [] →
        s2.calls = s.calls ++ (s._list.toList.map event.finish ++
          [.submit_command_lists s._list.toList ⟨none, s._pending_waits, []⟩]) ∧
        s2._list = none ∧ s2._pending_waits = waits) ∧
      (waits = [] →
        s2.calls = s.calls ∧ s2._list = s._list ∧ s2._pending_waits = s._pending_waits) := by
  unfold queue_context.acquire_dependencies at h
  split at h
  · rename_i k waits hloop
    refine ⟨k, waits, hloop, ?_⟩
    dsimp only at h
    by_cases hw : waits = []
    · subst hw
      simp only [List.isEmpty_nil, Bool.not_true, Bool.false_eq_true, if_false] at h
      cases h
      exact ⟨rfl, fun hne => absurd rfl hne, fun _ => ⟨rfl, rfl, rfl⟩⟩
    · have hne : (!waits.isEmpty) = true := by
        cases waits with
        | nil => exact absurd rfl hw
        | cons _ _ => rfl
      rw [if_pos hne] at h
      cases h
      refine ⟨?_, fun _ => ⟨?_, ?_, rfl⟩, fun he => absurd he hw⟩
      · have := congrArg replay_data.next_acquire_event (flush_replay_data
          { s with _next_acquire_event := s._next_acquire_event + k } none [])
        simpa [queue_context.replay_data] using this
      · exact flush_calls { s with _next_acquire_event := s._next_acquire_event + k } none []
      · exact flush_list { s with _next_acquire_event := s._next_acquire_event + k } none []
  · cases h

/-- What the block `// release dependencies` does. -/
theorem release_dependencies_exact (s : queue_context) :
    s.release_dependencies._next_release_event = s._next_release_event +
        ((s._release_dependency_events.drop s._next_release_event).takeWhile
          (fun e => e.command_index = s._command_index)).length ∧
      (∀ signals, signals =
          ((s._release_dependency_events.drop s._next_release_event).takeWhile
            (fun e => e.command_index = s._command_index)).map
              (fun e => (⟨s._q.semaphore, e.data⟩ : gpu.timeline_semaphore_synchronization)) →
        (signals ≠ [] →
          s.release_dependencies.calls = s.calls ++ (s._list.toList.map event.finish ++
            [.submit_command_lists s._list.toList ⟨none, s._pending_waits, signals⟩])) ∧
        (signals = [] → s.release_dependencies.calls = s.calls)) := by
  unfold queue_context.release_dependencies
  rw [release_loop_spec]
  dsimp only
  constructor
  · split
    · have := congrArg replay_data.next_release_event (flush_replay_data
        { s with _next_release_event := s._next_release_event +
          ((s._release_dependency_events.drop s._next_release_event).takeWhile
            (fun e => e.command_index = s._command_index)).length } none
        ([] ++ ((s._release_dependency_events.drop s._next_release_event).takeWhile
            (fun e => e.command_index = s._command_index)).map
              (fun e => (⟨s._q.semaphore, e.data⟩ : gpu.timeline_semaphore_synchronization))))
      simpa [queue_context.replay_data] using this
    · rfl
  · intro signals hs
    rw [List.nil_append, ← hs]
    constructor
    · intro hne
      have hb : (!signals.isEmpty) = true := by
        cases signals with
        | nil => exact absurd rfl hne
        | cons _ _ => rfl
      rw [if_pos hb]
      exact flush_calls { s with _next_release_event := s._next_release_event +
          ((s._release_dependency_events.drop s._next_release_event).takeWhile
            (fun e => e.command_index = s._command_index)).length } none signals
    · intro he
      subst he
      rfl


/-- The event streams across one returning call: what the acquire block and the
release block see is what the call started with, and only these two blocks move
the two cursors. -/
theorem execute_next_command_streams {ext : externals} {s s' : queue_context}
    (h : s.execute_next_command ext = .returned () s') :
    ∃ cmd s1 s2 s3 s4,
      (s._q.batch_commands.get? s._command_index = some cmd ∧
        s.insert_timestamp = .returned () s1 ∧
        s1.acquire_dependencies = .returned () s2 ∧
        s2.handle_transitions = .returned () s3 ∧
        (s3.visit cmd)._execute ext cmd.value = .returned () s4 ∧
        s' = { s4.release_dependencies with
               _command_index := s4.release_dependencies._command_index + 1 }) ∧
      (s1._acquire_dependency_events = s._acquire_dependency_events ∧
        s1._next_acquire_event = s._next_acquire_event ∧
        s1._command_index = s._command_index ∧
        s1._q.ctx._queues = s._q.ctx._queues) ∧
      (s4._release_dependency_events = s._release_dependency_events ∧
        s4._next_release_event = s._next_release_event ∧
        s4._command_index = s._command_index ∧
        s4._q.semaphore = s._q.semaphore) ∧
      (s'._acquire_dependency_events = s._acquire_dependency_events ∧
        s'._next_acquire_event = s2._next_acquire_event ∧
        s'._release_dependency_events = s._release_dependency_events ∧
        s'._next_release_event = s4.release_dependencies._next_release_event ∧
        s'._q.ctx._queues = s._q.ctx._queues ∧
        s'._q.semaphore = s._q.semaphore ∧
        s'._command_index = s._command_index + 1) := by
  obtain ⟨cmd, s1, s2, s3, s4, hcmd, h1, h2, h3, h4, rfl⟩ := execute_next_command_returned h
  have e1 := (insert_timestamp_returned h1).1
  have e2 := (acquire_dependencies_returned h2).1
  have e3 := (handle_transitions_returned h3).1
  have e4 : s4.replay_data = (s3.visit cmd).replay_data := by
    have := (frame_execute ext cmd.value (s3.visit cmd)).1
    rwa [h4] at this
  have e5 := (release_dependencies_spec s4).1
  simp only [queue_context.replay_data, queue_context.visit, queue_context.emit,
    replay_data.mk.injEq] at e1 e2 e3 e4 e5
  obtain ⟨a_ci, a_bc, a_sem, a_sv, a_qs, a_it, a_bt, a_tci, a_nt, a_ts, a_ade, a_nae, a_rde, a_nre⟩ := e1
  obtain ⟨b_ci, b_bc, b_sem, b_sv, b_qs, b_it, b_bt, b_tci, b_nt, b_ts, b_ade, b_nae, b_rde, b_nre⟩ := e2
  obtain ⟨c_ci, c_bc, c_sem, c_sv, c_qs, c_it, c_bt, c_tci, c_nt, c_ts, c_ade, c_nae, c_rde, c_nre⟩ := e3
  obtain ⟨d_ci, d_bc, d_sem, d_sv, d_qs, d_it, d_bt, d_tci, d_nt, d_ts, d_ade, d_nae, d_rde, d_nre⟩ := e4
  obtain ⟨e_ci, e_bc, e_sem, e_sv, e_qs, e_it, e_bt, e_tci, e_nt, e_ts, e_ade, e_nae, e_rde, e_nre⟩ := e5
  refine ⟨cmd, s1, s2, s3, s4, ⟨hcmd, h1, h2, h3, h4, rfl⟩, ⟨a_ade, a_nae, a_ci, a_qs⟩,
    ⟨?_, ?_, ?_, ?_⟩, ⟨?_, ?_, ?_, ?_, ?_, ?_, ?_⟩⟩
  · rw [d_rde, c_rde, b_rde, a_rde]
  · rw [d_nre, c_nre, b_nre, a_nre]
  · rw [d_ci, c_ci, b_ci, a_ci]
  · rw [d_sem, c_sem, b_sem, a_sem]
  · show s4.release_dependencies._acquire_dependency_events = _
    rw [e_ade, d_ade, c_ade, b_ade, a_ade]
  · show s4.release_dependencies._next_acquire_event = _
    rw [e_nae, d_nae, c_nae]
  · show s4.release_dependencies._release_dependency_events = _
    rw [e_rde, d_rde, c_rde, b_rde, a_rde]
  · rfl
  · show s4.release_dependencies._q.ctx._queues = _
    rw [e_qs, d_qs, c_qs, b_qs, a_qs]
  · show s4.release_dependencies._q.semaphore = _
    rw [e_sem, d_sem, c_sem, b_sem, a_sem]
  · show s4.release_dependencies._command_index + 1 = _
    rw [e_ci, d_ci, c_ci, b_ci, a_ci]


theorem acquire_cursor_step {ext : externals} {s s' : queue_context}
    (h : s.execute_next_command ext = .returned () s')
    (hs : sorted_by_command_index s._acquire_dependency_events)
    (hc : cursor_at s._acquire_dependency_events s._next_acquire_event s._command_index) :
    cursor_at s'._acquire_dependency_events s'._next_acquire_event s'._command_index := by
  obtain ⟨cmd, s1, s2, s3, s4, ⟨-, -, h2, -, -, -⟩, ⟨a1, a2, a3, a4⟩, -,
    ⟨b1, b2, -, -, -, -, b7⟩⟩ := execute_next_command_streams h
  obtain ⟨k, waits, hloop, hk, -, -⟩ := acquire_dependencies_spec h2
  rw [a1, a2, a3, a4] at hloop
  obtain ⟨hk', -⟩ := acquire_loop_spec _ _ _ _ _ _ hloop
  rw [b1, b2, b7, hk, a2, hk']
  exact cursor_at_succ _ _ _ hs hc

theorem release_cursor_step {ext : externals} {s s' : queue_context}
    (h : s.execute_next_command ext = .returned () s')
    (hs : sorted_by_command_index s._release_dependency_events)
    (hc : cursor_at s._release_dependency_events s._next_release_event s._command_index) :
    cursor_at s'._release_dependency_events s'._next_release_event s'._command_index := by
  obtain ⟨cmd, s1, s2, s3, s4, -, -, ⟨a1, a2, a3, -⟩,
    ⟨-, -, b3, b4, -, -, b7⟩⟩ := execute_next_command_streams h
  have hk := (release_dependencies_exact s4).1
  rw [a1, a2, a3] at hk
  rw [b3, b4, b7, hk]
  exact cursor_at_succ _ _ _ hs hc

theorem start_execution_streams (s : queue_context) :
    s.start_execution._acquire_dependency_events = s._acquire_dependency_events ∧
      s.start_execution._release_dependency_events = s._release_dependency_events ∧
      s.start_execution._next_acquire_event = 0 ∧
      s.start_execution._next_release_event = 0 ∧
      s.start_execution._command_index = s._command_index ∧
      s.start_execution._q = s._q := by
  unfold queue_context.start_execution
  dsimp only
  split <;> exact ⟨rfl, rfl, rfl, rfl, rfl, rfl⟩

theorem cursor_at_zero (events : List dependency_event) : cursor_at events 0 0 :=
  ⟨by simp, fun _ _ => Nat.zero_le _⟩

/-- Along a replay that returns, the acquire stream stays as it was and its
cursor stays in place for the index reached. -/
theorem replay_acquire_cursor (ext : externals) (k : Nat) (s s' : queue_context)
    (h : s.replay ext k = .returned () s')
    (hs : sorted_by_command_index s._acquire_dependency_events)
    (hc : cursor_at s._acquire_dependency_events s._next_acquire_event s._command_index) :
    s'._acquire_dependency_events = s._acquire_dependency_events ∧
      s'._q.ctx._queues = s._q.ctx._queues ∧
      cursor_at s'._acquire_dependency_events s'._next_acquire_event s'._command_index := by
  induction k generalizing s with
  | zero =>
    cases h
    exact ⟨rfl, rfl, hc⟩
  | succ k ih =>
    simp only [queue_context.replay] at h
    obtain ⟨_, s1, hstep, hrest⟩ := result.bind_eq_returned h
    have hc1 := acquire_cursor_step hstep hs hc
    obtain ⟨_, _, _, _, _, -, -, -, ⟨b1, -, -, -, b5, -, -⟩⟩ :=
      execute_next_command_streams hstep
    obtain ⟨r1, r2, r3⟩ := ih s1 hrest (b1 ▸ hs) hc1
    exact ⟨r1.trans b1, r2.trans b5, r3⟩

/-- Along a replay that returns, the release stream stays as it was and its
cursor stays in place for the index reached. -/
theorem replay_release_cursor (ext : externals) (k : Nat) (s s' : queue_context)
    (h : s.replay ext k = .returned () s')
    (hs : sorted_by_command_index s._release_dependency_events)
    (hc : cursor_at s._release_dependency_events s._next_release_event s._command_index) :
    s'._release_dependency_events = s._release_dependency_events ∧
      s'._q.semaphore = s._q.semaphore ∧
      cursor_at s'._release_dependency_events s'._next_release_event s'._command_index := by
  induction k generalizing s with
  | zero =>
    cases h
    exact ⟨rfl, rfl, hc⟩
  | succ k ih =>
    simp only [queue_context.replay] at h
    obtain ⟨_, s1, hstep, hrest⟩ := result.bind_eq_returned h
    have hc1 := release_cursor_step hstep hs hc
    obtain ⟨_, _, _, _, _, -, -, -, ⟨-, -, b3, -, -, b6, -⟩⟩ :=
      execute_next_command_streams hstep
    obtain ⟨r1, r2, r3⟩ := ih s1 hrest (b3 ▸ hs) hc1
    exact ⟨r1.trans b3, r2.trans b6, r3⟩


/-! ## Synchronisation around a command -/

theorem get_command_list_submissions (s : queue_context) :
    submissions s._get_command_list.2.calls = submissions s.calls ∧
      s._get_command_list.2._pending_waits = s._pending_waits := by
  unfold queue_context._get_command_list
  cases s._list <;> cases s._cmd_alloc <;>
    simp [submissions, queue_context.emit, submissions_append]

theorem record_submissions (s : queue_context) (f : Nat → event)
    (h : ∀ list, submissions [f list] = []) :
    submissions (s.record f).calls = submissions s.calls ∧
      (s.record f)._pending_waits = s._pending_waits := by
  rw [record_eq, emit_calls, submissions_append, h, List.append_nil]
  exact ⟨(get_command_list_submissions s).1, (get_command_list_submissions s).2⟩

theorem insert_timestamp_submissions {s s1 : queue_context}
    (h : s.insert_timestamp = .returned () s1) :
    submissions s1.calls = submissions s.calls ∧ s1._pending_waits = s._pending_waits := by
  unfold queue_context.insert_timestamp at h
  split at h
  · split at h
    · dsimp only at h
      split at h
      · cases h
        have := get_command_list_submissions s
        simp only [queue_context.emit, submissions_append, submissions, List.append_nil]
        exact this
      · cases h
    · cases h
      exact ⟨rfl, rfl⟩
  · cases h
    exact ⟨rfl, rfl⟩

theorem handle_transitions_submissions {s s1 : queue_context}
    (h : s.handle_transitions = .returned () s1) :
    submissions s1.calls = submissions s.calls ∧ s1._pending_waits = s._pending_waits := by
  unfold queue_context.handle_transitions at h
  split at h
  · split at h
    · cases h
      exact record_submissions _ _ (by intro _; rfl)
    · cases h
      exact ⟨rfl, rfl⟩
  · cases h

/-- C3: in a replay started by `start_execution` with the acquire events sorted
ascending by command index, take the call of `execute_next_command` at index
`i`. If an acquire event is due at `i`, the call, before handing command `i` to
its executor, finishes the command list in flight and makes one submission with
no signals, after which no list is in flight (command `i` is recorded into a
newly opened one); the waits it keeps pending are, in event order, the pair
(semaphore of queue `queue_index`, value) of every acquire event due at `i`.
If none is due at `i`, the call makes no submission before the hand-over. -/
theorem acquire_flushes_before_command (ext : externals) (s0 s s' : queue_context) (i : Nat)
    (h0 : s0._command_index = 0)
    (hsorted : sorted_by_command_index s0._acquire_dependency_events)
    (hreplay : s0.start_execution.replay ext i = .returned () s)
    (hstep : s.execute_next_command ext = .returned () s') :
    ∃ cmd s1 s2 s3 s4,
      (s._q.batch_commands.get? i = some cmd ∧
        s.insert_timestamp = .returned () s1 ∧
        s1.acquire_dependencies = .returned () s2 ∧
        s2.handle_transitions = .returned () s3 ∧
        (s3.visit cmd)._execute ext cmd.value = .returned () s4 ∧
        s' = { s4.release_dependencies with
               _command_index := s4.release_dependencies._command_index + 1 }) ∧
      (due_events s0._acquire_dependency_events i ≠ [] →
        s2.calls = s1.calls ++ (s1._list.toList.map event.finish ++
          [.submit_command_lists s1._list.toList ⟨none, s._pending_waits, []⟩]) ∧
        s2._list = none ∧
        List.Forall₂
          (fun e w => s0._q.ctx._queues.get? e.queue_index = some w.semaphore ∧ w.value = e.data)
          (due_events s0._acquire_dependency_events i) s2._pending_waits ∧
        (s3.visit cmd)._pending_waits = s2._pending_waits ∧
        submissions (s3.visit cmd).calls =
          submissions s.calls ++ [(s1._list.toList, ⟨none, s._pending_waits, []⟩)]) ∧
      (due_events s0._acquire_dependency_events i = [] →
        submissions (s3.visit cmd).calls = submissions s.calls) := by
  obtain ⟨st1, -, st3, -, st5, st6⟩ := start_execution_streams s0
  obtain ⟨hev, hqs, hcur⟩ := replay_acquire_cursor ext i _ s hreplay (st1 ▸ hsorted)
    (by rw [st3, st5, h0]; exact cursor_at_zero _)
  have hidx : s._command_index = i := by
    have := (replay_summary ext i _ s hreplay).1
    rw [st5, h0] at this
    omega
  rw [st1] at hev
  rw [st6] at hqs
  obtain ⟨cmd, s1, s2, s3, s4, ⟨hcmd, h1, h2, h3, h4, hs'⟩, ⟨a1, a2, a3, a4⟩, -, -⟩ :=
    execute_next_command_streams hstep
  obtain ⟨k, waits, hloop, -, hne, hnil⟩ := acquire_dependencies_spec h2
  rw [a1, a2, a3, a4, hev, hqs, hidx] at hloop
  obtain ⟨-, pairs, hw, hf⟩ := acquire_loop_spec _ _ _ _ _ _ hloop
  rw [List.nil_append] at hw
  subst hw
  have hdue := due_events_eq_takeWhile s0._acquire_dependency_events s._next_acquire_event i
    hsorted (by rw [← hev, ← hidx]; exact hcur)
  rw [← hdue] at hf
  obtain ⟨t1, t2⟩ := insert_timestamp_submissions h1
  obtain ⟨t3, t4⟩ := handle_transitions_submissions h3
  have hvisit : submissions (s3.visit cmd).calls = submissions s2.calls := by
    simp only [queue_context.visit, emit_calls, submissions_append, submissions, List.append_nil]
    exact t3
  refine ⟨cmd, s1, s2, s3, s4, ⟨hidx ▸ hcmd, h1, h2, h3, h4, hs'⟩, ?_, ?_⟩
  · intro hd
    have hpairs : waits ≠ [] := by
      rintro rfl
      exact hd (List.forall₂_nil_right_iff.mp hf)
    obtain ⟨c1, c2, c3⟩ := hne hpairs
    rw [t2] at c1
    refine ⟨c1, c2, c3 ▸ hf, t4, ?_⟩
    rw [hvisit, c1, submissions_append, submissions_append, submissions_map_finish, t1]
    simp [submissions]
  · intro hd
    have hpairs : waits = [] := by
      rw [hd] at hf
      exact List.forall₂_nil_left_iff.mp hf
    obtain ⟨c1, -, -⟩ := hnil hpairs
    rw [hvisit, c1, t1]


/-- Witness for C3: in the sample queue two acquire events are due at command 1;
the call at index 1 returns, and its acquire block leaves no list in flight and
keeps the two waits on queue 1 pending, in event order. -/
theorem acquire_flushes_before_command_witness :
    example_context._command_index = 0 ∧
      sorted_by_command_index example_context._acquire_dependency_events ∧
      example_context.start_execution.replay example_externals 1 =
        .returned () example_in_pass ∧
      (example_in_pass.execute_next_command example_externals).is_returned = true ∧
      due_events example_context._acquire_dependency_events 1 = [⟨1, 1, 5⟩, ⟨1, 1, 6⟩] ∧
      ∃ s1 s2 : queue_context,
        example_in_pass.insert_timestamp = .returned () s1 ∧
        s1.acquire_dependencies = .returned () s2 ∧
        s2._list = none ∧ s2._pending_waits = [⟨101, 5⟩, ⟨101, 6⟩] := by
  have hsorted : sorted_by_command_index example_context._acquire_dependency_events := by
    unfold sorted_by_command_index
    decide
  have hd : due_events example_context._acquire_dependency_events 1 =
      [⟨1, 1, 5⟩, ⟨1, 1, 6⟩] := by decide
  obtain ⟨cmd, s1, s2, s3, s4, ⟨-, h1, h2, -, -, -⟩, hdue, -⟩ :=
    acquire_flushes_before_command example_externals example_context example_in_pass
      (example_in_pass.execute_next_command example_externals).state 1 rfl hsorted (by rfl)
      (by rfl)
  obtain ⟨-, hlist, hwaits, -, -⟩ := hdue (by decide)
  rw [hd] at hwaits
  refine ⟨rfl, hsorted, by rfl, by rfl, hd, s1, s2, h1, h2, hlist, ?_⟩
  generalize s2._pending_waits = w at hwaits ⊢
  cases hwaits with
  | cons ha hrest =>
    cases hrest with
    | cons hb hnil =>
      cases hnil
      rename_i a b
      obtain ⟨a1, a2⟩ := ha
      obtain ⟨b1, b2⟩ := hb
      cases a
      cases b
      simp only [List.get?_eq_getElem?] at a1 b1
      dsimp only at a2 b2
      subst a2 b2
      have ea : (example_context._q.ctx._queues)[1]? = some 101 := rfl
      rw [ea] at a1 b1
      simp only [Option.some.injEq] at a1 b1
      subst a1 b1
      rfl

/-- C4: in a replay started by `start_execution` with the release events sorted
ascending by command index, take the call of `execute_next_command` at index
`i`. If a release event is due at `i`, then after the executor of command `i`
has returned the call finishes the list in flight and makes exactly one
submission, whose signal list is, in event order, the pair (this queue's
semaphore, value) of every release event due at `i`; if none is due, the call
itself makes no call at all after the executor has returned. -/
theorem release_flushes_after_command (ext : externals) (s0 s s' : queue_context) (i : Nat)
    (h0 : s0._command_index = 0)
    (hsorted : sorted_by_command_index s0._release_dependency_events)
    (hreplay : s0.start_execution.replay ext i = .returned () s)
    (hstep : s.execute_next_command ext = .returned () s') :
    ∃ cmd s1 s2 s3 s4,
      (s._q.batch_commands.get? i = some cmd ∧
        s.insert_timestamp = .returned () s1 ∧
        s1.acquire_dependencies = .returned () s2 ∧
        s2.handle_transitions = .returned () s3 ∧
        (s3.visit cmd)._execute ext cmd.value = .returned () s4 ∧
        s' = { s4.release_dependencies with
               _command_index := s4.release_dependencies._command_index + 1 }) ∧
      (due_events s0._release_dependency_events i ≠ [] →
        s'.calls = s4.calls ++ (s4._list.toList.map event.finish ++
          [.submit_command_lists s4._list.toList
            ⟨none, s4._pending_waits,
              (due_events s0._release_dependency_events i).map
                (fun e => ⟨s0._q.semaphore, e.data⟩)⟩])) ∧
      (due_events s0._release_dependency_events i = [] → s'.calls = s4.calls) := by
  obtain ⟨-, st2, -, st4, st5, st6⟩ := start_execution_streams s0
  obtain ⟨hev, hsem, hcur⟩ := replay_release_cursor ext i _ s hreplay (st2 ▸ hsorted)
    (by rw [st4, st5, h0]; exact cursor_at_zero _)
  have hidx : s._command_index = i := by
    have := (replay_summary ext i _ s hreplay).1
    rw [st5, h0] at this
    omega
  rw [st2] at hev
  rw [st6] at hsem
  obtain ⟨cmd, s1, s2, s3, s4, ⟨hcmd, h1, h2, h3, h4, hs'⟩, -, ⟨a1, a2, a3, a4⟩, -⟩ :=
    execute_next_command_streams hstep
  have hdue := due_events_eq_takeWhile s0._release_dependency_events s._next_release_event i
    hsorted (by rw [← hev, ← hidx]; exact hcur)
  obtain ⟨-, hexact⟩ := release_dependencies_exact s4
  rw [a1, a2, a3, a4, hev, hidx, hsem, ← hdue] at hexact
  obtain ⟨hne, hnil⟩ := hexact _ rfl
  have hcalls : s'.calls = s4.release_dependencies.calls := by rw [hs']
  refine ⟨cmd, s1, s2, s3, s4, ⟨hidx ▸ hcmd, h1, h2, h3, h4, hs'⟩, ?_, ?_⟩
  · intro hd
    rw [hcalls]
    exact hne (by simpa using hd)
  · intro hd
    rw [hcalls]
    exact hnil (by simp [hd])

/-- Witness for C4: in the sample queue one release event is due at command 2;
the call at index 2 returns and ends with a submission that signals value 1 on
the queue's own semaphore. -/
theorem release_flushes_after_command_witness :
    example_context._command_index = 0 ∧
      sorted_by_command_index example_context._release_dependency_events ∧
      (example_context.start_execution.replay example_externals 3).is_returned = true ∧
      due_events example_context._release_dependency_events 2 = [⟨0, 2, 1⟩] ∧
      ∃ s4 : queue_context,
        (example_context.start_execution.replay example_externals 3).state.calls =
          s4.calls ++ (s4._list.toList.map event.finish ++
            [.submit_command_lists s4._list.toList ⟨none, s4._pending_waits, [⟨100, 1⟩]⟩]) := by
  have hsorted : sorted_by_command_index example_context._release_dependency_events := by
    unfold sorted_by_command_index
    decide
  obtain ⟨cmd, s1, s2, s3, s4, -, hdue, -⟩ :=
    release_flushes_after_command example_externals example_context
      (example_context.start_execution.replay example_externals 2).state
      (example_context.start_execution.replay example_externals 3).state 2 rfl hsorted (by rfl)
      (by rfl)
  exact ⟨rfl, hsorted, by rfl, by decide, s4, hdue (by decide)⟩

/-! ## Executors outside a pass, and present -/

theorem end_pass_outside_pass_aborts (s : queue_context) (h : s._within_pass = false) :
    s._execute_end_pass = .aborted .crash_if s := by
  unfold queue_context._execute_end_pass
  rw [h]
  rfl

theorem draw_instanced_outside_pass_aborts (ext : externals) (cmd : commands.draw_instanced)
    (s : queue_context) (h : s._within_pass = false) :
    s._execute_draw_instanced ext cmd = .aborted .crash_if s := by
  unfold queue_context._execute_draw_instanced
  rw [h]
  rfl

/-- C15: an `end_pass` or a `draw_instanced` executed while the queue context is
not within a pass takes the fatal path of its first statement, `crash_if`, and
stops in the state it was called in: no call has been made for the command. -/
theorem end_pass_and_draw_outside_pass_are_fatal (ext : externals)
    (cmd : commands.draw_instanced) (s : queue_context) (h : s._within_pass = false) :
    s._execute ext .end_pass = .aborted .crash_if s ∧
      s._execute ext (.draw_instanced cmd) = .aborted .crash_if s ∧
      (s._execute ext .end_pass).state.calls = s.calls ∧
      (s._execute ext (.draw_instanced cmd)).state.calls = s.calls := by
  have h1 : s._execute ext .end_pass = .aborted .crash_if s :=
    end_pass_outside_pass_aborts s h
  have h2 : s._execute ext (.draw_instanced cmd) = .aborted .crash_if s :=
    draw_instanced_outside_pass_aborts ext cmd s h
  refine ⟨h1, h2, ?_, ?_⟩
  · rw [h1]
    rfl
  · rw [h2]
    rfl

/-- Witness for C15: the sample context before its first command is outside a
pass; an `end_pass` and the sample draw are both fatal there. -/
theorem end_pass_and_draw_outside_pass_are_fatal_witness :
    example_context.start_execution._within_pass = false ∧
      example_context.start_execution._execute example_externals .end_pass =
        .aborted .crash_if example_context.start_execution ∧
      example_context.start_execution._execute example_externals (.draw_instanced example_draw) =
        .aborted .crash_if example_context.start_execution :=
  ⟨rfl,
    (end_pass_and_draw_outside_pass_are_fatal example_externals example_draw
      example_context.start_execution rfl).1,
    (end_pass_and_draw_outside_pass_are_fatal example_externals example_draw
      example_context.start_execution rfl).2.1⟩

theorem execute_present_some (ext : externals) (cmd : commands.present) (s : queue_context)
    (chain : Nat) (h : cmd.target.chain = some chain) :
    s._execute_present ext cmd = .returned ()
      (if ext.present (s._flush_command_list none []).calls chain != .ok then
        (((s._flush_command_list none []).emit (.present chain)).emit
          (.log_warn (ext.present (s._flush_command_list none []).calls chain)))
      else (s._flush_command_list none []).emit (.present chain)) := by
  unfold queue_context._execute_present
  rw [h]
  dsimp only
  split <;> rfl

theorem execute_present_none (ext : externals) (cmd : commands.present) (s : queue_context)
    (h : cmd.target.chain = none) : s._execute_present ext cmd = .returned () s := by
  unfold queue_context._execute_present
  rw [h]

/-- A call of `execute_next_command` returns, one index further, as soon as its
blocks before the hand-over and the executor return: the release block and the
index step cannot fail. -/
theorem execute_next_command_of_blocks {ext : externals} {s s1 s2 s3 s4 : queue_context}
    {cmd : command} (hcmd : s._q.batch_commands.get? s._command_index = some cmd)
    (h1 : s.insert_timestamp = .returned () s1)
    (h2 : s1.acquire_dependencies = .returned () s2)
    (h3 : s2.handle_transitions = .returned () s3)
    (h4 : (s3.visit cmd)._execute ext cmd.value = .returned () s4) :
    s.execute_next_command ext = .returned ()
      { s4.release_dependencies with
        _command_index := s4.release_dependencies._command_index + 1 } := by
  unfold queue_context.execute_next_command
  rw [hcmd]
  dsimp only
  rw [h1, result.bind_returned, h2, result.bind_returned, h3, result.bind_returned, h4,
    result.bind_returned]

/-- C14: a `present` whose swap chain has a backend chain first flushes the
pending command list (finishing and submitting it, with no signals) and then
calls `present` on the queue; whatever status comes back the executor returns,
a status other than `ok` only adding a warning to the log; and the call of
`execute_next_command` that hands the command over returns with the command
index one higher. With no backend chain the executor returns without making any
call. -/
theorem present_submits_then_presents (ext : externals) (cmd : commands.present)
    (s : queue_context) :
    (∀ chain, cmd.target.chain = some chain →
      ∃ s', s._execute_present ext cmd = .returned () s' ∧
        s'.calls = s.calls ++ (s._list.toList.map event.finish ++
          [.submit_command_lists s._list.toList ⟨none, s._pending_waits, []⟩, .present chain] ++
          (if ext.present (s._flush_command_list none []).calls chain = .ok then []
           else [.log_warn (ext.present (s._flush_command_list none []).calls chain)]))) ∧
      (cmd.target.chain = none → s._execute_present ext cmd = .returned () s) ∧
      (∀ (t t1 t2 t3 : queue_context) (c : command),
        t._q.batch_commands.get? t._command_index = some c → c.value = .present cmd →
        t.insert_timestamp = .returned () t1 → t1.acquire_dependencies = .returned () t2 →
        t2.handle_transitions = .returned () t3 →
        ∃ t', t.execute_next_command ext = .returned () t' ∧
          t'._command_index = t._command_index + 1) := by
  refine ⟨?_, execute_present_none ext cmd s, ?_⟩
  · intro chain hchain
    refine ⟨_, execute_present_some ext cmd s chain hchain, ?_⟩
    generalize ext.present (s._flush_command_list none []).calls chain = st
    cases st with
    | ok => simp [emit_calls, flush_calls]
    | other code => simp [emit_calls, flush_calls]
  · intro t t1 t2 t3 c hc hv h1 h2 h3
    have hex : ∃ t4, (t3.visit c)._execute ext c.value = .returned () t4 := by
      rw [hv]
      show ∃ t4, (t3.visit c)._execute_present ext cmd = .returned () t4
      cases hchain : cmd.target.chain with
      | none => exact ⟨_, execute_present_none ext cmd _ hchain⟩
      | some chain => exact ⟨_, execute_present_some ext cmd _ chain hchain⟩
    obtain ⟨t4, h4⟩ := hex
    have hstep := execute_next_command_of_blocks hc h1 h2 h3 h4
    exact ⟨_, hstep, (execute_next_command_summary hstep).choose_spec.2.1⟩

/-- Witness for C14: the last command of the sample queue presents a swap chain
with backend chain 9 and the queue answers with a status other than `ok`; the
call at index 4 returns at index 5, its last calls being the submission, the
present and the warning. -/
theorem present_submits_then_presents_witness :
    (example_context.start_execution.replay example_externals 4).is_returned = true ∧
      (example_context.start_execution.replay example_externals 5).is_returned = true ∧
      (example_context.start_execution.replay example_externals 5).state._command_index = 5 ∧
      ∃ s', (example_context.start_execution.replay example_externals 4).state._execute_present
          example_externals ⟨example_swap_chain⟩ = .returned () s' ∧
        s'.calls.getLast? = some (.log_warn (.other 2)) := by
  obtain ⟨s', h1, h2⟩ := (present_submits_then_presents example_externals ⟨example_swap_chain⟩
    (example_context.start_execution.replay example_externals 4).state).1 9 rfl
  refine ⟨by rfl, by rfl, by rfl, s', h1, ?_⟩
  rw [h2]
  simp [example_externals]

/-! ## Frame buffers of passes -/

theorem frame_buffer_calls_append (a b : List event) :
    frame_buffer_calls (a ++ b) = frame_buffer_calls a ++ frame_buffer_calls b :=
  List.filter_append a b

theorem get_command_list_frame_buffer_calls (s : queue_context) :
    frame_buffer_calls s._get_command_list.2.calls = frame_buffer_calls s.calls := by
  unfold queue_context._get_command_list
  cases s._list <;> cases s._cmd_alloc <;>
    simp [frame_buffer_calls, queue_context.emit, event.is_frame_buffer_call]

theorem get_command_list_objects_le (s : queue_context) :
    s.objects ≤ s._get_command_list.2.objects := by
  unfold queue_context._get_command_list
  cases s._list <;> cases s._cmd_alloc <;> simp [queue_context.emit]
  omega

theorem begin_pass_color_render_targets_frame_buffer_calls (ext : externals) (size : cvec2s)
    (targets : List image2d_color) (acc acc' : List requested_view × List Nat)
    (s s' : queue_context)
    (h : queue_context.begin_pass_color_render_targets ext size targets acc s =
      .returned acc' s') :
    frame_buffer_calls s'.calls = frame_buffer_calls s.calls ∧ s'.objects = s.objects := by
  induction targets generalizing acc s with
  | nil =>
    unfold queue_context.begin_pass_color_render_targets at h
    cases h
    exact ⟨rfl, rfl⟩
  | cons color_rt rest ih =>
    obtain ⟨color_rts, color_rt_access⟩ := acc
    unfold queue_context.begin_pass_color_render_targets at h
    cases hv : color_rt.view with
    | image2d_view v =>
      rw [hv] at h
      dsimp only at h
      obtain ⟨_, s1, h1, h2⟩ := result.bind_eq_returned h
      clear h
      obtain ⟨-, rfl⟩ := crash_if_eq_returned h1
      obtain ⟨e1, e2⟩ := ih _ _ h2
      exact ⟨e1.trans (by simp [frame_buffer_calls, queue_context.emit,
        event.is_frame_buffer_call]), e2⟩
    | swap_chain rt =>
      rw [hv] at h
      dsimp only at h
      obtain ⟨_, s1, h1, h2⟩ := result.bind_eq_returned h
      clear h
      obtain ⟨-, rfl⟩ := crash_if_eq_returned h1
      obtain ⟨e1, e2⟩ := ih _ _ h2
      exact ⟨e1.trans (by simp [frame_buffer_calls, queue_context.emit,
        event.is_frame_buffer_call]), e2⟩

theorem begin_pass_depth_render_target_frame_buffer_calls (ext : externals)
    (cmd : commands.begin_pass) (s s' : queue_context) (depth_view : Option requested_view)
    (h : s.begin_pass_depth_render_target ext cmd = .returned depth_view s') :
    frame_buffer_calls s'.calls = frame_buffer_calls s.calls ∧ s'.objects = s.objects := by
  unfold queue_context.begin_pass_depth_render_target at h
  cases hv : cmd.depth_stencil_target.view with
  | none =>
    rw [hv] at h
    cases h
    exact ⟨rfl, rfl⟩
  | some view =>
    rw [hv] at h
    dsimp only at h
    obtain ⟨_, s1, h1, h2⟩ := result.bind_eq_returned h
    clear h
    obtain ⟨-, rfl⟩ := crash_if_eq_returned h1
    cases h2
    exact ⟨by simp [frame_buffer_calls, queue_context.emit, event.is_frame_buffer_call], rfl⟩

theorem record_frame_buffer_call (s : queue_context) (f : Nat → event)
    (h : ∀ list, (f list).is_frame_buffer_call = true) :
    ∃ list, frame_buffer_calls (s.record f).calls = frame_buffer_calls s.calls ++ [f list] ∧
      s.objects ≤ (s.record f).objects := by
  refine ⟨s._get_command_list.1, ?_, ?_⟩
  · rw [record_eq, emit_calls, frame_buffer_calls_append, get_command_list_frame_buffer_calls]
    simp [frame_buffer_calls, h]
  · rw [record_eq]
    exact get_command_list_objects_le s

/-- What a returning `begin_pass` does with frame buffers: it asks the backend
for one new frame buffer, of the declared size, and begins the pass with it. -/
theorem execute_begin_pass_frame_buffer_calls {ext : externals} {cmd : commands.begin_pass}
    {s s' : queue_context} (h : s._execute_begin_pass ext cmd = .returned () s') :
    ∃ color_rts depth_view list access,
      frame_buffer_calls s'.calls = frame_buffer_calls s.calls ++
        [.create_frame_buffer color_rts depth_view cmd.render_target_size s.objects,
         .begin_pass list s.objects access] ∧
      s.objects < s'.objects := by
  unfold queue_context._execute_begin_pass at h
  obtain ⟨_, s1, h1, ha⟩ := result.bind_eq_returned h
  clear h
  obtain ⟨-, e1⟩ := crash_if_eq_returned h1
  clear h1
  subst s1
  obtain ⟨_, s2, h2, hb⟩ := result.bind_eq_returned ha
  clear ha
  obtain ⟨-, e2⟩ := crash_if_eq_returned h2
  clear h2
  subst s2
  dsimp only at hb
  obtain ⟨⟨color_rts, color_rt_access⟩, s3, h3, hc⟩ := result.bind_eq_returned hb
  clear hb
  obtain ⟨c3, o3⟩ := begin_pass_color_render_targets_frame_buffer_calls _ _ _ _ _ _ _ h3
  clear h3
  dsimp only at hc
  obtain ⟨_, s4, h4, hd⟩ := result.bind_eq_returned hc
  clear hc
  obtain ⟨-, e4⟩ := crash_if_eq_returned h4
  clear h4
  subst s4
  obtain ⟨depth_view, s5, h5, he⟩ := result.bind_eq_returned hd
  clear hd
  obtain ⟨c5, o5⟩ := begin_pass_depth_render_target_frame_buffer_calls _ _ _ _ _ h5
  clear h5
  cases he
  have ho : s5.objects = s.objects := o5.trans o3
  have hc : frame_buffer_calls s5.calls = frame_buffer_calls s.calls := c5.trans c3
  obtain ⟨list, hl, hobj⟩ := record_frame_buffer_call
    { s5.emit (.create_frame_buffer color_rts depth_view cmd.render_target_size s5.objects) with
      objects := s5.objects + 1 }
    (fun list => .begin_pass list s5.objects
      ⟨color_rt_access, cmd.depth_stencil_target.depth_access,
        cmd.depth_stencil_target.stencil_access⟩) (by intro _; rfl)
  dsimp only at hl hobj
  rw [emit_calls, frame_buffer_calls_append, hc, List.append_assoc] at hl
  refine ⟨color_rts, depth_view, list, ⟨color_rt_access, cmd.depth_stencil_target.depth_access,
    cmd.depth_stencil_target.stencil_access⟩, ?_, ?_⟩
  · rw [← ho]
    exact hl
  · rw [← ho]
    exact hobj

/-- Counterexample for C17: in `two_pass_queue` the same pass, with the same
views and the same size, is begun twice with an `end_pass` in between; the
replay of the four commands returns and asks the backend for a frame buffer
twice, with equal arguments, and the second pass is begun with the second
frame buffer (object 3), not with the one of the first pass (object 0). -/
theorem second_pass_creates_second_frame_buffer :
    two_pass_queue.batch_commands.get? 0 = two_pass_queue.batch_commands.get? 2 ∧
      two_pass_queue.batch_commands.get? 1 = some ⟨.end_pass⟩ ∧
      (two_pass_context.start_execution.replay example_externals 4).is_returned = true ∧
      frame_buffer_calls
          (two_pass_context.start_execution.replay example_externals 4).state.calls =
        [.create_frame_buffer [.image example_image, .swap_chain example_swap_chain] none ⟨4, 4⟩ 0,
         .begin_pass 2 0 ⟨[0, 1], 0, 0⟩,
         .create_frame_buffer [.image example_image, .swap_chain example_swap_chain] none ⟨4, 4⟩ 3,
         .begin_pass 2 3 ⟨[0, 1], 0, 0⟩] :=
  ⟨by rfl, by rfl, by rfl, by rfl⟩

/-- C17 (amended): every `begin_pass` that returns asks the backend for exactly
one new frame buffer, of the declared render-target size, and begins the pass
with that frame buffer; between its first and its last call no other frame
buffer is created and no other pass is begun. Nothing is reused from an
earlier pass. -/
theorem begin_pass_creates_one_frame_buffer (ext : externals) (cmd : commands.begin_pass)
    (s s' : queue_context) (h : s._execute ext (.begin_pass cmd) = .returned () s') :
    ∃ color_rts depth_view list access,
      frame_buffer_calls s'.calls = frame_buffer_calls s.calls ++
        [.create_frame_buffer color_rts depth_view cmd.render_target_size s.objects,
         .begin_pass list s.objects access] ∧
      s.objects < s'.objects :=
  execute_begin_pass_frame_buffer_calls h

/-- Witness for C17 (amended): the first pass of the sample queue. -/
theorem begin_pass_creates_one_frame_buffer_witness :
    (example_context.start_execution._execute example_externals
        (.begin_pass example_begin_pass)).is_returned = true ∧
    ∃ color_rts depth_view list access,
      frame_buffer_calls
          (example_context.start_execution._execute example_externals
            (.begin_pass example_begin_pass)).state.calls =
        frame_buffer_calls example_context.start_execution.calls ++
          [.create_frame_buffer color_rts depth_view example_begin_pass.render_target_size
              example_context.start_execution.objects,
           .begin_pass list example_context.start_execution.objects access] ∧
      example_context.start_execution.objects <
        (example_context.start_execution._execute example_externals
          (.begin_pass example_begin_pass)).state.objects :=
  ⟨by rfl, begin_pass_creates_one_frame_buffer example_externals example_begin_pass
    example_context.start_execution _ (by rfl)⟩

/-! ## Submission by the execution context -/

theorem execution_submissions_append (a b : List execution.call) :
    execution.submissions (a ++ b) = execution.submissions a ++ execution.submissions b := by
  induction a with
  | nil => rfl
  | cons e a ih => cases e <;> simp [execution.submissions, ih]

theorem execution_submit_eq (body : execution.context → execution.flush_effect) (q : Nat)
    (sync : gpu.queue_synchronization) (s : execution.context) :
    s.submit body q sync =
      (((s.flush_immediate_constant_buffers body)._list).isSome,
        { _list := none
          _immediate_constant_buffer_used :=
            (s.flush_immediate_constant_buffers body)._immediate_constant_buffer_used
          calls := (s.flush_immediate_constant_buffers body).calls ++
            ((s.flush_immediate_constant_buffers body)._list.toList.map .finish ++
              [.submit_command_lists q (s.flush_immediate_constant_buffers body)._list.toList
                sync]) }) := by
  unfold execution.context.submit
  dsimp only
  generalize s.flush_immediate_constant_buffers body = t
  obtain ⟨list, used, calls⟩ := t
  cases list <;> simp

/-- C16: `submit(q, sync)` makes, after the flush of the immediate constant
buffers, exactly one call of `submit_command_lists`, on `q` and with the given
synchronisation. It returns true exactly when there is a current command list
after the flush; then that list is finished first and is the only list
submitted. Otherwise it returns false and submits the empty list. Afterwards
the context has no current command list. -/
theorem submit_submits_once (body : execution.context → execution.flush_effect) (q : Nat)
    (sync : gpu.queue_synchronization) (s : execution.context) :
    ((s.submit body q sync).1 = true ↔
        ∃ list, (s.flush_immediate_constant_buffers body)._list = some list) ∧
      (∀ list, (s.flush_immediate_constant_buffers body)._list = some list →
        (s.submit body q sync).2.calls = (s.flush_immediate_constant_buffers body).calls ++
          [.finish list, .submit_command_lists q [list] sync]) ∧
      ((s.flush_immediate_constant_buffers body)._list = none →
        (s.submit body q sync).1 = false ∧
        (s.submit body q sync).2.calls = (s.flush_immediate_constant_buffers body).calls ++
          [.submit_command_lists q [] sync]) ∧
      execution.submissions (s.submit body q sync).2.calls =
        execution.submissions (s.flush_immediate_constant_buffers body).calls ++
          [(q, (s.flush_immediate_constant_buffers body)._list.toList, sync)] ∧
      (s.submit body q sync).2._list = none := by
  rw [execution_submit_eq]
  refine ⟨?_, ?_, ?_, ?_, rfl⟩
  · simp [Option.isSome_iff_exists]
  · intro list h
    simp [h]
  · intro h
    simp [h]
  · cases (s.flush_immediate_constant_buffers body)._list <;>
      simp [execution_submissions_append, execution.submissions]

/-- C20: in `submit`, `flush_immediate_constant_buffers` is entered, and its
body has run, before `submit_command_lists` is called, with a current command
list and without one: the record of calls grows by the entry into the flush,
then the calls of its body, then the `finish` of the list if there is one, and
last the submission. -/
theorem submit_flushes_before_submission (body : execution.context → execution.flush_effect)
    (q : Nat) (sync : gpu.queue_synchronization) (s : execution.context) :
    ∃ (flushed : List Nat) (lists : List Nat),
      (s.submit body q sync).2.calls =
        s.calls ++ .flush_immediate_constant_buffers :: flushed.map .flushing ++
          lists.map .finish ++ [.submit_command_lists q lists sync] ∧
      (s.flush_immediate_constant_buffers body).calls =
        s.calls ++ .flush_immediate_constant_buffers :: flushed.map .flushing ∧
      lists = (s.flush_immediate_constant_buffers body)._list.toList := by
  refine ⟨(body { s with
      calls := s.calls ++ [execution.call.flush_immediate_constant_buffers] }).calls,
    (s.flush_immediate_constant_buffers body)._list.toList, ?_, ?_, rfl⟩
  · rw [execution_submit_eq]
    simp [execution.context.flush_immediate_constant_buffers]
  · simp [execution.context.flush_immediate_constant_buffers]

/-- The two paths of `submit` on the sample contexts: with list 4 in flight the
flush records its copy, the list is finished and submitted; with nothing in
flight and nothing staged the submission is empty. -/
theorem submit_examples :
    example_execution_context.submit example_flush 1 ⟨none, [], []⟩ =
        (true, ⟨none, 0, [.flush_immediate_constant_buffers, .flushing 0, .finish 4,
          .submit_command_lists 1 [4] ⟨none, [], []⟩]⟩) ∧
      idle_execution_context.submit example_flush 1 ⟨none, [], []⟩ =
        (false, ⟨none, 0, [.flush_immediate_constant_buffers,
          .submit_command_lists 1 [] ⟨none, [], []⟩]⟩) :=
  ⟨by rfl, by rfl⟩

/-! ## The transition buffer -/

theorem lookup_append_of_none {β : Type} (l : List (Nat × β)) (k k' : Nat) (v : β)
    (h : l.lookup k = none) :
    (l ++ [(k, v)]).lookup k' = if k' = k then (l.lookup k').orElse (fun _ => some v)
      else l.lookup k' := by
  induction l with
  | nil =>
    by_cases hk : k' = k
    · simp [List.lookup, hk]
    · have : (k' == k) = false := by simpa using hk
      simp [List.lookup, hk, this]
  | cons p l ih =>
    obtain ⟨a, b⟩ := p
    have hne : (k == a) = false := by
      cases hka : k == a with
      | false => rfl
      | true => simp [List.lookup, hka] at h
    have hl : l.lookup k = none := by simpa [List.lookup, hne] using h
    cases hk : k' == a with
    | true =>
      have hk' : k' ≠ k := by
        rintro rfl
        rw [hk] at hne
        cases hne
      simp [List.lookup, hk, hk']
    | false =>
      simp only [List.cons_append, List.lookup, hk]
      exact ih hl

theorem stage_transition_raw_first (buf from_access to_access : Nat) (t : transition_buffer)
    (h : t._raw_buffer_transitions.lookup buf = none) :
    t.stage_transition_raw buf from_access to_access =
      ({ t with _raw_buffer_transitions :=
          t._raw_buffer_transitions ++ [(buf, (from_access, to_access))] }, true) := by
  simp [transition_buffer.stage_transition_raw, transition_buffer.emplace_raw, h]

theorem stage_transition_raw_again (buf from_access to_access : Nat) (t : transition_buffer)
    (stored : Nat × Nat) (h : t._raw_buffer_transitions.lookup buf = some stored) :
    t.stage_transition_raw buf from_access to_access =
      (t, stored == (from_access, to_access)) := by
  simp [transition_buffer.stage_transition_raw, transition_buffer.emplace_raw, h]

theorem stage_transition_raw_lookup (buf from_access to_access : Nat) (t : transition_buffer)
    (k : Nat) :
    (t.stage_transition_raw buf from_access to_access).1._raw_buffer_transitions.lookup k =
      (t._raw_buffer_transitions.lookup k).orElse
        (fun _ => if k = buf then some (from_access, to_access) else none) := by
  cases h : t._raw_buffer_transitions.lookup buf with
  | none =>
    rw [stage_transition_raw_first _ _ _ _ h]
    dsimp only
    rw [lookup_append_of_none _ _ _ _ h]
    by_cases hk : k = buf
    · simp [hk]
    · cases t._raw_buffer_transitions.lookup k <;> simp [hk]
  | some stored =>
    rw [stage_transition_raw_again _ _ _ _ _ h]
    dsimp only
    by_cases hk : k = buf
    · subst hk
      simp [h]
    · cases t._raw_buffer_transitions.lookup k <;> simp [hk]

theorem stage_transition_raw_keys (buf from_access to_access : Nat) (t : transition_buffer)
    (h : (t._raw_buffer_transitions.map Prod.fst).Nodup) :
    ((t.stage_transition_raw buf from_access to_access).1._raw_buffer_transitions.map
      Prod.fst).Nodup := by
  cases hl : t._raw_buffer_transitions.lookup buf with
  | none =>
    rw [stage_transition_raw_first _ _ _ _ hl]
    dsimp only
    rw [List.map_append, List.nodup_append]
    refine ⟨h, by simp, ?_⟩
    intro a ha hb
    simp only [List.map_cons, List.map_nil, List.mem_singleton] at hb
    subst hb
    obtain ⟨⟨a', b⟩, hmem, rfl⟩ := List.mem_map.mp ha
    have hne := List.lookup_eq_none_iff.mp hl (a', b) hmem
    simp at hne
  | some stored =>
    rw [stage_transition_raw_again _ _ _ _ _ hl]
    exact h

theorem stage_raw_transitions_spec (calls : List (Nat × Nat × Nat)) (t : transition_buffer)
    (h : (t._raw_buffer_transitions.map Prod.fst).Nodup) :
    (((t.stage_raw_transitions calls)._raw_buffer_transitions.map Prod.fst).Nodup) ∧
      ∀ k, (t.stage_raw_transitions calls)._raw_buffer_transitions.lookup k =
        (t._raw_buffer_transitions.lookup k).orElse
          (fun _ => (calls.find? (fun c => c.1 == k)).map Prod.snd) := by
  induction calls generalizing t with
  | nil =>
    refine ⟨h, fun k => ?_⟩
    unfold transition_buffer.stage_raw_transitions
    cases t._raw_buffer_transitions.lookup k <;> rfl
  | cons c rest ih =>
    obtain ⟨buf, from_access, to_access⟩ := c
    unfold transition_buffer.stage_raw_transitions
    obtain ⟨hn, hk⟩ := ih (t.stage_transition_raw buf from_access to_access).1
      (stage_transition_raw_keys buf from_access to_access t h)
    refine ⟨hn, fun k => ?_⟩
    rw [hk k, stage_transition_raw_lookup]
    cases t._raw_buffer_transitions.lookup k with
    | some stored => rfl
    | none =>
      by_cases hkb : k = buf
      · subst hkb
        simp [List.find?]
      · have : (buf == k) = false := by simpa using fun e => hkb e.symm
        simp [List.find?, hkb, this]

/-- C11: the raw path `stage_transition(buf, from, to)`. A call for a buffer
that has no entry records the pair `(from, to)` for it and the assertion
holds; a call for a buffer whose entry is the same pair leaves the buffer of
transitions as it is and the assertion holds; a call for a buffer whose entry
is a different pair fails the assertion (and stores nothing). After any
sequence of calls made on the empty buffer the map has at most one entry per
buffer, and the entry of a buffer is the pair of the first call made for it. -/
theorem raw_transition_keeps_first_pair (buf from_access to_access : Nat)
    (t : transition_buffer) (calls : List (Nat × Nat × Nat)) :
    (t._raw_buffer_transitions.lookup buf = none →
      (t.stage_transition_raw buf from_access to_access).2 = true ∧
      (t.stage_transition_raw buf from_access to_access).1._raw_buffer_transitions.lookup buf =
        some (from_access, to_access)) ∧
    (t._raw_buffer_transitions.lookup buf = some (from_access, to_access) →
      t.stage_transition_raw buf from_access to_access = (t, true)) ∧
    (∀ stored, t._raw_buffer_transitions.lookup buf = some stored →
      stored ≠ (from_access, to_access) →
      t.stage_transition_raw buf from_access to_access = (t, false)) ∧
    ((transition_buffer.nullptr.stage_raw_transitions calls)._raw_buffer_transitions.map
      Prod.fst).Nodup ∧
    (∀ k, (transition_buffer.nullptr.stage_raw_transitions calls)._raw_buffer_transitions.lookup
        k = (calls.find? (fun c => c.1 == k)).map Prod.snd) := by
  refine ⟨?_, ?_, ?_, ?_, ?_⟩
  · intro h
    rw [stage_transition_raw_first _ _ _ _ h]
    refine ⟨rfl, ?_⟩
    dsimp only
    rw [lookup_append_of_none _ _ _ _ h]
    simp [h]
  · intro h
    rw [stage_transition_raw_again _ _ _ _ _ h]
    simp
  · intro stored h hne
    rw [stage_transition_raw_again _ _ _ _ _ h]
    simp [hne]
  · exact (stage_raw_transitions_spec calls transition_buffer.nullptr List.nodup_nil).1
  · intro k
    rw [(stage_raw_transitions_spec calls transition_buffer.nullptr List.nodup_nil).2 k]
    rfl

/-- Sample calls for C11: buffer 7 is staged with `(1, 2)`, buffer 8 with
`(0, 3)`, buffer 7 again with `(1, 2)` and then with `(2, 4)`; the map keeps
the first pair of each buffer, and only the last call fails the assertion. -/
theorem raw_transition_keeps_first_pair_example :
    (transition_buffer.nullptr.stage_raw_transitions
        [(7, 1, 2), (8, 0, 3), (7, 1, 2), (7, 2, 4)])._raw_buffer_transitions =
      [(7, (1, 2)), (8, (0, 3))] ∧
    ((transition_buffer.nullptr.stage_raw_transitions
        [(7, 1, 2), (8, 0, 3)]).stage_transition_raw 7 1 2).2 = true ∧
    ((transition_buffer.nullptr.stage_raw_transitions
        [(7, 1, 2), (8, 0, 3), (7, 1, 2)]).stage_transition_raw 7 2 4).2 = false :=
  ⟨by rfl, by rfl, by rfl⟩

/-! ## Resolution of staged transitions -/

theorem filter_key_eq_nil {α κ : Type} [DecidableEq κ] (key : α → κ) (l : List α) (k : κ)
    (h : l.any (fun x => decide (key x = k)) = false) :
    l.filter (fun r => decide (key r = k)) = [] := by
  rw [List.filter_eq_nil_iff]
  intro a ha hk
  have : l.any (fun x => decide (key x = k)) = true := List.any_eq_true.mpr ⟨a, ha, hk⟩
  rw [h] at this
  cases this

theorem filter_key_ne_nil {α κ : Type} [DecidableEq κ] (key : α → κ) (l : List α) (k : κ)
    (h : l.any (fun x => decide (key x = k)) = true) :
    l.filter (fun r => decide (key r = k)) ≠ [] := by
  obtain ⟨a, ha, hk⟩ := List.any_eq_true.mp h
  intro he
  have : a ∈ l.filter (fun r => decide (key r = k)) := List.mem_filter.mpr ⟨ha, hk⟩
  rw [he] at this
  cases this

/-- Last write wins, key by key: what `last_write_wins` keeps of a key is the
last record of that key, and nothing if there is none. -/
theorem last_write_wins_filter {α κ : Type} [DecidableEq κ] (key : α → κ) (l : List α) (k : κ) :
    (last_write_wins key l).filter (fun r => decide (key r = k)) =
      ((l.filter (fun r => decide (key r = k))).getLast?).toList := by
  induction l with
  | nil => rfl
  | cons r rest ih =>
    by_cases hk : key r = k
    · subst hk
      have hkeep : ∀ l : List α, (r :: l).filter (fun r' => decide (key r' = key r)) =
          r :: l.filter (fun r' => decide (key r' = key r)) := by
        intro l
        simp [List.filter_cons]
      cases hany : rest.any (fun x => decide (key x = key r)) with
      | true =>
        have hne := filter_key_ne_nil key rest (key r) hany
        simp only [last_write_wins, hany, if_true, ih]
        rw [hkeep]
        cases hf : rest.filter (fun r' => decide (key r' = key r)) with
        | nil => exact absurd hf hne
        | cons x xs => rw [List.getLast?_cons_cons]
      | false =>
        have hnil := filter_key_eq_nil key rest (key r) hany
        simp only [last_write_wins, hany, Bool.false_eq_true, if_false]
        rw [hkeep, ih, hkeep, hnil]
        rfl
    · have hdrop : ∀ l : List α, (r :: l).filter (fun r => decide (key r = k)) =
          l.filter (fun r => decide (key r = k)) := by
        intro l
        simp [List.filter_cons, hk]
      rw [hdrop, ← ih]
      cases hany : rest.any (fun x => decide (key x = key r)) with
      | true => simp only [last_write_wins, hany, if_true]
      | false =>
        simp only [last_write_wins, hany, Bool.false_eq_true, if_false]
        rw [hdrop]

theorem requested_access_last_write_wins {α κ : Type} [DecidableEq κ] (key : α → κ)
    (access : α → Nat) (l : List α) (k : κ) :
    requested_access key access (last_write_wins key l) k = requested_access key access l k := by
  unfold requested_access
  rw [last_write_wins_filter]
  cases (l.filter (fun r => decide (key r = k))).getLast? <;> rfl

theorem filter_filterMap_key {α β : Type} (f : α → Option β) (p : β → Bool) (q : α → Bool)
    (h : ∀ r b, f r = some b → p b = q r) (l : List α) :
    (l.filterMap f).filter p = (l.filter q).filterMap f := by
  induction l with
  | nil => rfl
  | cons r rest ih =>
    cases hf : f r with
    | none =>
      rw [List.filterMap_cons_none hf, ih]
      cases hq : q r with
      | true => rw [List.filter_cons_of_pos hq, List.filterMap_cons_none hf]
      | false => rw [List.filter_cons_of_neg (by simp [hq])]
    | some b =>
      rw [List.filterMap_cons_some hf]
      cases hq : q r with
      | true =>
        rw [List.filter_cons_of_pos (by rw [h r b hf, hq]), List.filter_cons_of_pos hq,
          List.filterMap_cons_some hf, ih]
      | false =>
        rw [List.filter_cons_of_neg (by rw [h r b hf, hq]; simp),
          List.filter_cons_of_neg (by simp [hq]), ih]

theorem per_mip_level_filter_aux (target first access img level n : Nat) :
    ((List.range n).map (fun k =>
        (⟨target, ⟨first + k, 1⟩, access⟩ : transition_records.image2d))).filter
      (fun x => decide (x.key = (img, level))) =
    if target = img ∧ first ≤ level ∧ level < first + n then [⟨img, ⟨level, 1⟩, access⟩]
    else [] := by
  induction n with
  | zero =>
    have : ¬ (target = img ∧ first ≤ level ∧ level < first + 0) := by omega
    simp [this]
  | succ n ih =>
    rw [List.range_succ, List.map_append, List.filter_append, ih]
    by_cases ht : target = img
    · subst ht
      by_cases h1 : first ≤ level ∧ level < first + n
      · have h2 : first ≤ level ∧ level < first + (n + 1) := by omega
        have h3 : first + n ≠ level := by omega
        simp [h1, h2, h3, List.filter_cons, transition_records.image2d.key]
      · by_cases h3 : first + n = level
        · have h2 : first ≤ level ∧ level < first + (n + 1) := by omega
          simp [h1, h2, h3, List.filter_cons, transition_records.image2d.key]
        · have h2 : ¬ (first ≤ level ∧ level < first + (n + 1)) := by omega
          simp [h1, h2, h3, List.filter_cons, transition_records.image2d.key]
    · simp [ht, List.filter_cons, transition_records.image2d.key]

theorem per_mip_level_filter (r : transition_records.image2d) (img level : Nat) :
    r.per_mip_level.filter (fun x => decide (x.key = (img, level))) =
      if r.target = img ∧ r.mip_levels.first_level ≤ level ∧
          level < r.mip_levels.first_level + r.mip_levels.num_levels then
        [⟨img, ⟨level, 1⟩, r.access⟩]
      else [] :=
  per_mip_level_filter_aux _ _ _ _ _ _

theorem stage_image2d_transitions_records (img : Nat) (requests : List (gpu.mip_levels × Nat))
    (t : transition_buffer) :
    t.stage_image2d_transitions img requests =
      { t with _image2d_transitions := t._image2d_transitions ++
          requests.map (fun r => ⟨img, r.1, r.2⟩) } := by
  induction requests generalizing t with
  | nil => simp [transition_buffer.stage_image2d_transitions]
  | cons r rest ih =>
    obtain ⟨mips, access⟩ := r
    unfold transition_buffer.stage_image2d_transitions
    rw [ih]
    simp [transition_buffer.stage_transition_image2d]

theorem stage_buffer_transitions_records (buf : Nat) (requests : List Nat)
    (t : transition_buffer) :
    t.stage_buffer_transitions buf requests =
      { t with _buffer_transitions := t._buffer_transitions ++
          requests.map (fun a => ⟨buf, a⟩) } := by
  induction requests generalizing t with
  | nil => simp [transition_buffer.stage_buffer_transitions]
  | cons r rest ih =>
    unfold transition_buffer.stage_buffer_transitions
    rw [ih]
    simp [transition_buffer.stage_transition_buffer]

/-- The records of one level among the sub-resources of the requests staged on
one image are, in order, those of the requests whose range contains the level. -/
theorem per_mip_level_requests_filter (img level : Nat) (requests : List (gpu.mip_levels × Nat)) :
    ((requests.map (fun r => (⟨img, r.1, r.2⟩ : transition_records.image2d))).flatMap
        transition_records.image2d.per_mip_level).filter
      (fun x => decide (x.key = (img, level))) =
    (requests.filter (fun r =>
      decide (r.1.first_level ≤ level ∧ level < r.1.first_level + r.1.num_levels))).map
      (fun r => ⟨img, ⟨level, 1⟩, r.2⟩) := by
  induction requests with
  | nil => rfl
  | cons r rest ih =>
    rw [List.map_cons, List.flatMap_cons, List.filter_append, ih, per_mip_level_filter]
    by_cases h : r.1.first_level ≤ level ∧ level < r.1.first_level + r.1.num_levels
    · simp [h, List.filter_cons]
    · simp [h, List.filter_cons]

theorem prepare_eq_some {mutually_exclusive : Nat → Nat → Bool} {t t' : transition_buffer}
    (h : t.prepare mutually_exclusive = some t') :
    t' = { t with
      _image2d_transitions := last_write_wins transition_records.image2d.key
        (t._image2d_transitions.flatMap transition_records.image2d.per_mip_level)
      _buffer_transitions := last_write_wins (fun r => r.target) t._buffer_transitions
      _swap_chain_transitions :=
        last_write_wins (fun r => r.target) t._swap_chain_transitions } := by
  unfold transition_buffer.prepare at h
  dsimp only at h
  split at h
  · cases h
  · cases h
    rfl

theorem prepare_of_not_exclusive (t : transition_buffer) :
    (t.prepare (fun _ _ => false)).isSome = true := by
  have hc : ∀ {α κ : Type} [DecidableEq κ] (key : α → κ) (access : α → Nat) (l : List α),
      contradictory_requests (fun _ _ => false) key access l = false := by
    intro α κ _ key access l
    induction l with
    | nil => rfl
    | cons r rest ih => simp [contradictory_requests, ih]
  unfold transition_buffer.prepare
  simp [hc]

/-- The image barriers of one level that `collect_transitions` returns for a
prepared sequence of requests staged on one image in the empty buffer. -/
theorem collect_transitions_image2d_level (mutually_exclusive : Nat → Nat → Bool)
    (current : tracked_access) (img : Nat) (requests : List (gpu.mip_levels × Nat))
    (t : transition_buffer)
    (h : (transition_buffer.nullptr.stage_image2d_transitions img requests).prepare
      mutually_exclusive = some t) (level : Nat) :
    (t.collect_transitions current).1.1.filter
        (fun b => decide (b.target = img ∧ b.mip_levels.first_level = level)) =
      match last_staged_access requests level with
      | none => []
      | some access =>
        if current.image2d img level = access then []
        else [⟨img, ⟨level, 1⟩, current.image2d img level, access⟩] := by
  have ht := prepare_eq_some h
  rw [stage_image2d_transitions_records] at ht
  subst ht
  unfold transition_buffer.collect_transitions
  dsimp only [transition_buffer.nullptr]
  rw [List.nil_append, List.filter_append]
  have hswap : last_write_wins (fun r : transition_records.swap_chain => r.target) [] = [] := rfl
  rw [hswap, List.filterMap_nil, List.filter_nil, List.append_nil]
  rw [filter_filterMap_key _ _ (fun r => decide (r.key = (img, level)))]
  · rw [last_write_wins_filter, per_mip_level_requests_filter, List.getLast?_map]
    unfold last_staged_access
    cases ((requests.filter (fun r =>
      decide (r.1.first_level ≤ level ∧ level < r.1.first_level + r.1.num_levels))).getLast?) with
    | none => rfl
    | some r =>
      by_cases hc : current.image2d img level = r.2
      · simp [hc]
      · simp [hc]
  · intro r b hb
    by_cases hc : current.image2d r.target r.mip_levels.first_level = r.access
    · simp [hc] at hb
    · simp only [hc, if_false, Option.some.injEq] at hb
      subst hb
      simp [transition_records.image2d.key]

theorem last_write_wins_subset {α κ : Type} [DecidableEq κ] (key : α → κ) (l : List α) (x : α)
    (h : x ∈ last_write_wins key l) : x ∈ l := by
  induction l with
  | nil => cases h
  | cons r rest ih =>
    unfold last_write_wins at h
    split at h
    · exact List.mem_cons_of_mem _ (ih h)
    · rcases List.mem_cons.mp h with rfl | h
      · exact List.mem_cons_self _ _
      · exact List.mem_cons_of_mem _ (ih h)

/-- Every image barrier returned for requests staged on one image is a barrier
of one mip level of that image. -/
theorem collect_transitions_image2d_mem (mutually_exclusive : Nat → Nat → Bool)
    (current : tracked_access) (img : Nat) (requests : List (gpu.mip_levels × Nat))
    (t : transition_buffer)
    (h : (transition_buffer.nullptr.stage_image2d_transitions img requests).prepare
      mutually_exclusive = some t) (b : gpu.image_barrier)
    (hb : b ∈ (t.collect_transitions current).1.1) :
    b.target = img ∧ b.mip_levels.num_levels = 1 := by
  have ht := prepare_eq_some h
  rw [stage_image2d_transitions_records] at ht
  subst ht
  unfold transition_buffer.collect_transitions at hb
  dsimp only [transition_buffer.nullptr] at hb
  have hswap : last_write_wins (fun r : transition_records.swap_chain => r.target) [] = [] := rfl
  rw [hswap, List.filterMap_nil, List.append_nil, List.nil_append] at hb
  obtain ⟨r, hr, hf⟩ := List.mem_filterMap.mp hb
  have hr' := last_write_wins_subset _ _ _ hr
  obtain ⟨r0, hr0, hmem⟩ := List.mem_flatMap.mp hr'
  obtain ⟨req, -, rfl⟩ := List.mem_map.mp hr0
  unfold transition_records.image2d.per_mip_level at hmem
  obtain ⟨k, -, rfl⟩ := List.mem_map.mp hmem
  dsimp only at hf
  split at hf
  · cases hf
  · cases hf
    exact ⟨rfl, rfl⟩

/-- The buffer barriers that `collect_transitions` returns for a prepared
sequence of requests staged on one buffer in the empty buffer of transitions. -/
theorem collect_transitions_buffer (mutually_exclusive : Nat → Nat → Bool)
    (current : tracked_access) (buf : Nat) (requests : List Nat) (t : transition_buffer)
    (h : (transition_buffer.nullptr.stage_buffer_transitions buf requests).prepare
      mutually_exclusive = some t) :
    (t.collect_transitions current).1.2 =
      match requests.getLast? with
      | none => []
      | some access =>
        if current.buffer buf = access then [] else [⟨buf, current.buffer buf, access⟩] := by
  have ht := prepare_eq_some h
  rw [stage_buffer_transitions_records] at ht
  subst ht
  unfold transition_buffer.collect_transitions
  dsimp only [transition_buffer.nullptr]
  rw [List.nil_append, List.map_nil, List.append_nil]
  have hall : ∀ x ∈ requests.map (fun a => (⟨buf, a⟩ : transition_records.buffer)),
      decide (x.target = buf) = true := by
    intro x hx
    obtain ⟨a, -, rfl⟩ := List.mem_map.mp hx
    simp
  have hkept : last_write_wins (fun r : transition_records.buffer => r.target)
      (requests.map (fun a => ⟨buf, a⟩)) =
        ((requests.map (fun a => (⟨buf, a⟩ : transition_records.buffer))).getLast?).toList := by
    have h1 := last_write_wins_filter (fun r : transition_records.buffer => r.target)
      (requests.map (fun a => ⟨buf, a⟩)) buf
    rw [List.filter_eq_self.mpr hall, List.filter_eq_self.mpr
      (fun x hx => hall x (last_write_wins_subset _ _ _ hx))] at h1
    exact h1
  rw [hkept, List.getLast?_map]
  cases requests.getLast? with
  | none => rfl
  | some access =>
    by_cases hc : current.buffer buf = access
    · simp [hc]
    · simp [hc]

/-- C13: for every sequence of `stage_transition` calls on one image, made on
the empty buffer and followed by a `prepare()` that returns,
`collect_transitions()` returns at most one barrier per mip level of the
image; every barrier it returns is for one mip level of that image, leads from
the tracked current access of the level to the access of the last staged
request whose range contains the level, and these two differ; a level whose
last staged request asks for the current access gets no barrier; a level whose
last staged request asks for another access gets its barrier. The same holds
for a sequence of requests on one buffer, whose only sub-resource is the
buffer: the barrier list is empty or the one barrier to the access staged
last. -/
theorem collect_returns_last_staged_request (mutually_exclusive : Nat → Nat → Bool)
    (current : tracked_access) (img : Nat) (requests : List (gpu.mip_levels × Nat))
    (t : transition_buffer)
    (h : (transition_buffer.nullptr.stage_image2d_transitions img requests).prepare
      mutually_exclusive = some t) :
    (∀ level, ((t.collect_transitions current).1.1.filter
        (fun b => decide (b.target = img ∧ b.mip_levels.first_level = level))).length ≤ 1) ∧
    (∀ b ∈ (t.collect_transitions current).1.1,
      b.target = img ∧ b.mip_levels.num_levels = 1 ∧
      last_staged_access requests b.mip_levels.first_level = some b.to_access ∧
      b.from_access = current.image2d img b.mip_levels.first_level ∧
      b.from_access ≠ b.to_access) ∧
    (∀ level, last_staged_access requests level = some (current.image2d img level) →
      ∀ b ∈ (t.collect_transitions current).1.1, b.mip_levels.first_level ≠ level) ∧
    (∀ level access, last_staged_access requests level = some access →
      access ≠ current.image2d img level →
      (⟨img, ⟨level, 1⟩, current.image2d img level, access⟩ : gpu.image_barrier) ∈
        (t.collect_transitions current).1.1) ∧
    (∀ (buf : Nat) (accesses : List Nat) (t' : transition_buffer),
      (transition_buffer.nullptr.stage_buffer_transitions buf accesses).prepare
        mutually_exclusive = some t' →
      (t'.collect_transitions current).1.2 =
        match accesses.getLast? with
        | none => []
        | some access =>
          if current.buffer buf = access then [] else [⟨buf, current.buffer buf, access⟩]) := by
  have hlevel := collect_transitions_image2d_level mutually_exclusive current img requests t h
  have hmem := collect_transitions_image2d_mem mutually_exclusive current img requests t h
  have hin : ∀ b ∈ (t.collect_transitions current).1.1,
      b ∈ (match last_staged_access requests b.mip_levels.first_level with
        | none => []
        | some access =>
          if current.image2d img b.mip_levels.first_level = access then []
          else [(⟨img, ⟨b.mip_levels.first_level, 1⟩,
            current.image2d img b.mip_levels.first_level, access⟩ : gpu.image_barrier)]) := by
    intro b hb
    rw [← hlevel b.mip_levels.first_level]
    exact List.mem_filter.mpr ⟨hb, by simp [(hmem b hb).1]⟩
  refine ⟨?_, ?_, ?_, ?_, ?_⟩
  · intro level
    rw [hlevel level]
    cases last_staged_access requests level with
    | none => simp
    | some access => by_cases hc : current.image2d img level = access <;> simp [hc]
  · intro b hb
    have hb' := hin b hb
    refine ⟨(hmem b hb).1, (hmem b hb).2, ?_⟩
    cases hl : last_staged_access requests b.mip_levels.first_level with
    | none =>
      rw [hl] at hb'
      cases hb'
    | some access =>
      rw [hl] at hb'
      by_cases hc : current.image2d img b.mip_levels.first_level = access
      · simp [hc] at hb'
      · simp only [hc, if_false, List.mem_singleton] at hb'
        have hto : b.to_access = access := by rw [hb']
        have hfrom : b.from_access = current.image2d img b.mip_levels.first_level := by
          conv_lhs => rw [hb']
        refine ⟨by rw [hto], hfrom, ?_⟩
        rw [hfrom, hto]
        exact hc
  · intro level hl b hb hfirst
    have hb' := hin b hb
    rw [hfirst, hl] at hb'
    simp at hb'
  · intro level access hl hne
    have hf : (⟨img, ⟨level, 1⟩, current.image2d img level, access⟩ : gpu.image_barrier) ∈
        (t.collect_transitions current).1.1.filter
          (fun b => decide (b.target = img ∧ b.mip_levels.first_level = level)) := by
      have hne' : ¬ current.image2d img level = access := fun e => hne e.symm
      rw [hlevel level, hl]
      simp [hne']
    exact (List.mem_filter.mp hf).1
  · intro buf accesses t' h'
    exact collect_transitions_buffer mutually_exclusive current buf accesses t' h'

/-- Witness for C13, the scenario of the specification: image 1 is in access 0
(undefined) at every level; access 2 (read-write) and then access 1
(read-only) are staged for its level 0; after `prepare()` one barrier is
returned, from 0 to 1. -/
theorem collect_returns_last_staged_request_witness :
    (transition_buffer.nullptr.stage_image2d_transitions 1 [(⟨0, 1⟩, 2), (⟨0, 1⟩, 1)]).prepare
        (fun _ _ => false) = some ⟨[⟨1, ⟨0, 1⟩, 1⟩], [], [], []⟩ ∧
      ((⟨[⟨1, ⟨0, 1⟩, 1⟩], [], [], []⟩ : transition_buffer).collect_transitions
        undefined_access).1.1 = [⟨1, ⟨0, 1⟩, 0, 1⟩] ∧
      ∀ b ∈ ((⟨[⟨1, ⟨0, 1⟩, 1⟩], [], [], []⟩ : transition_buffer).collect_transitions
          undefined_access).1.1,
        b.target = 1 ∧ b.mip_levels.num_levels = 1 ∧
        last_staged_access [(⟨0, 1⟩, 2), (⟨0, 1⟩, 1)] b.mip_levels.first_level =
          some b.to_access ∧
        b.from_access = undefined_access.image2d 1 b.mip_levels.first_level ∧
        b.from_access ≠ b.to_access :=
  ⟨by rfl, by rfl,
    (collect_returns_last_staged_request (fun _ _ => false) undefined_access 1
      [(⟨0, 1⟩, 2), (⟨0, 1⟩, 1)] ⟨[⟨1, ⟨0, 1⟩, 1⟩], [], [], []⟩ (by rfl)).2.1⟩

theorem requested_access_of_mem {α κ : Type} [DecidableEq κ] (key : α → κ) (access : α → Nat)
    (l : List α) (r : α) (h : r ∈ last_write_wins key l) :
    requested_access key access (last_write_wins key l) (key r) = some (access r) := by
  unfold requested_access
  have hr : r ∈ (last_write_wins key l).filter (fun x => decide (key x = key r)) :=
    List.mem_filter.mpr ⟨h, by simp⟩
  rw [last_write_wins_filter] at hr ⊢
  cases hl : (l.filter (fun x => decide (key x = key r))).getLast? with
  | none =>
    rw [hl] at hr
    cases hr
  | some x =>
    rw [hl] at hr
    have : r = x := by simpa using hr
    subst this
    rfl

theorem filterMap_eq_nil_of_forall {α β : Type} (f : α → Option β) (l : List α)
    (h : ∀ x ∈ l, f x = none) : l.filterMap f = [] := by
  induction l with
  | nil => rfl
  | cons x rest ih =>
    rw [List.filterMap_cons_none (h x (List.mem_cons_self _ _))]
    exact ih (fun y hy => h y (List.mem_cons_of_mem _ hy))

/-- What a second `collect_transitions` returns when it is called on a prepared
buffer right after a first: no barrier for the tracked resources, whose current
access is the requested one by now, and the raw buffer barriers once more. -/
theorem collect_transitions_twice (mutually_exclusive : Nat → Nat → Bool)
    (current : tracked_access) (t0 t : transition_buffer)
    (h : t0.prepare mutually_exclusive = some t) :
    (t.collect_transitions (t.collect_transitions current).2.1).1 =
      ([], t._raw_buffer_transitions.map (fun r => ⟨r.1, r.2.1, r.2.2⟩)) := by
  have ht := prepare_eq_some h
  subst ht
  unfold transition_buffer.collect_transitions
  dsimp only
  rw [filterMap_eq_nil_of_forall, filterMap_eq_nil_of_forall, filterMap_eq_nil_of_forall]
  · rfl
  · intro r hr
    have := requested_access_of_mem (fun r : transition_records.buffer => r.target)
      (fun r => r.access) _ r hr
    simp [this]
  · intro r hr
    have := requested_access_of_mem (fun r : transition_records.swap_chain => r.target)
      (fun r => r.access) _ r hr
    simp [this]
  · intro r hr
    have hreq : requested_access transition_records.image2d.key (fun r => r.access)
        (last_write_wins transition_records.image2d.key
          (t0._image2d_transitions.flatMap transition_records.image2d.per_mip_level))
        (r.target, r.mip_levels.first_level) = some r.access :=
      requested_access_of_mem transition_records.image2d.key (fun r => r.access) _ r hr
    simp [hreq]

/-- Counterexample for C12: a swap-chain transition and a raw buffer transition
are staged by the overloads of `execution.h`. After `collect_transitions()`
the buffer still holds both, and a second call right after the first returns
the raw buffer barrier again. -/
theorem collect_keeps_staged_transitions :
    example_transition_buffer._swap_chain_transitions = [⟨3, 1⟩] ∧
    example_transition_buffer._raw_buffer_transitions = [(7, (1, 2))] ∧
    (example_transition_buffer.collect_transitions undefined_access).1 =
      ([⟨3, ⟨0, 1⟩, 0, 1⟩], [⟨7, 1, 2⟩]) ∧
    (example_transition_buffer.collect_transitions undefined_access).2.2._swap_chain_transitions
      ≠ [] ∧
    (example_transition_buffer.collect_transitions undefined_access).2.2._raw_buffer_transitions
      ≠ [] ∧
    ((example_transition_buffer.collect_transitions undefined_access).2.2.collect_transitions
      (example_transition_buffer.collect_transitions undefined_access).2.1).1 =
        ([], [⟨7, 1, 2⟩]) ∧
    ((example_transition_buffer.collect_transitions undefined_access).2.2.collect_transitions
      (example_transition_buffer.collect_transitions undefined_access).2.1).1 ≠ ([], []) :=
  ⟨by rfl, by rfl, by rfl, by decide, by decide, by rfl, by decide⟩

/-- C12 (amended): `collect_transitions()` returns the barriers and makes the
requested accesses current, and leaves the staged transitions in the buffer:
the buffer after the call is the buffer before it. Called again right
afterwards on a prepared buffer it returns no image barrier and no barrier of
a tracked buffer, and returns the barriers of the raw buffer transitions
again, one per staged raw transition. -/
theorem collect_leaves_staged_transitions (mutually_exclusive : Nat → Nat → Bool)
    (current : tracked_access) (t0 t : transition_buffer)
    (h : t0.prepare mutually_exclusive = some t) :
    (t.collect_transitions current).2.2 = t ∧
      ((t.collect_transitions current).2.2.collect_transitions
        (t.collect_transitions current).2.1).1 =
          ([], t._raw_buffer_transitions.map (fun r => ⟨r.1, r.2.1, r.2.2⟩)) ∧
      (∀ r ∈ t._image2d_transitions,
        (t.collect_transitions current).2.1.image2d r.target r.mip_levels.first_level =
          r.access) ∧
      (∀ r ∈ t._buffer_transitions,
        (t.collect_transitions current).2.1.buffer r.target = r.access) ∧
      (∀ r ∈ t._swap_chain_transitions,
        (t.collect_transitions current).2.1.swap_chain r.target = r.access) := by
  have ht := prepare_eq_some h
  refine ⟨rfl, collect_transitions_twice mutually_exclusive current t0 t h, ?_, ?_, ?_⟩
  · intro r hr
    subst ht
    have hreq : requested_access transition_records.image2d.key (fun r => r.access)
        (last_write_wins transition_records.image2d.key
          (t0._image2d_transitions.flatMap transition_records.image2d.per_mip_level))
        (r.target, r.mip_levels.first_level) = some r.access :=
      requested_access_of_mem transition_records.image2d.key (fun r => r.access) _ r hr
    simp [transition_buffer.collect_transitions, hreq]
  · intro r hr
    subst ht
    have := requested_access_of_mem (fun r : transition_records.buffer => r.target)
      (fun r => r.access) _ r hr
    simp [transition_buffer.collect_transitions, this]
  · intro r hr
    subst ht
    have := requested_access_of_mem (fun r : transition_records.swap_chain => r.target)
      (fun r => r.access) _ r hr
    simp [transition_buffer.collect_transitions, this]

/-- Witness for C12 (amended): the sample buffer, prepared. -/
theorem collect_leaves_staged_transitions_witness :
    example_transition_buffer.prepare (fun _ _ => false) = some example_transition_buffer ∧
      (example_transition_buffer.collect_transitions undefined_access).2.2 =
        example_transition_buffer ∧
      ((example_transition_buffer.collect_transitions undefined_access).2.2.collect_transitions
        (example_transition_buffer.collect_transitions undefined_access).2.1).1 =
          ([], example_transition_buffer._raw_buffer_transitions.map
            (fun r => ⟨r.1, r.2.1, r.2.2⟩)) :=
  ⟨by rfl,
    (collect_leaves_staged_transitions (fun _ _ => false) undefined_access
      example_transition_buffer example_transition_buffer (by rfl)).1,
    (collect_leaves_staged_transitions (fun _ _ => false) undefined_access
      example_transition_buffer example_transition_buffer (by rfl)).2.1⟩

/-! ## Runs of descriptor sets -/

theorem descriptor_run_end_spec (sets : List descriptor_set_info) (i fuel e0 : Nat)
    (h1 : i < e0) (h2 : e0 ≤ sets.length) (hf : sets.length - e0 ≤ fuel)
    (hrun : ∀ j, i ≤ j → j < e0 →
      (sets.getD j default).space = (sets.getD i default).space + (j - i)) :
    e0 ≤ descriptor_run_end sets i fuel e0 ∧
    descriptor_run_end sets i fuel e0 ≤ sets.length ∧
    (∀ j, i ≤ j → j < descriptor_run_end sets i fuel e0 →
      (sets.getD j default).space = (sets.getD i default).space + (j - i)) ∧
    (descriptor_run_end sets i fuel e0 < sets.length →
      (sets.getD (descriptor_run_end sets i fuel e0) default).space ≠
        (sets.getD i default).space + (descriptor_run_end sets i fuel e0 - i)) := by
  induction fuel generalizing e0 with
  | zero =>
    have he : e0 = sets.length := by omega
    unfold descriptor_run_end
    exact ⟨Nat.le_refl _, h2, hrun, fun h => absurd h (by omega)⟩
  | succ fuel ih =>
    unfold descriptor_run_end
    by_cases hc : e0 < sets.length ∧
        (sets.getD e0 default).space = (sets.getD i default).space + (e0 - i)
    · rw [if_pos hc]
      have hrun' : ∀ j, i ≤ j → j < e0 + 1 →
          (sets.getD j default).space = (sets.getD i default).space + (j - i) := by
        intro j hij hj
        by_cases hje : j = e0
        · subst hje
          exact hc.2
        · exact hrun j hij (by omega)
      obtain ⟨a, b, c, d⟩ := ih (e0 + 1) (by omega) (by omega) (by omega) hrun'
      exact ⟨by omega, b, c, d⟩
    · rw [if_neg hc]
      refine ⟨Nat.le_refl _, h2, hrun, ?_⟩
      intro hlt heq
      exact hc ⟨hlt, heq⟩

theorem bound_descriptor_sets_append (a b : List event) :
    bound_descriptor_sets (a ++ b) = bound_descriptor_sets a ++ bound_descriptor_sets b := by
  induction a with
  | nil => rfl
  | cons e a ih => cases e <;> simp [bound_descriptor_sets, ih]

theorem get_command_list_bound_descriptor_sets (s : queue_context) :
    bound_descriptor_sets s._get_command_list.2.calls = bound_descriptor_sets s.calls := by
  unfold queue_context._get_command_list
  cases s._list <;> cases s._cmd_alloc <;>
    simp [bound_descriptor_sets, queue_context.emit, bound_descriptor_sets_append]

theorem record_bound_descriptor_sets (s : queue_context) (f : Nat → event)
    (b : List (descriptor_set_bind_point × Nat × Nat × List Nat))
    (h : ∀ list, bound_descriptor_sets [f list] = b) :
    bound_descriptor_sets (s.record f).calls = bound_descriptor_sets s.calls ++ b := by
  rw [record_eq, emit_calls, bound_descriptor_sets_append, h,
    get_command_list_bound_descriptor_sets]

theorem getD_take_drop (sets : List descriptor_set_info) (i m k : Nat) (hk : k < m) :
    ((sets.drop i).take m).getD k default = sets.getD (i + k) default := by
  rw [List.getD_eq_getElem?_getD, List.getD_eq_getElem?_getD, List.getElem?_take_of_lt hk,
    List.getElem?_drop]

theorem take_drop_is_descriptor_run (sets : List descriptor_set_info) (i e : Nat) (h1 : i < e)
    (h2 : e ≤ sets.length)
    (hrun : ∀ j, i ≤ j → j < e →
      (sets.getD j default).space = (sets.getD i default).space + (j - i)) :
    is_descriptor_run ((sets.drop i).take (e - i)) := by
  have hlen : ((sets.drop i).take (e - i)).length = e - i := by
    rw [List.length_take, List.length_drop]
    omega
  constructor
  · intro hnil
    rw [hnil] at hlen
    simp at hlen
    omega
  · intro k hk
    rw [hlen] at hk
    rw [getD_take_drop sets i (e - i) k hk, getD_take_drop sets i (e - i) 0 (by omega),
      hrun (i + k) (by omega) (by omega)]
    simp

/-- The outer loop of `_bind_descriptor_sets` from position `i` on, given fuel
for the sets that are left: the sets from `i` on are cut into runs, no run
can be extended by the first set of the next, and one bind call is made per
run. -/
theorem bind_descriptor_sets_from_spec (rsrc : pipeline_resources_info)
    (bind_point : descriptor_set_bind_point) (fuel i : Nat) (s : queue_context)
    (hi : i ≤ rsrc.descriptor_sets.length) (hfuel : rsrc.descriptor_sets.length - i ≤ fuel) :
    ∃ runs : List (List descriptor_set_info),
      runs.flatten = rsrc.descriptor_sets.drop i ∧
      (∀ run ∈ runs, is_descriptor_run run) ∧
      List.Chain' (fun r1 r2 =>
        (r2.getD 0 default).space ≠ (r1.getD 0 default).space + r1.length) runs ∧
      bound_descriptor_sets
          (queue_context._bind_descriptor_sets_from rsrc bind_point fuel i s).calls =
        bound_descriptor_sets s.calls ++
          runs.map (descriptor_run_bind bind_point rsrc.pipeline_resources) := by
  induction fuel generalizing i s with
  | zero =>
    have hin : rsrc.descriptor_sets.length ≤ i := by omega
    refine ⟨[], ?_, ?_, List.chain'_nil, ?_⟩
    · rw [List.drop_eq_nil_of_le hin]
      rfl
    · intro run hrun
      cases hrun
    · unfold queue_context._bind_descriptor_sets_from
      simp
  | succ fuel ih =>
    unfold queue_context._bind_descriptor_sets_from
    dsimp only
    by_cases hlt : i < rsrc.descriptor_sets.length
    · rw [if_pos hlt]
      obtain ⟨e1, e2, e3, e4⟩ := descriptor_run_end_spec rsrc.descriptor_sets i
        (rsrc.descriptor_sets.length - (i + 1)) (i + 1) (by omega) (by omega) (by omega)
        (by
          intro j hij hj
          have : j = i := by omega
          subst this
          simp)
      generalize descriptor_run_end rsrc.descriptor_sets i
        (rsrc.descriptor_sets.length - (i + 1)) (i + 1) = e at e1 e2 e3 e4 ⊢
      have hrun0 := take_drop_is_descriptor_run rsrc.descriptor_sets i e (by omega) e2 e3
      have hlen0 : ((rsrc.descriptor_sets.drop i).take (e - i)).length = e - i := by
        rw [List.length_take, List.length_drop]
        omega
      have hcalls : ∀ S : queue_context,
          bound_descriptor_sets S.calls = bound_descriptor_sets s.calls ++
            [descriptor_run_bind bind_point rsrc.pipeline_resources
              ((rsrc.descriptor_sets.drop i).take (e - i))] →
          ∃ runs : List (List descriptor_set_info),
            runs.flatten = rsrc.descriptor_sets.drop i ∧
            (∀ run ∈ runs, is_descriptor_run run) ∧
            List.Chain' (fun r1 r2 =>
              (r2.getD 0 default).space ≠ (r1.getD 0 default).space + r1.length) runs ∧
            bound_descriptor_sets
                (queue_context._bind_descriptor_sets_from rsrc bind_point fuel e S).calls =
              bound_descriptor_sets s.calls ++
                runs.map (descriptor_run_bind bind_point rsrc.pipeline_resources) := by
        intro S hS
        obtain ⟨runs, r1, r2, r3, r4⟩ := ih e S e2 (by omega)
        refine ⟨(rsrc.descriptor_sets.drop i).take (e - i) :: runs, ?_, ?_, ?_, ?_⟩
        · rw [List.flatten_cons, r1]
          have hd : rsrc.descriptor_sets.drop e =
              (rsrc.descriptor_sets.drop i).drop (e - i) := by
            rw [List.drop_drop]
            congr 1
            omega
          rw [hd, List.take_append_drop]
        · intro run hrun
          rcases List.mem_cons.mp hrun with rfl | hrun
          · exact hrun0
          · exact r2 run hrun
        · rw [List.chain'_cons']
          refine ⟨?_, r3⟩
          intro y hy
          cases runs with
          | nil => cases hy
          | cons y' rest =>
            simp only [List.head?_cons, Option.mem_def, Option.some.injEq] at hy
            subst hy
            have hy1 := (r2 y' (List.mem_cons_self _ _)).1
            have hhead : y'.getD 0 default = rsrc.descriptor_sets.getD e default := by
              cases y' with
              | nil => exact absurd rfl hy1
              | cons a tl =>
                rw [List.flatten_cons] at r1
                have h0 := congrArg (fun l => l.getD 0 default) r1
                simp only [List.cons_append, List.getD_cons_zero] at h0
                rw [List.getD_cons_zero, h0, List.getD_eq_getElem?_getD,
                  List.getD_eq_getElem?_getD, List.getElem?_drop]
                rfl
            have helt : e < rsrc.descriptor_sets.length := by
              by_contra hge
              rw [List.drop_eq_nil_of_le (by omega)] at r1
              cases y' with
              | nil => exact hy1 rfl
              | cons a tl => simp at r1
            rw [hhead, hlen0, getD_take_drop _ _ _ 0 (by omega)]
            exact e4 helt
        · rw [r4, hS, List.map_cons, List.append_assoc]
          rfl
      have hrange : (List.take (e - i) (List.drop i
          (List.map (fun x => x.set) rsrc.descriptor_sets))) =
          ((rsrc.descriptor_sets.drop i).take (e - i)).map (fun x => x.set) := by
        rw [List.map_take, List.map_drop]
      have hfirst : (rsrc.descriptor_sets.getD i default).space =
          (((rsrc.descriptor_sets.drop i).take (e - i)).getD 0 default).space := by
        rw [getD_take_drop _ _ _ 0 (by omega)]
        rfl
      cases bind_point with
      | graphics =>
        exact hcalls _ (record_bound_descriptor_sets _ _ _ (by
          intro _
          simp only [bound_descriptor_sets, descriptor_run_bind, hrange, hfirst]))
      | compute =>
        exact hcalls _ (record_bound_descriptor_sets _ _ _ (by
          intro _
          simp only [bound_descriptor_sets, descriptor_run_bind, hrange, hfirst]))
      | raytracing =>
        exact hcalls _ (record_bound_descriptor_sets _ _ _ (by
          intro _
          simp only [bound_descriptor_sets, descriptor_run_bind, hrange, hfirst]))
    · rw [if_neg hlt]
      refine ⟨[], ?_, ?_, List.chain'_nil, ?_⟩
      · rw [List.drop_eq_nil_of_le (by omega)]
        rfl
      · intro run hrun
        cases hrun
      · simp

/-- The outer loop of `_bind_descriptor_sets` does not depend on the fuel once
there is enough of it for the sets that are left. -/
theorem bind_descriptor_sets_from_fuel (rsrc : pipeline_resources_info)
    (bind_point : descriptor_set_bind_point) (fuel1 fuel2 i : Nat) (s : queue_context)
    (hi : i ≤ rsrc.descriptor_sets.length) (h1 : rsrc.descriptor_sets.length - i ≤ fuel1)
    (h2 : rsrc.descriptor_sets.length - i ≤ fuel2) :
    queue_context._bind_descriptor_sets_from rsrc bind_point fuel1 i s =
      queue_context._bind_descriptor_sets_from rsrc bind_point fuel2 i s := by
  induction fuel1 generalizing fuel2 i s with
  | zero =>
    have hin : ¬ i < rsrc.descriptor_sets.length := by omega
    cases fuel2 with
    | zero => rfl
    | succ fuel2 =>
      unfold queue_context._bind_descriptor_sets_from
      simp [hin]
  | succ fuel1 ih =>
    cases fuel2 with
    | zero =>
      have hin : ¬ i < rsrc.descriptor_sets.length := by omega
      unfold queue_context._bind_descriptor_sets_from
      simp [hin]
    | succ fuel2 =>
      unfold queue_context._bind_descriptor_sets_from
      dsimp only
      by_cases hlt : i < rsrc.descriptor_sets.length
      · rw [if_pos hlt, if_pos hlt]
        obtain ⟨e1, e2, -, -⟩ := descriptor_run_end_spec rsrc.descriptor_sets i
          (rsrc.descriptor_sets.length - (i + 1)) (i + 1) (by omega) (by omega) (by omega)
          (by
            intro j hij hj
            have : j = i := by omega
            subst this
            simp)
        exact ih fuel2 _ _ e2 (by omega) (by omega)
      · rw [if_neg hlt, if_neg hlt]

/-- C19: `_bind_descriptor_sets` cuts the list of descriptor sets, in order,
into runs: each run is not empty and its k-th set has the space of its first
set plus k; the runs are maximal, the first set of a run never continues the
run before it; put one after the other the runs are the list. It makes one
bind call per run, in order, through the function of the bind point, with the
first space of the run and the sets of the run in order, and no other bind
call, so the sets bound, taken together, are the sets of the list, each once.
The loop comes to its end: the fuel of the model, the number of sets, is
enough, and more fuel changes nothing. -/
theorem bind_descriptor_sets_binds_maximal_runs (rsrc : pipeline_resources_info)
    (bind_point : descriptor_set_bind_point) (s : queue_context) :
    (∃ runs : List (List descriptor_set_info),
      runs.flatten = rsrc.descriptor_sets ∧
      (∀ run ∈ runs, is_descriptor_run run) ∧
      List.Chain' (fun r1 r2 =>
        (r2.getD 0 default).space ≠ (r1.getD 0 default).space + r1.length) runs ∧
      bound_descriptor_sets (s._bind_descriptor_sets rsrc bind_point).calls =
        bound_descriptor_sets s.calls ++
          runs.map (descriptor_run_bind bind_point rsrc.pipeline_resources) ∧
      ((runs.map (descriptor_run_bind bind_point rsrc.pipeline_resources)).map
        (fun b => b.2.2.2)).flatten = rsrc.descriptor_sets.map (fun x => x.set)) ∧
    (∀ fuel, rsrc.descriptor_sets.length ≤ fuel →
      queue_context._bind_descriptor_sets_from rsrc bind_point fuel 0 s =
        s._bind_descriptor_sets rsrc bind_point) := by
  constructor
  · obtain ⟨runs, r1, r2, r3, r4⟩ := bind_descriptor_sets_from_spec rsrc bind_point
      rsrc.descriptor_sets.length 0 s (Nat.zero_le _) (by omega)
    refine ⟨runs, r1, r2, r3, r4, ?_⟩
    rw [List.map_map]
    have hmap : ∀ l : List (List descriptor_set_info),
        (l.map ((fun b : descriptor_set_bind_point × Nat × Nat × List Nat => b.2.2.2) ∘
          descriptor_run_bind bind_point rsrc.pipeline_resources)).flatten =
        l.flatten.map (fun x => x.set) := by
      intro l
      induction l with
      | nil => rfl
      | cons run rest ih =>
        rw [List.map_cons, List.flatten_cons, List.flatten_cons, List.map_append, ih]
        rfl
    rw [hmap, r1]
    rfl
  · intro fuel hfuel
    exact bind_descriptor_sets_from_fuel rsrc bind_point fuel _ 0 s (Nat.zero_le _)
      (by omega) (by omega)

/-- The runs of the sample pipeline resources, bound at the graphics bind
point in an empty context: spaces 0-1, space 3 and spaces 5-6. -/
theorem bind_descriptor_sets_example :
    bound_descriptor_sets
        ((queue_context.create example_queue)._bind_descriptor_sets example_pipeline_resources
          .graphics).calls =
      [(.graphics, 7, 0, [10, 11]), (.graphics, 7, 3, [12]), (.graphics, 7, 5, [13, 14])] := by
  rfl

/-! ## Vertex attributes of the Metal pipeline state -/

theorem find_element_index_found (semantic : String)
    (l : List gpu.backends.metal.vs_input_attribute) (i elem_index : Nat)
    (h : elem_index ≠ gpu.backends.metal.NS_UInteger_max) :
    gpu.backends.metal.find_element_index semantic l i elem_index =
      if l.countP (fun a => decide (a.name = semantic)) = 0 then .ok elem_index
      else .error .crash_if := by
  induction l generalizing i with
  | nil => rfl
  | cons a rest ih =>
    unfold gpu.backends.metal.find_element_index
    by_cases hm : a.name = semantic
    · simp [hm, h, List.countP_cons]
    · rw [if_neg hm, ih]
      simp [List.countP_cons, hm]

theorem find_element_index_fresh (semantic : String)
    (l : List gpu.backends.metal.vs_input_attribute) (i : Nat)
    (h : i + l.length ≤ gpu.backends.metal.NS_UInteger_max) :
    gpu.backends.metal.find_element_index semantic l i gpu.backends.metal.NS_UInteger_max =
      if l.countP (fun a => decide (a.name = semantic)) = 0 then
        .ok gpu.backends.metal.NS_UInteger_max
      else if l.countP (fun a => decide (a.name = semantic)) = 1 then
        .ok (i + l.findIdx (fun a => decide (a.name = semantic)))
      else .error .crash_if := by
  induction l generalizing i with
  | nil => rfl
  | cons a rest ih =>
    unfold gpu.backends.metal.find_element_index
    rw [List.length_cons] at h
    by_cases hm : a.name = semantic
    · have hi : i ≠ gpu.backends.metal.NS_UInteger_max := by omega
      rw [if_pos hm, if_neg (by simp), find_element_index_found semantic rest (i + 1) i hi]
      by_cases hc : rest.countP (fun a => decide (a.name = semantic)) = 0
      · simp [List.countP_cons, hm, hc, List.findIdx_cons]
      · simp [List.countP_cons, hm, hc]
    · rw [if_neg hm, ih (i + 1) (by omega)]
      have hf : (a :: rest).findIdx (fun a => decide (a.name = semantic)) =
          rest.findIdx (fun a => decide (a.name = semantic)) + 1 := by
        simp [List.findIdx_cons, hm]
      simp only [List.countP_cons, hm, decide_False, Bool.false_eq_true, if_false,
        Nat.add_zero, hf]
      rw [Nat.add_assoc, Nat.add_comm 1]

theorem findIdx_lt_of_countP_pos {α : Type} (p : α → Bool) (l : List α)
    (h : 0 < l.countP p) : l.findIdx p < l.length := by
  rw [List.findIdx_lt_length]
  obtain ⟨a, ha, hp⟩ := List.countP_pos_iff.mp h
  exact ⟨a, ha, hp⟩

/-- The index given to an element: the search finds exactly one attribute of
its semantic, or the element takes a `crash_if`. -/
theorem element_index_eq (constants : gpu.backends.metal.converter_constants)
    (attrs : List gpu.backends.metal.vs_input_attribute) (input_elem : gpu.input_buffer_element)
    (hlen : attrs.length < 2 ^ 64)
    (hk : constants.kIRStageInAttributeStartIndex + attrs.length ≤ 2 ^ 64) :
    gpu.backends.metal.element_index constants attrs input_elem =
      if attrs.countP (gpu.backends.metal.matches_semantic input_elem) = 1 then
        .ok (constants.kIRStageInAttributeStartIndex +
          attrs.findIdx (gpu.backends.metal.matches_semantic input_elem))
      else .error .crash_if := by
  have hmax : gpu.backends.metal.NS_UInteger_max = 2 ^ 64 - 1 := rfl
  have hp : (fun a : gpu.backends.metal.vs_input_attribute =>
      decide (a.name = gpu.backends.metal.semantic_string input_elem)) =
      gpu.backends.metal.matches_semantic input_elem := rfl
  unfold gpu.backends.metal.element_index
  rw [find_element_index_fresh _ attrs 0 (by omega), hp]
  by_cases h0 : attrs.countP (gpu.backends.metal.matches_semantic input_elem) = 0
  · simp [h0]
  · by_cases h1 : attrs.countP (gpu.backends.metal.matches_semantic input_elem) = 1
    · have hlt := findIdx_lt_of_countP_pos (gpu.backends.metal.matches_semantic input_elem)
        attrs (by omega)
      have hne : ¬ (attrs.findIdx (gpu.backends.metal.matches_semantic input_elem) =
          gpu.backends.metal.NS_UInteger_max) := by omega
      have hmod : (attrs.findIdx (gpu.backends.metal.matches_semantic input_elem) +
          constants.kIRStageInAttributeStartIndex) % 2 ^ 64 =
          constants.kIRStageInAttributeStartIndex +
            attrs.findIdx (gpu.backends.metal.matches_semantic input_elem) := by
        rw [Nat.mod_eq_of_lt (by omega)]
        omega
      rw [if_neg h0, if_pos h1, if_pos h1]
      dsimp only
      rw [Nat.zero_add, if_neg hne, hmod]
    · simp [h0, h1]

theorem add_vertex_attributes_eq (constants : gpu.backends.metal.converter_constants)
    (attrs : List gpu.backends.metal.vs_input_attribute) (buffer_index : Nat)
    (elements : List gpu.input_buffer_element)
    (vert_descriptor : gpu.backends.metal.vertex_descriptor)
    (hlen : attrs.length < 2 ^ 64)
    (hk : constants.kIRStageInAttributeStartIndex + attrs.length ≤ 2 ^ 64) :
    gpu.backends.metal.add_vertex_attributes constants attrs buffer_index elements
        vert_descriptor =
      if elements.all (gpu.backends.metal.unique_match attrs) then
        .ok { vert_descriptor with
          attributes := vert_descriptor.attributes ++
            elements.map (gpu.backends.metal.assigned_attribute constants attrs buffer_index) }
      else .error .crash_if := by
  induction elements generalizing vert_descriptor with
  | nil => simp [gpu.backends.metal.add_vertex_attributes]
  | cons input_elem rest ih =>
    unfold gpu.backends.metal.add_vertex_attributes
    rw [element_index_eq constants attrs input_elem hlen hk]
    by_cases h1 : attrs.countP (gpu.backends.metal.matches_semantic input_elem) = 1
    · rw [if_pos h1]
      dsimp only
      rw [ih]
      have hu : gpu.backends.metal.unique_match attrs input_elem = true := by
        simp [gpu.backends.metal.unique_match, h1]
      simp only [List.all_cons, hu, Bool.true_and, List.map_cons, List.append_assoc,
        List.singleton_append]
      rfl
    · rw [if_neg h1]
      have hu : gpu.backends.metal.unique_match attrs input_elem = false := by
        simp [gpu.backends.metal.unique_match, h1]
      simp [List.all_cons, hu]

theorem add_input_buffers_eq (constants : gpu.backends.metal.converter_constants)
    (attrs : List gpu.backends.metal.vs_input_attribute)
    (input_buffers : List gpu.input_buffer_layout)
    (vert_descriptor : gpu.backends.metal.vertex_descriptor)
    (hlen : attrs.length < 2 ^ 64)
    (hk : constants.kIRStageInAttributeStartIndex + attrs.length ≤ 2 ^ 64) :
    gpu.backends.metal.add_input_buffers constants attrs input_buffers vert_descriptor =
      if input_buffers.all (fun input_layout =>
          input_layout.elements.all (gpu.backends.metal.unique_match attrs)) then
        .ok { layouts := vert_descriptor.layouts ++ input_buffers.map (fun input_layout =>
                ((constants.kIRVertexBufferBindPoint + input_layout.buffer_index) % 2 ^ 64,
                  ⟨input_layout.stride, input_layout.input_rate⟩))
              attributes := vert_descriptor.attributes ++
                input_buffers.flatMap (gpu.backends.metal.assigned_attributes constants attrs) }
      else .error .crash_if := by
  induction input_buffers generalizing vert_descriptor with
  | nil => simp [gpu.backends.metal.add_input_buffers]
  | cons input_layout rest ih =>
    unfold gpu.backends.metal.add_input_buffers
    dsimp only
    rw [add_vertex_attributes_eq constants attrs _ _ _ hlen hk]
    by_cases h1 : input_layout.elements.all (gpu.backends.metal.unique_match attrs) = true
    · rw [if_pos h1]
      dsimp only
      rw [ih]
      simp only [List.all_cons, h1, Bool.true_and, List.map_cons, List.flatMap_cons,
        List.append_assoc, List.singleton_append]
      rfl
    · rw [if_neg h1]
      have h1' : input_layout.elements.all (gpu.backends.metal.unique_match attrs) = false := by
        simpa using h1
      simp only [List.all_cons, h1', Bool.false_and]
      rfl

/-- Counterexample for C18: both elements of the sample input buffer match
exactly one input of the vertex shader, and the loop over the elements
returns, yet creation aborts, because the device reports an error for the
pipeline descriptor. -/
theorem creation_aborts_on_device_error :
    example_input_buffers.all (fun input_layout =>
        input_layout.elements.all (gpu.backends.metal.unique_match
          example_vs_input_attributes)) = true ∧
      gpu.backends.metal.add_input_buffers example_converter_constants
        example_vs_input_attributes example_input_buffers ⟨[], []⟩ =
          .ok ⟨[(6, ⟨20, 0⟩)], [(12, ⟨3, 12, 6⟩), (11, ⟨2, 0, 6⟩)]⟩ ∧
      gpu.backends.metal.device.create_graphics_pipeline_state example_converter_constants
        (fun _ => true) example_vs_input_attributes [0] example_input_buffers [1] =
          .error .std_abort :=
  ⟨by rfl, by rfl, by rfl⟩

/-- C18 (amended): in `create_graphics_pipeline_state` of the Metal backend the
semantic string of every input element (its semantic name followed by its
semantic index in decimal, lower-cased) is compared with the names of the
inputs of the vertex shader. The loop over the elements takes a fatal path,
always `crash_if`, if and only if some element matches no input or more than
one. When it does not, every element is given the attribute index
`kIRStageInAttributeStartIndex` plus the position of its one match, in the
order of the elements. Creation as a whole returns exactly when moreover
`blend` has an entry for every colour format and the device reports no error
for the descriptor; a device error is answered by `std::abort()`. -/
theorem vertex_attributes_abort_iff_unmatched
    (constants : gpu.backends.metal.converter_constants)
    (error : gpu.backends.metal.vertex_descriptor → Bool)
    (attrs : List gpu.backends.metal.vs_input_attribute) (blend : List Nat)
    (input_buffers : List gpu.input_buffer_layout) (color_render_target_formats : List gpu.format)
    (hlen : attrs.length < 2 ^ 64)
    (hk : constants.kIRStageInAttributeStartIndex + attrs.length ≤ 2 ^ 64) :
    ((∃ why, gpu.backends.metal.add_input_buffers constants attrs input_buffers ⟨[], []⟩ =
        .error why) ↔
      ∃ input_layout ∈ input_buffers, ∃ input_elem ∈ input_layout.elements,
        attrs.countP (gpu.backends.metal.matches_semantic input_elem) ≠ 1) ∧
    (∀ why, gpu.backends.metal.add_input_buffers constants attrs input_buffers ⟨[], []⟩ =
        .error why → why = .crash_if) ∧
    (∀ vert_descriptor,
      gpu.backends.metal.add_input_buffers constants attrs input_buffers ⟨[], []⟩ =
        .ok vert_descriptor →
      vert_descriptor.attributes =
        input_buffers.flatMap (gpu.backends.metal.assigned_attributes constants attrs)) ∧
    ((∃ vert_descriptor,
        gpu.backends.metal.device.create_graphics_pipeline_state constants error attrs blend
          input_buffers color_render_target_formats = .ok vert_descriptor) ↔
      (∀ input_layout ∈ input_buffers, ∀ input_elem ∈ input_layout.elements,
        attrs.countP (gpu.backends.metal.matches_semantic input_elem) = 1) ∧
      color_render_target_formats.length ≤ blend.length ∧
      ∀ vert_descriptor,
        gpu.backends.metal.add_input_buffers constants attrs input_buffers ⟨[], []⟩ =
          .ok vert_descriptor → error vert_descriptor = false) := by
  have hall : input_buffers.all (fun input_layout =>
      input_layout.elements.all (gpu.backends.metal.unique_match attrs)) = true ↔
      ∀ input_layout ∈ input_buffers, ∀ input_elem ∈ input_layout.elements,
        attrs.countP (gpu.backends.metal.matches_semantic input_elem) = 1 := by
    simp [List.all_eq_true, gpu.backends.metal.unique_match]
  have hloop := add_input_buffers_eq constants attrs input_buffers ⟨[], []⟩ hlen hk
  by_cases hu : input_buffers.all (fun input_layout =>
      input_layout.elements.all (gpu.backends.metal.unique_match attrs)) = true
  · rw [if_pos hu] at hloop
    have hu' := hall.mp hu
    refine ⟨?_, ?_, ?_, ?_⟩
    · constructor
      · rintro ⟨why, hw⟩
        rw [hloop] at hw
        cases hw
      · rintro ⟨input_layout, hl, input_elem, he, hne⟩
        exact absurd (hu' input_layout hl input_elem he) hne
    · intro why hw
      rw [hloop] at hw
      cases hw
    · intro vert_descriptor hv
      rw [hloop] at hv
      cases hv
      simp
    · unfold gpu.backends.metal.device.create_graphics_pipeline_state
      rw [hloop]
      dsimp only
      constructor
      · rintro ⟨vert_descriptor, hv⟩
        refine ⟨hu', ?_, ?_⟩
        · by_contra hb
          rw [if_pos (by omega)] at hv
          cases hv
        · intro d hd
          cases hd
          by_cases hb : blend.length < color_render_target_formats.length
          · rw [if_pos hb] at hv
            cases hv
          · rw [if_neg hb] at hv
            cases he : error
              { layouts := ([] : List (Nat × gpu.backends.metal.vertex_buffer_layout)) ++
                  input_buffers.map (fun input_layout =>
                    ((constants.kIRVertexBufferBindPoint + input_layout.buffer_index) % 2 ^ 64,
                      ⟨input_layout.stride, input_layout.input_rate⟩))
                attributes := ([] : List (Nat × gpu.backends.metal.vertex_attribute)) ++
                  input_buffers.flatMap
                    (gpu.backends.metal.assigned_attributes constants attrs) } with
            | false => rfl
            | true =>
              rw [he] at hv
              cases hv
      · rintro ⟨-, hb, he⟩
        rw [if_neg (by omega), he _ rfl]
        exact ⟨_, rfl⟩
  · rw [if_neg hu] at hloop
    have hex : ∃ input_layout ∈ input_buffers, ∃ input_elem ∈ input_layout.elements,
        attrs.countP (gpu.backends.metal.matches_semantic input_elem) ≠ 1 := by
      by_contra hno
      apply hu
      rw [hall]
      intro input_layout hl input_elem he
      by_contra hne
      exact hno ⟨input_layout, hl, input_elem, he, hne⟩
    refine ⟨?_, ?_, ?_, ?_⟩
    · exact ⟨fun _ => hex, fun _ => ⟨_, hloop⟩⟩
    · intro why hw
      rw [hloop] at hw
      cases hw
      rfl
    · intro vert_descriptor hv
      rw [hloop] at hv
      cases hv
    · unfold gpu.backends.metal.device.create_graphics_pipeline_state
      rw [hloop]
      dsimp only
      constructor
      · rintro ⟨vert_descriptor, hv⟩
        cases hv
      · rintro ⟨hu', -, -⟩
        exact absurd (hall.mpr hu') hu

/-- Witness for C18 (amended): the sample shader and input buffer, for which
the loop returns and gives `TEXCOORD` 0 the index 11 + 1 and `POSITION` 0 the
index 11 + 0. -/
theorem vertex_attributes_abort_iff_unmatched_witness :
    example_vs_input_attributes.length < 2 ^ 64 ∧
      example_converter_constants.kIRStageInAttributeStartIndex +
        example_vs_input_attributes.length ≤ 2 ^ 64 ∧
      ∀ vert_descriptor,
        gpu.backends.metal.add_input_buffers example_converter_constants
          example_vs_input_attributes example_input_buffers ⟨[], []⟩ = .ok vert_descriptor →
        vert_descriptor.attributes =
          example_input_buffers.flatMap (gpu.backends.metal.assigned_attributes
            example_converter_constants example_vs_input_attributes) :=
  ⟨by decide, by decide,
    (vertex_attributes_abort_iff_unmatched example_converter_constants (fun _ => false)
      example_vs_input_attributes [0] example_input_buffers [1] (by decide) (by decide)).2.2.1⟩

/-! ## Pass state outside a pass, and compute pipelines -/

/-- C25: in every state reachable from a constructed queue context through
calls that return, being outside a pass implies that the stored list of colour
formats is empty and the stored depth-stencil format is `none`; so where the
first check of `begin_pass` (already within a pass) does not fire, the second
(pass-specific state left over) does not fire either. -/
theorem outside_pass_formats_are_reset (ext : externals) (s : queue_context)
    (hr : s.reachable ext) (hw : s._within_pass = false) :
    s._color_rt_formats = [] ∧ s._depth_stencil_rt_format = gpu.format.none ∧
      crash_if s._within_pass s = .returned () s ∧
      crash_if (!s._color_rt_formats.isEmpty || s._depth_stencil_rt_format != gpu.format.none)
        s = .returned () s := by
  have hclean := reachable_pass_state_reset ext hr hw
  have hf : s._color_rt_formats = [] := congrArg (fun p => p.2.1) hclean
  have hd : s._depth_stencil_rt_format = gpu.format.none := congrArg (fun p => p.2.2) hclean
  refine ⟨hf, hd, ?_, ?_⟩
  · rw [hw]
    rfl
  · rw [hf, hd]
    rfl

/-- Witness for C25: the sample context after `start_execution` is reachable
and outside a pass. -/
theorem outside_pass_formats_are_reset_witness :
    example_context.start_execution.reachable example_externals ∧
      example_context.start_execution._within_pass = false ∧
      example_context.start_execution._color_rt_formats = [] ∧
      example_context.start_execution._depth_stencil_rt_format = gpu.format.none :=
  ⟨example_context_reachable example_externals, rfl,
    (outside_pass_formats_are_reset example_externals example_context.start_execution
      (example_context_reachable example_externals) rfl).1,
    (outside_pass_formats_are_reset example_externals example_context.start_execution
      (example_context_reachable example_externals) rfl).2.1⟩

theorem created_compute_pipelines_append (a b : List event) :
    created_compute_pipelines (a ++ b) =
      created_compute_pipelines a ++ created_compute_pipelines b := by
  induction a with
  | nil => rfl
  | cons e a ih => cases e <;> simp [created_compute_pipelines, ih]

theorem bound_pipelines_append (a b : List event) :
    bound_pipelines (a ++ b) = bound_pipelines a ++ bound_pipelines b := by
  induction a with
  | nil => rfl
  | cons e a ih => cases e <;> simp [bound_pipelines, ih]

theorem get_command_list_compute_pipelines (s : queue_context) :
    created_compute_pipelines s._get_command_list.2.calls = created_compute_pipelines s.calls ∧
      bound_pipelines s._get_command_list.2.calls = bound_pipelines s.calls := by
  unfold queue_context._get_command_list
  cases s._list <;> cases s._cmd_alloc <;>
    simp [created_compute_pipelines, bound_pipelines, queue_context.emit,
      created_compute_pipelines_append, bound_pipelines_append]

theorem record_compute_pipelines (s : queue_context) (f : Nat → event)
    (h1 : ∀ list, created_compute_pipelines [f list] = [])
    (h2 : ∀ list, bound_pipelines [f list] = []) :
    created_compute_pipelines (s.record f).calls = created_compute_pipelines s.calls ∧
      bound_pipelines (s.record f).calls = bound_pipelines s.calls ∧
      s.objects ≤ (s.record f).objects := by
  rw [record_eq, emit_calls, created_compute_pipelines_append, bound_pipelines_append, h1, h2,
    (get_command_list_compute_pipelines s).1, (get_command_list_compute_pipelines s).2]
  exact ⟨by simp, by simp, get_command_list_objects_le s⟩

theorem bind_descriptor_sets_from_compute_pipelines (rsrc : pipeline_resources_info)
    (bind_point : descriptor_set_bind_point) (fuel i : Nat) (s : queue_context) :
    created_compute_pipelines
        (queue_context._bind_descriptor_sets_from rsrc bind_point fuel i s).calls =
      created_compute_pipelines s.calls ∧
    bound_pipelines (queue_context._bind_descriptor_sets_from rsrc bind_point fuel i s).calls =
      bound_pipelines s.calls ∧
    s.objects ≤ (queue_context._bind_descriptor_sets_from rsrc bind_point fuel i s).objects := by
  induction fuel generalizing i s with
  | zero => exact ⟨rfl, rfl, Nat.le_refl _⟩
  | succ fuel ih =>
    unfold queue_context._bind_descriptor_sets_from
    by_cases h : i < rsrc.descriptor_sets.length
    · rw [if_pos h]
      dsimp only
      cases bind_point with
      | graphics =>
        exact ⟨(ih _ _).1.trans
            (record_compute_pipelines s _ (by intro _; rfl) (by intro _; rfl)).1,
          (ih _ _).2.1.trans
            (record_compute_pipelines s _ (by intro _; rfl) (by intro _; rfl)).2.1,
          Nat.le_trans (record_compute_pipelines s _ (by intro _; rfl) (by intro _; rfl)).2.2
            (ih _ _).2.2⟩
      | compute =>
        exact ⟨(ih _ _).1.trans
            (record_compute_pipelines s _ (by intro _; rfl) (by intro _; rfl)).1,
          (ih _ _).2.1.trans
            (record_compute_pipelines s _ (by intro _; rfl) (by intro _; rfl)).2.1,
          Nat.le_trans (record_compute_pipelines s _ (by intro _; rfl) (by intro _; rfl)).2.2
            (ih _ _).2.2⟩
      | raytracing =>
        exact ⟨(ih _ _).1.trans
            (record_compute_pipelines s _ (by intro _; rfl) (by intro _; rfl)).1,
          (ih _ _).2.1.trans
            (record_compute_pipelines s _ (by intro _; rfl) (by intro _; rfl)).2.1,
          Nat.le_trans (record_compute_pipelines s _ (by intro _; rfl) (by intro _; rfl)).2.2
            (ih _ _).2.2⟩
    · rw [if_neg h]
      exact ⟨rfl, rfl, Nat.le_refl _⟩

/-- The part of `dispatch_compute` after the pipeline is created: it binds the
pipeline and the descriptor sets and runs the shader. -/
theorem dispatch_compute_tail (S : queue_context) (resources : pipeline_resources_info)
    (pipeline x y z : Nat) :
    created_compute_pipelines
        (((S._get_command_list.2.emit
          (.bind_pipeline_state S._get_command_list.1 pipeline))._bind_descriptor_sets
            resources .compute).emit (.run_compute_shader S._get_command_list.1 x y z)).calls =
      created_compute_pipelines S.calls ∧
    bound_pipelines
        (((S._get_command_list.2.emit
          (.bind_pipeline_state S._get_command_list.1 pipeline))._bind_descriptor_sets
            resources .compute).emit (.run_compute_shader S._get_command_list.1 x y z)).calls =
      bound_pipelines S.calls ++ [pipeline] ∧
    S.objects ≤
      (((S._get_command_list.2.emit
          (.bind_pipeline_state S._get_command_list.1 pipeline))._bind_descriptor_sets
            resources .compute).emit (.run_compute_shader S._get_command_list.1 x y z)).objects := by
  obtain ⟨b1, b2, b3⟩ := bind_descriptor_sets_from_compute_pipelines resources .compute
    resources.descriptor_sets.length 0
    (S._get_command_list.2.emit (.bind_pipeline_state S._get_command_list.1 pipeline))
  refine ⟨?_, ?_, ?_⟩
  · rw [emit_calls, created_compute_pipelines_append]
    unfold queue_context._bind_descriptor_sets
    rw [b1, emit_calls, created_compute_pipelines_append,
      (get_command_list_compute_pipelines S).1]
    simp [created_compute_pipelines]
  · rw [emit_calls, bound_pipelines_append]
    unfold queue_context._bind_descriptor_sets
    rw [b2, emit_calls, bound_pipelines_append, (get_command_list_compute_pipelines S).2]
    simp [bound_pipelines]
  · exact Nat.le_trans (get_command_list_objects_le S) b3

/-- What `dispatch_compute` does with pipelines: it asks the backend for one
new compute pipeline, for the pipeline resources of its bindings and its
shader, and binds that pipeline. -/
theorem execute_dispatch_compute_pipelines (ext : externals) (cmd : commands.dispatch_compute)
    (s : queue_context) :
    ∃ s', s._execute_dispatch_compute ext cmd = .returned () s' ∧
      created_compute_pipelines s'.calls = created_compute_pipelines s.calls ++
        [((ext.use_pipeline_resources s.calls cmd.resources).pipeline_resources, cmd.shader,
          s.objects)] ∧
      bound_pipelines s'.calls = bound_pipelines s.calls ++ [s.objects] ∧
      s.objects < s'.objects := by
  obtain ⟨t1, t2, t3⟩ := dispatch_compute_tail
    { s.emit (.use_pipeline_resources cmd.resources) |>.emit
        (.create_compute_pipeline_state
          (ext.use_pipeline_resources s.calls cmd.resources).pipeline_resources cmd.shader
          s.objects) with objects := s.objects + 1 }
    (ext.use_pipeline_resources s.calls cmd.resources) s.objects cmd.num_thread_groups.1
    cmd.num_thread_groups.2.1 cmd.num_thread_groups.2.2
  refine ⟨_, rfl, ?_, ?_, ?_⟩
  · refine t1.trans ?_
    simp [queue_context.emit, created_compute_pipelines_append, created_compute_pipelines]
  · refine t2.trans ?_
    simp [queue_context.emit, bound_pipelines_append, bound_pipelines]
  · exact Nat.lt_of_lt_of_le (Nat.lt_succ_self _) t3

/-- Counterexample for C23: `two_dispatch_queue` holds the same dispatch twice,
with the same shader and the same resource bindings, for which the batch
context answers with the same pipeline resources. The replay of the two
commands returns and asks the backend for a compute pipeline twice, with equal
arguments; the second dispatch binds the second pipeline (object 3), not the
one created for the first (object 0). -/
theorem second_dispatch_creates_second_pipeline :
    two_dispatch_queue.batch_commands.get? 0 = two_dispatch_queue.batch_commands.get? 1 ∧
      (two_dispatch_context.start_execution.replay example_externals 2).is_returned = true ∧
      created_compute_pipelines
          (two_dispatch_context.start_execution.replay example_externals 2).state.calls =
        [(7, 4, 0), (7, 4, 3)] ∧
      bound_pipelines
          (two_dispatch_context.start_execution.replay example_externals 2).state.calls =
        [0, 3] :=
  ⟨by rfl, by rfl, by rfl, by rfl⟩

/-- C23 (amended): a `dispatch_compute` does not go through a pipeline cache.
Every execution returns, asks the backend for exactly one new compute pipeline
state, for the pipeline resources of its bindings and its shader, and binds
the pipeline just created; no pipeline of an earlier dispatch is bound. -/
theorem dispatch_compute_creates_pipeline (ext : externals) (cmd : commands.dispatch_compute)
    (s : queue_context) :
    ∃ s', s._execute ext (.dispatch_compute cmd) = .returned () s' ∧
      created_compute_pipelines s'.calls = created_compute_pipelines s.calls ++
        [((ext.use_pipeline_resources s.calls cmd.resources).pipeline_resources, cmd.shader,
          s.objects)] ∧
      bound_pipelines s'.calls = bound_pipelines s.calls ++ [s.objects] ∧
      s.objects < s'.objects :=
  execute_dispatch_compute_pipelines ext cmd s

/-! ## Texture ids of the Dear ImGui bridge -/

theorem to_intptr_t_of_lt (n : Nat) (h : n < 2 ^ 63) : to_intptr_t n = (n : Int) := by
  unfold to_intptr_t
  have h1 : n % 2 ^ 64 = n := Nat.mod_eq_of_lt (by omega)
  rw [h1, if_pos h]

theorem register_textures_prefix (imgs : List (Option image2d_view)) (c : dear_imgui.context) :
    ∃ added, (c.register_textures imgs)._registered_images = c._registered_images ++ added := by
  induction imgs generalizing c with
  | nil => exact ⟨[], by simp [dear_imgui.context.register_textures]⟩
  | cons img rest ih =>
    unfold dear_imgui.context.register_textures
    obtain ⟨added, h⟩ := ih (c.register_texture img).2
    cases img with
    | none => exact ⟨added, h⟩
    | some view =>
      refine ⟨view :: added, ?_⟩
      rw [h]
      simp [dear_imgui.context.register_texture]

/-- C30: `register_texture` returns the null id 0 for an empty view and leaves
the registry as it is; for a view that is not empty it appends the view and
returns the new size of the registry, which is not 0. However many
registrations follow, the lookup made by `render` under that id,
`_registered_images[id - 1]`, yields the view registered, and a view
registered later gets a larger id. Sizes are below 2^63, the range of
`intptr_t`. -/
theorem register_texture_ids (c : dear_imgui.context) (view later : image2d_view)
    (more : List (Option image2d_view))
    (hsize : (((c.register_texture (some view)).2.register_textures
      more)._registered_images.length + 1 < 2 ^ 63)) :
    c.register_texture none = (0, c) ∧
      (c.register_texture (some view)).2._registered_images =
        c._registered_images ++ [view] ∧
      (c.register_texture (some view)).1 = (c._registered_images.length : Int) + 1 ∧
      0 < (c.register_texture (some view)).1 ∧
      ((c.register_texture (some view)).2.register_textures more).texture_of
        (c.register_texture (some view)).1 = .ok (some view) ∧
      (c.register_texture (some view)).1 <
        (((c.register_texture (some view)).2.register_textures more).register_texture
          (some later)).1 := by
  obtain ⟨added, hadded⟩ := register_textures_prefix more (c.register_texture (some view)).2
  have hreg : (c.register_texture (some view)).2._registered_images =
      c._registered_images ++ [view] := rfl
  rw [hadded, hreg] at hsize
  simp only [List.length_append, List.length_singleton] at hsize
  have hid : (c.register_texture (some view)).1 = (c._registered_images.length : Int) + 1 := by
    show to_intptr_t (c._registered_images ++ [view]).length = _
    rw [to_intptr_t_of_lt _ (by simp; omega)]
    simp
  refine ⟨rfl, hreg, hid, by omega, ?_, ?_⟩
  · unfold dear_imgui.context.texture_of
    rw [hid, if_pos (by omega), hadded, hreg]
    have hidx : ((c._registered_images.length : Int) + 1 - 1).toNat =
        c._registered_images.length := by simp
    rw [hidx]
    have hget : (c._registered_images ++ [view] ++ added).get? c._registered_images.length =
        some view := by
      rw [List.append_assoc, List.get?_eq_getElem?, List.getElem?_append_right (Nat.le_refl _)]
      simp
    rw [hget]
  · rw [hid]
    show _ < to_intptr_t (((c.register_texture (some view)).2.register_textures
      more)._registered_images ++ [later]).length
    rw [hadded, hreg, to_intptr_t_of_lt _ (by simp; omega)]
    simp only [List.length_append, List.length_singleton]
    push_cast
    omega

/-- Witness for C30: the sample image is registered in an empty registry,
then an empty view and the second image; the sample image has id 1 and is
found under it afterwards, and a third registration gets id 3. -/
theorem register_texture_ids_witness :
    ((⟨[]⟩ : dear_imgui.context).register_texture (some example_image)).1 = 1 ∧
      ((((⟨[]⟩ : dear_imgui.context).register_texture (some example_image)).2.register_textures
        [none, some example_image_two]).register_texture (some example_image)).1 = 3 ∧
      ((((⟨[]⟩ : dear_imgui.context).register_texture (some example_image)).2.register_textures
        [none, some example_image_two]).texture_of
        ((⟨[]⟩ : dear_imgui.context).register_texture (some example_image)).1) =
          .ok (some example_image) :=
  ⟨by rfl, by rfl,
    (register_texture_ids ⟨[]⟩ example_image example_image [none, some example_image_two]
      (by decide)).2.2.2.2.1⟩

/-! ## Descriptor set layouts of the Metal backend -/

theorem neighbours_overlap_eq_false_iff
    (get_last : gpu.descriptor_range_binding → Nat) (l : List gpu.descriptor_range_binding) :
    gpu.backends.metal.neighbours_overlap get_last l = false ↔
      List.Chain' (fun a b => get_last a < b.register_index) l := by
  induction l with
  | nil => simp [gpu.backends.metal.neighbours_overlap]
  | cons a rest ih =>
    cases rest with
    | nil => simp [gpu.backends.metal.neighbours_overlap]
    | cons b rest =>
      unfold gpu.backends.metal.neighbours_overlap
      rw [List.chain'_cons]
      by_cases h : b.register_index ≤ get_last a
      · rw [if_pos h]
        constructor
        · intro hf
          cases hf
        · rintro ⟨hlt, -⟩
          omega
      · rw [if_neg h, ih]
        constructor
        · intro hc
          exact ⟨by omega, hc⟩
        · rintro ⟨-, hc⟩
          exact hc

theorem chain_last_lt_pairwise (get_last : gpu.descriptor_range_binding → Nat)
    (l : List gpu.descriptor_range_binding)
    (hrange : ∀ b ∈ l, b.register_index ≤ get_last b)
    (hc : List.Chain' (fun a b => get_last a < b.register_index) l) :
    l.Pairwise (fun a b => get_last a < b.register_index) := by
  induction l with
  | nil => exact List.Pairwise.nil
  | cons a rest ih =>
    have hrest := ih (fun b hb => hrange b (List.mem_cons_of_mem _ hb)) hc.tail
    refine List.Pairwise.cons ?_ hrest
    cases rest with
    | nil =>
      intro b hb
      cases hb
    | cons b rest =>
      have hab : get_last a < b.register_index := (List.chain'_cons.mp hc).1
      intro x hx
      rcases List.mem_cons.mp hx with rfl | hx
      · exact hab
      · have hbx := (List.pairwise_cons.mp hrest).1 x hx
        have hb := hrange b (List.mem_cons_of_mem _ (List.mem_cons_self _ _))
        omega

/-- For bindings sorted by register index whose ranges do not end before they
begin, no two ranges overlap exactly when every range ends before the next
one in the list begins. -/
theorem sorted_disjoint_iff (get_last : gpu.descriptor_range_binding → Nat)
    (l : List gpu.descriptor_range_binding)
    (hrange : ∀ b ∈ l, b.register_index ≤ get_last b)
    (hsorted : l.Pairwise (fun a b => a.register_index ≤ b.register_index)) :
    l.Pairwise (fun a b => ¬ gpu.ranges_overlap get_last a b) ↔
      gpu.backends.metal.neighbours_overlap get_last l = false := by
  rw [neighbours_overlap_eq_false_iff]
  constructor
  · intro hd
    refine List.Pairwise.chain' ?_
    refine List.Pairwise.imp_of_mem ?_ (hsorted.and hd)
    rintro a b - hb ⟨hle, hno⟩
    have hbr := hrange b hb
    unfold gpu.ranges_overlap at hno
    omega
  · intro hc
    refine List.Pairwise.imp ?_ (chain_last_lt_pairwise get_last l hrange hc)
    intro a b hlt hov
    unfold gpu.ranges_overlap at hov
    omega

/-- C26: for bindings none of whose ranges ends before it begins,
`create_descriptor_set_layout` of the Metal backend stops the process, by
`crash_if`, if and only if two of the bindings given overlap in register
indices; to compare each binding with its neighbour after sorting is enough,
in whatever order the sort leaves bindings of equal register index. When it
returns, the stored bindings are the given ones in another order, strictly
ascending by register index, each range ending before the next begins, and
no two overlap. -/
theorem descriptor_set_layout_aborts_iff_overlap
    (get_last : gpu.descriptor_range_binding → Nat)
    (bindings : List gpu.descriptor_range_binding) (stage : Nat)
    (hrange : ∀ b ∈ bindings, b.register_index ≤ get_last b) :
    (gpu.backends.metal.device.create_descriptor_set_layout get_last bindings stage =
        .error .crash_if ↔
      ∃ (i j : Nat) (hi : i < bindings.length) (hj : j < bindings.length), i < j ∧
        gpu.ranges_overlap get_last bindings[i] bindings[j]) ∧
    ((∃ layout, gpu.backends.metal.device.create_descriptor_set_layout get_last bindings stage =
        .ok layout) ∨
      gpu.backends.metal.device.create_descriptor_set_layout get_last bindings stage =
        .error .crash_if) ∧
    (∀ layout,
      gpu.backends.metal.device.create_descriptor_set_layout get_last bindings stage =
        .ok layout →
      layout._bindings.Perm bindings ∧ layout._stage = stage ∧
      layout._bindings.Pairwise (fun a b => a.register_index < b.register_index) ∧
      layout._bindings.Pairwise (fun a b => get_last a < b.register_index) ∧
      layout._bindings.Pairwise (fun a b => ¬ gpu.ranges_overlap get_last a b)) ∧
    (∀ sorted : List gpu.descriptor_range_binding, sorted.Perm bindings →
      sorted.Pairwise (fun a b => a.register_index ≤ b.register_index) →
      (gpu.backends.metal.neighbours_overlap get_last sorted = true ↔
        gpu.backends.metal.device.create_descriptor_set_layout get_last bindings stage =
          .error .crash_if)) := by
  have hsym : ∀ {x y : gpu.descriptor_range_binding},
      ¬ gpu.ranges_overlap get_last x y → ¬ gpu.ranges_overlap get_last y x := by
    intro x y h hyx
    exact h ⟨hyx.2, hyx.1⟩
  have hany : ∀ sorted : List gpu.descriptor_range_binding, sorted.Perm bindings →
      sorted.Pairwise (fun a b => a.register_index ≤ b.register_index) →
      (gpu.backends.metal.neighbours_overlap get_last sorted = false ↔
        bindings.Pairwise (fun a b => ¬ gpu.ranges_overlap get_last a b)) := by
    intro sorted hperm hsorted
    rw [← sorted_disjoint_iff get_last sorted
      (fun b hb => hrange b (hperm.mem_iff.mp hb)) hsorted]
    exact hperm.pairwise_iff hsym
  have hperm := List.perm_insertionSort
    (fun lhs rhs : gpu.descriptor_range_binding => lhs.register_index ≤ rhs.register_index)
    bindings
  have hsorted : (bindings.insertionSort
      (fun lhs rhs => lhs.register_index ≤ rhs.register_index)).Pairwise
      (fun a b => a.register_index ≤ b.register_index) := by
    haveI : IsTotal gpu.descriptor_range_binding
        (fun lhs rhs => lhs.register_index ≤ rhs.register_index) :=
      ⟨fun a b => Nat.le_total _ _⟩
    haveI : IsTrans gpu.descriptor_range_binding
        (fun lhs rhs => lhs.register_index ≤ rhs.register_index) :=
      ⟨fun a b c => Nat.le_trans⟩
    exact List.sorted_insertionSort _ bindings
  have hmain := hany _ hperm hsorted
  have hpair : bindings.Pairwise (fun a b => ¬ gpu.ranges_overlap get_last a b) ↔
      ¬ ∃ (i j : Nat) (hi : i < bindings.length) (hj : j < bindings.length), i < j ∧
        gpu.ranges_overlap get_last bindings[i] bindings[j] := by
    rw [List.pairwise_iff_getElem]
    constructor
    · rintro h ⟨i, j, hi, hj, hij, hov⟩
      exact h i j hi hj hij hov
    · intro h i j hi hj hij hov
      exact h ⟨i, j, hi, hj, hij, hov⟩
  unfold gpu.backends.metal.device.create_descriptor_set_layout
  dsimp only
  cases hn : gpu.backends.metal.neighbours_overlap get_last
      (bindings.insertionSort (fun lhs rhs => lhs.register_index ≤ rhs.register_index)) with
  | true =>
    have hnot : ¬ bindings.Pairwise (fun a b => ¬ gpu.ranges_overlap get_last a b) := by
      intro hp
      rw [hmain.mpr hp] at hn
      cases hn
    refine ⟨?_, Or.inr (by simp), ?_, ?_⟩
    · simp only [if_true, true_iff]
      by_contra hno
      exact hnot (hpair.mpr hno)
    · intro layout hl
      simp at hl
    · intro sorted hp hs
      simp only [if_true, iff_true]
      cases hs' : gpu.backends.metal.neighbours_overlap get_last sorted with
      | true => rfl
      | false => exact absurd ((hany sorted hp hs).mp hs') hnot
  | false =>
    have hp := hmain.mp hn
    have hchain := chain_last_lt_pairwise get_last _
      (fun b hb => hrange b (hperm.mem_iff.mp hb))
      ((neighbours_overlap_eq_false_iff get_last _).mp hn)
    refine ⟨?_, Or.inl ⟨_, if_neg (by simp)⟩, ?_, ?_⟩
    · simp only [Bool.false_eq_true, if_false, false_iff]
      constructor
      · intro h
        cases h
      · intro hex
        exact absurd hex (hpair.mp hp)
    · intro layout hl
      simp only [Bool.false_eq_true, if_false, Except.ok.injEq] at hl
      subst hl
      refine ⟨hperm, rfl, ?_, hchain, (hperm.pairwise_iff hsym).mpr hp⟩
      refine List.Pairwise.imp_of_mem ?_ hchain
      intro a b ha _ hlt
      have := hrange a (hperm.mem_iff.mp ha)
      omega
    · intro sorted hp' hs
      simp only [Bool.false_eq_true, if_false]
      rw [(hany sorted hp' hs).mpr hp]
      simp

/-- Witness for C26: the three sample ranges, registers 4-5, 0-1 and 2-3, are
stored as 0-1, 2-3, 4-5. -/
theorem descriptor_set_layout_aborts_iff_overlap_witness :
    (∀ b ∈ example_range_bindings, b.register_index ≤ example_get_last_register_index b) ∧
      gpu.backends.metal.device.create_descriptor_set_layout example_get_last_register_index
        example_range_bindings 1 = .ok ⟨[⟨1, 2, 0⟩, ⟨0, 2, 2⟩, ⟨0, 2, 4⟩], 1⟩ ∧
      (⟨[⟨1, 2, 0⟩, ⟨0, 2, 2⟩, ⟨0, 2, 4⟩], 1⟩ :
        gpu.backends.metal.descriptor_set_layout)._bindings.Perm example_range_bindings :=
  ⟨by decide, by rfl,
    ((descriptor_set_layout_aborts_iff_overlap example_get_last_register_index
      example_range_bindings 1 (by decide)).2.2.1 _ (by rfl)).1⟩

/-! ## The surface format of a Vulkan swap chain -/

theorem surface_format_less_eq_false_iff (a b : vk.SurfaceFormatKHR) :
    graphics.backends.vulkan.surface_format_less b a = false ↔
      a.format < b.format ∨ (a.format = b.format ∧
        (b.colorSpace = vk.ColorSpaceKHR.eSrgbNonlinear →
          a.colorSpace = vk.ColorSpaceKHR.eSrgbNonlinear)) := by
  unfold graphics.backends.vulkan.surface_format_less
  by_cases hf : b.format = a.format
  · rw [if_pos hf]
    simp only [decide_eq_false_iff_not, not_and, not_not]
    constructor
    · intro h
      exact Or.inr ⟨hf.symm, h⟩
    · rintro (h | ⟨-, h⟩)
      · omega
      · exact h
  · rw [if_neg hf]
    simp only [decide_eq_false_iff_not]
    constructor
    · intro h
      left
      omega
    · rintro (h | ⟨h, -⟩)
      · omega
      · exact absurd h.symm hf

theorem sorted_insertionSort_surface_formats (surface_formats : List vk.SurfaceFormatKHR) :
    (surface_formats.insertionSort
      (fun lhs rhs => graphics.backends.vulkan.surface_format_less rhs lhs = false)).Pairwise
      (fun lhs rhs => graphics.backends.vulkan.surface_format_less rhs lhs = false) := by
  haveI : IsTotal vk.SurfaceFormatKHR
      (fun lhs rhs => graphics.backends.vulkan.surface_format_less rhs lhs = false) := by
    refine ⟨fun a b => ?_⟩
    simp only [surface_format_less_eq_false_iff]
    by_cases h1 : a.format < b.format
    · exact Or.inl (Or.inl h1)
    · by_cases h2 : b.format < a.format
      · exact Or.inr (Or.inl h2)
      · have he : a.format = b.format := by omega
        by_cases ha : a.colorSpace = vk.ColorSpaceKHR.eSrgbNonlinear
        · exact Or.inl (Or.inr ⟨he, fun _ => ha⟩)
        · by_cases hb : b.colorSpace = vk.ColorSpaceKHR.eSrgbNonlinear
          · exact Or.inr (Or.inr ⟨he.symm, fun _ => hb⟩)
          · exact Or.inl (Or.inr ⟨he, fun h => absurd h hb⟩)
  haveI : IsTrans vk.SurfaceFormatKHR
      (fun lhs rhs => graphics.backends.vulkan.surface_format_less rhs lhs = false) := by
    refine ⟨fun a b c => ?_⟩
    simp only [surface_format_less_eq_false_iff]
    rintro (h1 | ⟨h1, s1⟩) (h2 | ⟨h2, s2⟩)
    · exact Or.inl (by omega)
    · exact Or.inl (by omega)
    · exact Or.inl (by omega)
    · exact Or.inr ⟨by omega, fun h => s1 (s2 h)⟩
  exact List.sorted_insertionSort _ surface_formats

/-- What `std::lower_bound` finds in a sorted list when the format searched is
there: the first entry of that format, which is an sRGB entry if the list has
one of that format. -/
theorem lower_bound_of_available (available_fmts : List vk.SurfaceFormatKHR)
    (hs : available_fmts.Pairwise
      (fun lhs rhs => graphics.backends.vulkan.surface_format_less rhs lhs = false))
    (result_fmt : Nat) (h : ∃ e ∈ available_fmts, e.format = result_fmt) :
    ∃ it, graphics.backends.vulkan.lower_bound available_fmts result_fmt = some it ∧
      it ∈ available_fmts ∧ it.format = result_fmt ∧
      ∀ e ∈ available_fmts, e.format = result_fmt →
        e.colorSpace = vk.ColorSpaceKHR.eSrgbNonlinear →
        it.colorSpace = vk.ColorSpaceKHR.eSrgbNonlinear := by
  obtain ⟨e0, he0, hf0⟩ := h
  unfold graphics.backends.vulkan.lower_bound
  cases hfind : available_fmts.find? (fun lhs => !decide (lhs.format < result_fmt)) with
  | none =>
    have := List.find?_eq_none.mp hfind e0 he0
    simp [hf0] at this
  | some it =>
    obtain ⟨hp, pre, post, hsplit, hpre⟩ := List.find?_eq_some.mp hfind
    have hge : result_fmt ≤ it.format := by simpa using hp
    have hlt : ∀ a ∈ pre, a.format < result_fmt := by
      intro a ha
      simpa using hpre a ha
    have hmem : it ∈ available_fmts := by
      rw [hsplit]
      simp
    rw [hsplit] at hs
    have hpost : ∀ b ∈ post, graphics.backends.vulkan.surface_format_less b it = false :=
      (List.pairwise_cons.mp (List.pairwise_append.mp hs).2.1).1
    have hcase : ∀ e ∈ available_fmts, e.format = result_fmt → e = it ∨ e ∈ post := by
      intro e he hf
      rw [hsplit] at he
      rcases List.mem_append.mp he with h1 | h1
      · have := hlt e h1
        omega
      · rcases List.mem_cons.mp h1 with h2 | h2
        · exact Or.inl h2
        · exact Or.inr h2
    have hfmt : it.format = result_fmt := by
      rcases hcase e0 he0 hf0 with h1 | h1
      · rw [← h1]
        exact hf0
      · rcases (surface_format_less_eq_false_iff it e0).mp (hpost e0 h1) with h2 | ⟨h2, -⟩
        · omega
        · omega
    refine ⟨it, rfl, hmem, hfmt, ?_⟩
    intro e he hf hsrgb
    rcases hcase e he hf with h1 | h1
    · rw [← h1]
      exact hsrgb
    · rcases (surface_format_less_eq_false_iff it e).mp (hpost e h1) with h2 | ⟨-, h2⟩
      · omega
      · exact h2 hsrgb

theorem lower_bound_of_unavailable (available_fmts : List vk.SurfaceFormatKHR)
    (result_fmt : Nat) (h : ¬ ∃ e ∈ available_fmts, e.format = result_fmt)
    (it : vk.SurfaceFormatKHR)
    (hit : graphics.backends.vulkan.lower_bound available_fmts result_fmt = some it) :
    it.format ≠ result_fmt := by
  intro hf
  exact h ⟨it, List.mem_of_find?_eq_some hit, hf⟩

/-- The loop over the requested formats stops at the first request that is
available, with the entry `std::lower_bound` finds for it; it finds nothing
when no request is available. -/
theorem find_requested_format_spec (for_format : graphics.format → Nat)
    (available_fmts : List vk.SurfaceFormatKHR)
    (hs : available_fmts.Pairwise
      (fun lhs rhs => graphics.backends.vulkan.surface_format_less rhs lhs = false))
    (formats : List graphics.format) :
    (∀ pre fmt post, formats = pre ++ fmt :: post →
      (∀ f ∈ pre, ¬ graphics.backends.vulkan.is_available for_format available_fmts f) →
      graphics.backends.vulkan.is_available for_format available_fmts fmt →
      ∃ it, graphics.backends.vulkan.find_requested_format for_format available_fmts formats =
          some (it, fmt) ∧
        it ∈ available_fmts ∧ it.format = for_format fmt ∧
        ∀ e ∈ available_fmts, e.format = for_format fmt →
          e.colorSpace = vk.ColorSpaceKHR.eSrgbNonlinear →
          it.colorSpace = vk.ColorSpaceKHR.eSrgbNonlinear) ∧
    ((∀ f ∈ formats, ¬ graphics.backends.vulkan.is_available for_format available_fmts f) →
      graphics.backends.vulkan.find_requested_format for_format available_fmts formats =
        none) := by
  induction formats with
  | nil =>
    refine ⟨?_, fun _ => rfl⟩
    intro pre fmt post h
    simp at h
  | cons f rest ih =>
    have hskip : ¬ graphics.backends.vulkan.is_available for_format available_fmts f →
        graphics.backends.vulkan.find_requested_format for_format available_fmts (f :: rest) =
          graphics.backends.vulkan.find_requested_format for_format available_fmts rest := by
      intro hna
      cases hl : graphics.backends.vulkan.lower_bound available_fmts (for_format f) with
      | none => rw [graphics.backends.vulkan.find_requested_format, hl]
      | some it =>
        rw [graphics.backends.vulkan.find_requested_format, hl]
        dsimp only
        rw [if_neg (lower_bound_of_unavailable available_fmts _ hna it hl)]
    constructor
    · intro pre fmt post hsplit hpre havail
      cases pre with
      | nil =>
        simp only [List.nil_append, List.cons.injEq] at hsplit
        obtain ⟨rfl, rfl⟩ := hsplit
        obtain ⟨it, h1, h2, h3, h4⟩ := lower_bound_of_available available_fmts hs _ havail
        refine ⟨it, ?_, h2, h3, h4⟩
        rw [graphics.backends.vulkan.find_requested_format, h1]
        dsimp only
        rw [if_pos h3]
      | cons p pre =>
        simp only [List.cons_append, List.cons.injEq] at hsplit
        obtain ⟨rfl, hrest⟩ := hsplit
        rw [hskip (hpre _ (List.mem_cons_self _ _))]
        exact ih.1 pre fmt post hrest
          (fun g hg => hpre g (List.mem_cons_of_mem _ hg)) havail
    · intro hall
      rw [hskip (hall f (List.mem_cons_self _ _))]
      exact ih.2 (fun g hg => hall g (List.mem_cons_of_mem _ hg))

/-- The choice of the surface format, for every order in which the sort may
leave the available formats: the first request that is available decides, with
an sRGB entry of its format if there is one; with no request available the
first entry of the sorted list is taken and its format converted back. -/
theorem select_surface_format_spec (for_format : graphics.format → Nat)
    (back_to_format : Nat → graphics.format)
    (surface_formats available_fmts : List vk.SurfaceFormatKHR)
    (formats : List graphics.format) (hne : surface_formats ≠ [])
    (hperm : available_fmts.Perm surface_formats)
    (hsorted : available_fmts.Pairwise
      (fun lhs rhs => graphics.backends.vulkan.surface_format_less rhs lhs = false))
    (hnone : back_to_format (for_format graphics.format.none) = graphics.format.none) :
    (∀ pre fmt post, formats = pre ++ fmt :: post →
      (∀ f ∈ pre, ¬ graphics.backends.vulkan.is_available for_format surface_formats f) →
      graphics.backends.vulkan.is_available for_format surface_formats fmt →
      ∃ it, graphics.backends.vulkan.select_surface_format for_format back_to_format
          available_fmts formats = .ok (it, fmt) ∧
        it ∈ surface_formats ∧ it.format = for_format fmt ∧
        ∀ e ∈ surface_formats, e.format = for_format fmt →
          e.colorSpace = vk.ColorSpaceKHR.eSrgbNonlinear →
          it.colorSpace = vk.ColorSpaceKHR.eSrgbNonlinear) ∧
    ((∀ f ∈ formats, ¬ graphics.backends.vulkan.is_available for_format surface_formats f) →
      ∃ first, available_fmts.head? = some first ∧
        graphics.backends.vulkan.select_surface_format for_format back_to_format
          available_fmts formats = .ok (first, back_to_format first.format) ∧
        first ∈ surface_formats ∧
        ∀ e ∈ surface_formats, graphics.backends.vulkan.surface_format_less e first = false) := by
  have havail : ∀ f, graphics.backends.vulkan.is_available for_format available_fmts f ↔
      graphics.backends.vulkan.is_available for_format surface_formats f := by
    intro f
    unfold graphics.backends.vulkan.is_available
    constructor
    · rintro ⟨e, he, hf⟩
      exact ⟨e, hperm.mem_iff.mp he, hf⟩
    · rintro ⟨e, he, hf⟩
      exact ⟨e, hperm.mem_iff.mpr he, hf⟩
  obtain ⟨hfound, hnot⟩ := find_requested_format_spec for_format available_fmts hsorted formats
  cases hav : available_fmts with
  | nil =>
    rw [hav] at hperm
    exact absurd (List.Perm.nil_eq hperm).symm hne
  | cons first rest =>
    constructor
    · intro pre fmt post hsplit hpre hfmt
      obtain ⟨it, h1, h2, h3, h4⟩ := hfound pre fmt post hsplit
        (fun f hf => fun ha => hpre f hf ((havail f).mp ha)) ((havail fmt).mpr hfmt)
      rw [hav] at h1
      refine ⟨it, ?_, hperm.mem_iff.mp (hav ▸ h2), h3, ?_⟩
      · unfold graphics.backends.vulkan.select_surface_format
        dsimp only
        rw [h1]
        by_cases hz : fmt = graphics.format.none
        · subst hz
          simp [h3, hnone]
        · simp [hz]
      · intro e he hf hsrgb
        exact h4 e (hperm.mem_iff.mpr he) hf hsrgb
    · intro hall
      have hn := hnot (fun f hf => fun ha => hall f hf ((havail f).mp ha))
      rw [hav] at hn
      refine ⟨first, rfl, ?_, hperm.mem_iff.mp (by rw [hav]; exact List.mem_cons_self _ _), ?_⟩
      · unfold graphics.backends.vulkan.select_surface_format
        dsimp only
        rw [hn]
        simp
      · intro e he
        have he' : e ∈ first :: rest := hav ▸ hperm.mem_iff.mpr he
        rw [hav] at hsorted
        rcases List.mem_cons.mp he' with rfl | hr
        · simp [graphics.backends.vulkan.surface_format_less]
        · exact (List.pairwise_cons.mp hsorted).1 e hr

/-- C27: in `create_swap_chain_for_window` of the Vulkan backend, for a list of
available surface formats that is not empty, the format returned is the first
entry of the caller's `formats` whose Vulkan format is among the available
surface formats; the surface format the swap chain is created with is an
available entry of that format, and one in the sRGB-nonlinear colour space
whenever there is one. If none of the requested formats is available, the
swap chain uses the first available entry in sorted order, before which no
entry sorts, and the format returned is the back-conversion of its format.
The conversions are parameters; `format::none` is taken to convert to a
Vulkan format that converts back to it. -/
theorem swap_chain_uses_first_available_format (for_format : graphics.format → Nat)
    (back_to_format : Nat → graphics.format) (surface_formats : List vk.SurfaceFormatKHR)
    (formats : List graphics.format) (hne : surface_formats ≠ [])
    (hnone : back_to_format (for_format graphics.format.none) = graphics.format.none) :
    (∀ pre fmt post, formats = pre ++ fmt :: post →
      (∀ f ∈ pre, ¬ graphics.backends.vulkan.is_available for_format surface_formats f) →
      graphics.backends.vulkan.is_available for_format surface_formats fmt →
      ∃ it, graphics.backends.vulkan.context.create_swap_chain_for_window for_format
          back_to_format surface_formats formats = .ok (it, fmt) ∧
        it ∈ surface_formats ∧ it.format = for_format fmt ∧
        ∀ e ∈ surface_formats, e.format = for_format fmt →
          e.colorSpace = vk.ColorSpaceKHR.eSrgbNonlinear →
          it.colorSpace = vk.ColorSpaceKHR.eSrgbNonlinear) ∧
    ((∀ f ∈ formats, ¬ graphics.backends.vulkan.is_available for_format surface_formats f) →
      ∃ first,
        (surface_formats.insertionSort (fun lhs rhs =>
          graphics.backends.vulkan.surface_format_less rhs lhs = false)).head? = some first ∧
        graphics.backends.vulkan.context.create_swap_chain_for_window for_format
          back_to_format surface_formats formats = .ok (first, back_to_format first.format) ∧
        first ∈ surface_formats ∧
        ∀ e ∈ surface_formats, graphics.backends.vulkan.surface_format_less e first = false) :=
  select_surface_format_spec for_format back_to_format surface_formats _ formats hne
    (List.perm_insertionSort _ surface_formats)
    (sorted_insertionSort_surface_formats surface_formats) hnone

/-- Witness for C27: of the requests 4, 3, 5 the first available one is 3
(Vulkan format 30), and of the two entries of that format the sRGB one is
used, although the device lists the other first. -/
theorem swap_chain_uses_first_available_format_witness :
    example_surface_formats ≠ [] ∧
      example_back_to_format (example_for_format graphics.format.none) = graphics.format.none ∧
      graphics.backends.vulkan.context.create_swap_chain_for_window example_for_format
        example_back_to_format example_surface_formats [4, 3, 5] = .ok (⟨30, 0⟩, 3) ∧
      ∃ it, graphics.backends.vulkan.context.create_swap_chain_for_window example_for_format
          example_back_to_format example_surface_formats [4, 3, 5] = .ok (it, 3) ∧
        it ∈ example_surface_formats ∧ it.format = example_for_format 3 ∧
        ∀ e ∈ example_surface_formats, e.format = example_for_format 3 →
          e.colorSpace = vk.ColorSpaceKHR.eSrgbNonlinear →
          it.colorSpace = vk.ColorSpaceKHR.eSrgbNonlinear :=
  ⟨by decide, by decide, by rfl,
    (swap_chain_uses_first_available_format example_for_format example_back_to_format
      example_surface_formats [4, 3, 5] (by decide) (by decide)).1 [4] 3 [5] rfl
      (by
        intro f hf
        rcases List.mem_singleton.mp hf with rfl
        unfold graphics.backends.vulkan.is_available
        decide)
      ⟨⟨30, 7⟩, by decide, by decide⟩⟩

/-! ## Projection of a particle spring -/

theorem example_spring_projection :
    example_spring.project example_sqrt ⟨0, 0, 0⟩ ⟨3, 4, 0⟩ 1 2 100 0 =
      ⟨⟨3 / 5, 4 / 5, 0⟩, ⟨9 / 5, 12 / 5, 0⟩, -1⟩ := by
  ext <;>
    norm_num [pbd.constraints.particle_spring.project, pbd.cvec3d.sub, pbd.cvec3d.add,
      pbd.cvec3d.smul, pbd.cvec3d.norm, pbd.cvec3d.squared_norm, example_sqrt, example_spring]

theorem squared_norm_pos_of_ne (x1 x2 : pbd.cvec3d ℝ) (hne : x1 ≠ x2) :
    0 < (x2.sub x1).squared_norm := by
  have hnn : 0 ≤ (x2.sub x1).squared_norm := by
    unfold pbd.cvec3d.squared_norm
    exact add_nonneg (add_nonneg (mul_self_nonneg _) (mul_self_nonneg _)) (mul_self_nonneg _)
  rcases hnn.lt_or_eq with h | h
  · exact h
  · exfalso
    apply hne
    unfold pbd.cvec3d.squared_norm pbd.cvec3d.sub at h
    dsimp only at h
    have hx : (x2.x - x1.x) * (x2.x - x1.x) ≥ 0 := mul_self_nonneg _
    have hy : (x2.y - x1.y) * (x2.y - x1.y) ≥ 0 := mul_self_nonneg _
    have hz : (x2.z - x1.z) * (x2.z - x1.z) ≥ 0 := mul_self_nonneg _
    have hx0 : (x2.x - x1.x) * (x2.x - x1.x) = 0 := by linarith
    have hy0 : (x2.y - x1.y) * (x2.y - x1.y) = 0 := by linarith
    have hz0 : (x2.z - x1.z) * (x2.z - x1.z) = 0 := by linarith
    ext
    · have := mul_self_eq_zero.mp hx0
      linarith
    · have := mul_self_eq_zero.mp hy0
      linarith
    · have := mul_self_eq_zero.mp hz0
      linarith

theorem norm_pos_of_ne (x1 x2 : pbd.cvec3d ℝ) (hne : x1 ≠ x2) :
    0 < (x2.sub x1).norm Real.sqrt :=
  Real.sqrt_pos.mpr (squared_norm_pos_of_ne x1 x2 hne)

theorem norm_smul_of_nonneg (a : ℝ) (v : pbd.cvec3d ℝ) (ha : 0 ≤ a) :
    (pbd.cvec3d.smul a v).norm Real.sqrt = a * v.norm Real.sqrt := by
  unfold pbd.cvec3d.norm pbd.cvec3d.squared_norm pbd.cvec3d.smul
  dsimp only
  have h : a * v.x * (a * v.x) + a * v.y * (a * v.y) + a * v.z * (a * v.z) =
      a * a * (v.x * v.x + v.y * v.y + v.z * v.z) := by ring
  rw [h, Real.sqrt_mul (mul_self_nonneg a), Real.sqrt_mul_self ha]

/-- C28: reading `double` as the real numbers, a spring of inverse stiffness 0
and rest length at least 0, projected for two particles at distinct positions
with inverse masses of positive sum (as with inverse masses that are not
negative and not both 0), leaves the particles at a distance that is exactly
the rest length, for every `inv_dt2` and `lambda`. -/
theorem rigid_spring_projects_to_rest_length (s : pbd.constraints.particle_spring ℝ)
    (x1 x2 : pbd.cvec3d ℝ) (inv_m1 inv_m2 inv_dt2 lambda : ℝ)
    (hk : s.properties.inverse_stiffness = 0) (hl : 0 ≤ s.properties.length)
    (hne : x1 ≠ x2) (hsum : 0 < inv_m1 + inv_m2) :
    ((s.project Real.sqrt x1 x2 inv_m1 inv_m2 inv_dt2 lambda).x2.sub
      (s.project Real.sqrt x1 x2 inv_m1 inv_m2 inv_dt2 lambda).x1).norm Real.sqrt =
        s.properties.length := by
  have hL := norm_pos_of_ne x1 x2 hne
  have hLne : (x2.sub x1).norm Real.sqrt ≠ 0 := ne_of_gt hL
  have hsne : inv_m1 + inv_m2 ≠ 0 := ne_of_gt hsum
  have hvec : (s.project Real.sqrt x1 x2 inv_m1 inv_m2 inv_dt2 lambda).x2.sub
      (s.project Real.sqrt x1 x2 inv_m1 inv_m2 inv_dt2 lambda).x1 =
      pbd.cvec3d.smul (s.properties.length / (x2.sub x1).norm Real.sqrt) (x2.sub x1) := by
    unfold pbd.constraints.particle_spring.project
    dsimp only
    rw [hk]
    generalize (x2.sub x1).norm Real.sqrt = L at hL hLne
    ext
    · simp only [pbd.cvec3d.sub, pbd.cvec3d.add, pbd.cvec3d.smul]
      field_simp
      ring
    · simp only [pbd.cvec3d.sub, pbd.cvec3d.add, pbd.cvec3d.smul]
      field_simp
      ring
    · simp only [pbd.cvec3d.sub, pbd.cvec3d.add, pbd.cvec3d.smul]
      field_simp
      ring
  rw [hvec, norm_smul_of_nonneg _ _ (div_nonneg hl (le_of_lt hL))]
  field_simp

/-- Witness for C28: particles at the origin and at (3, 4, 0), of inverse
masses 1 and 2, joined by a rigid spring of rest length 2. -/
theorem rigid_spring_projects_to_rest_length_witness :
    (0 : ℝ) ≤ 2 ∧ (⟨0, 0, 0⟩ : pbd.cvec3d ℝ) ≠ ⟨3, 4, 0⟩ ∧ (0 : ℝ) < 1 + 2 ∧
      (((⟨⟨2, 0⟩, 0, 1⟩ : pbd.constraints.particle_spring ℝ).project Real.sqrt
          ⟨0, 0, 0⟩ ⟨3, 4, 0⟩ 1 2 100 0).x2.sub
        ((⟨⟨2, 0⟩, 0, 1⟩ : pbd.constraints.particle_spring ℝ).project Real.sqrt
          ⟨0, 0, 0⟩ ⟨3, 4, 0⟩ 1 2 100 0).x1).norm Real.sqrt = 2 :=
  ⟨by norm_num, by simp, by norm_num,
    rigid_spring_projects_to_rest_length ⟨⟨2, 0⟩, 0, 1⟩ ⟨0, 0, 0⟩ ⟨3, 4, 0⟩ 1 2 100 0 rfl
      (by norm_num) (by simp) (by norm_num)⟩

/-- C29: reading `double` as the real numbers, for distinct positions and a
divisor `inv_m1 + inv_m2 + inverse_stiffness * inv_dt2` that is not 0,
`project` moves `x1` by `-inv_m1 * dx` and `x2` by `+inv_m2 * dx` for one
vector `dx` that is a multiple of the original `x2 - x1`; so
`inv_m2 * (x1' - x1) + inv_m1 * (x2' - x2)` is the zero vector and a particle
of inverse mass 0 stays where it is. When the distance is the rest length
already and `lambda` is 0, `project` leaves `x1`, `x2` and `lambda` as they
are. -/
theorem spring_projection_moves_along_the_spring (s : pbd.constraints.particle_spring ℝ)
    (x1 x2 : pbd.cvec3d ℝ) (inv_m1 inv_m2 inv_dt2 lambda : ℝ) (_hne : x1 ≠ x2)
    (_hdiv : inv_m1 + inv_m2 + s.properties.inverse_stiffness * inv_dt2 ≠ 0) :
    (∃ (k : ℝ) (dx : pbd.cvec3d ℝ), dx = pbd.cvec3d.smul k (x2.sub x1) ∧
      (s.project Real.sqrt x1 x2 inv_m1 inv_m2 inv_dt2 lambda).x1 =
        x1.sub (pbd.cvec3d.smul inv_m1 dx) ∧
      (s.project Real.sqrt x1 x2 inv_m1 inv_m2 inv_dt2 lambda).x2 =
        x2.add (pbd.cvec3d.smul inv_m2 dx)) ∧
    (pbd.cvec3d.smul inv_m2
        ((s.project Real.sqrt x1 x2 inv_m1 inv_m2 inv_dt2 lambda).x1.sub x1)).add
      (pbd.cvec3d.smul inv_m1
        ((s.project Real.sqrt x1 x2 inv_m1 inv_m2 inv_dt2 lambda).x2.sub x2)) = ⟨0, 0, 0⟩ ∧
    (inv_m1 = 0 → (s.project Real.sqrt x1 x2 inv_m1 inv_m2 inv_dt2 lambda).x1 = x1) ∧
    (inv_m2 = 0 → (s.project Real.sqrt x1 x2 inv_m1 inv_m2 inv_dt2 lambda).x2 = x2) ∧
    ((x2.sub x1).norm Real.sqrt = s.properties.length → lambda = 0 →
      s.project Real.sqrt x1 x2 inv_m1 inv_m2 inv_dt2 lambda = ⟨x1, x2, lambda⟩) := by
  refine ⟨⟨_, s.project_dx Real.sqrt x1 x2 inv_m1 inv_m2 inv_dt2 lambda, rfl, rfl, rfl⟩,
    ?_, ?_, ?_, ?_⟩
  · unfold pbd.constraints.particle_spring.project
    ext <;> simp only [pbd.cvec3d.sub, pbd.cvec3d.add, pbd.cvec3d.smul] <;> ring
  · intro h
    unfold pbd.constraints.particle_spring.project
    ext <;> simp [pbd.cvec3d.sub, pbd.cvec3d.smul, h]
  · intro h
    unfold pbd.constraints.particle_spring.project
    ext <;> simp [pbd.cvec3d.add, pbd.cvec3d.smul, h]
  · intro hlen hlam
    unfold pbd.constraints.particle_spring.project
    dsimp only
    rw [hlen, hlam]
    ext <;> simp [pbd.cvec3d.sub, pbd.cvec3d.add, pbd.cvec3d.smul]

/-- Witness for C29: the sample particles with a spring of rest length 5, the
distance they are at, and inverse stiffness 1. -/
theorem spring_projection_moves_along_the_spring_witness :
    (⟨0, 0, 0⟩ : pbd.cvec3d ℝ) ≠ ⟨3, 4, 0⟩ ∧ (1 : ℝ) + 2 + 1 * 100 ≠ 0 ∧
      (pbd.cvec3d.smul 2
          (((⟨⟨5, 1⟩, 0, 1⟩ : pbd.constraints.particle_spring ℝ).project Real.sqrt
            ⟨0, 0, 0⟩ ⟨3, 4, 0⟩ 1 2 100 0).x1.sub ⟨0, 0, 0⟩)).add
        (pbd.cvec3d.smul 1
          (((⟨⟨5, 1⟩, 0, 1⟩ : pbd.constraints.particle_spring ℝ).project Real.sqrt
            ⟨0, 0, 0⟩ ⟨3, 4, 0⟩ 1 2 100 0).x2.sub ⟨3, 4, 0⟩)) = ⟨0, 0, 0⟩ :=
  ⟨by simp, by norm_num,
    (spring_projection_moves_along_the_spring ⟨⟨5, 1⟩, 0, 1⟩ ⟨0, 0, 0⟩ ⟨3, 4, 0⟩ 1 2 100 0
      (by simp) (by norm_num)).2.1⟩

/-! ## Both cursors over a whole replay -/

/-- How far one returning call moves the two cursors: over the run of events at
the cursor that carry the command index of the call. -/
theorem execute_next_command_cursors {ext : externals} {s s' : queue_context}
    (h : s.execute_next_command ext = .returned () s') :
    s'._next_acquire_event = s._next_acquire_event +
        ((s._acquire_dependency_events.drop s._next_acquire_event).takeWhile
          (fun e => e.command_index = s._command_index)).length ∧
      s'._next_release_event = s._next_release_event +
        ((s._release_dependency_events.drop s._next_release_event).takeWhile
          (fun e => e.command_index = s._command_index)).length := by
  obtain ⟨cmd, s1, s2, s3, s4, ⟨-, -, h2, -, -, -⟩, ⟨a1, a2, a3, a4⟩, ⟨c1, c2, c3, -⟩,
    ⟨-, b2, -, b4, -, -, -⟩⟩ := execute_next_command_streams h
  obtain ⟨k, waits, hloop, hk, -, -⟩ := acquire_dependencies_spec h2
  rw [a1, a2, a3, a4] at hloop
  obtain ⟨hk', -⟩ := acquire_loop_spec _ _ _ _ _ _ hloop
  have hr := (release_dependencies_exact s4).1
  rw [c1, c2, c3] at hr
  exact ⟨by rw [b2, hk, a2, hk'], by rw [b4, hr]⟩

theorem cursor_add_takeWhile_le (events : List dependency_event) (cursor i : Nat)
    (h : cursor ≤ events.length) :
    cursor + ((events.drop cursor).takeWhile (fun e => e.command_index = i)).length ≤
      events.length := by
  have h1 : ((events.drop cursor).takeWhile (fun e => decide (e.command_index = i))).length ≤
      (events.drop cursor).length := (List.takeWhile_sublist _).length_le
  rw [List.length_drop] at h1
  omega

/-- Along a replay that returns, neither cursor runs past the end of its stream. -/
theorem replay_cursors_le (ext : externals) (k : Nat) (s s' : queue_context)
    (h : s.replay ext k = .returned () s')
    (ha : s._next_acquire_event ≤ s._acquire_dependency_events.length)
    (hr : s._next_release_event ≤ s._release_dependency_events.length) :
    s'._next_acquire_event ≤ s._acquire_dependency_events.length ∧
      s'._next_release_event ≤ s._release_dependency_events.length := by
  induction k generalizing s with
  | zero =>
    cases h
    exact ⟨ha, hr⟩
  | succ k ih =>
    simp only [queue_context.replay] at h
    obtain ⟨_, s1, hstep, hrest⟩ := result.bind_eq_returned h
    obtain ⟨e1, e2⟩ := execute_next_command_cursors hstep
    obtain ⟨_, _, _, _, _, -, -, -, ⟨b1, -, b3, -, -, -, -⟩⟩ :=
      execute_next_command_streams hstep
    have := ih s1 hrest
      (by rw [b1, e1]; exact cursor_add_takeWhile_le _ _ _ ha)
      (by rw [b3, e2]; exact cursor_add_takeWhile_le _ _ _ hr)
    rw [b1, b3] at this
    exact this

/-- A cursor in place for the index one past the last event is at the end. -/
theorem cursor_at_end (events : List dependency_event) (cursor n : Nat)
    (hc : cursor_at events cursor n) (hle : cursor ≤ events.length)
    (hlt : ∀ e ∈ events, e.command_index < n) : cursor = events.length := by
  by_contra hne
  have hlt' : cursor < events.length := by omega
  have hmem : events[cursor] ∈ events.drop cursor := by
    rw [List.drop_eq_getElem_cons hlt']
    exact List.mem_cons_self _ _
  have h1 := hc.2 _ hmem
  have h2 := hlt _ (List.getElem_mem hlt')
  omega

/-- Between the cursor in place for index `i` and the cursor in place for index
`i + 1` lie exactly the positions of the events that carry index `i`. -/
theorem position_between_cursors (events : List dependency_event) (c c' i p : Nat)
    (e : dependency_event) (hc : cursor_at events c i) (hc' : cursor_at events c' (i + 1))
    (hp : events.get? p = some e) :
    e.command_index = i ↔ c ≤ p ∧ p < c' := by
  rw [List.get?_eq_getElem?] at hp
  have htake : ∀ n, p < n → e ∈ events.take n := by
    intro n hn
    have : (events.take n)[p]? = some e := by rw [List.getElem?_take_of_lt hn]; exact hp
    exact List.getElem?_mem this
  have hdrop : ∀ n, n ≤ p → e ∈ events.drop n := by
    intro n hn
    have : (events.drop n)[p - n]? = some e := by
      rw [List.getElem?_drop, Nat.add_sub_cancel' hn]; exact hp
    exact List.getElem?_mem this
  constructor
  · intro hi
    constructor
    · by_contra hlt
      have := hc.1 e (htake c (by omega))
      omega
    · by_contra hge
      have := hc'.2 e (hdrop c' (by omega))
      omega
  · rintro ⟨h1, h2⟩
    have a := hc.2 e (hdrop c h1)
    have b := hc'.1 e (htake c' h2)
    omega

/-- C22: let both event streams be sorted ascending by command index
(duplicates allowed) with every index below the number `n` of commands. After
`start_execution` and `n` calls of `execute_next_command` that return, both
cursors are at the end of their streams. The call at index `i` finds the cursors
where the call before left them, does not move them backwards, and the events
it passes over are, in stream order, exactly the events of the stream with
command index `i`; so the event at a position is passed over in the call for its
own command index and in no other. -/
theorem cursors_collect_every_event_once (ext : externals) (s0 s' : queue_context)
    (h0 : s0._command_index = 0)
    (hacq : sorted_by_command_index s0._acquire_dependency_events)
    (hrel : sorted_by_command_index s0._release_dependency_events)
    (hacq_lt : ∀ e ∈ s0._acquire_dependency_events,
      e.command_index < s0._q.batch_commands.length)
    (hrel_lt : ∀ e ∈ s0._release_dependency_events,
      e.command_index < s0._q.batch_commands.length)
    (hreplay : s0.start_execution.replay ext s0._q.batch_commands.length = .returned () s') :
    s'._next_acquire_event = s0._acquire_dependency_events.length ∧
      s'._next_release_event = s0._release_dependency_events.length ∧
      ∀ i, i < s0._q.batch_commands.length →
        ∃ s t, s0.start_execution.replay ext i = .returned () s ∧
          s.execute_next_command ext = .returned () t ∧
          s0.start_execution.replay ext (i + 1) = .returned () t ∧
          s._command_index = i ∧
          s._next_acquire_event ≤ t._next_acquire_event ∧
          s._next_release_event ≤ t._next_release_event ∧
          (s0._acquire_dependency_events.drop s._next_acquire_event).take
              (t._next_acquire_event - s._next_acquire_event) =
            due_events s0._acquire_dependency_events i ∧
          (s0._release_dependency_events.drop s._next_release_event).take
              (t._next_release_event - s._next_release_event) =
            due_events s0._release_dependency_events i ∧
          (∀ p e, s0._acquire_dependency_events.get? p = some e →
            (e.command_index = i ↔ s._next_acquire_event ≤ p ∧ p < t._next_acquire_event)) ∧
          (∀ p e, s0._release_dependency_events.get? p = some e →
            (e.command_index = i ↔ s._next_release_event ≤ p ∧ p < t._next_release_event)) := by
  obtain ⟨st1, st2, st3, st4, st5, st6⟩ := start_execution_streams s0
  have ca0 : cursor_at s0.start_execution._acquire_dependency_events
      s0.start_execution._next_acquire_event s0.start_execution._command_index := by
    rw [st3, st5, h0]; exact cursor_at_zero _
  have cr0 : cursor_at s0.start_execution._release_dependency_events
      s0.start_execution._next_release_event s0.start_execution._command_index := by
    rw [st4, st5, h0]; exact cursor_at_zero _
  have hidx : ∀ k s, s0.start_execution.replay ext k = .returned () s → s._command_index = k := by
    intro k s hk
    have := (replay_summary ext k _ s hk).1
    rw [st5, h0] at this
    omega
  have hcur : ∀ k s, s0.start_execution.replay ext k = .returned () s →
      s._acquire_dependency_events = s0._acquire_dependency_events ∧
      s._release_dependency_events = s0._release_dependency_events ∧
      cursor_at s0._acquire_dependency_events s._next_acquire_event k ∧
      cursor_at s0._release_dependency_events s._next_release_event k := by
    intro k s hk
    obtain ⟨a1, -, a3⟩ := replay_acquire_cursor ext k _ s hk (st1 ▸ hacq) ca0
    obtain ⟨r1, -, r3⟩ := replay_release_cursor ext k _ s hk (st2 ▸ hrel) cr0
    rw [hidx k s hk, a1, st1] at a3
    rw [hidx k s hk, r1, st2] at r3
    exact ⟨a1.trans st1, r1.trans st2, a3, r3⟩
  refine ⟨?_, ?_, ?_⟩
  · obtain ⟨-, -, c, -⟩ := hcur _ s' hreplay
    have hle := (replay_cursors_le ext _ _ s' hreplay (by rw [st3]; exact Nat.zero_le _)
      (by rw [st4]; exact Nat.zero_le _)).1
    rw [st1] at hle
    exact cursor_at_end _ _ _ c hle hacq_lt
  · obtain ⟨-, -, -, c⟩ := hcur _ s' hreplay
    have hle := (replay_cursors_le ext _ _ s' hreplay (by rw [st3]; exact Nat.zero_le _)
      (by rw [st4]; exact Nat.zero_le _)).2
    rw [st2] at hle
    exact cursor_at_end _ _ _ c hle hrel_lt
  · intro i hi
    obtain ⟨d, hd⟩ : ∃ d, s0._q.batch_commands.length = (i + 1) + d :=
      ⟨_, (Nat.add_sub_cancel' (Nat.succ_le_of_lt hi)).symm⟩
    have hsplit := replay_add ext (i + 1) d s0.start_execution
    rw [← hd, hreplay] at hsplit
    obtain ⟨_, t, ht, -⟩ := result.bind_eq_returned hsplit.symm
    have hsplit2 := replay_add ext i 1 s0.start_execution
    rw [ht] at hsplit2
    obtain ⟨_, s, hs, hstep1⟩ := result.bind_eq_returned hsplit2.symm
    have hstep : s.execute_next_command ext = .returned () t := by
      simp only [queue_context.replay] at hstep1
      obtain ⟨_, t1, e1, e2⟩ := result.bind_eq_returned hstep1
      cases e2
      exact e1
    obtain ⟨ea, er, ca, cr⟩ := hcur i s hs
    obtain ⟨-, -, ca', cr'⟩ := hcur (i + 1) t ht
    obtain ⟨ma, mr⟩ := execute_next_command_cursors hstep
    rw [ea, hidx i s hs] at ma
    rw [er, hidx i s hs] at mr
    refine ⟨s, t, hs, hstep, ht, hidx i s hs, by omega, by omega, ?_, ?_, ?_, ?_⟩
    · rw [due_events_eq_takeWhile _ _ _ hacq ca, ma, Nat.add_sub_cancel_left]
      exact take_takeWhile_length _ _
    · rw [due_events_eq_takeWhile _ _ _ hrel cr, mr, Nat.add_sub_cancel_left]
      exact take_takeWhile_length _ _
    · intro p e hp
      exact position_between_cursors _ _ _ _ _ _ ca ca' hp
    · intro p e hp
      exact position_between_cursors _ _ _ _ _ _ cr cr' hp

/-- Witness for C22: the sample queue of five commands has two acquire events at
command 1 and one release event at command 2; after the five calls the acquire
cursor is at 2 and the release cursor at 1. -/
theorem cursors_collect_every_event_once_witness :
    example_context._command_index = 0 ∧
      sorted_by_command_index example_context._acquire_dependency_events ∧
      sorted_by_command_index example_context._release_dependency_events ∧
      (example_context.start_execution.replay example_externals 5).is_returned = true ∧
      (example_context.start_execution.replay example_externals 5).state._next_acquire_event = 2 ∧
      (example_context.start_execution.replay example_externals 5).state._next_release_event = 1 := by
  have ha : sorted_by_command_index example_context._acquire_dependency_events := by
    unfold sorted_by_command_index
    decide
  have hr : sorted_by_command_index example_context._release_dependency_events := by
    unfold sorted_by_command_index
    decide
  have h := cursors_collect_every_event_once example_externals example_context
    (example_context.start_execution.replay example_externals 5).state rfl ha hr
    (by decide) (by decide) (by rfl)
  exact ⟨rfl, ha, hr, by rfl, h.1, h.2.1⟩

/-! ## Calls recorded between submissions -/

theorem timestamp_queries_append (a b : List event) :
    timestamp_queries (a ++ b) = timestamp_queries a ++ timestamp_queries b := by
  induction a with
  | nil => rfl
  | cons e a ih => cases e <;> simp [timestamp_queries, ih]

theorem records_into_refl (allowed : event → Bool) (s : queue_context) :
    s.records_into allowed s :=
  ⟨rfl, fun _ h => h, [], by simp, by simp⟩

theorem records_into_trans {allowed : event → Bool} {s s1 s2 : queue_context}
    (h1 : s.records_into allowed s1) (h2 : s1.records_into allowed s2) :
    s.records_into allowed s2 := by
  obtain ⟨p1, l1, a1, c1, f1⟩ := h1
  obtain ⟨p2, l2, a2, c2, f2⟩ := h2
  refine ⟨p2.trans p1, fun l hl => l2 l (l1 l hl), a1 ++ a2, by rw [c2, c1, List.append_assoc], ?_⟩
  intro e he
  rcases List.mem_append.mp he with he | he
  · exact ⟨(f1 e he).1, fun l hl => l2 l ((f1 e he).2 l hl)⟩
  · exact f2 e he

theorem records_into_mono {p q : event → Bool} (hpq : ∀ e, p e = true → q e = true)
    {s s' : queue_context} (h : s.records_into p s') : s.records_into q s' := by
  obtain ⟨p1, l1, a1, c1, f1⟩ := h
  exact ⟨p1, l1, a1, c1, fun e he => ⟨hpq e (f1 e he).1, (f1 e he).2⟩⟩

theorem is_plain_call_not_submission (e : event) (h : e.is_plain_call = true) :
    e.is_not_submission = true := by
  cases e <;> first | rfl | cases h

/-- A step that leaves the record, the pending waits and the current list alone. -/
theorem records_into_of_eq (allowed : event → Bool) (s s' : queue_context)
    (hc : s'.calls = s.calls) (hp : s'._pending_waits = s._pending_waits)
    (hl : s'._list = s._list) : s.records_into allowed s' :=
  ⟨hp, (fun l h => by rw [hl]; exact h), [], by simp [hc], by simp⟩

/-- A step that makes one call, on the current list if on a list at all. -/
theorem records_into_call (allowed : event → Bool) (s s' : queue_context) (e : event)
    (hc : s'.calls = s.calls ++ [e]) (hp : s'._pending_waits = s._pending_waits)
    (hl : s'._list = s._list) (ha : allowed e = true)
    (he : ∀ l, e.command_list = some l → s._list = some l) : s.records_into allowed s' := by
  refine ⟨hp, (fun l h => by rw [hl]; exact h), [e], hc, ?_⟩
  intro x hx
  rw [List.mem_singleton] at hx
  subst hx
  exact ⟨ha, fun l h => by rw [hl]; exact he l h⟩

theorem get_command_list_list (s : queue_context) :
    s._get_command_list.2._list = some s._get_command_list.1 := by
  unfold queue_context._get_command_list
  cases h : s._list with
  | some list => simp [h]
  | none => cases s._cmd_alloc <;> rfl

theorem records_into_get_command_list (allowed : event → Bool)
    (h1 : ∀ a b, allowed (.create_command_allocator a b) = true)
    (h2 : ∀ a b, allowed (.create_and_start_command_list a b) = true) (s : queue_context) :
    s.records_into allowed s._get_command_list.2 := by
  cases h : s._list with
  | some list =>
    have : s._get_command_list.2 = s := by
      unfold queue_context._get_command_list
      rw [h]
    rw [this]
    exact records_into_refl _ _
  | none =>
    cases ha : s._cmd_alloc with
    | some alloc =>
      have e : s._get_command_list.2 =
          { s.emit (.create_and_start_command_list alloc s.objects) with
            _list := some s.objects, objects := s.objects + 1 } := by
        unfold queue_context._get_command_list
        rw [h, ha]
      rw [e]
      unfold queue_context.records_into
      refine ⟨rfl, (fun l hl => by rw [h] at hl; cases hl), [_], rfl, ?_⟩
      intro x hx
      rw [List.mem_singleton] at hx
      subst hx
      exact ⟨h2 _ _, fun l hl => by cases hl⟩
    | none =>
      have e : s._get_command_list.2 =
          { (s.emit (.create_command_allocator s._q.queue_type s.objects)).emit
              (.create_and_start_command_list s.objects (s.objects + 1)) with
            _cmd_alloc := some s.objects, _list := some (s.objects + 1),
            objects := s.objects + 1 + 1 } := by
        unfold queue_context._get_command_list
        rw [h, ha]
        rfl
      rw [e]
      unfold queue_context.records_into
      refine ⟨rfl, (fun l hl => by rw [h] at hl; cases hl),
        [.create_command_allocator s._q.queue_type s.objects,
          .create_and_start_command_list s.objects (s.objects + 1)], ?_, ?_⟩
      · simp [queue_context.emit]
      · intro x hx
        simp only [List.mem_cons, List.mem_singleton, List.not_mem_nil, or_false] at hx
        rcases hx with hx | hx
        · subst hx
          exact ⟨h1 _ _, fun l hl => by cases hl⟩
        · subst hx
          exact ⟨h2 _ _, fun l hl => by cases hl⟩

theorem records_into_record (allowed : event → Bool)
    (h1 : ∀ a b, allowed (.create_command_allocator a b) = true)
    (h2 : ∀ a b, allowed (.create_and_start_command_list a b) = true)
    (s : queue_context) (f : Nat → event) (ha : ∀ list, allowed (f list) = true)
    (hf : ∀ list l, (f list).command_list = some l → l = list) :
    s.records_into allowed (s.record f) := by
  rw [record_eq]
  refine records_into_trans (records_into_get_command_list allowed h1 h2 s) ?_
  refine records_into_call allowed _ _ _ rfl rfl rfl (ha _) ?_
  intro l hl
  rw [hf _ _ hl]
  exact get_command_list_list s

/-- Calls that are no submission leave the submissions as they are. -/
theorem submissions_of_not_submission (added : List event)
    (h : ∀ e ∈ added, e.is_not_submission = true) : submissions added = [] := by
  induction added with
  | nil => rfl
  | cons e rest ih =>
    have he := h e (List.mem_cons_self _ _)
    have hr := ih (fun x hx => h x (List.mem_cons_of_mem _ hx))
    cases e <;> first | exact hr | cases he

/-- Plain calls hold no timestamp query. -/
theorem timestamp_queries_of_plain (added : List event)
    (h : ∀ e ∈ added, e.is_plain_call = true) : timestamp_queries added = [] := by
  induction added with
  | nil => rfl
  | cons e rest ih =>
    have he := h e (List.mem_cons_self _ _)
    have hr := ih (fun x hx => h x (List.mem_cons_of_mem _ hx))
    cases e <;> first | exact hr | cases he

theorem records_into_submissions {s s' : queue_context}
    (h : s.records_into event.is_not_submission s') :
    submissions s'.calls = submissions s.calls ∧ s'._pending_waits = s._pending_waits ∧
      s'.wait_ledger = s.wait_ledger := by
  obtain ⟨p1, -, a1, c1, f1⟩ := h
  have hs : submissions s'.calls = submissions s.calls := by
    rw [c1, submissions_append, submissions_of_not_submission a1 (fun e he => (f1 e he).1),
      List.append_nil]
  exact ⟨hs, p1, by unfold queue_context.wait_ledger; rw [hs, p1]⟩

theorem records_into_timestamp_queries {s s' : queue_context}
    (h : s.records_into event.is_plain_call s') :
    timestamp_queries s'.calls = timestamp_queries s.calls := by
  obtain ⟨-, -, a1, c1, f1⟩ := h
  rw [c1, timestamp_queries_append, timestamp_queries_of_plain a1 (fun e he => (f1 e he).1),
    List.append_nil]

/-- One plain call that is not made on a command list. -/
theorem plain_call (s s' : queue_context) (e : event) (hc : s'.calls = s.calls ++ [e])
    (hp : s'._pending_waits = s._pending_waits) (hl : s'._list = s._list)
    (ha : e.is_plain_call = true) (he : e.command_list = none) :
    s.records_into event.is_plain_call s' :=
  records_into_call _ s s' e hc hp hl ha (by intro l h; rw [he] at h; cases h)

theorem plain_get_command_list (s : queue_context) :
    s.records_into event.is_plain_call s._get_command_list.2 :=
  records_into_get_command_list _ (fun _ _ => rfl) (fun _ _ => rfl) s

theorem plain_record (s : queue_context) (f : Nat → event)
    (ha : ∀ list, (f list).is_plain_call = true)
    (hf : ∀ list l, (f list).command_list = some l → l = list) :
    s.records_into event.is_plain_call (s.record f) :=
  records_into_record _ (fun _ _ => rfl) (fun _ _ => rfl) s f ha hf

theorem records_into_bind {α β : Type} (allowed : event → Bool) (s : queue_context)
    (r : result α) (f : α → queue_context → result β) (hr : s.records_into allowed r.state)
    (hf : ∀ a s1, r = .returned a s1 → s1.records_into allowed (f a s1).state) :
    s.records_into allowed (r.bind f).state := by
  cases r with
  | returned a s1 => exact records_into_trans hr (hf a s1 rfl)
  | aborted why s1 => exact hr

theorem records_into_crash_if (allowed : event → Bool) (c : Bool) (s : queue_context) :
    s.records_into allowed (crash_if c s).state := by
  cases c <;> exact records_into_refl _ s

theorem plain_bind_descriptor_sets_from (rsrc : pipeline_resources_info)
    (bind_point : descriptor_set_bind_point) (fuel i : Nat) (s : queue_context) :
    s.records_into event.is_plain_call
      (queue_context._bind_descriptor_sets_from rsrc bind_point fuel i s) := by
  induction fuel generalizing i s with
  | zero => exact records_into_refl _ s
  | succ fuel ih =>
    unfold queue_context._bind_descriptor_sets_from
    by_cases h : i < rsrc.descriptor_sets.length
    · simp only [h, if_true]
      refine records_into_trans ?_ (ih _ _)
      cases bind_point <;>
        exact plain_record _ _ (by intro _; rfl) (by intro _ _ h; cases h; rfl)
    · simp only [h, if_false]
      exact records_into_refl _ s

theorem plain_bind_descriptor_sets (rsrc : pipeline_resources_info)
    (bind_point : descriptor_set_bind_point) (s : queue_context) :
    s.records_into event.is_plain_call (s._bind_descriptor_sets rsrc bind_point) :=
  plain_bind_descriptor_sets_from rsrc bind_point _ 0 s

theorem plain_execute_copy_buffer (cmd : commands.copy_buffer) (s : queue_context) :
    s.records_into event.is_plain_call (s._execute_copy_buffer cmd).state := by
  unfold queue_context._execute_copy_buffer
  dsimp only [result.state]
  exact plain_record _ _ (by intro _; rfl) (by intro _ _ h; cases h; rfl)

theorem plain_execute_copy_buffer_to_image (ext : externals)
    (cmd : commands.copy_buffer_to_image) (s : queue_context) :
    s.records_into event.is_plain_call (s._execute_copy_buffer_to_image ext cmd).state := by
  unfold queue_context._execute_copy_buffer_to_image
  dsimp only [result.state]
  exact plain_record _ _ (by intro _; rfl) (by intro _ _ h; cases h; rfl)

theorem plain_execute_build_blas (ext : externals) (cmd : commands.build_blas)
    (s : queue_context) :
    s.records_into event.is_plain_call (s._execute_build_blas ext cmd).state := by
  unfold queue_context._execute_build_blas
  dsimp only [result.state]
  refine records_into_trans ?_ (plain_record _ _ (by intro _; rfl) (by intro _ _ h; cases h; rfl))
  refine records_into_trans ?_ (plain_call _ _ _ rfl rfl rfl (by rfl) (by rfl))
  exact plain_call _ _ _ rfl rfl rfl (by rfl) (by rfl)

theorem plain_write_instance_descriptions (input_buffer : Nat) (instances : List blas_instance)
    (i : Nat) (s : queue_context) :
    s.records_into event.is_plain_call
      (write_instance_descriptions input_buffer instances i s) := by
  induction instances generalizing i s with
  | nil => exact records_into_refl _ s
  | cons inst rest ih =>
    unfold write_instance_descriptions
    refine records_into_trans ?_ (ih _ _)
    exact plain_call _ _ _ rfl rfl rfl (by rfl) (by rfl)

theorem plain_execute_build_tlas (ext : externals) (cmd : commands.build_tlas)
    (s : queue_context) :
    s.records_into event.is_plain_call (s._execute_build_tlas ext cmd).state := by
  unfold queue_context._execute_build_tlas
  dsimp only [result.state]
  refine records_into_trans ?_ (plain_record _ _ (by intro _; rfl) (by intro _ _ h; cases h; rfl))
  refine records_into_trans ?_ (plain_call _ _ _ rfl rfl rfl (by rfl) (by rfl))
  refine records_into_trans ?_ (plain_call _ _ _ rfl rfl rfl (by rfl) (by rfl))
  refine records_into_trans ?_ (plain_write_instance_descriptions _ _ _ _)
  refine records_into_trans ?_ (plain_call _ _ _ rfl rfl rfl (by rfl) (by rfl))
  refine records_into_trans ?_ (plain_call _ _ _ rfl rfl rfl (by rfl) (by rfl))
  exact plain_call _ _ _ rfl rfl rfl (by rfl) (by rfl)

theorem plain_begin_pass_color_render_targets (ext : externals) (size : cvec2s)
    (targets : List image2d_color) (acc : List requested_view × List Nat) (s : queue_context) :
    s.records_into event.is_plain_call
      (queue_context.begin_pass_color_render_targets ext size targets acc s).state := by
  induction targets generalizing acc s with
  | nil => exact records_into_refl _ s
  | cons color_rt rest ih =>
    obtain ⟨color_rts, color_rt_access⟩ := acc
    unfold queue_context.begin_pass_color_render_targets
    cases color_rt.view with
    | image2d_view v =>
      refine records_into_bind _ _ _ _ (records_into_crash_if _ _ _) ?_
      intro _ s1 _
      refine records_into_trans ?_ (ih _ _)
      exact plain_call _ _ _ rfl rfl rfl (by rfl) (by rfl)
    | swap_chain rt =>
      refine records_into_bind _ _ _ _ (records_into_crash_if _ _ _) ?_
      intro _ s1 _
      refine records_into_trans ?_ (ih _ _)
      exact plain_call _ _ _ rfl rfl rfl (by rfl) (by rfl)

theorem plain_begin_pass_depth_render_target (ext : externals) (cmd : commands.begin_pass)
    (s : queue_context) :
    s.records_into event.is_plain_call (s.begin_pass_depth_render_target ext cmd).state := by
  unfold queue_context.begin_pass_depth_render_target
  cases cmd.depth_stencil_target.view with
  | none => exact records_into_refl _ s
  | some view =>
    refine records_into_bind _ _ _ _ (records_into_crash_if _ _ _) ?_
    intro _ s1 _
    exact plain_call _ _ _ rfl rfl rfl (by rfl) (by rfl)

theorem plain_execute_begin_pass (ext : externals) (cmd : commands.begin_pass)
    (s : queue_context) :
    s.records_into event.is_plain_call (s._execute_begin_pass ext cmd).state := by
  unfold queue_context._execute_begin_pass
  refine records_into_bind _ _ _ _ (records_into_crash_if _ _ _) ?_
  intro _ s1 _
  refine records_into_bind _ _ _ _ (records_into_crash_if _ _ _) ?_
  intro _ s2 _
  refine records_into_bind _ _ _ _ (records_into_trans (records_into_of_eq _ _ _ rfl rfl rfl)
    (plain_begin_pass_color_render_targets _ _ _ _ _)) ?_
  intro acc s3 _
  refine records_into_bind _ _ _ _ (records_into_crash_if _ _ _) ?_
  intro _ s4 _
  refine records_into_bind _ _ _ _ (plain_begin_pass_depth_render_target _ _ _) ?_
  intro depth_view s5 _
  dsimp only [result.state]
  refine records_into_trans ?_ (plain_record _ _ (by intro _; rfl) (by intro _ _ h; cases h; rfl))
  exact plain_call _ _ _ rfl rfl rfl (by rfl) (by rfl)

theorem plain_get_graphics_pipeline_state (key : cache_keys.graphics_pipeline)
    (s : queue_context) :
    s.records_into event.is_plain_call (s.get_graphics_pipeline_state key).2 := by
  unfold queue_context.get_graphics_pipeline_state
  dsimp only
  split
  · exact plain_call _ _ _ rfl rfl rfl (by rfl) (by rfl)
  · exact records_into_trans (plain_call s (s.emit (.get_graphics_pipeline_state key)) _ rfl rfl rfl
      (by rfl) (by rfl)) (plain_call _ _ _ rfl rfl rfl (by rfl) (by rfl))

theorem plain_execute_draw_instanced (ext : externals) (cmd : commands.draw_instanced)
    (s : queue_context) :
    s.records_into event.is_plain_call (s._execute_draw_instanced ext cmd).state := by
  unfold queue_context._execute_draw_instanced
  refine records_into_bind _ _ _ _ (records_into_crash_if _ _ _) ?_
  intro _ s1 _
  have h1 : s1.records_into event.is_plain_call
      (s1.emit (.use_pipeline_resources cmd.resource_bindings)) :=
    plain_call _ _ _ rfl rfl rfl (by rfl) (by rfl)
  have h2 := plain_get_graphics_pipeline_state
    ((s1.emit (.use_pipeline_resources cmd.resource_bindings)).build_pipeline_key
      (ext.use_pipeline_resources s1.calls cmd.resource_bindings) cmd)
    (s1.emit (.use_pipeline_resources cmd.resource_bindings))
  have h12 := records_into_trans h1 h2
  dsimp only
  cases cmd.index_buffer.data with
  | none =>
    dsimp only [result.state]
    refine records_into_trans ?_
      (plain_record _ _ (by intro _; rfl) (by intro _ _ h; cases h; rfl))
    refine records_into_trans ?_
      (plain_record _ _ (by intro _; rfl) (by intro _ _ h; cases h; rfl))
    refine records_into_trans ?_ (plain_bind_descriptor_sets _ _ _)
    refine records_into_trans ?_
      (plain_record _ _ (by intro _; rfl) (by intro _ _ h; cases h; rfl))
    exact h12
  | some data =>
    dsimp only [result.state]
    refine records_into_trans ?_
      (plain_record _ _ (by intro _; rfl) (by intro _ _ h; cases h; rfl))
    refine records_into_trans ?_
      (plain_record _ _ (by intro _; rfl) (by intro _ _ h; cases h; rfl))
    refine records_into_trans ?_
      (plain_record _ _ (by intro _; rfl) (by intro _ _ h; cases h; rfl))
    refine records_into_trans ?_ (plain_bind_descriptor_sets _ _ _)
    refine records_into_trans ?_
      (plain_record _ _ (by intro _; rfl) (by intro _ _ h; cases h; rfl))
    exact h12

theorem plain_execute_end_pass (s : queue_context) :
    s.records_into event.is_plain_call s._execute_end_pass.state := by
  unfold queue_context._execute_end_pass
  refine records_into_bind _ _ _ _ (records_into_crash_if _ _ _) ?_
  intro _ s1 _
  exact records_into_trans (records_into_of_eq _ _ _ rfl rfl rfl)
    (plain_record _ _ (by intro _; rfl) (by intro _ _ h; cases h; rfl))

/-- The part of `dispatch_compute` after the pipeline is created records into
the list it obtained. -/
theorem plain_dispatch_compute_tail (S : queue_context) (resources : pipeline_resources_info)
    (pipeline x y z : Nat) :
    S.records_into event.is_plain_call
      (((S._get_command_list.2.emit
          (.bind_pipeline_state S._get_command_list.1 pipeline))._bind_descriptor_sets
            resources .compute).emit (.run_compute_shader S._get_command_list.1 x y z)) := by
  have h1 := plain_get_command_list S
  have hl := get_command_list_list S
  have h2 : S._get_command_list.2.records_into event.is_plain_call
      (S._get_command_list.2.emit (.bind_pipeline_state S._get_command_list.1 pipeline)) :=
    records_into_call _ _ _ _ rfl rfl rfl (by rfl) (by intro l h; cases h; exact hl)
  have h3 := plain_bind_descriptor_sets resources .compute
    (S._get_command_list.2.emit (.bind_pipeline_state S._get_command_list.1 pipeline))
  have hl3 := h3.2.1 _ (show (S._get_command_list.2.emit
    (.bind_pipeline_state S._get_command_list.1 pipeline))._list = _ from hl)
  refine records_into_trans h1 (records_into_trans h2 (records_into_trans h3 ?_))
  exact records_into_call _ _ _ _ rfl rfl rfl (by rfl) (by intro l h; cases h; exact hl3)

theorem plain_execute_dispatch_compute (ext : externals) (cmd : commands.dispatch_compute)
    (s : queue_context) :
    s.records_into event.is_plain_call (s._execute_dispatch_compute ext cmd).state := by
  have t := plain_dispatch_compute_tail
    { s.emit (.use_pipeline_resources cmd.resources) |>.emit
        (.create_compute_pipeline_state
          (ext.use_pipeline_resources s.calls cmd.resources).pipeline_resources cmd.shader
          s.objects) with objects := s.objects + 1 }
    (ext.use_pipeline_resources s.calls cmd.resources) s.objects cmd.num_thread_groups.1
    cmd.num_thread_groups.2.1 cmd.num_thread_groups.2.2
  refine records_into_trans ?_ t
  exact records_into_trans (plain_call s (s.emit (.use_pipeline_resources cmd.resources)) _
    rfl rfl rfl (by rfl) (by rfl)) (plain_call _ _ _ rfl rfl rfl (by rfl) (by rfl))

/-- Every executor but the one of `present` makes plain calls only. -/
theorem plain_execute (ext : externals) (value : command_value) (s : queue_context)
    (h : ∀ c, value ≠ .present c) :
    s.records_into event.is_plain_call (s._execute ext value).state := by
  cases value with
  | copy_buffer c => exact plain_execute_copy_buffer c s
  | copy_buffer_to_image c => exact plain_execute_copy_buffer_to_image ext c s
  | build_blas c => exact plain_execute_build_blas ext c s
  | build_tlas c => exact plain_execute_build_tlas ext c s
  | begin_pass c => exact plain_execute_begin_pass ext c s
  | draw_instanced c => exact plain_execute_draw_instanced ext c s
  | end_pass => exact plain_execute_end_pass s
  | dispatch_compute c => exact plain_execute_dispatch_compute ext c s
  | trace_rays => exact records_into_refl _ s
  | present c => exact absurd rfl (h c)

/-- What the executor of `present` does to the record: nothing without a backend
chain; with one it flushes, presents, and logs a status other than `ok`. -/
theorem execute_present_calls (ext : externals) (cmd : commands.present) (s : queue_context) :
    ((s._execute_present ext cmd).state = s ∧ cmd.target.chain = none) ∨
      ∃ later, (s._execute_present ext cmd).state.calls =
          (s._flush_command_list none []).calls ++ later ∧
        (s._execute_present ext cmd).state._pending_waits = [] ∧
        (s._execute_present ext cmd).state._list = none ∧
        (∀ e ∈ later, e.is_plain_call = true ∧ e.command_list = none) := by
  unfold queue_context._execute_present
  cases cmd.target.chain with
  | none => exact Or.inl ⟨rfl, rfl⟩
  | some chain =>
    right
    dsimp only
    split
    · refine ⟨[.present chain,
          .log_warn (ext.present (s._flush_command_list none []).calls chain)], ?_,
        flush_pending_waits s none [], flush_list s none [], ?_⟩
      · simp [result.state, queue_context.emit]
      · intro e he
        simp only [List.mem_cons, List.mem_singleton, List.not_mem_nil, or_false] at he
        rcases he with rfl | rfl <;> exact ⟨rfl, rfl⟩
    · refine ⟨[.present chain], ?_, flush_pending_waits s none [], flush_list s none [], ?_⟩
      · simp [result.state, queue_context.emit]
      · intro e he
        rw [List.mem_singleton] at he
        subst he
        exact ⟨rfl, rfl⟩

/-! ## Timestamp queries -/

theorem timestamp_queries_map_finish (l : List Nat) :
    timestamp_queries (l.map event.finish) = [] := by
  induction l with
  | nil => rfl
  | cons a l ih => simpa [timestamp_queries] using ih

theorem flush_timestamp_queries (s : queue_context) (fence : Option Nat)
    (signals : List gpu.timeline_semaphore_synchronization) :
    timestamp_queries (s._flush_command_list fence signals).calls = timestamp_queries s.calls := by
  rw [flush_calls, timestamp_queries_append, timestamp_queries_append,
    timestamp_queries_map_finish]
  simp [timestamp_queries]

/-- No executor records a timestamp query. -/
theorem execute_timestamp_queries (ext : externals) (value : command_value) (s : queue_context) :
    timestamp_queries (s._execute ext value).state.calls = timestamp_queries s.calls := by
  by_cases h : ∀ c, value ≠ .present c
  · exact records_into_timestamp_queries (plain_execute ext value s h)
  · simp only [not_forall, not_not] at h
    obtain ⟨c, rfl⟩ := h
    show timestamp_queries (s._execute_present ext c).state.calls = _
    rcases execute_present_calls ext c s with ⟨e, -⟩ | ⟨later, e, -, -, hl⟩
    · rw [e]
    · rw [e, timestamp_queries_append, flush_timestamp_queries,
        timestamp_queries_of_plain later (fun x hx => (hl x hx).1), List.append_nil]

theorem handle_transitions_plain {s s1 : queue_context}
    (h : s.handle_transitions = .returned () s1) : s.records_into event.is_plain_call s1 := by
  unfold queue_context.handle_transitions at h
  split at h
  · split at h
    · cases h
      exact plain_record _ _ (by intro _; rfl) (by intro _ _ h; cases h; rfl)
    · cases h
      exact records_into_refl _ _
  · cases h

theorem acquire_dependencies_timestamp_queries {s s1 : queue_context}
    (h : s.acquire_dependencies = .returned () s1) :
    timestamp_queries s1.calls = timestamp_queries s.calls := by
  obtain ⟨k, waits, -, -, hne, hnil⟩ := acquire_dependencies_spec h
  by_cases hw : waits = []
  · rw [(hnil hw).1]
  · rw [(hne hw).1, timestamp_queries_append, timestamp_queries_append,
      timestamp_queries_map_finish]
    simp [timestamp_queries]

theorem release_dependencies_timestamp_queries (s : queue_context) :
    timestamp_queries s.release_dependencies.calls = timestamp_queries s.calls := by
  unfold queue_context.release_dependencies
  dsimp only
  split
  · exact flush_timestamp_queries _ _ _
  · rfl

/-- What the block `// check & insert timestamp` does when it returns: if the
entry at the cursor is the command index, one query into the slot of the cursor
(the position, converted to 32 bits) and the cursor moves on by one; otherwise
nothing. -/
theorem insert_timestamp_queries {s s1 : queue_context}
    (h : s.insert_timestamp = .returned () s1) :
    (s._timestamp_command_indices.get? s._next_timestamp = some s._command_index →
      ∃ heap, s._timestamps = some heap ∧
        timestamp_queries s1.calls =
          timestamp_queries s.calls ++ [(heap, s._next_timestamp % 2 ^ 32)] ∧
        s1._next_timestamp = s._next_timestamp + 1) ∧
    (s._timestamp_command_indices.get? s._next_timestamp ≠ some s._command_index →
      timestamp_queries s1.calls = timestamp_queries s.calls ∧
        s1._next_timestamp = s._next_timestamp) := by
  have hg := records_into_timestamp_queries (plain_get_command_list s)
  have hr := get_command_list_replay_data s
  have hts : s._get_command_list.2._timestamps = s._timestamps :=
    congrArg replay_data.timestamps hr
  have hnt : s._get_command_list.2._next_timestamp = s._next_timestamp :=
    congrArg replay_data.next_timestamp hr
  unfold queue_context.insert_timestamp at h
  split at h
  · rename_i next hnext
    split at h
    · rename_i heq
      dsimp only at h
      split at h
      · rename_i heap hheap
        cases h
        refine ⟨fun _ => ⟨heap, hts ▸ hheap, ?_, ?_⟩, fun hne => ?_⟩
        · show timestamp_queries (s._get_command_list.2.calls ++ [_]) = _
          rw [timestamp_queries_append, hg]
          rfl
        · show s._get_command_list.2._next_timestamp + 1 = _
          rw [hnt]
        · exact absurd (heq ▸ hnext) hne
      · cases h
    · rename_i hneq
      cases h
      refine ⟨fun he => ?_, fun _ => ⟨rfl, rfl⟩⟩
      rw [hnext] at he
      exact absurd (Option.some.inj he) hneq
  · rename_i hnone
    cases h
    refine ⟨fun he => ?_, fun _ => ⟨rfl, rfl⟩⟩
    rw [hnone] at he
    cases he

/-- The timestamp members across one returning call: only the first block moves
the cursor or records a query, and it does so before the command is handed
over. -/
theorem execute_next_command_timestamps {ext : externals} {s s' : queue_context}
    (h : s.execute_next_command ext = .returned () s') :
    ∃ s1, s.insert_timestamp = .returned () s1 ∧
      dispatched_commands s1.calls = dispatched_commands s.calls ∧
      timestamp_queries s'.calls = timestamp_queries s1.calls ∧
      s'._next_timestamp = s1._next_timestamp ∧
      s'._timestamp_command_indices = s._timestamp_command_indices ∧
      s'._timestamps = s._timestamps := by
  obtain ⟨cmd, s1, s2, s3, s4, hcmd, h1, h2, h3, h4, rfl⟩ := execute_next_command_returned h
  have e1 := (insert_timestamp_returned h1)
  have e2 := (acquire_dependencies_returned h2).1
  have e3 := (handle_transitions_returned h3).1
  have e4 : s4.replay_data = (s3.visit cmd).replay_data := by
    have := (frame_execute ext cmd.value (s3.visit cmd)).1
    rwa [h4] at this
  have e5 := (release_dependencies_spec s4).1
  have q4 : timestamp_queries s4.calls = timestamp_queries (s3.visit cmd).calls := by
    have := execute_timestamp_queries ext cmd.value (s3.visit cmd)
    rwa [h4] at this
  have q3 := records_into_timestamp_queries (handle_transitions_plain h3)
  have q2 := acquire_dependencies_timestamp_queries h2
  have q5 := release_dependencies_timestamp_queries s4
  have qv : timestamp_queries (s3.visit cmd).calls = timestamp_queries s3.calls := by
    simp [queue_context.visit, emit_calls, timestamp_queries_append, timestamp_queries]
  refine ⟨s1, h1, e1.2.1, ?_, ?_, ?_, ?_⟩
  · show timestamp_queries s4.release_dependencies.calls = _
    rw [q5, q4, qv, q3, q2]
  · have a2 := congrArg replay_data.next_timestamp e2
    have a3 := congrArg replay_data.next_timestamp e3
    have a4 := congrArg replay_data.next_timestamp e4
    have a5 := congrArg replay_data.next_timestamp e5
    simp only [queue_context.replay_data, queue_context.visit, queue_context.emit] at a2 a3 a4 a5
    show s4.release_dependencies._next_timestamp = _
    rw [a5, a4, a3, a2]
  · have a1 := congrArg replay_data.timestamp_command_indices e1.1
    have a2 := congrArg replay_data.timestamp_command_indices e2
    have a3 := congrArg replay_data.timestamp_command_indices e3
    have a4 := congrArg replay_data.timestamp_command_indices e4
    have a5 := congrArg replay_data.timestamp_command_indices e5
    simp only [queue_context.replay_data, queue_context.visit, queue_context.emit] at a1 a2 a3 a4 a5
    show s4.release_dependencies._timestamp_command_indices = _
    rw [a5, a4, a3, a2, a1]
  · have a1 := congrArg replay_data.timestamps e1.1
    have a2 := congrArg replay_data.timestamps e2
    have a3 := congrArg replay_data.timestamps e3
    have a4 := congrArg replay_data.timestamps e4
    have a5 := congrArg replay_data.timestamps e5
    simp only [queue_context.replay_data, queue_context.visit, queue_context.emit] at a1 a2 a3 a4 a5
    show s4.release_dependencies._timestamps = _
    rw [a5, a4, a3, a2, a1]

theorem timestamp_cursor_at_zero (indices : List Nat) : timestamp_cursor_at indices 0 0 :=
  ⟨Nat.zero_le _, by simp, fun _ _ => Nat.zero_le _⟩

/-- The entries after a position of a strictly ascending list are larger than
the entry at the position. -/
theorem lt_of_mem_drop_succ (indices : List Nat) (c : Nat) (hc : c < indices.length)
    (hs : indices.Pairwise (fun a b => a < b)) :
    ∀ t ∈ indices.drop (c + 1), indices[c] < t := by
  have h1 : (indices.drop c).Pairwise (fun a b => a < b) :=
    List.Pairwise.sublist (List.drop_sublist _ _) hs
  rw [List.drop_eq_getElem_cons hc] at h1
  exact (List.pairwise_cons.mp h1).1

theorem timestamp_cursor_hit (indices : List Nat) (c i : Nat)
    (hs : indices.Pairwise (fun a b => a < b)) (hc : timestamp_cursor_at indices c i)
    (hget : indices.get? c = some i) : timestamp_cursor_at indices (c + 1) (i + 1) := by
  rw [List.get?_eq_getElem?] at hget
  have hlt : c < indices.length := by
    by_contra hge
    rw [List.getElem?_eq_none (by omega)] at hget
    cases hget
  have hci : indices[c] = i := by
    rw [List.getElem?_eq_getElem hlt] at hget
    exact Option.some.inj hget
  refine ⟨hlt, ?_, ?_⟩
  · intro t ht
    rw [List.take_succ, List.mem_append, hget] at ht
    rcases ht with ht | ht
    · have := hc.2.1 t ht
      omega
    · simp only [Option.toList, List.mem_singleton] at ht
      omega
  · intro t ht
    have := lt_of_mem_drop_succ indices c hlt hs t ht
    omega

theorem timestamp_cursor_miss (indices : List Nat) (c i : Nat)
    (hs : indices.Pairwise (fun a b => a < b)) (hc : timestamp_cursor_at indices c i)
    (hget : indices.get? c ≠ some i) : timestamp_cursor_at indices c (i + 1) := by
  rw [List.get?_eq_getElem?] at hget
  refine ⟨hc.1, ?_, ?_⟩
  · intro t ht
    have := hc.2.1 t ht
    omega
  · intro t ht
    by_cases hlt : c < indices.length
    · have hci : indices[c] ≠ i := by
        intro e
        rw [List.getElem?_eq_getElem hlt, e] at hget
        exact hget rfl
      have hge : i ≤ indices[c] := by
        apply hc.2.2
        rw [List.drop_eq_getElem_cons hlt]
        exact List.mem_cons_self _ _
      rw [List.drop_eq_getElem_cons hlt] at ht
      rcases List.mem_cons.mp ht with rfl | ht
      · omega
      · have := lt_of_mem_drop_succ indices c hlt hs t ht
        omega
    · rw [List.drop_eq_nil_of_le (by omega)] at ht
      cases ht

/-- With strictly ascending entries and the cursor in place for index `i`, the
entry equal to `i`, if there is one, is the one at the cursor. -/
theorem timestamp_cursor_unique (indices : List Nat) (c i k : Nat)
    (hs : indices.Pairwise (fun a b => a < b)) (hc : timestamp_cursor_at indices c i)
    (hk : indices.get? k = some i) : k = c := by
  rw [List.get?_eq_getElem?] at hk
  have hlt : k < indices.length := by
    by_contra hge
    rw [List.getElem?_eq_none (by omega)] at hk
    cases hk
  have hki : indices[k] = i := by
    rw [List.getElem?_eq_getElem hlt] at hk
    exact Option.some.inj hk
  rcases Nat.lt_trichotomy k c with h | h | h
  · have hmem : i ∈ indices.take c := by
      have : (indices.take c)[k]? = some i := by rw [List.getElem?_take_of_lt h]; exact hk
      exact List.getElem?_mem this
    have := hc.2.1 i hmem
    omega
  · exact h
  · have hcl : c < indices.length := by omega
    have h1 := List.pairwise_iff_getElem.mp hs c k hcl hlt h
    have h2 : i ≤ indices[c] := by
      apply hc.2.2
      rw [List.drop_eq_getElem_cons hcl]
      exact List.mem_cons_self _ _
    omega

theorem timestamp_cursor_at_end (indices : List Nat) (c n : Nat)
    (hc : timestamp_cursor_at indices c n) (hlt : ∀ t ∈ indices, t < n) :
    c = indices.length := by
  by_contra hne
  have hlt' : c < indices.length := by have := hc.1; omega
  have h1 : n ≤ indices[c] := by
    apply hc.2.2
    rw [List.drop_eq_getElem_cons hlt']
    exact List.mem_cons_self _ _
  have h2 := hlt _ (List.getElem_mem hlt')
  omega

theorem start_execution_timestamps (s : queue_context) :
    s.start_execution._timestamp_command_indices = s._timestamp_command_indices ∧
      s.start_execution._next_timestamp = 0 ∧
      (s._timestamp_command_indices ≠ [] → s.start_execution._timestamps = some s.objects) ∧
      timestamp_queries s.start_execution.calls = timestamp_queries s.calls := by
  unfold queue_context.start_execution
  dsimp only
  cases h : s._timestamp_command_indices with
  | nil => exact ⟨rfl, rfl, fun hne => absurd rfl hne, rfl⟩
  | cons a l =>
    refine ⟨rfl, rfl, fun _ => rfl, ?_⟩
    simp [queue_context.emit, timestamp_queries_append, timestamp_queries]

/-- The cursor and the queries across one returning call, for strictly ascending
timestamp indices. -/
theorem timestamp_step {ext : externals} {s s' : queue_context}
    (h : s.execute_next_command ext = .returned () s')
    (hs : s._timestamp_command_indices.Pairwise (fun a b => a < b))
    (hc : timestamp_cursor_at s._timestamp_command_indices s._next_timestamp s._command_index)
    (heap : Nat) (hheap : s._timestamp_command_indices ≠ [] → s._timestamps = some heap) :
    timestamp_cursor_at s._timestamp_command_indices s'._next_timestamp (s._command_index + 1) ∧
      s._next_timestamp ≤ s'._next_timestamp ∧
      timestamp_queries s'.calls = timestamp_queries s.calls ++
        (List.range' s._next_timestamp (s'._next_timestamp - s._next_timestamp)).map
          (fun k => (heap, k % 2 ^ 32)) := by
  obtain ⟨s1, h1, -, q, n, -, -⟩ := execute_next_command_timestamps h
  obtain ⟨hit, miss⟩ := insert_timestamp_queries h1
  by_cases hget : s._timestamp_command_indices.get? s._next_timestamp = some s._command_index
  · obtain ⟨heap1, e1, e2, e3⟩ := hit hget
    have hne : s._timestamp_command_indices ≠ [] := by
      intro e
      rw [e] at hget
      cases hget
    rw [hheap hne] at e1
    cases e1
    rw [n, e3, q, e2]
    refine ⟨timestamp_cursor_hit _ _ _ hs hc hget, Nat.le_succ _, ?_⟩
    simp
  · obtain ⟨e2, e3⟩ := miss hget
    rw [n, e3, q, e2]
    refine ⟨timestamp_cursor_miss _ _ _ hs hc hget, Nat.le_refl _, ?_⟩
    simp

/-- Along a replay that returns, for strictly ascending timestamp indices: the
cursor stays in place for the index reached and the queries recorded are those
of the slots the cursor has passed, in order. -/
theorem replay_timestamps (ext : externals) (k : Nat) (s s' : queue_context)
    (h : s.replay ext k = .returned () s')
    (hs : s._timestamp_command_indices.Pairwise (fun a b => a < b))
    (hc : timestamp_cursor_at s._timestamp_command_indices s._next_timestamp s._command_index)
    (heap : Nat) (hheap : s._timestamp_command_indices ≠ [] → s._timestamps = some heap) :
    s'._timestamp_command_indices = s._timestamp_command_indices ∧
      s'._timestamps = s._timestamps ∧
      timestamp_cursor_at s._timestamp_command_indices s'._next_timestamp s'._command_index ∧
      s._next_timestamp ≤ s'._next_timestamp ∧
      timestamp_queries s'.calls = timestamp_queries s.calls ++
        (List.range' s._next_timestamp (s'._next_timestamp - s._next_timestamp)).map
          (fun k => (heap, k % 2 ^ 32)) := by
  induction k generalizing s with
  | zero =>
    cases h
    exact ⟨rfl, rfl, hc, Nat.le_refl _, by simp⟩
  | succ k ih =>
    simp only [queue_context.replay] at h
    obtain ⟨_, s1, hstep, hrest⟩ := result.bind_eq_returned h
    obtain ⟨c1, m1, q1⟩ := timestamp_step hstep hs hc heap hheap
    obtain ⟨_, -, -, -, -, ti, th⟩ := execute_next_command_timestamps hstep
    obtain ⟨_, -, hi, -, -⟩ := execute_next_command_summary hstep
    obtain ⟨r1, r2, r3, r4, r5⟩ := ih s1 hrest (by rw [ti]; exact hs)
      (by rw [ti, hi]; exact c1) (by rw [ti, th]; exact hheap)
    rw [ti] at r3
    refine ⟨r1.trans ti, r2.trans th, r3, Nat.le_trans m1 r4, ?_⟩
    rw [r5, q1, List.append_assoc, ← List.map_append]
    congr 2
    have := List.range'_append_1 s._next_timestamp (s1._next_timestamp - s._next_timestamp)
      (s'._next_timestamp - s1._next_timestamp)
    rw [Nat.add_sub_cancel' m1] at this
    rw [this]
    congr 1
    omega

/-- Timestamps that name distinct commands: let the timestamp command indices
be strictly ascending (no command index twice) with all entries below the
number `n` of commands. After
`start_execution` and `n` calls of `execute_next_command` that return, the
queries recorded since are, in order, one per entry, entry `k` into the slot
`k` converted to 32 bits of the heap created by `start_execution`; with at most
`2 ^ 32` entries that is slot `k` itself. The query for entry `k` is recorded by
the first block of the call whose command index equals the entry, before that
command is handed to its executor, and the rest of that call records no
query. -/
theorem timestamps_recorded_once_each (ext : externals) (s0 s' : queue_context)
    (h0 : s0._command_index = 0)
    (hsorted : s0._timestamp_command_indices.Pairwise (fun a b => a < b))
    (hlt : ∀ t ∈ s0._timestamp_command_indices, t < s0._q.batch_commands.length)
    (hreplay : s0.start_execution.replay ext s0._q.batch_commands.length = .returned () s') :
    timestamp_queries s'.calls = timestamp_queries s0.calls ++
        (List.range s0._timestamp_command_indices.length).map
          (fun k => (s0.objects, k % 2 ^ 32)) ∧
      (s0._timestamp_command_indices.length ≤ 2 ^ 32 →
        timestamp_queries s'.calls = timestamp_queries s0.calls ++
          (List.range s0._timestamp_command_indices.length).map (fun k => (s0.objects, k))) ∧
      ∀ k i, s0._timestamp_command_indices.get? k = some i →
        ∃ s s1 t cmd, s0.start_execution.replay ext i = .returned () s ∧
          s._command_index = i ∧
          s.execute_next_command ext = .returned () t ∧
          s.insert_timestamp = .returned () s1 ∧
          timestamp_queries s1.calls = timestamp_queries s.calls ++ [(s0.objects, k % 2 ^ 32)] ∧
          (s0._timestamp_command_indices.length ≤ 2 ^ 32 →
            timestamp_queries s1.calls = timestamp_queries s.calls ++ [(s0.objects, k)]) ∧
          dispatched_commands s1.calls = dispatched_commands s.calls ∧
          timestamp_queries t.calls = timestamp_queries s1.calls ∧
          dispatched_commands t.calls = dispatched_commands s1.calls ++ [(i, cmd)] := by
  obtain ⟨st1, st2, st3, st4⟩ := start_execution_timestamps s0
  obtain ⟨-, -, -, -, st5, -⟩ := start_execution_streams s0
  have hs : s0.start_execution._timestamp_command_indices.Pairwise (fun a b => a < b) := by
    rw [st1]; exact hsorted
  have hc : timestamp_cursor_at s0.start_execution._timestamp_command_indices
      s0.start_execution._next_timestamp s0.start_execution._command_index := by
    rw [st2, st5, h0]; exact timestamp_cursor_at_zero _
  have hheap : s0.start_execution._timestamp_command_indices ≠ [] →
      s0.start_execution._timestamps = some s0.objects := by
    rw [st1]; exact st3
  have hidx : ∀ k s, s0.start_execution.replay ext k = .returned () s → s._command_index = k := by
    intro k s hk
    have := (replay_summary ext k _ s hk).1
    rw [st5, h0] at this
    omega
  have hall : timestamp_queries s'.calls = timestamp_queries s0.calls ++
      (List.range s0._timestamp_command_indices.length).map
        (fun k => (s0.objects, k % 2 ^ 32)) := by
    obtain ⟨-, -, r3, -, r5⟩ := replay_timestamps ext _ _ s' hreplay hs hc s0.objects hheap
    rw [st1, hidx _ s' hreplay] at r3
    have hend := timestamp_cursor_at_end _ _ _ r3 hlt
    rw [r5, st4, st2, hend, Nat.sub_zero, List.range_eq_range']
  refine ⟨hall, ?_, ?_⟩
  · intro hlen
    rw [hall]
    congr 1
    apply List.map_congr_left
    intro k hk
    have hk' : k < s0._timestamp_command_indices.length := List.mem_range.mp hk
    rw [Nat.mod_eq_of_lt (Nat.lt_of_lt_of_le hk' hlen)]
  · intro k i hk
    have hmem : i ∈ s0._timestamp_command_indices := by
      rw [List.get?_eq_getElem?] at hk
      exact List.getElem?_mem hk
    have hklt : k < s0._timestamp_command_indices.length := by
      rw [List.get?_eq_getElem?] at hk
      by_contra hge
      rw [List.getElem?_eq_none (by omega)] at hk
      cases hk
    have hi := hlt i hmem
    obtain ⟨d, hd⟩ : ∃ d, s0._q.batch_commands.length = i + (1 + d) :=
      ⟨s0._q.batch_commands.length - (i + 1), by omega⟩
    have hsplit := replay_add ext i (1 + d) s0.start_execution
    rw [← hd, hreplay] at hsplit
    obtain ⟨_, s, hsi, hrest⟩ := result.bind_eq_returned hsplit.symm
    rw [replay_add] at hrest
    obtain ⟨_, t, hst, -⟩ := result.bind_eq_returned hrest
    have hstep : s.execute_next_command ext = .returned () t := by
      simp only [queue_context.replay] at hst
      obtain ⟨_, t1, e1, e2⟩ := result.bind_eq_returned hst
      cases e2
      exact e1
    obtain ⟨r1, r2, r3, -, -⟩ := replay_timestamps ext _ _ s hsi hs hc s0.objects hheap
    rw [st1, hidx _ s hsi] at r3
    have hkc := timestamp_cursor_unique _ _ _ _ hsorted r3 hk
    obtain ⟨s1, h1, hd1, q, -, -, -⟩ := execute_next_command_timestamps hstep
    obtain ⟨hit, -⟩ := insert_timestamp_queries h1
    rw [r1, st1, hidx _ s hsi, ← hkc] at hit
    obtain ⟨heap, e1, e2, -⟩ := hit hk
    have hne : s0._timestamp_command_indices ≠ [] := by
      intro e
      rw [e] at hmem
      cases hmem
    rw [r2, st3 hne] at e1
    cases e1
    obtain ⟨cmd, -, -, -, hdt⟩ := execute_next_command_summary hstep
    rw [hidx _ s hsi, ← hd1] at hdt
    refine ⟨s, s1, t, cmd, hsi, hidx _ s hsi, hstep, h1, e2, ?_, hd1, q, hdt⟩
    intro hlen
    rw [e2, Nat.mod_eq_of_lt (Nat.lt_of_lt_of_le hklt hlen)]

/-- The sample queue requests timestamps at commands 0 and 3; the replay of its
five commands records slot 0 and slot 1 of heap 0, once each. -/
theorem timestamps_recorded_once_each_example :
    example_context._command_index = 0 ∧
      example_context._timestamp_command_indices = [0, 3] ∧
      (example_context.start_execution.replay example_externals 5).is_returned = true ∧
      timestamp_queries
          (example_context.start_execution.replay example_externals 5).state.calls =
        [(0, 0), (0, 1)] :=
  ⟨rfl, rfl, by rfl,
    (timestamps_recorded_once_each example_externals example_context
      (example_context.start_execution.replay example_externals 5).state rfl (by decide)
      (by decide) (by rfl)).2.1 (by decide)⟩

theorem next_submission_of_records {s v : queue_context}
    (h : s.records_into event.is_not_submission v) : s.next_submission_from v :=
  Or.inl h

theorem next_submission_refl (s : queue_context) : s.next_submission_from s :=
  Or.inl (records_into_refl _ s)

/-- A state whose record is that of a flush of `s`, followed by more calls. -/
theorem next_submission_of_flush (s v : queue_context) (fence : Option Nat)
    (signals : List gpu.timeline_semaphore_synchronization) (later : List event)
    (h : v.calls = (s._flush_command_list fence signals).calls ++ later) :
    s.next_submission_from v := by
  refine Or.inr ⟨s, fence, signals, later, records_into_refl _ s, ?_⟩
  rw [h, flush_calls]

/-- Whatever happens from `s` on extends the record of `s`. -/
theorem next_submission_calls {s v : queue_context} (h : s.next_submission_from v) :
    ∃ added, v.calls = s.calls ++ added := by
  rcases h with ⟨-, -, added, hc, -⟩ | ⟨u, fence, signals, later, ⟨-, -, added, hc, -⟩, hv⟩
  · exact ⟨added, hc⟩
  · refine ⟨added ++ ((u._list.toList.map event.finish ++
      [.submit_command_lists u._list.toList ⟨fence, s._pending_waits, signals⟩]) ++ later), ?_⟩
    rw [hv, hc]
    simp only [List.append_assoc]

theorem next_submission_trans {s v w : queue_context} (h1 : s.next_submission_from v)
    (h2 : v.next_submission_from w) : s.next_submission_from w := by
  rcases h1 with r1 | ⟨u, fence, signals, later, ru, hv⟩
  · rcases h2 with r2 | ⟨u2, fence2, signals2, later2, ru2, hw⟩
    · exact Or.inl (records_into_trans r1 r2)
    · refine Or.inr ⟨u2, fence2, signals2, later2, records_into_trans r1 ru2, ?_⟩
      rw [hw, r1.1]
  · obtain ⟨added, hw⟩ := next_submission_calls h2
    refine Or.inr ⟨u, fence, signals, later ++ added, ru, ?_⟩
    rw [hw, hv]
    simp only [List.append_assoc]

theorem insert_timestamp_records {s s1 : queue_context}
    (h : s.insert_timestamp = .returned () s1) :
    s.records_into event.is_not_submission s1 := by
  have hg : s.records_into event.is_not_submission s._get_command_list.2 :=
    records_into_get_command_list _ (fun _ _ => rfl) (fun _ _ => rfl) s
  have hl := get_command_list_list s
  unfold queue_context.insert_timestamp at h
  split at h
  · split at h
    · dsimp only at h
      split at h
      · cases h
        refine records_into_trans hg ?_
        exact records_into_call _ _ _ _ rfl rfl rfl (by rfl) (by intro l e; cases e; exact hl)
      · cases h
    · cases h
      exact records_into_refl _ _
  · cases h
    exact records_into_refl _ _

theorem visit_records (s : queue_context) (cmd : command) :
    s.records_into event.is_not_submission (s.visit cmd) :=
  records_into_call _ _ _ _ rfl rfl rfl (by rfl) (by intro l e; cases e)

theorem execute_next_submission (ext : externals) (value : command_value) (s : queue_context) :
    s.next_submission_from (s._execute ext value).state := by
  by_cases h : ∀ c, value ≠ .present c
  · exact Or.inl (records_into_mono is_plain_call_not_submission (plain_execute ext value s h))
  · simp only [not_forall, not_not] at h
    obtain ⟨c, rfl⟩ := h
    show s.next_submission_from (s._execute_present ext c).state
    rcases execute_present_calls ext c s with ⟨e, -⟩ | ⟨later, e, -, -, -⟩
    · rw [e]
      exact next_submission_refl s
    · exact next_submission_of_flush s _ none [] later e

/-- A flush in a state that differs from `s` in neither the record, the pending
waits nor the current list. -/
theorem next_submission_flush_of_eq (s u : queue_context) (fence : Option Nat)
    (signals : List gpu.timeline_semaphore_synchronization) (hc : u.calls = s.calls)
    (hp : u._pending_waits = s._pending_waits) (hl : u._list = s._list) :
    s.next_submission_from (u._flush_command_list fence signals) := by
  refine Or.inr ⟨u, fence, signals, [], records_into_of_eq _ _ _ hc hp hl, ?_⟩
  rw [flush_calls, hp, List.append_nil]

theorem release_next_submission (s : queue_context) :
    s.next_submission_from s.release_dependencies := by
  unfold queue_context.release_dependencies
  dsimp only
  split
  · exact next_submission_flush_of_eq _ _ _ _ rfl rfl rfl
  · exact Or.inl (records_into_of_eq _ _ _ rfl rfl rfl)

theorem acquire_next_submission {s s2 : queue_context}
    (h : s.acquire_dependencies = .returned () s2) : s.next_submission_from s2 := by
  obtain ⟨k, waits, -, -, hne, hnil⟩ := acquire_dependencies_spec h
  by_cases hw : waits = []
  · obtain ⟨c1, c2, c3⟩ := hnil hw
    exact Or.inl (records_into_of_eq _ _ _ c1 c3 c2)
  · obtain ⟨c1, -, -⟩ := hne hw
    exact next_submission_of_flush s s2 none [] [] (by rw [c1, flush_calls, List.append_nil])

/-- From the hand-over of its command to the end of a returning call. -/
theorem execute_next_command_next_submission {ext : externals} {s s' : queue_context}
    (h : s.execute_next_command ext = .returned () s') :
    s.next_submission_from s' ∧
      ∃ cmd s1 s2 s3 s4, s.insert_timestamp = .returned () s1 ∧
        s1.acquire_dependencies = .returned () s2 ∧
        s2.handle_transitions = .returned () s3 ∧
        (s3.visit cmd)._execute ext cmd.value = .returned () s4 ∧
        s2.records_into event.is_not_submission (s3.visit cmd) ∧
        (s3.visit cmd).next_submission_from s' ∧ s4.next_submission_from s' := by
  obtain ⟨cmd, s1, s2, s3, s4, hcmd, h1, h2, h3, h4, rfl⟩ := execute_next_command_returned h
  have r1 := insert_timestamp_records h1
  have r2 := acquire_next_submission h2
  have r3 : s2.records_into event.is_not_submission s3 :=
    records_into_mono is_plain_call_not_submission (handle_transitions_plain h3)
  have r4 := visit_records s3 cmd
  have r5 : (s3.visit cmd).next_submission_from s4 := by
    have := execute_next_submission ext cmd.value (s3.visit cmd)
    rwa [h4] at this
  have r6 := release_next_submission s4
  have r7 : s4.release_dependencies.next_submission_from
      { s4.release_dependencies with
        _command_index := s4.release_dependencies._command_index + 1 } :=
    Or.inl (records_into_of_eq _ _ _ rfl rfl rfl)
  have tail := next_submission_trans r5 (next_submission_trans r6 r7)
  refine ⟨?_, cmd, s1, s2, s3, s4, h1, h2, h3, h4, records_into_trans r3 r4, tail,
    next_submission_trans r6 r7⟩
  exact next_submission_trans (Or.inl r1) (next_submission_trans r2
    (next_submission_trans (Or.inl (records_into_trans r3 r4)) tail))

theorem replay_next_submission (ext : externals) (k : Nat) (s s' : queue_context)
    (h : s.replay ext k = .returned () s') : s.next_submission_from s' := by
  induction k generalizing s with
  | zero =>
    cases h
    exact next_submission_refl _
  | succ k ih =>
    simp only [queue_context.replay] at h
    obtain ⟨_, s1, hstep, hrest⟩ := result.bind_eq_returned h
    exact next_submission_trans (execute_next_command_next_submission hstep).1 (ih s1 hrest)

theorem finish_execution_next_submission (s : queue_context) :
    s.next_submission_from s.finish_execution := by
  have h := next_submission_flush_of_eq s
    { s with _q.semaphore_value := s._q.semaphore_value + 1 } none
    [⟨s._q.semaphore, s._q.semaphore_value + 1⟩] rfl rfl rfl
  exact next_submission_trans h (Or.inl (records_into_of_eq _ _ _ rfl rfl rfl))

theorem wait_ledger_of_eq {s v : queue_context} (hc : submissions v.calls = submissions s.calls)
    (hp : v._pending_waits = s._pending_waits) : v.wait_ledger = s.wait_ledger := by
  unfold queue_context.wait_ledger
  rw [hc, hp]

/-- A flush moves the pending waits into the submission it makes. -/
theorem flush_wait_ledger (s : queue_context) (fence : Option Nat)
    (signals : List gpu.timeline_semaphore_synchronization) :
    (s._flush_command_list fence signals).wait_ledger = s.wait_ledger := by
  unfold queue_context.wait_ledger
  rw [flush_calls, flush_pending_waits, submissions_append, submissions_append,
    submissions_map_finish]
  simp [submissions]

theorem execute_wait_ledger (ext : externals) (value : command_value) (s : queue_context) :
    (s._execute ext value).state.wait_ledger = s.wait_ledger := by
  by_cases h : ∀ c, value ≠ .present c
  · exact (records_into_submissions
      (records_into_mono is_plain_call_not_submission (plain_execute ext value s h))).2.2
  · simp only [not_forall, not_not] at h
    obtain ⟨c, rfl⟩ := h
    show (s._execute_present ext c).state.wait_ledger = _
    rcases execute_present_calls ext c s with ⟨e, -⟩ | ⟨later, e, hp, -, hl⟩
    · rw [e]
    · rw [← flush_wait_ledger s none []]
      apply wait_ledger_of_eq
      · rw [e, submissions_append, submissions_of_not_submission later
          (fun x hx => is_plain_call_not_submission x (hl x hx).1), List.append_nil]
      · rw [hp, flush_pending_waits]

theorem release_wait_ledger (s : queue_context) :
    s.release_dependencies.wait_ledger = s.wait_ledger := by
  unfold queue_context.release_dependencies
  dsimp only
  split
  · rw [flush_wait_ledger]
    rfl
  · rfl

/-- The block `// acquire dependencies` adds the waits it collected to the
ledger, after everything that was there. -/
theorem acquire_wait_ledger {s s2 : queue_context}
    (h : s.acquire_dependencies = .returned () s2) :
    ∃ k waits, acquire_loop s._q.ctx._queues s._command_index
        (s._acquire_dependency_events.drop s._next_acquire_event) [] = some (k, waits) ∧
      s2.wait_ledger = s.wait_ledger ++ waits := by
  obtain ⟨k, waits, hloop, -, hne, hnil⟩ := acquire_dependencies_spec h
  refine ⟨k, waits, hloop, ?_⟩
  by_cases hw : waits = []
  · obtain ⟨c1, -, c3⟩ := hnil hw
    rw [hw, List.append_nil]
    exact wait_ledger_of_eq (by rw [c1]) c3
  · obtain ⟨c1, -, c3⟩ := hne hw
    unfold queue_context.wait_ledger
    rw [c1, c3, submissions_append, submissions_append, submissions_map_finish]
    simp [submissions]

/-- One returning call adds to the ledger the waits that its acquire block
collected, and nothing else. -/
theorem execute_next_command_wait_ledger {ext : externals} {s s' : queue_context}
    (h : s.execute_next_command ext = .returned () s') :
    ∃ k waits, acquire_loop s._q.ctx._queues s._command_index
        (s._acquire_dependency_events.drop s._next_acquire_event) [] = some (k, waits) ∧
      s'.wait_ledger = s.wait_ledger ++ waits := by
  obtain ⟨cmd, s1, s2, s3, s4, ⟨-, h1, h2, h3, h4, rfl⟩, ⟨a1, a2, a3, a4⟩, -, -⟩ :=
    execute_next_command_streams h
  obtain ⟨k, waits, hloop, hl2⟩ := acquire_wait_ledger h2
  rw [a1, a2, a3, a4] at hloop
  have l1 := (records_into_submissions (insert_timestamp_records h1)).2.2
  have l3 := (records_into_submissions
    (records_into_mono is_plain_call_not_submission (handle_transitions_plain h3))).2.2
  have lv := (records_into_submissions (visit_records s3 cmd)).2.2
  have l4 : s4.wait_ledger = (s3.visit cmd).wait_ledger := by
    have := execute_wait_ledger ext cmd.value (s3.visit cmd)
    rwa [h4] at this
  have l5 := release_wait_ledger s4
  refine ⟨k, waits, hloop, ?_⟩
  show s4.release_dependencies.wait_ledger = _
  rw [l5, l4, lv, l3, hl2, l1]

theorem replay_wait_ledger (ext : externals) (k : Nat) (s s' : queue_context)
    (h : s.replay ext k = .returned () s') :
    ∃ later, s'.wait_ledger = s.wait_ledger ++ later := by
  induction k generalizing s with
  | zero =>
    cases h
    exact ⟨[], by simp⟩
  | succ k ih =>
    simp only [queue_context.replay] at h
    obtain ⟨_, s1, hstep, hrest⟩ := result.bind_eq_returned h
    obtain ⟨_, waits, -, e1⟩ := execute_next_command_wait_ledger hstep
    obtain ⟨later, e2⟩ := ih s1 hrest
    exact ⟨waits ++ later, by rw [e2, e1, List.append_assoc]⟩

/-- The final flush leaves no wait pending: the ledger is then the waits of the
submissions alone. -/
theorem finish_execution_wait_ledger (s : queue_context) :
    s.finish_execution.wait_ledger = s.wait_ledger ∧ s.finish_execution._pending_waits = [] ∧
      s.finish_execution.wait_ledger =
        (submissions s.finish_execution.calls).flatMap (fun x => x.2.wait_semaphores) := by
  have h1 := flush_wait_ledger { s with _q.semaphore_value := s._q.semaphore_value + 1 } none
    [⟨s._q.semaphore, s._q.semaphore_value + 1⟩]
  have h2 := flush_pending_waits { s with _q.semaphore_value := s._q.semaphore_value + 1 } none
    [⟨s._q.semaphore, s._q.semaphore_value + 1⟩]
  have hp : s.finish_execution._pending_waits = [] := h2
  refine ⟨h1, hp, ?_⟩
  unfold queue_context.wait_ledger
  rw [hp, List.append_nil]

/-- Read off the submissions: since `s` either none was made and the waits are
still pending, or the first one made carries the pending waits of `s`. -/
theorem next_submission_first {s v : queue_context} (h : s.next_submission_from v) :
    (submissions v.calls = submissions s.calls ∧ v._pending_waits = s._pending_waits) ∨
      ∃ lists sync rest, submissions v.calls = submissions s.calls ++ (lists, sync) :: rest ∧
        sync.wait_semaphores = s._pending_waits := by
  rcases h with r | ⟨u, fence, signals, later, ru, hv⟩
  · exact Or.inl ⟨(records_into_submissions r).1, (records_into_submissions r).2.1⟩
  · refine Or.inr ⟨u._list.toList, ⟨fence, s._pending_waits, signals⟩, submissions later, ?_, rfl⟩
    rw [hv, submissions_append, submissions_append, submissions_append, submissions_map_finish,
      (records_into_submissions ru).1]
    simp [submissions]

theorem finish_execution_calls (s : queue_context) :
    s.finish_execution.calls = s.calls ++ (s._list.toList.map event.finish ++
      [.submit_command_lists s._list.toList
        ⟨none, s._pending_waits, [⟨s._q.semaphore, s._q.semaphore_value + 1⟩]⟩]) :=
  flush_calls { s with _q.semaphore_value := s._q.semaphore_value + 1 } none
    [⟨s._q.semaphore, s._q.semaphore_value + 1⟩]

/-- By the end of the execution a submission has been made since `s`, and the
first one carries the pending waits of `s`. -/
theorem next_submission_by_finish {s v : queue_context} (h : s.next_submission_from v) :
    ∃ lists sync rest,
      submissions v.finish_execution.calls = submissions s.calls ++ (lists, sync) :: rest ∧
        sync.wait_semaphores = s._pending_waits := by
  have hf := next_submission_trans h (finish_execution_next_submission v)
  rcases next_submission_first hf with ⟨e, -⟩ | r
  · exfalso
    obtain ⟨added, hc⟩ := next_submission_calls h
    have hlen := congrArg List.length e
    rw [finish_execution_calls, submissions_append, submissions_append, submissions_map_finish,
      hc, submissions_append] at hlen
    simp [submissions] at hlen
  · exact r

/-- C24: take a call of `execute_next_command` that returns, and the waits that
its acquire block collected. If there are any, the block first makes a
submission that carries the waits that were pending before, not the new ones,
and leaves no current list; the new waits become the pending waits. They are
still pending when the command is handed to its executor, no submission having
been made in between. Whatever follows (the rest of the call, further calls,
`finish_execution`), the first submission made after the hand-over passes
exactly the waits pending at the hand-over as its wait semaphores and submits
the list into which every call on a command list since the hand-over was
recorded; by `finish_execution` such a submission has been made. An executor other than
that of `present` makes no submission itself and records into the list that is
current when it returns, which the first submission after it submits; the
executor of `present` with a backend chain makes that submission itself, before
it presents. Every
`_flush_command_list` leaves the pending waits empty and no current list. The
waits passed to submissions so far followed by the pending ones grow, in a call,
by exactly the waits collected, at the end, and never change otherwise; after
`finish_execution` none is pending, so every collected wait is in the wait list
of one submission. -/
theorem collected_waits_go_to_next_submission (ext : externals) (s s' : queue_context)
    (hstep : s.execute_next_command ext = .returned () s') :
    ∃ cmd s1 s2 s3 s4 consumed waits,
      (s.insert_timestamp = .returned () s1 ∧
        s1.acquire_dependencies = .returned () s2 ∧
        s2.handle_transitions = .returned () s3 ∧
        (s3.visit cmd)._execute ext cmd.value = .returned () s4) ∧
      acquire_loop s._q.ctx._queues s._command_index
        (s._acquire_dependency_events.drop s._next_acquire_event) [] = some (consumed, waits) ∧
      (waits ≠ [] →
        submissions s2.calls =
          submissions s.calls ++ [(s1._list.toList, ⟨none, s._pending_waits, []⟩)] ∧
        s2._list = none ∧ s2._pending_waits = waits) ∧
      (waits = [] →
        submissions s2.calls = submissions s.calls ∧ s2._pending_waits = s._pending_waits) ∧
      s2.records_into event.is_not_submission (s3.visit cmd) ∧
      submissions (s3.visit cmd).calls = submissions s2.calls ∧
      (s3.visit cmd)._pending_waits = s2._pending_waits ∧
      dispatched_commands (s3.visit cmd).calls =
        dispatched_commands s.calls ++ [(s._command_index, cmd)] ∧
      ((∀ c, cmd.value ≠ .present c) →
        (s3.visit cmd).records_into event.is_plain_call s4 ∧
        ∀ k v, s'.replay ext k = .returned () v →
          s4.next_submission_from v ∧ s4.next_submission_from v.finish_execution) ∧
      (∀ c chain, cmd.value = .present c → c.target.chain = some chain →
        ∃ later, s4.calls = ((s3.visit cmd)._flush_command_list none []).calls ++ later ∧
          ∀ e ∈ later, e.is_plain_call = true ∧ e.command_list = none) ∧
      (∀ k v, s'.replay ext k = .returned () v →
        (s3.visit cmd).next_submission_from v ∧
        (s3.visit cmd).next_submission_from v.finish_execution ∧
        (∃ lists sync rest, submissions v.finish_execution.calls =
            submissions (s3.visit cmd).calls ++ (lists, sync) :: rest ∧
          sync.wait_semaphores = s2._pending_waits) ∧
        (∃ later, v.finish_execution.wait_ledger = s.wait_ledger ++ waits ++ later) ∧
        v.finish_execution.wait_ledger =
          (submissions v.finish_execution.calls).flatMap (fun x => x.2.wait_semaphores)) ∧
      (∀ (st : queue_context) (fence : Option Nat)
          (signals : List gpu.timeline_semaphore_synchronization),
        (st._flush_command_list fence signals)._pending_waits = [] ∧
          (st._flush_command_list fence signals)._list = none ∧
          (st._flush_command_list fence signals).wait_ledger = st.wait_ledger) ∧
      s'.wait_ledger = s.wait_ledger ++ waits := by
  obtain ⟨-, cmd, s1, s2, s3, s4, h1, h2, h3, h4, rv, tail, tail4⟩ :=
    execute_next_command_next_submission hstep
  obtain ⟨consumed, waits, hloop, hledger⟩ := execute_next_command_wait_ledger hstep
  obtain ⟨_, _, _, _, _, ⟨-, h1', -, -, -, -⟩, ⟨a1, a2, a3, a4⟩, -, -⟩ :=
    execute_next_command_streams hstep
  rw [h1] at h1'
  cases h1'
  obtain ⟨k2, waits2, hloop2, -, hne, hnil⟩ := acquire_dependencies_spec h2
  rw [a1, a2, a3, a4, hloop] at hloop2
  cases hloop2
  obtain ⟨t1, t2⟩ := insert_timestamp_submissions h1
  obtain ⟨d1, d2, -⟩ := insert_timestamp_returned h1
  obtain ⟨d3, d4, -⟩ := acquire_dependencies_returned h2
  obtain ⟨d5, d6, -⟩ := handle_transitions_returned h3
  have c1 := congrArg replay_data.command_index d1
  have c3 := congrArg replay_data.command_index d3
  have c5 := congrArg replay_data.command_index d5
  simp only [queue_context.replay_data] at c1 c3 c5
  refine ⟨cmd, s1, s2, s3, s4, consumed, waits, ⟨h1, h2, h3, h4⟩, hloop, ?_, ?_, rv,
    (records_into_submissions rv).1, (records_into_submissions rv).2.1, ?_, ?_, ?_, ?_, ?_,
    hledger⟩
  · intro hw
    obtain ⟨e1, e2, e3⟩ := hne hw
    refine ⟨?_, e2, e3⟩
    rw [e1, submissions_append, submissions_append, submissions_map_finish, t1, t2]
    simp [submissions]
  · intro hw
    obtain ⟨e1, -, e3⟩ := hnil hw
    exact ⟨by rw [e1, t1], by rw [e3, t2]⟩
  · simp only [queue_context.visit, emit_calls, dispatched_commands_append, dispatched_commands]
    rw [d6, d4, d2, c5, c3, c1]
  · intro hnp
    have hp := plain_execute ext cmd.value (s3.visit cmd) hnp
    rw [h4] at hp
    refine ⟨hp, ?_⟩
    intro k v hv
    have hrv := next_submission_trans tail4 (replay_next_submission ext k s' v hv)
    exact ⟨hrv, next_submission_trans hrv (finish_execution_next_submission v)⟩
  · intro c chain hc hchain
    have hx := execute_present_calls ext c (s3.visit cmd)
    have h4' : (s3.visit cmd)._execute_present ext c = .returned () s4 := by
      rw [← h4, hc]
      rfl
    rw [h4'] at hx
    rcases hx with ⟨-, hnone⟩ | ⟨later, e, -, -, hl⟩
    · rw [hchain] at hnone
      cases hnone
    · exact ⟨later, e, hl⟩
  · intro k v hv
    have hrv := next_submission_trans tail (replay_next_submission ext k s' v hv)
    obtain ⟨lists, sync, rest, e1, e2⟩ := next_submission_by_finish hrv
    obtain ⟨later, hl⟩ := replay_wait_ledger ext k s' v hv
    obtain ⟨f1, -, f3⟩ := finish_execution_wait_ledger v
    refine ⟨hrv, next_submission_trans hrv (finish_execution_next_submission v),
      ⟨lists, sync, rest, e1, by rw [e2, (records_into_submissions rv).2.1]⟩,
      ⟨later, by rw [f1, hl, hledger]⟩, f3⟩
  · intro st fence signals
    exact ⟨flush_pending_waits st fence signals, flush_list st fence signals,
      flush_wait_ledger st fence signals⟩

/-- Witness for C24: the call at index 1 of the sample queue, for which two
acquire events are due, returns; the two waits on queue 1 are pending after it
and are the only entries of the ledger. -/
theorem collected_waits_go_to_next_submission_witness :
    (example_in_pass.execute_next_command example_externals).is_returned = true ∧
      example_in_pass.wait_ledger = [] ∧
      ∃ waits, (example_in_pass.execute_next_command example_externals).state.wait_ledger =
        example_in_pass.wait_ledger ++ waits := by
  obtain ⟨_, _, _, _, _, _, waits, -, -, -, -, -, -, -, -, -, -, -, -, h⟩ :=
    collected_waits_go_to_next_submission example_externals example_in_pass
      (example_in_pass.execute_next_command example_externals).state (by rfl)
  exact ⟨by rfl, by rfl, waits, h⟩

end lotus
